import Mathlib

/-!
# sms2mid: the MIDI layer and the event finalizer of HIDCAM-SMS

A shallow embedding of `src/sms2mid.h`.

Conventions of the embedding

* A byte is a `Nat` below 256; `writeBYTE` truncates its `BYTE` argument.
* A `DWORD` is a `Nat` taken modulo `2 ^ 32`; a C `int` is an `Int`, and
  `toDWORD` is the conversion the C compiler inserts at a call that passes an
  `int` where a `DWORD` is expected.
* `struct BUF` keeps the `cnt` bytes written so far as the list `mem` (so
  `cnt = mem.length`) and the allocated size `len`.
* The intrusive linked list of tracks (`head`, `next`) is a `List BUF` whose
  first element is `head`.
* A C string is the list of its bytes before the terminating NUL.
* `memcpy(b, &value, 4)` is little-endian (the program includes `windows.h`).
-/

namespace Sms2Mid

/-! ## Machine words -/

/-- Conversion of a C `int` to a `DWORD`. -/
def toDWORD (i : Int) : Nat := (i % 4294967296).toNat

/-- C string of a literal. -/
def cstr (s : String) : List Nat := s.toList.map Char.toNat

/-- `swap32`, lines 97-102. -/
def swap32 (x : Nat) : Nat :=
  let x := x % 4294967296
  ((x >>> 24) |||
   (((x <<< 8) % 4294967296) &&& 0x00FF0000) |||
   ((x >>> 8) &&& 0x0000FF00) |||
   ((x <<< 24) % 4294967296)) % 4294967296

/-! ## Buffers -/

/-- Smallest unit of memory buffer. -/
def BUFSIZE : Nat := 16

/-- `struct BUF` without its `next` link. -/
structure BUF where
  mem : List Nat
  len : Nat
deriving DecidableEq

/-- Write counter of a buffer. -/
def BUF.cnt (buf : BUF) : Nat := buf.mem.length

/-- A freshly allocated buffer (`malloc(BUFSIZE)`, `len = BUFSIZE`, `cnt = 0`). -/
def emptyBUF : BUF := { mem := [], len := BUFSIZE }

/-- `writeBYTE`, lines 163-170. -/
def writeBYTE (buf : BUF) (value : Nat) : BUF :=
  { mem := buf.mem ++ [value % 256]
    len := if buf.cnt + 1 ≥ buf.len then buf.len + BUFSIZE else buf.len }

/-- Byte `i` of the in-memory image of a `DWORD` (`memcpy(b, &value, 4)`). -/
def memByte (value i : Nat) : Nat := ((value % 4294967296) >>> (8 * i)) % 256

/-- `writeVAL`, lines 173-181. -/
def writeVAL (buf : BUF) (value : Nat) (bytes : Int) : BUF :=
  let buf := if bytes > 3 then writeBYTE buf (memByte value 0) else buf
  let buf := if bytes > 2 then writeBYTE buf (memByte value 1) else buf
  let buf := if bytes > 1 then writeBYTE buf (memByte value 2) else buf
  let buf := if bytes > 0 then writeBYTE buf (memByte value 3) else buf
  buf

/-- First loop of `writeVLQ`, lines 186-189: `while ((value >>= 7)) ...`. -/
def vlqPack : Nat → Nat → Nat → Nat
  | 0, _, buffer => buffer
  | fuel + 1, value, buffer =>
    let value := value >>> 7
    if value ≠ 0 then
      let buffer := (buffer <<< 8) % 4294967296
      let buffer := buffer ||| ((value &&& 0x7F) ||| 0x80)
      vlqPack fuel value buffer
    else buffer

/-- Second loop of `writeVLQ`, lines 190-197. -/
def vlqEmit : Nat → BUF → Nat → BUF
  | 0, buf, _ => buf
  | fuel + 1, buf, buffer =>
    let buf := writeBYTE buf (memByte buffer 0)
    if buffer &&& 0x80 ≠ 0 then vlqEmit fuel buf (buffer >>> 8) else buf

/-- `writeVLQ`, lines 184-199. A `DWORD` is shifted to zero after five steps
of either loop, so fuel 5 is never used up (`vlqPack_fuel`, `vlqEmit_fuel`). -/
def writeVLQ (buf : BUF) (value : Nat) : BUF :=
  let value := value % 4294967296
  let buffer := value &&& 0x7F
  let buffer := vlqPack 5 value buffer
  vlqEmit 5 buf buffer

/-- The loop `for (i = 0; i < size; i++) writeBYTE(buf, data[i])`. -/
def writeBYTES (buf : BUF) (data : List Nat) : BUF := data.foldl writeBYTE buf

/-! ## Track writer -/

def EVT_MTHD : Nat := 0x4D546864
def EVT_MTRK : Nat := 0x4D54726B
def EVT_SYX : Nat := 0xF0
def EVT_CPR : Nat := 0xFF02
def EVT_PRG : Nat := 0xFF08
def EVT_DEV : Nat := 0xFF09
def EVT_EOT : Nat := 0xFF2F00
def EVT_TMP : Nat := 0xFF5103

/-- `writeMSG`, lines 212-220. -/
def writeMSG (trk : BUF) (timediv : Int) (status data1 data2 : Nat) : BUF :=
  let status := status % 256
  let trk := writeVLQ trk (toDWORD timediv)
  let trk := writeBYTE trk status
  let trk := writeBYTE trk data1
  if status &&& 0xf0 = 0xc0 then trk
  else if status &&& 0xf0 = 0xd0 then trk
  else writeBYTE trk data2

/-- `writeMTA`, lines 243-252; `size = strlen(data)`. -/
def writeMTA (trk : BUF) (type : Int) (data : List Nat) : BUF :=
  let size := data.length
  if size ≠ 0 then
    let trk := writeVLQ trk 0
    let trk := writeVAL trk (swap32 (toDWORD type)) 2
    let trk := writeVLQ trk size
    writeBYTES trk data
  else trk

/-- `writeTMP`, lines 255-260. -/
def writeTMP (trk : BUF) (microsec : Int) : BUF :=
  let trk := writeVLQ trk 0
  let trk := writeVAL trk (swap32 EVT_TMP) 3
  writeVAL trk (swap32 (toDWORD microsec)) 3

/-! ## Track list and SMF assembler -/

/-- `getNumTRK`, lines 118-127. -/
def getNumTRK (head : List BUF) : Nat := head.length

/-- `newTRK`, lines 130-139: the new link becomes `head`; `none` is `NULL`. -/
def newTRK (head : List BUF) : Option (List BUF) :=
  if getNumTRK head ≥ 0xFFFF then none else some (emptyBUF :: head)

/-- One pass of the `while (trk)` loop of `newSMF`, lines 301-309. -/
def writeMTrk (smf trk : BUF) : BUF :=
  let smf := writeVAL smf (swap32 EVT_MTRK) 4
  let smf := writeVAL smf (swap32 (toDWORD (trk.cnt + 4))) 4
  let smf := writeBYTES smf trk.mem
  let smf := writeVLQ smf 0
  writeVAL smf (swap32 EVT_EOT) 3

/-- `newSMF`, lines 283-311, over the track list `head`. -/
def newSMF (head : List BUF) (ppqn : Int) : Option BUF :=
  let smf := emptyBUF
  let trkCnt : Int := getNumTRK head
  if trkCnt < 1 then none
  else
    let fmt : Int := if trkCnt > 1 then 1 else 0
    let smf := writeVAL smf (swap32 EVT_MTHD) 4
    let smf := writeVAL smf (swap32 6) 4
    let smf := writeVAL smf (swap32 (toDWORD fmt)) 2
    let smf := writeVAL smf (swap32 (toDWORD trkCnt)) 2
    let smf := writeVAL smf (swap32 (toDWORD ppqn)) 2
    some (head.foldl writeMTrk smf)

/-! ## Reference encodings, used to state the properties -/

/-- The bytes of the MIDI variable-length quantity of `x < 2 ^ 28`, groups of
seven bits, most significant group first. -/
def vlqBytes (x : Nat) : List Nat :=
  if x < 128 then [x]
  else if x < 16384 then [x / 128 % 128 + 128, x % 128]
  else if x < 2097152 then [x / 16384 % 128 + 128, x / 128 % 128 + 128, x % 128]
  else [x / 2097152 % 128 + 128, x / 16384 % 128 + 128, x / 128 % 128 + 128, x % 128]

/-- Standard MIDI variable-length-quantity decoder: seven data bits per byte,
most significant group first, the last byte is the one whose top bit is clear.
Returns the value and the bytes left unread. -/
def readVLQ.go : List Nat → Nat → Option (Nat × List Nat)
  | [], _ => none
  | b :: rest, acc =>
    let acc := acc * 128 + b % 128
    if 128 ≤ b then readVLQ.go rest acc else some (acc, rest)

/-- Standard MIDI variable-length-quantity decoder, started at value 0. -/
def readVLQ (bytes : List Nat) : Option (Nat × List Nat) := readVLQ.go bytes 0

/-- The bytes `writeVLQ` appends for `value`, read off an empty buffer. -/
def vlqOut (value : Nat) : List Nat := (writeVLQ emptyBUF value).mem

/-- The MTrk chunk the SMF format prescribes for a track body of `n` bytes:
`"MTrk"`, the 4-byte big-endian length `n + 4`, the body, then the
end-of-track event `00 FF 2F 00`. -/
def mtrkChunk (body : List Nat) : List Nat :=
  [0x4D, 0x54, 0x72, 0x6B] ++
  [(body.length + 4) / 16777216 % 256, (body.length + 4) / 65536 % 256,
   (body.length + 4) / 256 % 256, (body.length + 4) % 256] ++
  body ++ [0x00, 0xFF, 0x2F, 0x00]

/-! ## Single-precision arithmetic of the tempo computation

`float ms = 60000000.0 / bpm; ... (int)ms`: the quotient is formed in double
precision, stored in a `float`, and truncated. Both roundings are IEEE-754
round-to-nearest, ties to even; the values stay far inside the exponent range
of either format, so only the significand width matters. -/

/-- The integer nearest to `n / d`, ties to even. -/
def roundHalfEven (n d : Nat) : Nat :=
  let q := n / d
  let r := n % d
  if 2 * r < d then q else if 2 * r > d then q + 1 else q + q % 2

/-- Floor of the binary logarithm (0 at 0), by halving. -/
def floorLog2.go : Nat → Nat → Nat
  | 0, _ => 0
  | fuel + 1, n => if n < 2 then 0 else floorLog2.go fuel (n / 2) + 1

/-- Floor of the binary logarithm (0 at 0). -/
def floorLog2 (n : Nat) : Nat := floorLog2.go n n

/-- Exponent `s` of the unit in the last place of a `p`-bit significand for the
positive rational `n / d`: the one with `2 ^ (p - 1) ≤ n / d / 2 ^ s < 2 ^ p`. -/
def ulpExp (p n d : Nat) : Int :=
  let k : Int := (floorLog2 n : Int) - (floorLog2 d : Int)
  let e : Int := if d * 2 ^ k.toNat ≤ n * 2 ^ (-k).toNat then k else k - 1
  e - ((p : Int) - 1)

/-- Rounding of the positive rational `nd.1 / nd.2` to a binary floating-point
format with a `p`-bit significand; the result is again a fraction. -/
def roundBinary (p : Nat) (nd : Nat × Nat) : Nat × Nat :=
  let s := ulpExp p nd.1 nd.2
  let m := roundHalfEven (nd.1 * 2 ^ (-s).toNat) (nd.2 * 2 ^ s.toNat)
  (m * 2 ^ s.toNat, 2 ^ (-s).toNat)

/-- `(int)ms` for `float ms = 60000000.0 / bpm` with `bpm ≠ 0`, lines 1270,
1277, 1293-1294: the quotient rounded to double, then to single precision, then
truncated toward zero. -/
def floatMicros (bpm : Int) : Int :=
  let q := roundBinary 24 (roundBinary 53 (60000000, bpm.natAbs))
  let t : Int := ((q.1 / q.2 : Nat) : Int)
  if bpm < 0 then -t else t

/-- `(int)ms` for `float ms = 60000000.0 / bpm`; division by zero gives an
infinity, whose conversion to `int` is undefined (`none`). -/
def tempoMicros (bpm : Int) : Option Int :=
  if bpm = 0 then none else some (floatMicros bpm)

/-! ## Events and the event finalizer -/

/-- Conversion of a C `int` to a `BYTE`. -/
def toBYTE (i : Int) : Nat := (i % 256).toNat

/-- `smsNote`, lines 540-548; the defaults are the values `newSmsNote` sets
(`hold = EMPTY = 255`). -/
structure smsNote where
  key : Int := 0
  hft : Int := 0
  oct : Int := 5
  dur : Int := 4
  hold : Int := 255
  dot : Int := 0
  vol : Int := 127
deriving DecidableEq

/-- `smsChordNote`, lines 555-560; the defaults are the values `newSmsCNote`
sets. The links `chord` and `arp` are positions in the symbol table, `none` is
`NULL`. -/
structure smsChordNote where
  key : Int := 0
  hft : Int := 0
  chord : Option Nat := none
  arp : Option Nat := none
deriving DecidableEq

/-- `smsTrack`, lines 562-569; the defaults are the values `newSmsTrk` sets. -/
structure smsTrack where
  name : List Nat
  chn : Int := 0
  bnk : Int := 0
  prg : Int := 0
  note : smsNote := {}
  cnote : smsChordNote := {}
deriving DecidableEq

/-- `smsEvent`, lines 591-600, without its `next` link; `newSmsEvent` sets
`bpm = 0`. -/
structure smsEvent where
  trkname : List Nat
  evtId : Int
  time : Int
  status : Nat
  data1 : Nat
  data2 : Nat
  bpm : Int := 0
deriving DecidableEq

/-- `smsHeader`, lines 576-589; the defaults are the values `initSMS` sets. -/
structure smsHeader where
  name : List Nat
  bpm : Int := 120
  ppqn : Int := 96
  bar : Int := 384
  drk : Int := 0
  sngTime : Int := 0
  trks : Int := 0
  drumkeys : Int := 0
  macs : Int := 0
  evts : Int := 0
  chords : Int := 0
  arps : Int := 0
deriving DecidableEq

/-- `strcmp` on unsigned bytes; only the sign of the result is specified by C,
the model returns -1, 0 or 1. -/
def strcmp : List Nat → List Nat → Int
  | [], [] => 0
  | [], _ :: _ => -1
  | _ :: _, [] => 1
  | a :: as, b :: bs => if a < b then -1 else if a > b then 1 else strcmp as bs

/-- `evt_compare`, lines 1230-1245. -/
def evt_compare (evtLeft evtRight : smsEvent) : Int :=
  let res := strcmp evtLeft.trkname evtRight.trkname
  if res ≠ 0 then res
  else if evtLeft.time < evtRight.time then -1
  else if evtLeft.time > evtRight.time then 1
  else if evtLeft.evtId < evtRight.evtId then -1
  else if evtLeft.evtId > evtRight.evtId then 1
  else 0

/-- `qsort(evtList, sms->evts, sizeof(smsEvent), evt_compare)`, line 1262: the
library sort, taken as an insertion sort by the comparator. -/
def qsort (evtList : List smsEvent) : List smsEvent :=
  evtList.insertionSort (fun l r => evt_compare l r ≤ 0)

/-- A write through `mtrk`. `mtrk` holds the link returned by the last
`newTRK`, which is `head`; before the first `newTRK` the pointer is
uninitialised and the write is undefined (`none`). -/
def onMtrk (head : List BUF) (f : BUF → Option BUF) : Option (List BUF) :=
  match head with
  | [] => none
  | mtrk :: next => (f mtrk).map (fun mtrk => mtrk :: next)

/-- The writes that open a new midi track, lines 1275-1285. -/
def newMidiTrack (sms : smsHeader) (strk : smsTrack) (i : Nat) (trkname : List Nat)
    (mtrk : BUF) : Option BUF :=
  let first : Option BUF :=
    if i = 0 then
      (tempoMicros sms.bpm).map fun ms =>
        let mtrk := writeTMP mtrk ms
        let mtrk := writeMTA mtrk EVT_CPR (cstr "(c) ma.ke. 2024")
        writeMTA mtrk EVT_PRG (cstr "created with HIDCAM-SMS")
    else some mtrk
  first.map fun mtrk =>
    let mtrk := writeMTA mtrk EVT_DEV trkname
    let mtrk := writeMSG mtrk 0 (toBYTE (0xB0 + strk.chn)) 0 (toBYTE strk.bnk)
    writeMSG mtrk 0 (toBYTE (0xC0 + strk.chn)) (toBYTE strk.prg) 0

/-- The write of one event, lines 1289-1298, with `songTime` the time of the
previous event of the track. In the tempo branch `bpm > 0`, so the division is
defined. -/
def writeMidiEvent (evt : smsEvent) (songTime : Int) (mtrk : BUF) : BUF :=
  let timediv := evt.time - songTime
  if evt.bpm > 0 then
    writeTMP mtrk (floatMicros evt.bpm)
  else
    writeMSG mtrk timediv evt.status evt.data1 evt.data2

/-- Local variables of the track loop of `parser_createMidi` and the global
track list `head`. -/
structure MidiState where
  head : List BUF
  last : List Nat
  songTime : Int
  cntTrk : Int
deriving DecidableEq

/-- Body of the loop `for (i = 0; i < sms->evts; i++)`, lines 1271-1300.
`getObject` is the lookup of a track by name in the symbol table (`none` is
`NULL`, which `strk->chn` dereferences). -/
def createMidiEvent (sms : smsHeader) (getObject : List Nat → Option smsTrack)
    (i : Nat) (evt : smsEvent) (st : MidiState) : Option MidiState :=
  let opened : Option MidiState :=
    if strcmp st.last evt.trkname ≠ 0 then
      (getObject evt.trkname).bind fun strk =>
        (newTRK st.head).bind fun head =>
          (onMtrk head (newMidiTrack sms strk i evt.trkname)).map fun head =>
            { st with head := head, songTime := 0, cntTrk := st.cntTrk + 1 }
    else some st
  opened.bind fun st =>
    (onMtrk st.head (fun mtrk => some (writeMidiEvent evt st.songTime mtrk))).map fun head =>
      { st with head := head, songTime := evt.time, last := evt.trkname }

/-- The loop `for (i = 0; i < sms->evts; i++)` from index `i` on. -/
def createMidiLoop (sms : smsHeader) (getObject : List Nat → Option smsTrack) :
    Nat → List smsEvent → MidiState → Option MidiState
  | _, [], st => some st
  | i, evt :: rest, st =>
    (createMidiEvent sms getObject i evt st).bind (createMidiLoop sms getObject (i + 1) rest)

/-- `parser_createMidi` up to the call of `newSMF`, lines 1247-1300: the track
list it builds from the event list (`head` is `NULL` on entry, `last` is the
sentinel event named `"SMS"`). `none` is undefined behaviour. -/
def createTracks (sms : smsHeader) (getObject : List Nat → Option smsTrack)
    (events : List smsEvent) : Option (List BUF) :=
  (createMidiLoop sms getObject 0 (qsort events)
    { head := [], last := cstr "SMS", songTime := 0, cntTrk := 0 }).map (fun st => st.head)

/-- `parser_createMidi`, lines 1247-1305: `none` is undefined behaviour,
`some none` is the `NULL` of `newSMF`. -/
def parser_createMidi (sms : smsHeader) (getObject : List Nat → Option smsTrack)
    (events : List smsEvent) : Option (Option BUF) :=
  (createTracks sms getObject events).map (fun head => newSMF head sms.ppqn)

/-! ## Track runs and event bytes, used to state the properties -/

/-- Splits a list of events at the changes of track name, the way the loop of
`parser_createMidi` does when the previous event was on track `last`: the
events that continue that track, then the runs of the tracks that follow. -/
def splitRuns (last : List Nat) : List smsEvent → List smsEvent × List (List smsEvent)
  | [] => ([], [])
  | e :: es =>
    let p := splitRuns e.trkname es
    if e.trkname = last then (e :: p.1, p.2) else ([], (e :: p.1) :: p.2)

/-- The maximal runs of consecutive events with one track name. -/
def runs : List smsEvent → List (List smsEvent)
  | [] => []
  | e :: es => (e :: (splitRuns e.trkname es).1) :: (splitRuns e.trkname es).2

/-- The bytes the write of one event appends, read off an empty buffer. -/
def eventBytes (songTime : Int) (evt : smsEvent) : List Nat :=
  (writeMidiEvent evt songTime emptyBUF).mem

/-- The bytes the events of one run append, `songTime` being the time of the
event before the run (0 at the start of a track). -/
def runBytes : Int → List smsEvent → List Nat
  | _, [] => []
  | songTime, e :: es => eventBytes songTime e ++ runBytes e.time es

/-- The delta time the write of one event encodes: the `DWORD` handed to
`writeVLQ`, which is 0 for a tempo change (`writeTMP`). -/
def deltaWritten (songTime : Int) (evt : smsEvent) : Nat :=
  if evt.bpm > 0 then 0 else toDWORD (evt.time - songTime)

/-- The delta times the events of one run encode. -/
def deltasWritten : Int → List smsEvent → List Nat
  | _, [] => []
  | songTime, e :: es => deltaWritten songTime e :: deltasWritten e.time es

/-- Layout of the three metas of the first track for a tempo of `t`
microseconds: tempo `FF 51 03`, copyright `FF 02`, program name `FF 08`. -/
def globalMetas (t : Nat) : List Nat :=
  [0x00, 0xFF, 0x51, 0x03, t / 65536 % 256, t / 256 % 256, t % 256] ++
  ([0x00, 0xFF, 0x02, 15] ++ cstr "(c) ma.ke. 2024") ++
  ([0x00, 0xFF, 0x08, 23] ++ cstr "created with HIDCAM-SMS")

/-- Layout of the opening of every track: device name `FF 09` with the track
name, bank select `Bn 00 bnk`, program change `Cn prg`, each at delta 0. -/
def trackMetas (strk : smsTrack) (trkname : List Nat) : List Nat :=
  ([0x00, 0xFF, 0x09] ++ vlqOut trkname.length ++ trkname) ++
  [0x00, toBYTE (0xB0 + strk.chn), 0x00, toBYTE strk.bnk] ++
  [0x00, toBYTE (0xC0 + strk.chn), toBYTE strk.prg]

/-- Layout of a track without the metas of the first track: its opening, then
the bytes of its events. -/
def trackBytes (getObject : List Nat → Option smsTrack) (run : List smsEvent) : List Nat :=
  match run with
  | [] => []
  | e :: _ =>
    match getObject e.trkname with
    | none => []
    | some strk => trackMetas strk e.trkname ++ runBytes 0 run

/-- A track of the data model: channel 0..15, bank and program 0..127. -/
def GoodTrack (strk : smsTrack) : Prop :=
  0 ≤ strk.chn ∧ strk.chn ≤ 15 ∧ 0 ≤ strk.bnk ∧ strk.bnk ≤ 127 ∧ 0 ≤ strk.prg ∧ strk.prg ≤ 127

/-- An event of the data model: its track name is a non-empty byte string and
names a track of the symbol table. -/
def GoodEvent (getObject : List Nat → Option smsTrack) (e : smsEvent) : Prop :=
  e.trkname ≠ [] ∧ (∀ b ∈ e.trkname, b < 256) ∧
  ∃ strk, getObject e.trkname = some strk ∧ GoodTrack strk

/-- `getObject` restricted to the tracks of the symbol table, in insertion
order: the first track with the name, lines 624-634. -/
def getTrack (trks : List smsTrack) (name : List Nat) : Option smsTrack :=
  trks.find? (fun t => decide (t.name = name))

/-- The default instrument track and the drum track, lines 1379-1382. -/
def defaultTracks : List smsTrack :=
  [{ name := cstr "INST" }, { name := cstr "DRUM", chn := 9 }]

/-- Events of the source `TICK: x` followed by a newline: a beat of the default
drum key on DRUM (note-on at 0, note-off at 95), all-notes-off on INST at 384. -/
def eventsDrumBeat : List smsEvent :=
  [{ trkname := cstr "DRUM", evtId := 0, time := 0, status := 0x99, data1 := 31, data2 := 127 },
   { trkname := cstr "DRUM", evtId := 1, time := 95, status := 0x89, data1 := 31, data2 := 127 },
   { trkname := cstr "INST", evtId := 2, time := 384, status := 0xB0, data1 := 0x7B, data2 := 0 }]

/-- Events of the source `I: SMS`, newline, `SMS c` (no newline at the end):
bank select and program change of the instrument `SMS`, the note c5, and the
final all-notes-off, all on the track named `SMS`. -/
def eventsOnSMS : List smsEvent :=
  [{ trkname := cstr "SMS", evtId := 0, time := 0, status := 0xB0, data1 := 0, data2 := 0 },
   { trkname := cstr "SMS", evtId := 1, time := 0, status := 0xC0, data1 := 0, data2 := 0 },
   { trkname := cstr "SMS", evtId := 2, time := 0, status := 0x90, data1 := 60, data2 := 127 },
   { trkname := cstr "SMS", evtId := 3, time := 95, status := 0x80, data1 := 60, data2 := 127 },
   { trkname := cstr "SMS", evtId := 4, time := 384, status := 0xB0, data1 := 0x7B, data2 := 0 }]

/-- Events of the source `H: s bar=1/8`, newline, `Cmaj`, newline: the bar
length is `96 * (4 * 1 / 8) = 0` ticks, the chord sounds its three tones at
time 0 and releases each at `0 - 1 + bar = -1`; then the final all-notes-off. -/
def eventsZeroBarChord : List smsEvent :=
  [{ trkname := cstr "INST", evtId := 0, time := 0, status := 0x90, data1 := 36, data2 := 127 },
   { trkname := cstr "INST", evtId := 1, time := -1, status := 0x80, data1 := 36, data2 := 127 },
   { trkname := cstr "INST", evtId := 2, time := 0, status := 0x90, data1 := 40, data2 := 127 },
   { trkname := cstr "INST", evtId := 3, time := -1, status := 0x80, data1 := 40, data2 := 127 },
   { trkname := cstr "INST", evtId := 4, time := 0, status := 0x90, data1 := 43, data2 := 127 },
   { trkname := cstr "INST", evtId := 5, time := -1, status := 0x80, data1 := 43, data2 := 127 },
   { trkname := cstr "INST", evtId := 6, time := 0, status := 0xB0, data1 := 0x7B, data2 := 0 }]

/-- A run whose times do not decrease from `t` on, step by less than `2 ^ 32`,
and in which a tempo change is at the time of the event before it. -/
def Steady : Int → List smsEvent → Prop
  | _, [] => True
  | t, e :: es =>
    t ≤ e.time ∧ e.time - t < 4294967296 ∧ (e.bpm > 0 → e.time = t) ∧ Steady e.time es

/-- Time of the last event of a run, `t` for the empty run. -/
def lastTime : Int → List smsEvent → Int
  | t, [] => t
  | _, e :: es => lastTime e.time es

/-! ## SMS compiler: tokens, status values, error kinds

Lines 368-475. C `int` values are `Int`; a character is its code. -/

def DEFAULT_OCTAVE : Int := 5
def DEFAULT_DURATION : Int := 4
def DEFAULT_VOLUME : Int := 127
def MIDI_TIME_DIV : Int := 1

def BEAT : Int := 120
def PAUSE : Int := 111
def HEADER : Int := 72
def INST : Int := 73
def DRUM : Int := 68
def CHORD : Int := 67
def ARP : Int := 65
def MACRO : Int := 77
def NOTE : Int := 78
def BASENOTE : Int := 58
def BARLINE : Int := 124
def MACRO_START : Int := 123
def MACRO_END : Int := 125
def TIME_GROUP_START : Int := 40
def TIME_GROUP_END : Int := 41
def TIME_BLOCK_START : Int := 91
def TIME_BLOCK_END : Int := 93
def NEWLINE : Int := 10
def CARRIAGE_RETURN : Int := 13

def EMPTY : Int := 255
def UNKNOWN : Int := 254
def EOD : Int := 253
def TIME_OFF : Int := 252
def DEFINING : Int := 240
def PASSING : Int := 239
def IDLE : Int := 238
def NOTE_MAX_OFFSET : Int := 24
def CHORD_KEYS : Int := 7
def CHORD_OCTAVE : Int := 3

def ERR_NOERROR : Int := 0
def ERR_OPEN_FILE : Int := 1
def ERR_NO_COMMAND : Int := 2
def ERR_ARP_SYMBOL : Int := 3
def ERR_MACRO_NESTED : Int := 4
def ERR_OCTAVE : Int := 5
def ERR_QUALIFIER_SYMBOL : Int := 6
def ERR_TIME_BLOCK : Int := 8
def ERR_DURATION_DOT : Int := 9
def ERR_DURATION : Int := 10
def ERR_VOLUME : Int := 11
def ERR_VALUE : Int := 12
def ERR_DEF_PARAMETER : Int := 13
def ERR_MCC_PARAMETER : Int := 14
def ERR_PARSER : Int := 15
def ERR_DRUM_SYMBOL : Int := 16
def ERR_BLOCK : Int := 17
def ERR_TIME_GROUP : Int := 18
def ERR_NOT_ALLOWED : Int := 19
def ERR_NAME : Int := 20
def ERR_MACRO : Int := 21
def ERR_CHORD : Int := 22
def ERR_CHORDSYNTAX : Int := 23
def ERR_LIST_MAX : Int := 24
def ERR_ARP : Int := 25
def ERR_MACRO_BRACES : Int := 26
def ERR_ARP_MULTI_LINES : Int := 27
def ERR_BAR : Int := 28
def ERR_NOTE : Int := 29
def ERR_KEYCHORD : Int := 30
def ERR_NAME2 : Int := 31
def ERR_BLOCKCOMMENT : Int := 32
def ERR_BASENOTE_SYMBOL : Int := 33
def ERR_NOTE_OFFSET : Int := 34
def ERR_REPEATER : Int := 35
def ERR_REPEATER_LASTWORD : Int := 36
def ERR_BASENOTE : Int := 37
def ERR_HOLD_NOT_LAST : Int := 38
def ERR_HOLDOFF_MISSING : Int := 39

/-! ## SMS compiler: objects of the symbol table

The object list from `objFirst` is a list, a pointer to an object is its
position. The copy of a name is taken as made (`malloc(strlen(name))` leaves no
room for the terminator that `strcpy` writes). -/

/-- `smsMacro`, lines 531-538. -/
structure smsMacro where
  name : List Nat
  startline : Int := 0
  lines : Int := 0
  cmd : Int
  list : List Nat := []
  size : Int := 0
deriving DecidableEq

/-- `smsChord`, lines 550-553; `keys` holds `CHORD_KEYS` bytes. -/
structure smsChord where
  name : List Nat
  keys : List Nat := [255, 255, 255, 255, 255, 255, 255]
deriving DecidableEq

/-- `smsDrumKey`, lines 571-574; `newSmsDrumKey` sets the key 31. -/
structure smsDrumKey where
  name : List Nat
  key : Int := 31
deriving DecidableEq

/-- What the `obj` pointer of an `smsObject` points to. -/
inductive smsPayload where
  | track (trk : smsTrack)
  | drumkey (dkey : smsDrumKey)
  | chord (c : smsChord)
  | mac (m : smsMacro)
deriving DecidableEq

/-- `smsObject`, lines 524-529, without its `next` link; `type` is a `BYTE`. -/
structure smsObject where
  name : List Nat
  type : Int
  obj : smsPayload
deriving DecidableEq

/-- `getObject`, lines 624-634, over the list from `objFirst`: the position
(which stands for the pointer `obj->obj`) and the object of the first entry
with the name; `none` is `NULL`. -/
def getObject.go : List smsObject → List Nat → Nat → Option (Nat × smsObject)
  | [], _, _ => none
  | obj :: next, name, i =>
    if strcmp obj.name name = 0 then some (i, obj) else getObject.go next name (i + 1)

/-- `getObject`, lines 624-634. -/
def getObject (objs : List smsObject) (name : List Nat) : Option (Nat × smsObject) :=
  getObject.go objs name 0

/-- `newSmsObject`, lines 611-621: the object is linked behind `objLast`. -/
def newSmsObject (objs : List smsObject) (name : List Nat) (type : Int) (obj : smsPayload) :
    List smsObject :=
  objs ++ [{ name := name, type := toBYTE type, obj := obj }]

/-- `newSmsChord`, lines 699-708: the table and the position of the new chord,
`none` for `NULL`. -/
def newSmsChord (objs : List smsObject) (name : List Nat) : List smsObject × Option Nat :=
  match getObject objs name with
  | some _ => (objs, none)
  | none => (newSmsObject objs name CHORD (.chord { name := name }), some objs.length)

/-- `newSmsMacro`, lines 711-723. -/
def newSmsMacro (objs : List smsObject) (name : List Nat) (mode : Int) :
    List smsObject × Option Nat :=
  match getObject objs name with
  | some _ => (objs, none)
  | none => (newSmsObject objs name mode (.mac { name := name, cmd := mode }), some objs.length)

/-- `newSmsTrk`, lines 754-766. -/
def newSmsTrk (objs : List smsObject) (name : List Nat) : List smsObject × Option Nat :=
  match getObject objs name with
  | some _ => (objs, none)
  | none => (newSmsObject objs name INST (.track { name := name }), some objs.length)

/-- `newSmsDrumKey`, lines 769-777. -/
def newSmsDrumKey (objs : List smsObject) (name : List Nat) : List smsObject × Option Nat :=
  match getObject objs name with
  | some _ => (objs, none)
  | none => (newSmsObject objs name DRUM (.drumkey { name := name }), some objs.length)

/-- `newSmsEvent`, lines 726-740: the event is linked behind `evtLast`; the
status and data arguments are `BYTE`s. -/
def newSmsEvent (evts : List smsEvent) (trk : smsTrack) (evtId time : Int)
    (status data1 data2 : Int) : List smsEvent :=
  evts ++ [{ trkname := trk.name, evtId := evtId, time := time, status := toBYTE status,
             data1 := toBYTE data1, data2 := toBYTE data2, bpm := 0 }]

/-- The track a pointer points to (`none`: not a track of the table). -/
def trackAt (objs : List smsObject) (p : Nat) : Option smsTrack :=
  match objs.get? p with
  | some { obj := .track trk, .. } => some trk
  | _ => none

/-- The drum key a pointer points to. -/
def drumKeyAt (objs : List smsObject) (p : Nat) : Option smsDrumKey :=
  match objs.get? p with
  | some { obj := .drumkey d, .. } => some d
  | _ => none

/-- The chord a pointer points to. -/
def chordAt (objs : List smsObject) (p : Nat) : Option smsChord :=
  match objs.get? p with
  | some { obj := .chord c, .. } => some c
  | _ => none

/-- The macro (or arp) a pointer points to. -/
def macroAt (objs : List smsObject) (p : Nat) : Option smsMacro :=
  match objs.get? p with
  | some { obj := .mac m, .. } => some m
  | _ => none

/-- A store through a pointer into the table: the payload at position `p` is
replaced, name and type of the entry stay. -/
def storeAt (objs : List smsObject) (p : Nat) (obj : smsPayload) : List smsObject :=
  match objs.get? p with
  | some o => objs.set p { o with obj := obj }
  | none => objs

/-! ## SMS compiler: the tokenizer and the value parsers

A C string is the list of its bytes before the terminating NUL. `char` is
signed: a byte above 127 read into an `int` is negative. An `int` has 32
bits: the number that `%d` stores is the numeral reduced modulo 2^32 into the
range of `int` (`toINT`), so `4294967416` is read as 120. The number that
`parser_getNumber` accumulates digit by digit is not reduced (the signed
overflow of its `*value * 10 + digit` is not modelled). -/

/-- A `char` read into an `int`. -/
def charToInt (c : Nat) : Int := if c < 128 then c else (c : Int) - 256

/-- The `int` `p[0]` of a string: 0 at its end. -/
def firstChar (p : List Nat) : Int :=
  match p with
  | [] => 0
  | c :: _ => charToInt c

/-- `strlen` of a buffer: the bytes before the first NUL. -/
def cstring (data : List Nat) : List Nat := data.takeWhile (fun c => c ≠ 0)

/-- Read loop of `parser_next`, lines 839-853, on the bytes from `pos` on: the
word in `buf` and the new `pos`. -/
def parser_next.read : List Nat → Nat → List Nat → List Nat × Nat
  | [], pos, buf => (buf, pos)
  | c :: rest, pos, buf =>
    if buf.length > 253 then (buf, pos)
    else if c = 13 ∨ c = 10 then
      if buf ≠ [] then (buf, pos) else ([c], pos + 1)
    else if c = 9 ∨ c = 32 then
      if buf ≠ [] then (buf, pos + 1) else parser_next.read rest (pos + 1) buf
    else parser_next.read rest (pos + 1) (buf ++ [c])

/-- `parser_next`, lines 830-857: the token, the word (`none`: `*word` is not
written) and the new `parserPos`. -/
def parser_next (data : List Nat) (parserPos : Nat) : Int × Option (List Nat) × Nat :=
  if parserPos ≥ data.length then (EOD, none, parserPos)
  else
    let r := parser_next.read (data.drop parserPos) parserPos []
    (if r.1.length = 1 then firstChar r.1 else UNKNOWN, some r.1, r.2)

/-- `parser_isChar`, lines 860-865, on the first byte of a word. -/
def parser_isChar (c : Nat) : Bool := (64 < c ∧ c < 91) ∨ (96 < c ∧ c < 123)

/-- The byte `SMSWORD[0]`. -/
def firstByte (p : List Nat) : Nat := p.headD 0

/-- The digits at the start of a string: their value, their number, and the
rest. -/
def scanDigits : List Nat → Int → Nat → Int × Nat × List Nat
  | [], acc, n => (acc, n, [])
  | c :: cs, acc, n =>
    if 48 ≤ c ∧ c ≤ 57 then scanDigits cs (acc * 10 + ((c : Int) - 48)) (n + 1)
    else (acc, n, c :: cs)

/-- `parser_getNumber`, lines 868-881: the value and the count of characters. -/
def parser_getNumber (p : List Nat) : Int × Nat :=
  if strcmp p (cstr "EMPTY") = 0 then (EMPTY, p.length)
  else
    let r := scanDigits p 0 0
    (r.1, r.2.1)

/-- `isspace` in the C locale. -/
def isspace (c : Nat) : Bool := c = 32 ∨ (9 ≤ c ∧ c ≤ 13)

/-- The value an `int` of 32 bits takes when it is given the integer `v`: `v`
itself from -2147483648 to 2147483647, and otherwise the integer of that range
that differs from `v` by a multiple of 2^32. -/
def toINT (v : Int) : Int := (v + 2147483648) % 4294967296 - 2147483648

/-- The conversion `%d` of `sscanf` into an `int`: white space, an optional
sign, at least one digit; the number read is stored in 32 bits. -/
def scanInt (s : List Nat) : Option (Int × List Nat) :=
  let s := s.dropWhile isspace
  let signed : Bool × List Nat :=
    match s with
    | 45 :: t => (true, t)
    | 43 :: t => (false, t)
    | _ => (false, s)
  let r := scanDigits signed.2 0 0
  if r.2.1 = 0 then none
  else some (toINT (if signed.1 then -r.1 else r.1), r.2.2)

/-- The conversion `%15[^c]` of `sscanf`: up to `width` bytes other than
`stop`. -/
def scanSet (stop : Nat) : Nat → List Nat → List Nat × List Nat
  | 0, s => ([], s)
  | _ + 1, [] => ([], [])
  | w + 1, c :: cs =>
    if c = stop then ([], c :: cs)
    else
      let r := scanSet stop w cs
      (c :: r.1, r.2)

/-- The conversion `%s` of `sscanf`: white space, then the bytes up to the
next white space (`none`: the input ends before a byte is found). -/
def scanWord (s : List Nat) : Option (List Nat) :=
  let s := s.dropWhile isspace
  if s = [] then none else some (s.takeWhile (fun c => !isspace c))

/-- What a `sscanf` with the format `"%15[^=]=%d/%d"` leaves: its result and the
variables `par`, `v`, `v2` (initially `""`, -1, -1). -/
structure Scanned where
  res : Int
  par : List Nat := []
  v : Int := -1
  v2 : Int := -1
deriving DecidableEq

/-- `sscanf(word, "%15[^=]=%d/%d", par, &v, &v2)`; with `two = false` the format
is `"%15[^=]=%d"`. -/
def sscanfParameter (word : List Nat) (two : Bool) : Scanned :=
  match word with
  | [] => { res := -1 }
  | _ =>
    let p := scanSet 61 15 word
    if p.1 = [] then { res := 0 }
    else
      match p.2 with
      | 61 :: r1 =>
        match scanInt r1 with
        | none => { res := 1, par := p.1 }
        | some (v, r2) =>
          if two then
            match r2 with
            | 47 :: r3 =>
              match scanInt r3 with
              | none => { res := 2, par := p.1, v := v }
              | some (v2, _) => { res := 3, par := p.1, v := v, v2 := v2 }
            | _ => { res := 2, par := p.1, v := v }
          else { res := 2, par := p.1, v := v }
      | _ => { res := 1, par := p.1 }

/-- `parser_isRepeater`, lines 884-890: the error and `*value` (`none`: not
written). -/
def parser_isRepeater (word : List Nat) : Int × Option Int :=
  match word with
  | 42 :: r =>
    match scanInt r with
    | some (v, _) => (ERR_NOERROR, some v)
    | none => (ERR_DEF_PARAMETER, none)
  | _ => (ERR_DEF_PARAMETER, none)

/-- `parser_isBPM`, lines 893-904. -/
def parser_isBPM (word : List Nat) : Int × Option Int :=
  let s := sscanfParameter word false
  if s.res = 0 then (ERR_DEF_PARAMETER, none)
  else if strcmp s.par (cstr "bpm") = 0 then
    if s.res = 1 then (ERR_VALUE, none)
    else if s.v < 30 ∨ s.v > 240 then (ERR_VALUE, none)
    else (ERR_NOERROR, some s.v)
  else (ERR_DEF_PARAMETER, none)

/-- `parser_isBAR`, lines 907-920; the division is the one of C, on positive
numbers here. -/
def parser_isBAR (word : List Nat) : Int × Option Int :=
  let s := sscanfParameter word true
  if s.res = 0 then (ERR_DEF_PARAMETER, none)
  else if strcmp s.par (cstr "bar") = 0 then
    if s.res < 3 then (ERR_VALUE, none)
    else if s.v < 1 ∨ s.v > 8 then (ERR_VALUE, none)
    else if s.v2 ≠ 2 ∧ s.v2 ≠ 4 ∧ s.v2 ≠ 8 ∧ s.v2 ≠ 16 then (ERR_VALUE, none)
    else (ERR_NOERROR, some (Int.tdiv (4 * s.v) s.v2))
  else (ERR_DEF_PARAMETER, none)

/-- `parser_isParameter` with `cmdType == HEADER`, lines 933-964 and 999:
the error and the header. `none` is the division by `sms->ppqn = 0`, which
does not occur as `ppqn` is one of six positive values. -/
def parser_isParameter.header (word : List Nat) (sms : smsHeader) : Option (Int × smsHeader) :=
  let s := sscanfParameter word true
  if strcmp s.par (cstr "ppqn") = 0 then
    if s.res ≠ 2 then some (ERR_DEF_PARAMETER, sms)
    else if s.v ≠ 24 ∧ s.v ≠ 48 ∧ s.v ≠ 96 ∧ s.v ≠ 192 ∧ s.v ≠ 384 ∧ s.v ≠ 768 then
      some (ERR_VALUE, sms)
    else if sms.ppqn = 0 then none
    else some (ERR_NOERROR, { sms with bar := Int.tdiv sms.bar sms.ppqn * s.v, ppqn := s.v })
  else
    match parser_isBPM word with
    | (_, some value) => some (ERR_NOERROR, { sms with bpm := value })
    | (err, none) =>
      if err = ERR_VALUE then some (err, sms)
      else
        match parser_isBAR word with
        | (_, some value) => some (ERR_NOERROR, { sms with bar := sms.ppqn * value })
        | (err, none) =>
          if err = ERR_VALUE then some (err, sms)
          else if strcmp s.par (cstr "drk") = 0 then
            if s.v < 0 ∨ s.v > 127 then some (ERR_VALUE, sms)
            else some (ERR_NOERROR, { sms with drk := s.v })
          else some (ERR_DEF_PARAMETER, sms)

/-- `parser_isParameter` with `cmdType == INST`, lines 967-986 and 999. -/
def parser_isParameter.inst (word : List Nat) (trk : smsTrack) : Int × smsTrack :=
  let s := sscanfParameter word true
  if s.res ≠ 2 then (ERR_DEF_PARAMETER, trk)
  else if strcmp s.par (cstr "bnk") = 0 then
    if s.v < 0 ∨ s.v > 127 then (ERR_VALUE, trk)
    else (ERR_NOERROR, { trk with bnk := if trk.chn = 9 then 0 else s.v })
  else if strcmp s.par (cstr "prg") = 0 then
    if s.v < 0 ∨ s.v > 127 then (ERR_VALUE, trk)
    else (ERR_NOERROR, { trk with prg := s.v })
  else if strcmp s.par (cstr "chn") = 0 then
    if s.v < 0 ∨ s.v > 15 ∨ s.v = 9 then (ERR_VALUE, trk)
    else (ERR_NOERROR, { trk with chn := s.v, bnk := if s.v = 9 then 0 else trk.bnk })
  else (ERR_DEF_PARAMETER, trk)

/-- `parser_isParameter` with `cmdType == DRUM`, lines 989-999. -/
def parser_isParameter.drum (word : List Nat) (drum : smsDrumKey) : Int × smsDrumKey :=
  let s := sscanfParameter word true
  if s.res ≠ 2 then (ERR_DEF_PARAMETER, drum)
  else if strcmp s.par (cstr "key") = 0 then
    if s.v < 0 ∨ s.v > 127 then (ERR_VALUE, drum)
    else (ERR_NOERROR, { drum with key := s.v })
  else (ERR_DEF_PARAMETER, drum)

/-- `sscanf(word, "@%15[^=]=%d", p, &v)`: result, `p` and `v`. -/
def sscanfMidiCC (word : List Nat) : Scanned :=
  match word with
  | 64 :: r => sscanfParameter r false
  | [] => { res := -1 }
  | _ => { res := 0 }

/-- `parser_isMidiCC`, lines 1005-1026: the error, `*cc` and `*val` (`none`:
not written). -/
def parser_isMidiCC (word : List Nat) : Int × Option Int × Option Int :=
  let s := sscanfMidiCC word
  if s.res < 2 then (ERR_NO_COMMAND, none, none)
  else if s.v < 0 ∨ s.v > 127 then (ERR_VALUE, none, none)
  else
    let n := parser_getNumber s.par
    if n.2 = 3 then
      if n.1 > 127 then (ERR_MCC_PARAMETER, none, some s.v)
      else (ERR_NOERROR, some n.1, some s.v)
    else if strcmp s.par (cstr "vol") = 0 then (ERR_NOERROR, some 7, some s.v)
    else if strcmp s.par (cstr "bal") = 0 then (ERR_NOERROR, some 8, some s.v)
    else if strcmp s.par (cstr "pan") = 0 then (ERR_NOERROR, some 10, some s.v)
    else if strcmp s.par (cstr "dly") = 0 then (ERR_NOERROR, some 91, some s.v)
    else (ERR_NOERROR, none, some s.v)

/-- The pitch class of a note letter, as in the `switch` of lines 1037-1043
and 1162-1168. -/
def noteKey (c : Nat) : Option Int :=
  if c = 99 then some 0
  else if c = 100 then some 2
  else if c = 101 then some 4
  else if c = 102 then some 5
  else if c = 103 then some 7
  else if c = 97 then some 9
  else if c = 98 then some 11
  else none

/-- The qualifier loop of `parser_isNote`, lines 1083-1150, with a fuel that
`parser_isNote` sets above the length of the word. -/
def parser_isNote.qualifier (type : Int) : Nat → List Nat → smsNote → Bool → Int × smsNote
  | 0, _, n, _ => (ERR_QUALIFIER_SYMBOL, n)
  | _ + 1, [], n, flgHold => (ERR_NOERROR, if flgHold then n else { n with hold := EMPTY })
  | fuel + 1, c :: data, n, flgHold =>
    if c = 35 ∨ c = 43 then
      if type = ARP then (ERR_ARP_SYMBOL, n)
      else if type = DRUM then (ERR_DRUM_SYMBOL, n)
      else if type = BASENOTE then (ERR_BASENOTE_SYMBOL, n)
      else parser_isNote.qualifier type fuel data { n with hft := n.hft + 1 } flgHold
    else if c = 45 then
      if type = ARP then (ERR_ARP_SYMBOL, n)
      else if type = DRUM then (ERR_DRUM_SYMBOL, n)
      else if type = BASENOTE then (ERR_BASENOTE_SYMBOL, n)
      else parser_isNote.qualifier type fuel data { n with hft := n.hft - 1 } flgHold
    else if c = 62 then
      if type = DRUM then (ERR_DRUM_SYMBOL, n)
      else if type = BASENOTE then (ERR_BASENOTE_SYMBOL, n)
      else
        let n := { n with oct := n.oct + 1 }
        if type = ARP then parser_isNote.qualifier type fuel data n flgHold
        else if n.oct > 10 then (ERR_OCTAVE, n)
        else parser_isNote.qualifier type fuel data n flgHold
    else if c = 60 then
      if type = DRUM then (ERR_DRUM_SYMBOL, n)
      else if type = BASENOTE then (ERR_BASENOTE_SYMBOL, n)
      else
        let n := { n with oct := n.oct - 1 }
        if type = ARP then parser_isNote.qualifier type fuel data n flgHold
        else if n.oct < 1 then (ERR_OCTAVE, n)
        else parser_isNote.qualifier type fuel data n flgHold
    else if c = 46 then
      if n.dot ≠ 0 then (ERR_DURATION_DOT, n)
      else parser_isNote.qualifier type fuel data { n with dot := 1 } flgHold
    else if c = 47 then
      let r := parser_getNumber data
      if r.2 = 0 then (ERR_DURATION, n)
      else if r.1 ≠ 1 ∧ r.1 ≠ 2 ∧ r.1 ≠ 4 ∧ r.1 ≠ 8 ∧ r.1 ≠ 16 ∧ r.1 ≠ 32 ∧ r.1 ≠ 64 then
        (ERR_DURATION, n)
      else parser_isNote.qualifier type fuel (data.drop r.2) { n with dur := r.1, dot := 0 } flgHold
    else if c = 33 then
      let r := parser_getNumber data
      if r.2 = 0 then (ERR_VOLUME, n)
      else if r.1 > 127 then (ERR_VOLUME, n)
      else parser_isNote.qualifier type fuel (data.drop r.2) { n with vol := r.1 } flgHold
    else if c = 95 then
      if data ≠ [] then (ERR_HOLD_NOT_LAST, n)
      else parser_isNote.qualifier type fuel data { n with hold := n.key } true
    else (ERR_QUALIFIER_SYMBOL, n)

/-- The octave and the qualifiers of `parser_isNote`, lines 1069-1151. -/
def parser_isNote.rest (data : List Nat) (n : smsNote) (type : Int) : Int × smsNote :=
  let n := { n with hft := 0, dot := 0 }
  let r := parser_getNumber data
  if type ≠ ARP ∧ type ≠ BASENOTE ∧ r.2 ≠ 0 then
    if r.1 > 10 then (ERR_OCTAVE, n)
    else
      parser_isNote.qualifier type (data.length + 1) (data.drop r.2) { n with oct := r.1 } false
  else parser_isNote.qualifier type (data.length + 1) data n false

/-- `parser_isNote`, lines 1029-1152: the error, the note `*n`, and the word
`data`, whose first byte the drum branch overwrites. -/
def parser_isNote (data : List Nat) (n : smsNote) (type : Int) : Int × smsNote × List Nat :=
  if type = INST then
    match data with
    | [] => (ERR_NO_COMMAND, n, data)
    | c :: d =>
      if c = 45 ∨ c = 111 ∨ c = 112 then
        let r := parser_isNote.rest d { n with key := PAUSE } type
        (r.1, r.2, data)
      else
        match noteKey c with
        | some key =>
          let r := parser_isNote.rest d { n with key := key } type
          (r.1, r.2, data)
        | none => (ERR_NO_COMMAND, n, data)
  else if type = BASENOTE ∨ type = ARP then
    let g := parser_getNumber data
    if g.2 ≠ 0 then
      if g.1 > NOTE_MAX_OFFSET then (ERR_NOTE_OFFSET, n, data)
      else
        let r := parser_isNote.rest (data.drop g.2) { n with key := g.1 } type
        (r.1, r.2, data)
    else
      match data with
      | [] => (ERR_NO_COMMAND, n, data)
      | c :: d =>
        if c ≠ 112 ∧ c ≠ 111 ∧ c ≠ 45 then (ERR_NO_COMMAND, n, data)
        else
          let r := parser_isNote.rest d { n with key := PAUSE } type
          (r.1, r.2, data)
  else if type = DRUM then
    match data with
    | [] => (ERR_NO_COMMAND, n, data)
    | c :: d =>
      let c := if c = 112 ∨ c = 45 then 111 else c
      if c ≠ 120 ∧ c ≠ 111 then (ERR_NO_COMMAND, n, c :: d)
      else
        let r := parser_isNote.rest d { n with key := charToInt c } type
        (r.1, r.2, c :: d)
  else
    let r := parser_isNote.rest data n type
    (r.1, r.2, data)

/-- `parser_isBaseNote`, lines 1155-1188. -/
def parser_isBaseNote (data : List Nat) : Int :=
  let strSize := data.length
  if strSize < 2 then EMPTY
  else
    match data with
    | [] => EMPTY
    | c :: d =>
      match noteKey c with
      | none => EMPTY
      | some bs =>
        let r := parser_getNumber d
        if r.1 > 10 then EMPTY
        else if 1 + r.2 ≥ strSize then EMPTY
        else
          let d := d.drop r.2
          let sharp := d.head? = some 35
          let bs := if sharp then bs + 1 else bs
          let d := if sharp then d.tail else d
          let pos := if sharp then 1 + r.2 + 1 else 1 + r.2
          if pos ≥ strSize then EMPTY
          else if d.head? ≠ some 58 then EMPTY
          else if pos + 1 ≠ strSize then ERR_BASENOTE
          else bs + r.1 * 12

/-- The key of a chord letter, as in the `switch` of lines 1199-1205. -/
def chordKey (c : Nat) : Option Int :=
  if c = 67 then some 0
  else if c = 68 then some 2
  else if c = 69 then some 4
  else if c = 70 then some 5
  else if c = 71 then some 7
  else if c = 65 then some 9
  else if c = 66 then some 11
  else none

/-- `sscanf(word, "%15[^~]~%s", c, a)`: the strings `c` and `a`, both `""`
before the call. -/
def sscanfChord (word : List Nat) : List Nat × List Nat :=
  let p := scanSet 126 15 word
  if p.1 = [] then ([], [])
  else
    match p.2 with
    | 126 :: r => (p.1, (scanWord r).getD [])
    | _ => (p.1, [])

/-- `parser_isChord`, lines 1191-1223: the error and the chord note `*cNote`. -/
def parser_isChord (objs : List smsObject) (word : List Nat) (cNote : smsChordNote) :
    Int × smsChordNote :=
  let s := sscanfChord word
  match s.1 with
  | [] => (ERR_NO_COMMAND, cNote)
  | k :: c =>
    match chordKey k with
    | none => (ERR_NO_COMMAND, cNote)
    | some key =>
      let cNote := { cNote with key := key }
      let sharp := c.head? = some 35 ∨ c.head? = some 43
      let cNote := if sharp then { cNote with hft := 1 } else cNote
      let c := if sharp then c.tail else c
      if c = [] then (ERR_KEYCHORD, cNote)
      else
        match getObject objs c with
        | none => (ERR_KEYCHORD, cNote)
        | some (chord, o) =>
          if o.type ≠ CHORD then (ERR_KEYCHORD, cNote)
          else
            let cNote := { cNote with chord := some chord, arp := none }
            if s.2 ≠ [] then
              match getObject objs s.2 with
              | none => (ERR_ARP, cNote)
              | some (p, o) =>
                if o.type ≠ ARP then (ERR_ARP, cNote)
                else (ERR_NOERROR, { cNote with arp := some p })
            else (ERR_NOERROR, cNote)

/-! ## SMS compiler: the state of `sms2midi`

The globals (`parserPos`, the object list, the event list, the saved pointer of
`strtok`) and the local variables of `sms2midi` that outlive one pass of its
main loop. Pointers to objects are positions in the object list. The counters
that only feed the message text (`cntWORD`, `cntMACLINE_WORD`, `cntARPLINE`,
`cntARPLINE_WORD`, `P_EVENTTYPE`) are left out, and so is the release of
memory. -/

/-- State of the compiler. -/
structure Compiler where
  data : List Nat
  parserPos : Nat := 0
  objFirst : List smsObject := []
  evtFirst : List smsEvent := []
  sms : smsHeader
  cntLINE : Int := 1
  cntLINE_WORD : Int := 0
  cntMACLINE : Int := 1
  SMSWORD : Option (List Nat) := none
  LASTWORD : Option (List Nat) := none
  lastWordType : Int := UNKNOWN
  macroRepeater : Int := 0
  err : Int := ERR_NOERROR
  P_REPEAT : Int := 0
  P_COMMENT : Bool := false
  P_BLOCKCOMMENT : Bool := false
  P_CMDTYPE : Int := UNKNOWN
  P_MACRO : Int := IDLE
  P_MACRO_COMMANDS : List Nat := []
  strtokSave : List Nat := []
  P_TIMEBLOCK : Int := IDLE
  P_TIMEGROUP : Int := IDLE
  sngTime : Int := 0
  barTime : Int := 0
  blkTimeStart : Int := TIME_OFF
  blkTimeEnd : Int := TIME_OFF
  grpTimeStart : Int := TIME_OFF
  grpTimeEnd : Int := TIME_OFF
  grpTimeBar : Int := TIME_OFF
  defaultInstTrk : Nat
  DrumTrk : Nat
  currentTrk : Nat
  currentDKey : Nat
  currentChord : Option Nat := none
  currentMac : Option Nat := none
  currentArp : Option Nat := none
  currentBaseNote : Int := EMPTY
deriving DecidableEq

/-- How one pass of the main loop ends: with `continue`, with `break`, or in
undefined behaviour. -/
inductive Flow where
  | next (s : Compiler)
  | stop (s : Compiler)
  | undefined
deriving DecidableEq

/-- The statement `err = e; break;`. -/
def Compiler.fail (s : Compiler) (e : Int) : Flow := .stop { s with err := e }

/-- The call `newSmsEvent(trk, sms->evts++, time, status, data1, data2)`. -/
def Compiler.emit (s : Compiler) (trk : smsTrack) (time status data1 data2 : Int) : Compiler :=
  { s with
    evtFirst := newSmsEvent s.evtFirst trk s.sms.evts time status data1 data2
    sms := { s.sms with evts := s.sms.evts + 1 } }

/-- The store `evt->bpm = value` into the event `newSmsEvent` has just linked. -/
def setBpm : List smsEvent → Int → List smsEvent
  | [], _ => []
  | [evt], value => [{ evt with bpm := value }]
  | evt :: next, value => evt :: setBpm next value

/-- A store into the track a pointer points to. -/
def Compiler.setTrk (s : Compiler) (p : Nat) (trk : smsTrack) : Compiler :=
  { s with objFirst := storeAt s.objFirst p (.track trk) }

/-- The stores `note->hft = 0; note->oct = 5; note->dur = 4; note->dot = 0;
note->vol = 127`, lines 1490-1494 and 1691-1695. -/
def defaultNote (trk : smsTrack) : smsTrack :=
  { trk with note := { trk.note with hft := 0, oct := DEFAULT_OCTAVE, dur := DEFAULT_DURATION,
                                     dot := 0, vol := DEFAULT_VOLUME } }

/-- `strtok(s, " ")` on the string `s`: the word (`none` is `NULL`) and the
saved pointer. -/
def strtok (s : List Nat) : Option (List Nat) × List Nat :=
  let s := s.dropWhile (fun c => c = 32)
  if s = [] then (none, [])
  else (some (s.takeWhile (fun c => c ≠ 32)), (s.dropWhile (fun c => c ≠ 32)).drop 1)

/-- The length `(int)(sms->ppqn * 4 / n->dur * dot)` of a note, lines 1795-1796
and 1909-1910: an integer division, then the product with the `float` 1.5 or
1.0, which is exact below 2^23, cut to an `int`. `none` is the division by
`n->dur = 0`. -/
def noteTicks (sms : smsHeader) (n : smsNote) : Option Int :=
  if n.dur = 0 then none
  else
    let q := Int.tdiv (sms.ppqn * 4) n.dur
    some (if n.dot ≠ 0 then Int.tdiv (q * 3) 2 else q)

/-- The updates `if (P_TIMEBLOCK == PASSING && blkTimeEnd < sngTime) ...;
if (P_TIMEGROUP == PASSING && grpTimeEnd < sngTime) ...` of lines 1829-1830. -/
def Compiler.markTimes (s : Compiler) : Compiler :=
  let s := if s.P_TIMEBLOCK = PASSING ∧ s.blkTimeEnd < s.sngTime then
    { s with blkTimeEnd := s.sngTime } else s
  if s.P_TIMEGROUP = PASSING ∧ s.grpTimeEnd < s.sngTime then
    { s with grpTimeEnd := s.sngTime } else s

/-- The built-in chord types, lines 1348-1375. -/
def builtinChords : List (List Nat × List Nat) :=
  [ (cstr "maj", [0, 4, 7, 255, 255, 255, 255]),
    (cstr "7", [0, 4, 7, 10, 255, 255, 255]),
    (cstr "maj7", [0, 4, 7, 11, 255, 255, 255]),
    (cstr "6", [0, 4, 7, 9, 255, 255, 255]),
    (cstr "6/9", [0, 4, 7, 9, 14, 255, 255]),
    (cstr "5", [0, 7, 255, 255, 255, 255, 255]),
    (cstr "9", [0, 4, 7, 10, 14, 255, 255]),
    (cstr "maj9", [0, 4, 7, 10, 13, 255, 255]),
    (cstr "11", [0, 4, 7, 10, 14, 16, 255]),
    (cstr "13", [0, 4, 7, 10, 14, 17, 21]),
    (cstr "maj13", [0, 4, 7, 11, 14, 21, 255]),
    (cstr "add", [0, 4, 7, 14, 255, 255, 255]),
    (cstr "7-5", [0, 4, 6, 10, 255, 255, 255]),
    (cstr "7+5", [0, 4, 8, 10, 255, 255, 255]),
    (cstr "sus", [0, 5, 7, 255, 255, 255, 255]),
    (cstr "dim", [0, 3, 6, 255, 255, 255, 255]),
    (cstr "dim7", [0, 3, 6, 9, 255, 255, 255]),
    (cstr "aug", [0, 3, 8, 255, 255, 255, 255]),
    (cstr "aug7", [0, 3, 10, 255, 255, 255, 255]),
    (cstr "m", [0, 3, 7, 255, 255, 255, 255]),
    (cstr "m7", [0, 3, 7, 10, 255, 255, 255]),
    (cstr "mM7", [0, 3, 7, 11, 255, 255, 255]),
    (cstr "m6", [0, 3, 7, 9, 255, 255, 255]),
    (cstr "m9", [0, 3, 7, 10, 14, 255, 255]),
    (cstr "m11", [0, 3, 7, 10, 14, 16, 255]),
    (cstr "m13", [0, 3, 7, 10, 14, 17, 21]),
    (cstr "m7b5", [0, 3, 6, 10, 255, 255, 255]) ]

/-- The statement `c = newSmsChord(name); (*c).keys = ...`; `none` is the store
through `NULL`. -/
def initChord (objs : Option (List smsObject)) (c : List Nat × List Nat) :
    Option (List smsObject) :=
  objs.bind fun objs =>
    match newSmsChord objs c.1 with
    | (objs, some p) => some (storeAt objs p (.chord { name := c.1, keys := c.2 }))
    | (_, none) => none

/-- The set-up of `sms2midi`, lines 1309-1395, after `initSMS` has emptied the
object list and the event list; `none` is a store through `NULL`. -/
def initCompiler (data : List Nat) : Option Compiler :=
  (builtinChords.foldl initChord (some [])).bind fun objs =>
    match newSmsTrk objs (cstr "INST") with
    | (_, none) => none
    | (objs, some defaultInstTrk) =>
      match newSmsTrk objs (cstr "DRUM") with
      | (_, none) => none
      | (objs, some DrumTrk) =>
        let objs := storeAt objs DrumTrk (.track { name := cstr "DRUM", chn := 9 })
        match newSmsDrumKey objs (cstr "TICK:") with
        | (_, none) => none
        | (objs, some defaultDKey) =>
          some { data := cstring data, objFirst := objs,
                 sms := { name := cstr "SMS", chords := 27, trks := 2, drumkeys := 1 },
                 defaultInstTrk := defaultInstTrk, DrumTrk := DrumTrk,
                 currentTrk := defaultInstTrk, currentDKey := defaultDKey }

/-! ## SMS compiler: the handlers of the main loop -/

/-- Definition lines: `switch (P_CMDTYPE)` with `case HEADER`, lines 1533-1541. -/
def cmdHeader (s : Compiler) (word : List Nat) : Flow :=
  if s.cntLINE_WORD = 2 then
    if !parser_isChar (firstByte word) then s.fail ERR_NAME2
    else .next { s with sms := { s.sms with name := word } }
  else
    match parser_isParameter.header word s.sms with
    | none => .undefined
    | some (err, sms) =>
      if err ≠ 0 then .stop { s with sms := sms, err := err }
      else .next { s with sms := sms, err := err }

/-- Lines 1542-1551, `case INST`. -/
def cmdInst (s : Compiler) (word : List Nat) : Flow :=
  if s.cntLINE_WORD = 2 then
    if !parser_isChar (firstByte word) then s.fail ERR_NAME2
    else
      match newSmsTrk s.objFirst word with
      | (_, none) => s.fail ERR_NAME
      | (objs, some trk) =>
        .next { s with objFirst := objs, currentTrk := trk,
                       sms := { s.sms with trks := s.sms.trks + 1 } }
  else
    match trackAt s.objFirst s.currentTrk with
    | none => .undefined
    | some trk =>
      let r := parser_isParameter.inst word trk
      let s := { s.setTrk s.currentTrk r.2 with err := r.1 }
      if r.1 ≠ 0 then .stop s else .next s

/-- Lines 1552-1563, `case DRUM`. -/
def cmdDrum (s : Compiler) (word : List Nat) : Flow :=
  if s.cntLINE_WORD = 2 then
    if !parser_isChar (firstByte word) then s.fail ERR_NAME2
    else
      match newSmsDrumKey s.objFirst word with
      | (_, none) => s.fail ERR_NAME
      | (objs, some dkey) =>
        .next { s with objFirst := objs, currentDKey := dkey,
                       sms := { s.sms with drumkeys := s.sms.drumkeys + 1 } }
  else
    match trackAt s.objFirst s.DrumTrk, drumKeyAt s.objFirst s.currentDKey with
    | some trk, some dkey =>
      let s := s.setTrk s.DrumTrk { trk with prg := s.sms.drk }
      let r := parser_isParameter.drum word dkey
      let s := { s with objFirst := storeAt s.objFirst s.currentDKey (.drumkey r.2), err := r.1 }
      if r.1 ≠ 0 then .stop s else .next s
    | _, _ => .undefined

/-- Lines 1564-1578, `case CHORD`. The store `currentChord->keys[idx]` is
undefined through `NULL` and for a negative `idx`. -/
def cmdChord (s : Compiler) (word : List Nat) : Flow :=
  if s.cntLINE_WORD = 2 then
    if !parser_isChar (firstByte word) then s.fail ERR_NAME2
    else
      match newSmsChord s.objFirst word with
      | (_, none) => .stop { s with currentChord := none, err := ERR_NAME }
      | (objs, some c) =>
        .next { s with objFirst := objs, currentChord := some c,
                       sms := { s.sms with chords := s.sms.chords + 1 } }
  else
    let idx := s.cntLINE_WORD - 3
    if idx ≥ CHORD_KEYS then s.fail ERR_LIST_MAX
    else
      let r := parser_getNumber word
      if r.2 ≠ word.length then s.fail ERR_CHORDSYNTAX
      else if r.1 > NOTE_MAX_OFFSET then s.fail ERR_CHORDSYNTAX
      else if idx < 0 then .undefined
      else
        match s.currentChord with
        | none => .undefined
        | some p =>
          match chordAt s.objFirst p with
          | none => .undefined
          | some c =>
            let keys := c.keys.set idx.toNat (toBYTE r.1)
            .next { s with objFirst := storeAt s.objFirst p (.chord { c with keys := keys }) }

/-- The statements that append a word to the list of a macro, lines 1597-1602
and 1636-1641. -/
def appendWord (s : Compiler) (p : Option Nat) (word : List Nat) : Flow :=
  match p with
  | none => .undefined
  | some p =>
    match macroAt s.objFirst p with
    | none => .undefined
    | some mac =>
      let list := mac.list ++ [32] ++ word
      .next { s with objFirst := storeAt s.objFirst p (.mac { mac with list := list }),
                     P_MACRO_COMMANDS := list }

/-- Lines 1579-1603, `case ARP`. -/
def cmdArp (s : Compiler) (word : List Nat) (token : Int) : Flow :=
  if s.cntLINE_WORD = 2 then
    if !parser_isChar (firstByte word) then s.fail ERR_NAME2
    else
      match newSmsMacro s.objFirst word s.P_CMDTYPE with
      | (_, none) => .stop { s with currentArp := none, err := ERR_NAME }
      | (objs, some p) =>
        match macroAt objs p with
        | none => .undefined
        | some mac =>
          .next { s with objFirst := storeAt objs p (.mac { mac with startline := s.cntLINE }),
                         currentArp := some p, sms := { s.sms with arps := s.sms.arps + 1 } }
  else if token = MACRO_START ∨ token = MACRO_END ∨ token = TIME_BLOCK_START ∨
      token = TIME_BLOCK_END then s.fail ERR_ARP_SYMBOL
  else appendWord s s.currentArp word

/-- Lines 1604-1645, `case MACRO`. -/
def cmdMacro (s : Compiler) (word : List Nat) (token : Int) : Flow :=
  if s.P_MACRO = IDLE ∧ s.cntLINE_WORD = 2 then
    if !parser_isChar (firstByte word) then s.fail ERR_NAME2
    else
      match newSmsMacro s.objFirst word s.P_CMDTYPE with
      | (_, none) => .stop { s with currentMac := none, err := ERR_NAME }
      | (objs, some p) =>
        match macroAt objs p with
        | none => .undefined
        | some mac =>
          .next { s with objFirst := storeAt objs p (.mac { mac with startline := s.cntLINE }),
                         currentMac := some p, sms := { s.sms with macs := s.sms.macs + 1 } }
  else if s.P_MACRO = IDLE ∧ s.cntLINE_WORD = 3 then
    if token ≠ MACRO_START then s.fail ERR_MACRO
    else .next { s with P_MACRO := DEFINING, cntMACLINE := 0 }
  else if token = MACRO_START then s.fail ERR_MACRO
  else if token = MACRO_END then
    if s.P_MACRO ≠ DEFINING then s.fail ERR_MACRO
    else
      match s.currentMac with
      | none => .undefined
      | some p =>
        match macroAt s.objFirst p with
        | none => .undefined
        | some mac =>
          .next { s with objFirst := storeAt s.objFirst p (.mac { mac with lines := s.cntMACLINE }),
                         P_MACRO := IDLE, P_CMDTYPE := UNKNOWN, P_COMMENT := true }
  else
    match getObject s.objFirst word with
    | some (_, o) =>
      if o.type = MACRO then s.fail ERR_MACRO_NESTED else appendWord s s.currentMac word
    | none => appendWord s s.currentMac word

/-- The pad `if (barTime) sngTime += sms->bar - barTime; barTime = 0;` of lines
1677-1678 and 1738-1739. -/
def Compiler.fillBar (s : Compiler) : Compiler :=
  { s with sngTime := if s.barTime ≠ 0 then s.sngTime + (s.sms.bar - s.barTime) else s.sngTime,
           barTime := 0 }

/-- A word that names an instrument, lines 1663-1671 and 1676-1679. -/
def useInst (s : Compiler) (p : Nat) : Flow :=
  match trackAt s.objFirst p with
  | none => .undefined
  | some trk =>
    let s := { s with currentTrk := p }
    let s := s.emit trk s.sngTime (0xB0 + trk.chn) 0 trk.bnk
    let s := s.emit trk s.sngTime (0xC0 + trk.chn) trk.prg 0
    .next s.fillBar

/-- A word that names a drum key, lines 1672-1679. -/
def useDrum (s : Compiler) (p : Nat) : Flow :=
  .next { s with currentDKey := p, currentTrk := s.DrumTrk }.fillBar

/-- A word that names a macro, lines 1681-1699. -/
def useMacro (s : Compiler) (p : Nat) : Flow :=
  if s.P_MACRO ≠ IDLE then s.fail ERR_MACRO_NESTED
  else
    match macroAt s.objFirst p, trackAt s.objFirst s.currentTrk with
    | some mac, some trk =>
      let s := s.setTrk s.currentTrk (defaultNote trk)
      .next { s with currentMac := some p, P_MACRO_COMMANDS := mac.list, P_MACRO := PASSING,
                     SMSWORD := none, cntMACLINE := 0, currentBaseNote := EMPTY,
                     P_CMDTYPE := UNKNOWN }
    | _, _ => .undefined

/-- The timer commands, lines 1706-1742: `none` when the token is none of them. -/
def timer (s : Compiler) (token : Int) : Option Flow :=
  if token = TIME_BLOCK_START then
    if s.P_TIMEBLOCK ≠ IDLE then some (s.fail ERR_BLOCK)
    else some (.next { s with P_TIMEBLOCK := PASSING, blkTimeStart := s.sngTime,
                              blkTimeEnd := s.sngTime, P_COMMENT := true })
  else if token = TIME_BLOCK_END then
    if s.P_TIMEBLOCK ≠ PASSING then some (s.fail ERR_BLOCK)
    else
      let blkTimeEnd := if s.blkTimeEnd < s.sngTime then s.sngTime else s.blkTimeEnd
      let grpTimeEnd := if s.grpTimeEnd < s.sngTime then s.sngTime else s.grpTimeEnd
      some (.next { s with P_TIMEBLOCK := IDLE, grpTimeEnd := grpTimeEnd, sngTime := blkTimeEnd,
                           blkTimeStart := TIME_OFF, blkTimeEnd := TIME_OFF, P_COMMENT := true })
  else if token = TIME_GROUP_START then
    if s.P_TIMEGROUP ≠ IDLE then some (s.fail ERR_TIME_GROUP)
    else some (.next { s with P_TIMEGROUP := PASSING, grpTimeStart := s.sngTime,
                              grpTimeEnd := s.sngTime, grpTimeBar := s.barTime })
  else if token = TIME_GROUP_END then
    if s.P_TIMEGROUP ≠ PASSING then some (s.fail ERR_TIME_GROUP)
    else some (.next { s with P_TIMEGROUP := IDLE, sngTime := s.grpTimeEnd,
                              barTime := s.grpTimeBar + (s.grpTimeEnd - s.grpTimeStart),
                              grpTimeStart := TIME_OFF, grpTimeEnd := TIME_OFF,
                              grpTimeBar := TIME_OFF })
  else if token = BARLINE then
    if s.P_TIMEGROUP = PASSING then some (s.fail ERR_TIME_GROUP)
    else if s.barTime > s.sms.bar then some (s.fail ERR_BAR)
    else
      match trackAt s.objFirst s.currentTrk with
      | none => some .undefined
      | some trk =>
        some (.next (s.fillBar.setTrk s.currentTrk { trk with note := { trk.note with dot := 0 } }))
  else none

/-- The dynamic parameters `bpm=`, `bar=` and the midi controller, lines
1747-1775: `none` when the word is none of them. The parameter `cc` is not
initialised; a controller name that is no number and none of the four known
names leaves it so, and its use is undefined. -/
def dynamic (s : Compiler) (trk : smsTrack) (word : List Nat) : Option Flow :=
  match parser_isBPM word with
  | (_, some value) =>
    let s := s.emit trk s.sngTime 0xB0 0x7B 0
    let s := s.emit trk s.sngTime 0 0 0
    some (.next { s with evtFirst := setBpm s.evtFirst value, err := ERR_NOERROR })
  | (err, none) =>
    if err = ERR_VALUE then some (s.fail err)
    else
      match parser_isBAR word with
      | (_, some value) =>
        some (.next { s with sms := { s.sms with bar := s.sms.ppqn * value }, err := ERR_NOERROR })
      | (err, none) =>
        if err = ERR_VALUE then some (s.fail err)
        else
          match parser_isMidiCC word with
          | (err, cc, v) =>
            if err = ERR_NOERROR then
              match cc, v with
              | some cc, some v => some (.next (s.emit trk s.sngTime (0xB0 + trk.chn) cc v))
              | _, _ => some .undefined
            else if err ≠ ERR_NO_COMMAND then some (s.fail err)
            else none

/-- A word that is a note, lines 1793-1832, after `parser_isNote` has filled
the note `n` of the track `trk`; `p` is the pointer `trk`. -/
def playNote (s : Compiler) (p : Nat) (trk : smsTrack) (holdKey : Int) : Flow :=
  let n := trk.note
  match noteTicks s.sms n with
  | none => .undefined
  | some dur =>
    let s := if s.grpTimeStart ≠ TIME_OFF then { s with sngTime := s.grpTimeStart } else s
    if n.key = PAUSE then
      let s := { s with sngTime := s.sngTime + dur, barTime := s.barTime + dur }
      let s := if holdKey ≠ EMPTY then s.emit trk s.sngTime (0x80 + trk.chn) holdKey 0 else s
      .next { s.markTimes with lastWordType := NOTE }
    else
      let pitch : Option Nat :=
        if s.currentBaseNote = EMPTY then
          if n.key = BEAT then (drumKeyAt s.objFirst s.currentDKey).map (fun d => toBYTE d.key)
          else some (toBYTE (n.key + n.hft + n.oct * 12))
        else some (toBYTE (n.key + s.currentBaseNote))
      match pitch with
      | none => .undefined
      | some data1 =>
        if data1 > 128 then s.fail ERR_NOTE
        else
          let data2 : Nat := toBYTE n.vol
          let s := s.emit trk s.sngTime (0x90 + trk.chn) data1 data2
          let s := { s with sngTime := s.sngTime + dur, barTime := s.barTime + dur }
          let s :=
            if n.hold = EMPTY then
              s.emit trk (s.sngTime - MIDI_TIME_DIV) (0x80 + trk.chn) data1 data2
            else s.setTrk p { trk with note := { n with hold := data1 } }
          let s :=
            if holdKey ≠ EMPTY then
              s.emit trk (s.sngTime - MIDI_TIME_DIV) (0x80 + trk.chn) holdKey 0
            else s
          .next { s.markTimes with lastWordType := NOTE }

/-- The loop over the keys of a chord played without arp, lines 1845-1854. -/
def playKeys (trk : smsTrack) (c : smsChordNote) : List Nat → Compiler → Compiler
  | [], s => s
  | key :: ckeys, s =>
    if key = 255 then playKeys trk c ckeys s
    else
      let data1 : Nat := toBYTE (CHORD_OCTAVE * 12 + c.key + c.hft + key)
      let s := s.emit trk (s.sngTime + 0) (0x90 + trk.chn) data1 127
      let s := s.emit trk (s.sngTime - MIDI_TIME_DIV + s.sms.bar) (0x80 + trk.chn) data1 127
      playKeys trk c ckeys s

/-- A chord played without arp, lines 1843-1863. -/
def playChord (s : Compiler) (trk : smsTrack) (c : smsChordNote) (ckeys : List Nat) : Flow :=
  let s := playKeys trk c (ckeys.take 7) s
  let s := { s with sngTime := s.sngTime + s.sms.bar, barTime := s.barTime + s.sms.bar }
  .next { s.markTimes with lastWordType := CHORD }

/-- The loop `while (strlen(arplist))` of a chord played with an arp, lines
1874-1932, with the local note `n` and the buffer `ARPWORD`; the fuel is set
above the length of the list, as each pass moves `arplist` forward. Moving it
behind the end of the list and reading `ckeys` behind its seven bytes are
undefined. -/
def playArp (p : Nat) (trk : smsTrack) (c : smsChordNote) (ckeys : List Nat) :
    Nat → List Nat → smsNote → List Nat → Compiler → Flow
  | 0, _, _, _, _ => .undefined
  | _ + 1, [], _, _, s => .next { s with lastWordType := CHORD }
  | fuel + 1, a :: arplist, n, ARPWORD, s =>
    let ARPWORD := (scanWord (a :: arplist)).getD ARPWORD
    let size := ARPWORD.length
    if size + 1 > (a :: arplist).length then .undefined
    else
      let arplist := (a :: arplist).drop (size + 1)
      if size = 1 ∧ firstChar ARPWORD = TIME_GROUP_START then
        if s.P_TIMEGROUP ≠ IDLE then s.fail ERR_TIME_GROUP
        else playArp p trk c ckeys fuel arplist n ARPWORD
          { s with P_TIMEGROUP := PASSING, grpTimeStart := s.sngTime, grpTimeEnd := s.sngTime,
                   grpTimeBar := s.barTime }
      else if size = 1 ∧ firstChar ARPWORD = TIME_GROUP_END then
        if s.P_TIMEGROUP ≠ PASSING then s.fail ERR_TIME_GROUP
        else playArp p trk c ckeys fuel arplist n ARPWORD
          { s with P_TIMEGROUP := IDLE, sngTime := s.grpTimeEnd,
                   barTime := s.grpTimeBar + (s.grpTimeEnd - s.grpTimeStart),
                   grpTimeStart := TIME_OFF, grpTimeEnd := TIME_OFF }
      else if size = 1 ∧ firstChar ARPWORD = BARLINE then
        if s.P_TIMEGROUP = PASSING then s.fail ERR_TIME_GROUP
        else if s.barTime > s.sms.bar then s.fail ERR_BAR
        else
          match trackAt s.objFirst p with
          | none => .undefined
          | some t =>
            playArp p trk c ckeys fuel arplist n ARPWORD
              (s.fillBar.setTrk p { t with note := { t.note with dot := 0 } })
      else
        let r := parser_isNote ARPWORD n ARP
        let n := r.2.1
        if r.1 ≠ 0 then s.fail r.1
        else
          let oct := CHORD_OCTAVE + n.oct
          if oct < 1 ∨ oct > 10 then s.fail ERR_OCTAVE
          else
            match noteTicks s.sms n with
            | none => .undefined
            | some dur =>
              if n.key = PAUSE ∨ n.key = EMPTY then
                let s := { s with sngTime := s.sngTime + dur, barTime := s.barTime + dur }
                playArp p trk c ckeys fuel arplist n r.2.2 s.markTimes
              else
                match ckeys.get? n.key.toNat with
                | none => .undefined
                | some key =>
                  let data1 : Nat := toBYTE (oct * 12 + c.key + c.hft + key)
                  let data2 : Nat := toBYTE n.vol
                  let s := if s.grpTimeStart ≠ TIME_OFF then
                    { s with sngTime := s.grpTimeStart } else s
                  let s := s.emit trk s.sngTime (0x90 + trk.chn) data1 data2
                  let s := { s with sngTime := s.sngTime + dur, barTime := s.barTime + dur }
                  let s := s.emit trk s.sngTime (0x80 + trk.chn) data1 data2
                  playArp p trk c ckeys fuel arplist n r.2.2 s.markTimes

/-- The user commands from the base note on, lines 1778-1940: base note, note,
chord. -/
def play (s : Compiler) (p : Nat) (trk : smsTrack) (word : List Nat) : Flow :=
  let bs := parser_isBaseNote word
  if bs = ERR_BASENOTE then s.fail bs
  else if bs ≠ EMPTY then .next { s with currentBaseNote := bs, err := ERR_NOERROR }
  else
    let trkType := if trk.chn = 9 then DRUM else INST
    let holdKey := trk.note.hold
    let r := parser_isNote word trk.note (if s.currentBaseNote = EMPTY then trkType else BASENOTE)
    let trk := { trk with note := r.2.1 }
    let s := { s.setTrk p trk with SMSWORD := some r.2.2 }
    if r.1 ≠ ERR_NOERROR ∧ r.1 ≠ ERR_NO_COMMAND then s.fail r.1
    else if r.1 = ERR_NOERROR then playNote s p trk holdKey
    else
      let r := parser_isChord s.objFirst word trk.cnote
      let c := r.2
      let trk := { trk with cnote := c }
      let s := s.setTrk p trk
      if r.1 ≠ 0 then s.fail ERR_NO_COMMAND
      else
        match c.chord.bind (chordAt s.objFirst) with
        | none => .undefined
        | some chord =>
          match c.arp with
          | none => playChord s trk c chord.keys
          | some arp =>
            match macroAt s.objFirst arp with
            | none => .undefined
            | some mac =>
              playArp p trk c chord.keys (mac.list.length + 1) mac.list { oct := 0 } []
                { s with err := ERR_NOERROR }

/-- The user commands behind the object lookup, lines 1702-1940: timer
commands, dynamic parameters, base note, note, chord; `trk` is the current
track. -/
def command (s : Compiler) (word : List Nat) (token : Int) : Flow :=
  match timer s token with
  | some f => f
  | none =>
    match trackAt s.objFirst s.currentTrk with
    | none => .undefined
    | some trk =>
      match dynamic s trk word with
      | some f => f
      | none => play s s.currentTrk trk word

/-- The user commands, lines 1656-1940. -/
def user (s : Compiler) (word : List Nat) (token : Int) : Flow :=
  match getObject s.objFirst word with
  | some (p, o) =>
    if o.type = INST then useInst s p
    else if o.type = DRUM then useDrum s p
    else if o.type = MACRO then useMacro s p
    else command s word token
  | none => command s word token

/-! ## SMS compiler: the main loop -/

/-- The system commands, lines 1531-1652. -/
def system (s : Compiler) (word : List Nat) (token : Int) : Flow :=
  if s.P_CMDTYPE = HEADER then cmdHeader s word
  else if s.P_CMDTYPE = INST then cmdInst s word
  else if s.P_CMDTYPE = DRUM then cmdDrum s word
  else if s.P_CMDTYPE = CHORD then cmdChord s word
  else if s.P_CMDTYPE = ARP then cmdArp s word token
  else if s.P_CMDTYPE = MACRO then cmdMacro s word token
  else user s word token

/-- A new line, lines 1462-1498. The remainder `barTime % sms->bar` is
undefined for `sms->bar = 0`. -/
def newline (s : Compiler) (word : List Nat) (token : Int) : Flow :=
  let s : Compiler := if s.P_MACRO = PASSING then { s with cntMACLINE := s.cntMACLINE + 1 }
    else { s with cntLINE := s.cntLINE + 1, cntLINE_WORD := 0 }
  if s.barTime ≠ 0 ∧ s.barTime > s.sms.bar ∧ s.sms.bar = 0 then .undefined
  else
    let barTime : Int := if s.barTime > s.sms.bar then Int.tmod s.barTime s.sms.bar else s.barTime
    let s : Compiler := if s.barTime ≠ 0 then
      { s with sngTime := s.sngTime + (s.sms.bar - barTime), barTime := 0 } else s
    let s : Compiler := { s with P_COMMENT := false }
    if s.P_MACRO = DEFINING then system s word token
    else
      let s : Compiler := if s.P_TIMEBLOCK = PASSING then
        { s.markTimes with sngTime := s.blkTimeStart } else s
      if s.P_TIMEGROUP = PASSING then s.fail ERR_TIME_GROUP
      else
        let s : Compiler := if s.P_MACRO ≠ PASSING ∧ s.P_TIMEBLOCK ≠ PASSING then
          { s with currentTrk := s.defaultInstTrk } else s
        match trackAt s.objFirst s.currentTrk with
        | none => .undefined
        | some trk =>
          .next { s.setTrk s.currentTrk (defaultNote trk) with
                  currentBaseNote := EMPTY, P_CMDTYPE := UNKNOWN }

/-- The words that are no new line, lines 1499-1527: comments and the command
prefixes at the start of a line. -/
def general (s : Compiler) (word : List Nat) (token : Int) : Flow :=
  let s := if strcmp word (cstr "//") = 0 then { s with P_COMMENT := true } else s
  if strcmp word (cstr "/*") = 0 ∧ s.P_BLOCKCOMMENT then s.fail ERR_BLOCKCOMMENT
  else
    let s := if strcmp word (cstr "/*") = 0 then { s with P_BLOCKCOMMENT := true } else s
    if strcmp word (cstr "*/") = 0 ∧ !s.P_BLOCKCOMMENT then s.fail ERR_BLOCKCOMMENT
    else
      let s := if strcmp word (cstr "*/") = 0 then
        { s with P_BLOCKCOMMENT := false, P_COMMENT := true } else s
      if s.P_COMMENT ∨ s.P_BLOCKCOMMENT then .next s
      else if s.cntLINE_WORD = 1 ∧ strcmp word (cstr "H:") = 0 then
        .next { s with P_CMDTYPE := HEADER }
      else if s.cntLINE_WORD = 1 ∧ strcmp word (cstr "I:") = 0 then
        .next { s with P_CMDTYPE := INST }
      else if s.cntLINE_WORD = 1 ∧ strcmp word (cstr "D:") = 0 then
        .next { s with P_CMDTYPE := DRUM }
      else if s.cntLINE_WORD = 1 ∧ strcmp word (cstr "C:") = 0 then
        .next { s with P_CMDTYPE := CHORD }
      else if s.cntLINE_WORD = 1 ∧ strcmp word (cstr "A:") = 0 then
        .next { s with P_CMDTYPE := ARP }
      else if s.cntLINE_WORD = 1 ∧ strcmp word (cstr "M:") = 0 then
        .next { s with P_CMDTYPE := MACRO }
      else system s word token

/-- The pass from the label `NEXT_WORD_READY` on, lines 1445-1940, with the
word in `SMSWORD`. -/
def ready (s : Compiler) (token : Int) : Flow :=
  match s.SMSWORD with
  | none => .undefined
  | some word =>
    let r := parser_isRepeater word
    if (s.P_MACRO = IDLE ∨ s.P_MACRO = PASSING) ∧ !s.P_COMMENT ∧ !s.P_BLOCKCOMMENT ∧
        r.1 = ERR_NOERROR then
      match r.2 with
      | none => .undefined
      | some value =>
        if value < 1 then s.fail ERR_REPEATER
        else .next { s with P_REPEAT := value - 1 }
    else
      let s := { s with lastWordType := UNKNOWN }
      if token = CARRIAGE_RETURN ∨ token = NEWLINE then newline s word token
      else general s word token

/-- The read of a word from the source, lines 1436 and 1439-1443. -/
def readSource (s : Compiler) : Flow :=
  let r := parser_next s.data s.parserPos
  let s := { s with SMSWORD := if r.2.1.isSome then r.2.1 else s.SMSWORD, parserPos := r.2.2,
                    cntLINE_WORD := s.cntLINE_WORD + 1 }
  if r.1 = EOD then .stop s else ready s r.1

/-- The pass from the label `NEXT_WORD_READ` on, lines 1421-1940. The copy
`strcpy(LASTWORD, SMSWORD)` is taken as made also when `SMSWORD` is `LASTWORD`
itself. -/
def readWord (s : Compiler) : Flow :=
  let s := if s.SMSWORD.isSome then { s with LASTWORD := s.SMSWORD } else s
  if s.P_MACRO = PASSING then
    let t := strtok (if s.SMSWORD.isSome then s.strtokSave else s.P_MACRO_COMMANDS)
    let s := { s with SMSWORD := t.1, strtokSave := t.2 }
    match t.1 with
    | some word => ready s (if word.length = 1 then firstChar word else UNKNOWN)
    | none =>
      match s.currentMac.bind (macroAt s.objFirst) with
      | none => .undefined
      | some mac =>
        let s := { s with P_MACRO := IDLE, LASTWORD := some mac.name, lastWordType := MACRO }
        if s.macroRepeater ≠ 0 then
          .next { s with macroRepeater := s.macroRepeater - 1, P_REPEAT := s.macroRepeater - 1 }
        else readSource s
  else readSource s

/-- One pass of the loop `while (1)`, lines 1401-1941. -/
def step (s : Compiler) : Flow :=
  if s.P_REPEAT ≠ 0 then
    if s.lastWordType = MACRO then
      ready { s with macroRepeater := s.P_REPEAT, SMSWORD := s.LASTWORD, P_REPEAT := 0 } UNKNOWN
    else if s.lastWordType = NOTE ∨ s.lastWordType = CHORD then
      ready { s with P_REPEAT := s.P_REPEAT - 1, SMSWORD := s.LASTWORD } UNKNOWN
    else s.fail ERR_REPEATER_LASTWORD
  else readWord s

/-- How a run of the compiler ends: it returns, its behaviour is undefined, or
the fuel of the model is used up. -/
inductive Run (α : Type) where
  | done (a : α)
  | undefined
  | unfinished
deriving DecidableEq

/-- The loop `while (1)`, lines 1401-1941, for at most `fuel` passes: the state
at its `break`. -/
def mainLoop : Nat → Compiler → Run Compiler
  | 0, _ => .unfinished
  | fuel + 1, s =>
    match step s with
    | .next s => mainLoop fuel s
    | .stop s => .done s
    | .undefined => .undefined

/-- The error that `sms2midi` reports, lines 1949-1951. -/
def finalErr (s : Compiler) : Int :=
  let err := if s.err = 0 ∧ s.P_MACRO = DEFINING then ERR_MACRO_BRACES else s.err
  let err := if err = 0 ∧ s.P_TIMEBLOCK = PASSING then ERR_TIME_BLOCK else err
  if s.P_BLOCKCOMMENT then ERR_BLOCKCOMMENT else err

/-- The events at the end of the data, lines 1953-1959. -/
def finalEvents (s : Compiler) : Option Compiler :=
  (trackAt s.objFirst s.currentTrk).map fun trk =>
    let s := if s.barTime ≠ 0 then { s with sngTime := s.sngTime + (s.sms.bar - s.barTime) }
      else s
    let trk := { trk with note := { trk.note with dot := 0 } }
    (s.setTrk s.currentTrk trk).emit trk s.sngTime 0xB0 0x7B 0

/-- The lookup `getObject(evtList[i].trkname, &type)` of `parser_createMidi`,
read as a track. -/
def getTrackObject (objs : List smsObject) (name : List Nat) : Option smsTrack :=
  (getObject objs name).bind fun r =>
    match r.2.obj with
    | .track trk => some trk
    | _ => none

/-- What `sms2midi` returns: the error kind behind the message and the SMF
(`none` is `NULL`). -/
structure Compiled where
  err : Int
  smf : Option BUF
deriving DecidableEq

/-- The end of `sms2midi`, lines 1947-1997. -/
def finish (s : Compiler) : Run Compiled :=
  if finalErr s = 0 then
    match finalEvents s with
    | none => .undefined
    | some s =>
      match parser_createMidi s.sms (getTrackObject s.objFirst) s.evtFirst with
      | none => .undefined
      | some smf => .done { err := ERR_NOERROR, smf := smf }
  else .done { err := finalErr s, smf := none }

/-- The state of `sms2midi` at the `break` of its main loop. -/
def compile (fuel : Nat) (data : List Nat) : Run Compiler :=
  match initCompiler data with
  | none => .undefined
  | some s => mainLoop fuel s

/-- `sms2midi`, lines 1307-1998, with at most `fuel` passes of the main loop. -/
def sms2midi (fuel : Nat) (data : List Nat) : Run Compiled :=
  match compile fuel data with
  | .done s => finish s
  | .undefined => .undefined
  | .unfinished => .unfinished

/-! ## The sort key, as the specification words it -/

/-- The lexicographic order of two names by their bytes. -/
def nameLess (a b : List Nat) : Prop := List.Lex (fun x y => x < y) a b

/-- The order of the sort key in the words of the specification: the track
name in the order of its bytes, then the time, then the emission id. -/
def keyLess (a b : smsEvent) : Prop :=
  nameLess a.trkname b.trkname ∨
    (a.trkname = b.trkname ∧ (a.time < b.time ∨ (a.time = b.time ∧ a.evtId < b.evtId)))

/-- Two events have the same sort key. -/
def keyEq (a b : smsEvent) : Prop :=
  a.trkname = b.trkname ∧ a.time = b.time ∧ a.evtId = b.evtId

/-! ## The states of a compilation -/

/-- The counter `n` and the event list `l` agree: `n` is the number of events
and the event at position `k` has the emission id `k`. -/
def Counted (n : Int) (l : List smsEvent) : Prop :=
  n = l.length ∧ ∀ (k : Nat) (e : smsEvent), l[k]? = some e → e.evtId = k

/-- The header counter `evts` and the event list of a state agree. -/
def Compiler.Counted (s : Compiler) : Prop := Sms2Mid.Counted s.sms.evts s.evtFirst

/-- The state a pass of the main loop ends in, if any, is counted. -/
def Flow.Counted : Flow → Prop
  | .next s => s.Counted
  | .stop s => s.Counted
  | .undefined => True

/-- The states of a compilation of `data`: the state after the set-up, the
state after each pass of the main loop, and the state after the events of the
end of data, which `parser_createMidi` receives. -/
inductive Reaches (data : List Nat) : Compiler → Prop where
  | init (s : Compiler) (h : initCompiler data = some s) : Reaches data s
  | next (s t : Compiler) (hs : Reaches data s) (h : step s = .next t) : Reaches data t
  | stop (s t : Compiler) (hs : Reaches data s) (h : step s = .stop t) : Reaches data t
  | final (s t u : Compiler) (hs : Reaches data s) (h : step s = .stop t)
      (he : finalErr t = 0) (hu : finalEvents t = some u) : Reaches data u

/-- A list of events is in the order of the comparator. -/
def Ordered (l : List smsEvent) : Prop := l.Pairwise (fun a b => evt_compare a b ≤ 0)

/-- The state a run ends in. -/
def Run.get? {α : Type} : Run α → Option α
  | .done a => some a
  | _ => none

/-! ## What a run of the compiler yields -/

/-- The event list that `parser_createMidi` receives, in the order of
emission: `none` when the run does not end, is undefined, or ends in an
error. -/
def eventList (fuel : Nat) (data : List Nat) : Option (List smsEvent) :=
  match compile fuel data with
  | .done s => if finalErr s = 0 then (finalEvents s).map (fun t => t.evtFirst) else none
  | _ => none

/-- The error kind `sms2midi` ends with. -/
def errorOf (r : Run Compiled) : Option Int :=
  match r with
  | .done c => some c.err
  | _ => none

/-- The bytes of the SMF `sms2midi` returns. -/
def smfBytes (r : Run Compiled) : Option (List Nat) :=
  match r with
  | .done c => c.smf.map (fun smf => smf.mem)
  | _ => none

/-- A note-on message: status `0x9n`. -/
def isNoteOn (e : smsEvent) : Bool := e.status / 16 = 9

/-- A note-off message: status `0x8n`. -/
def isNoteOff (e : smsEvent) : Bool := e.status / 16 = 8

/-- An event, written as track name, emission id, time, status and data. -/
def mkEvent (trkname : String) (evtId time : Int) (status data1 data2 : Nat) : smsEvent :=
  { trkname := cstr trkname, evtId := evtId, time := time, status := status, data1 := data1,
    data2 := data2 }

/-- The state after the set-up of `sms2midi`, on the empty source. -/
def startState : Compiler := (initCompiler []).get (by decide)

/-- The repeat count and the last word of the state a pass ends in, if any, are
`r` and `w`. -/
def Flow.Keeps (r : Int) (w : Option (List Nat)) : Flow → Prop
  | .next t => t.P_REPEAT = r ∧ t.LASTWORD = w
  | .stop t => t.P_REPEAT = r ∧ t.LASTWORD = w
  | .undefined => True

/-! ## Notes and their note-offs -/

/-- The note-off `noteOff` answers the note-on `noteOn`: it is on the same track, on
the same channel and for the same pitch, and it is not earlier in time. -/
def answers (noteOn noteOff : smsEvent) : Prop :=
  isNoteOff noteOff = true ∧ noteOff.trkname = noteOn.trkname ∧
    noteOff.status + 16 = noteOn.status ∧ noteOff.data1 = noteOn.data1 ∧
    noteOn.time ≤ noteOff.time

/-- Every note-on in the list, of any velocity, is answered by a note-off at a
later position. -/
def Matched (l : List smsEvent) : Prop :=
  ∀ (i : Nat) (a : smsEvent), l[i]? = some a → isNoteOn a = true →
    ∃ (j : Nat) (b : smsEvent), i < j ∧ l[j]? = some b ∧ answers a b

/-- A note of the data model of the compiler: a length 1..64. -/
def GoodDur (n : smsNote) : Prop := 1 ≤ n.dur ∧ n.dur ≤ 64

/-- A track of the data model of the compiler: channel 0..15 and a note of the
data model. -/
def GoodTrk (trk : smsTrack) : Prop := 0 ≤ trk.chn ∧ trk.chn ≤ 15 ∧ GoodDur trk.note

/-- Every track of the object list is a track of the data model. -/
def TracksGood (objs : List smsObject) : Prop :=
  ∀ o ∈ objs, ∀ trk : smsTrack, o.obj = .track trk → GoodTrk trk

/-- The tracks and the resolution of a state are those of the data model. -/
def Compiler.Sound (s : Compiler) : Prop := TracksGood s.objFirst ∧ 16 ≤ s.sms.ppqn

/-- The state a pass ends in, if any, is sound. -/
def Flow.Sound : Flow → Prop
  | .next t => t.Sound
  | .stop t => t.Sound
  | .undefined => True

/-! ## Words, as the specification writes them -/

/-- The decimal digits of `n`, most significant first, for at most `fuel`
digits. -/
def decimalFuel : Nat → Nat → List Nat
  | 0, _ => []
  | fuel + 1, n => if n < 10 then [48 + n] else decimalFuel fuel (n / 10) ++ [48 + n % 10]

/-- The decimal numeral of `n`, as the bytes of a C string. -/
def decimal (n : Nat) : List Nat := decimalFuel (n + 1) n

/-- The base-note word `XY[#]:` of a letter, an optional octave and an optional
`#`. -/
def baseNoteWord (letter : Nat) (oct : Option Nat) (sharp : Bool) : List Nat :=
  letter :: ((match oct with
    | none => []
    | some o => decimal o) ++ ((if sharp then [35] else []) ++ [58]))

/-- The pitch the specification gives a base-note word: the offset of the
letter, one more with `#`, and twelve for each octave. -/
def basePitch (letter : Nat) (oct : Option Nat) (sharp : Bool) : Int :=
  (noteKey letter).getD 0 + (if sharp then 1 else 0) + 12 * ((oct.getD 0 : Nat) : Int)

/-- The event `newSmsEvent(trk, evtId, time, status, data1, data2)` links. -/
def trackEvent (trk : smsTrack) (evtId time status data1 data2 : Int) : smsEvent :=
  { trkname := trk.name, evtId := evtId, time := time, status := toBYTE status,
    data1 := toBYTE data1, data2 := toBYTE data2, bpm := 0 }

/-- The song time a note starts at: the start of the time group when
`grpTimeStart` is set, the song time otherwise (line 1797). -/
def Compiler.noteStart (s : Compiler) : Int :=
  if s.grpTimeStart ≠ TIME_OFF then s.grpTimeStart else s.sngTime

/-- The length the specification gives a note, over the rationals: `ppqn * 4 / d`
ticks, half as much again when dotted. -/
def exactTicks (ppqn d : Int) (dotted : Bool) : ℚ :=
  (ppqn : ℚ) * 4 / d * (if dotted then 3 / 2 else 1)

/-- The length with both steps cut to an integer: the integer part of
`ppqn * 4 / d`, times 1.5 when dotted, and the integer part of that. -/
def truncTicks (ppqn d : Int) (dotted : Bool) : Int :=
  ⌊((⌊((ppqn : ℚ) * 4 / d)⌋ : Int) : ℚ) * (if dotted then 3 / 2 else 1)⌋

/-- The net number of half tones of a list of half-tone qualifiers: `-` counts
-1, `#` and `+` count 1. -/
def netHalftones : List Nat → Int
  | [] => 0
  | c :: qs => (if c = 45 then -1 else 1) + netHalftones qs

/-- The note word of a letter, an optional absolute octave and half-tone
qualifiers. -/
def noteWord (letter : Nat) (oct : Option Nat) (qs : List Nat) : List Nat :=
  letter :: ((match oct with
    | none => []
    | some o => decimal o) ++ qs)

/-- The octave of a note word: the absolute octave, or the current octave of
the note when the word has none. -/
def wordOctave (o : Option Nat) (n : smsNote) : Int :=
  match o with
  | none => n.oct
  | some x => (x : Int)

/-- The pitch the specification gives a note word: the offset of the letter,
the half tones, and twelve for each octave. -/
def wordPitch (key : Int) (o : Option Nat) (qs : List Nat) (n : smsNote) : Int :=
  key + netHalftones qs + wordOctave o n * 12


/-! ## Bytes of a value, as the specification counts them -/

/-- The low `n` bytes of `v`, most significant first. -/
def lowBytes (v : Nat) : Nat → List Nat
  | 0 => []
  | n + 1 => (v / 256 ^ n % 256) :: lowBytes v n

/-! ## Padding to the bar -/

/-- The ticks that the end of a line adds to the song time, lines 1471-1475:
the bar less the bar time, which is first taken modulo the bar when it is
above the bar. -/
def linePad (s : Compiler) : Int :=
  if s.barTime ≠ 0 then
    s.sms.bar - (if s.barTime > s.sms.bar then Int.tmod s.barTime s.sms.bar else s.barTime)
  else 0

/-! ## The SMF of two quarter notes -/

/-- The SMF of the song that plays `c5` in the first bar and `d5` in the
second: header chunk, then one track with tempo, copyright, program text and
device name, bank and program select, the two notes, all notes off, end of
track. -/
def smfTwoNotes : List Nat :=
  [77, 84, 104, 100, 0, 0, 0, 6, 0, 0, 0, 1, 0, 96, 77, 84, 114, 107, 0, 0, 0, 94,
   0, 255, 81, 3, 7, 161, 32,
   0, 255, 2, 15, 40, 99, 41, 32, 109, 97, 46, 107, 101, 46, 32, 50, 48, 50, 52,
   0, 255, 8, 23, 99, 114, 101, 97, 116, 101, 100, 32, 119, 105, 116, 104, 32, 72, 73, 68, 67,
   65, 77, 45, 83, 77, 83,
   0, 255, 9, 4, 73, 78, 83, 84,
   0, 176, 0, 0, 0, 192, 0,
   0, 144, 60, 127, 95, 128, 60, 127, 130, 33, 144, 62, 127, 95, 128, 62, 127,
   130, 33, 176, 123, 0, 0, 255, 47, 0]

/-! ## The events of a chord, as the specification lists them -/

/-- The events of a chord played without arp at the time `t` with the bar
`bar`, from the emission id `evtId` on: for each offset that is present (not
255) a note-on at `t` and a note-off at `t + bar - 1`, both with the pitch
`36 + key + hft + offset` and the velocity 127. -/
def chordEvents (trk : smsTrack) (c : smsChordNote) (t bar : Int) :
    Int → List Nat → List smsEvent
  | _, [] => []
  | evtId, offset :: offsets =>
    if offset = 255 then chordEvents trk c t bar evtId offsets
    else
      trackEvent trk evtId t (0x90 + trk.chn) (36 + c.key + c.hft + offset) 127 ::
      trackEvent trk (evtId + 1) (t + bar - 1) (0x80 + trk.chn) (36 + c.key + c.hft + offset) 127 ::
      chordEvents trk c t bar (evtId + 2) offsets

/-! ## Time blocks -/

/-- Every note-on in the list, of any velocity, is answered by a note-off at a
later position, or is one of the note-ons that `P` excepts. -/
def MatchedOr (P : smsEvent → Prop) (l : List smsEvent) : Prop :=
  ∀ (i : Nat) (a : smsEvent), l[i]? = some a → isNoteOn a = true →
    (∃ (j : Nat) (b : smsEvent), i < j ∧ l[j]? = some b ∧ answers a b) ∨ P a

/-- The track of the note-on `a` holds its key: a track of the object list has
the name of the event and holds a key, left by a note with `_` that no later
note or rest of the track has released, and this key and the channel of the
track are those of the event. -/
def Held (objs : List smsObject) (a : smsEvent) : Prop :=
  ∃ (p : Nat) (trk : smsTrack), trackAt objs p = some trk ∧ trk.name = a.trkname ∧
    trk.note.hold ≠ EMPTY ∧ toBYTE trk.note.hold = a.data1 ∧
    a.status = toBYTE (0x90 + trk.chn)

/-- The test whether the note-off `b` answers the note-on `a`. -/
def isAnswer (a b : smsEvent) : Bool :=
  isNoteOff b && decide (b.trkname = a.trkname) && decide (b.status + 16 = a.status) &&
    decide (b.data1 = a.data1) && decide (a.time ≤ b.time)

/-- The test whether the held note-ons of the track `trk` are not later than
the time `T`: each note-on of `l` with the name and the channel of the track
and the key the track holds is at a time up to `T`, or a note-off at a later
position of `l` answers it. -/
def heldBefore (l : List smsEvent) (trk : smsTrack) (T : Int) : Bool :=
  (List.range l.length).all fun i =>
    match l[i]? with
    | some a =>
      !(isNoteOn a && decide (a.trkname = trk.name) &&
          decide (a.data1 = toBYTE trk.note.hold) &&
          decide (a.status = toBYTE (0x90 + trk.chn))) ||
        decide (a.time ≤ T) ||
        (List.range l.length).any fun j =>
          decide (i < j) &&
            match l[j]? with
            | some b => isAnswer a b
            | none => false
    | none => true

/-- The time of the note-off with which a note or a rest of the track at `cur`
releases the key that the track held, read from the state after the pass: the
song time after a rest (line 1803), the song time less `MIDI_TIME_DIV` after a
note (line 1825). -/
def Compiler.releaseTime (t : Compiler) (cur : Nat) : Int :=
  match trackAt t.objFirst cur with
  | some trk => if trk.note.key = PAUSE then t.sngTime else t.sngTime - MIDI_TIME_DIV
  | none => t.sngTime

/-- The test on a pass of the main loop from the state `s` to the state `t`:
when the pass has ended with a chord (`lastWordType` is `CHORD`), the bar had
a length above 0; no track that holds a key after the pass has changed its
channel in the pass; and when the pass has ended with a note or a rest
(`lastWordType` is `NOTE`) on a track that held a key, the note-off that
releases the key is not earlier than the held note-on. -/
def Compiler.keeps (s t : Compiler) : Bool :=
  (decide (t.lastWordType ≠ CHORD) || decide (0 < s.sms.bar)) &&
  ((List.range t.objFirst.length).all fun p =>
    match trackAt t.objFirst p, trackAt s.objFirst p with
    | some trk1, some trk0 => decide (trk1.note.hold = EMPTY) || decide (trk1.chn = trk0.chn)
    | _, _ => true) &&
  (decide (t.lastWordType ≠ NOTE) ||
    match trackAt s.objFirst s.currentTrk with
    | some trk0 =>
      decide (trk0.note.hold = EMPTY) ||
        heldBefore s.evtFirst trk0 (t.releaseTime s.currentTrk)
    | none => true)

/-- The main loop, `mainLoop`, with each pass tested by `keeps`; `none` when a
test fails, the loop does not end within the fuel, or the behaviour is
undefined. -/
def heldLoop : Nat → Compiler → Option Compiler
  | 0, _ => none
  | fuel + 1, s =>
    match step s with
    | .next t => if s.keeps t then heldLoop fuel t else none
    | .stop t => if s.keeps t then some t else none
    | .undefined => none

/-- A compilation that succeeds with every pass passing the test `keeps`: the
state `parser_createMidi` receives. -/
def heldCompile (fuel : Nat) (data : List Nat) : Option Compiler :=
  (initCompiler data).bind fun s =>
    (heldLoop fuel s).bind fun t => if finalErr t = 0 then finalEvents t else none

/-- The tracks of `objs` are at their places in `objs2`, with their names and
the keys they hold. -/
def Frame (objs objs2 : List smsObject) : Prop :=
  ∀ (p : Nat) (trk0 : smsTrack), trackAt objs p = some trk0 →
    ∃ trk1 : smsTrack, trackAt objs2 p = some trk1 ∧ trk1.name = trk0.name ∧
      trk1.note.hold = trk0.note.hold

/-- The key of the note-on `a` is held at the start of a pass with the object
list `objs`, as `Held` says, and if it is the track at `cur` that holds it,
the time of the note-on is up to `B`. -/
def HeldAt (objs : List smsObject) (cur : Nat) (B : Int) (a : smsEvent) : Prop :=
  ∃ (p : Nat) (trk : smsTrack), trackAt objs p = some trk ∧ trk.name = a.trkname ∧
    trk.note.hold ≠ EMPTY ∧ toBYTE trk.note.hold = a.data1 ∧
    a.status = toBYTE (0x90 + trk.chn) ∧ (p = cur → a.time ≤ B)

/-- The key of the note-on `a` is held over a pass: the track at a place of
`objs`, the object list before the pass, is at this place in `objs2`, the
object list after it, with the name of the event, and holds the key of the
event there; the channel of the event is the one the track had before the
pass. -/
def HeldOver (objs objs2 : List smsObject) (a : smsEvent) : Prop :=
  ∃ (p : Nat) (trk0 trk1 : smsTrack), trackAt objs p = some trk0 ∧
    trackAt objs2 p = some trk1 ∧ trk1.name = a.trkname ∧ trk1.note.hold ≠ EMPTY ∧
    toBYTE trk1.note.hold = a.data1 ∧ a.status = toBYTE (0x90 + trk0.chn)

/-- The state a part of a pass ends in, if any, has its note-ons answered but
for those `P` excepts, and the tracks of `objs` in their places. -/
def Flow.Quiet (P : smsEvent → Prop) (objs : List smsObject) : Flow → Prop
  | .next t => MatchedOr P t.evtFirst ∧ Frame objs t.objFirst
  | .stop t => MatchedOr P t.evtFirst ∧ Frame objs t.objFirst
  | .undefined => True

/-- The state a pass ends in without error, if any, has its note-ons answered
but for those whose key is held over the pass, provided that a note or rest it
has ended with releases at a time from `B` on and that a chord it has ended
with has found a bar `bar` with a length. -/
def Flow.Kept (objs : List smsObject) (cur : Nat) (B bar : Int) : Flow → Prop
  | .next t => (t.lastWordType = NOTE → B ≤ t.releaseTime cur) →
      (t.lastWordType = CHORD → 1 ≤ bar) → MatchedOr (HeldOver objs t.objFirst) t.evtFirst
  | .stop t => t.err = 0 → (t.lastWordType = NOTE → B ≤ t.releaseTime cur) →
      (t.lastWordType = CHORD → 1 ≤ bar) → MatchedOr (HeldOver objs t.objFirst) t.evtFirst
  | .undefined => True

/-- A state within a pass that began with the object list `objs`, the current
track `cur` and the bar `bar`: sound, with these; every note-on is answered or
its key is held by its track, and the note-ons whose key the current track
holds are at times up to `B`. -/
def Compiler.HeldFrom (s : Compiler) (objs : List smsObject) (cur : Nat) (B bar : Int) :
    Prop :=
  s.Sound ∧ s.sms.bar = bar ∧ s.objFirst = objs ∧ s.currentTrk = cur ∧
    MatchedOr (HeldAt objs cur B) s.evtFirst

/-- A state between two passes: sound, and with every note-on answered or its
key held by its track. -/
def Compiler.Holding (s : Compiler) : Prop :=
  s.Sound ∧ MatchedOr (Held s.objFirst) s.evtFirst


/-! # Theorems -/

/-! ## Bit-level facts in arithmetic form -/

theorem and_7F (x : Nat) : x &&& 0x7F = x % 128 := Nat.and_pow_two_sub_one_eq_mod x 7

theorem or_80 (g : Nat) (h : g < 128) : g ||| 0x80 = g + 128 := by
  have := Nat.mul_add_lt_is_or (i := 7) (b := g) (by simpa using h) 1
  rw [Nat.or_comm]; simp at this; omega

theorem shl8_or (b c : Nat) (h : c < 256) :
    ((b <<< 8) % 4294967296) ||| c = 256 * (b % 16777216) + c := by
  have := Nat.mul_add_lt_is_or (i := 8) (b := c) (by simpa using h) (b % 16777216)
  rw [Nat.shiftLeft_eq]
  have e : b * 2 ^ 8 % 4294967296 = 2 ^ 8 * (b % 16777216) := by omega
  rw [e, ← this]

theorem and_80 (b : Nat) : (b &&& 0x80 ≠ 0) ↔ 128 ≤ b % 256 := by
  have h : b &&& 0x80 = if (b.testBit 7) then 128 else 0 := by
    apply Nat.eq_of_testBit_eq
    intro i
    rw [Nat.testBit_and, show (0x80 : Nat) = 2 ^ 7 by norm_num, Nat.testBit_two_pow]
    by_cases hi : 7 = i
    · subst hi; cases hb : b.testBit 7 <;> simp
      decide
    · cases hb : b.testBit 7 <;> simp [hi]
      rw [show (128 : Nat) = 2 ^ 7 by norm_num]
      exact Nat.testBit_two_pow_of_ne hi
  rw [h, Nat.testBit_to_div_mod]
  by_cases hb : b / 2 ^ 7 % 2 = 1
  · simp [hb]; omega
  · simp [hb]; omega

theorem memByte_zero (b : Nat) : memByte b 0 = b % 256 := by
  unfold memByte; simp; omega

theorem vlqPack_succ (fuel value buffer : Nat) :
    vlqPack (fuel + 1) value buffer =
      if value / 128 ≠ 0 then
        vlqPack fuel (value / 128) (256 * (buffer % 16777216) + (value / 128 % 128 + 128))
      else buffer := by
  have h7 : value >>> 7 = value / 128 := Nat.shiftRight_eq_div_pow value 7
  simp only [vlqPack, h7, and_7F]
  rw [or_80 _ (by omega), shl8_or _ _ (by omega)]

theorem vlqEmit_succ (fuel : Nat) (buf : BUF) (buffer : Nat) :
    vlqEmit (fuel + 1) buf buffer =
      if 128 ≤ buffer % 256 then vlqEmit fuel (writeBYTE buf (buffer % 256)) (buffer / 256)
      else writeBYTE buf (buffer % 256) := by
  have h8 : buffer >>> 8 = buffer / 256 := Nat.shiftRight_eq_div_pow buffer 8
  simp only [vlqEmit, h8, memByte_zero, and_80]

@[simp] theorem writeBYTE_mem (buf : BUF) (v : Nat) :
    (writeBYTE buf v).mem = buf.mem ++ [v % 256] := rfl

theorem vlqPack_more (fuel value buffer : Nat) (hv : 128 ≤ value) (hb : buffer < 16777216) :
    vlqPack (fuel + 1) value buffer =
      vlqPack fuel (value / 128) (256 * buffer + (value / 128 % 128 + 128)) := by
  rw [vlqPack_succ, if_pos (by omega), Nat.mod_eq_of_lt hb]

theorem vlqPack_stop (fuel value buffer : Nat) (hv : value < 128) :
    vlqPack (fuel + 1) value buffer = buffer := by
  rw [vlqPack_succ, if_neg (by omega)]

theorem vlqEmit_more (fuel : Nat) (buf : BUF) (hi lo : Nat) (h1 : 128 ≤ lo) (h2 : lo < 256) :
    vlqEmit (fuel + 1) buf (256 * hi + lo) = vlqEmit fuel (writeBYTE buf lo) hi := by
  rw [vlqEmit_succ, if_pos (by omega)]
  have e1 : (256 * hi + lo) % 256 = lo := by omega
  have e2 : (256 * hi + lo) / 256 = hi := by omega
  rw [e1, e2]

theorem vlqEmit_stop (fuel : Nat) (buf : BUF) (hi lo : Nat) (h1 : lo < 128) :
    vlqEmit (fuel + 1) buf (256 * hi + lo) = writeBYTE buf lo := by
  rw [vlqEmit_succ, if_neg (by omega)]
  have e1 : (256 * hi + lo) % 256 = lo := by omega
  rw [e1]

theorem writeVLQ_mem (buf : BUF) (x : Nat) (hx : x < 268435456) :
    (writeVLQ buf x).mem = buf.mem ++ vlqBytes x := by
  have hx32 : x % 4294967296 = x := by omega
  have d2 : x / 128 / 128 = x / 16384 := by omega
  have d3 : x / 16384 / 128 = x / 2097152 := by omega
  unfold writeVLQ vlqBytes
  simp only [hx32, and_7F]
  by_cases h1 : x < 128
  · rw [vlqPack_stop _ _ _ h1]
    have := vlqEmit_stop 4 buf 0 (x % 128) (by omega)
    simp only [Nat.mul_zero, Nat.zero_add] at this
    rw [this, if_pos h1]
    simp; omega
  by_cases h2 : x < 16384
  · rw [vlqPack_more _ _ _ (by omega) (by omega), vlqPack_stop _ _ _ (by omega),
      vlqEmit_more _ _ _ _ (by omega) (by omega)]
    have := vlqEmit_stop 3 (writeBYTE buf (x / 128 % 128 + 128)) 0 (x % 128) (by omega)
    simp only [Nat.mul_zero, Nat.zero_add] at this
    rw [this, if_neg h1, if_pos h2]
    simp; omega
  by_cases h3 : x < 2097152
  · rw [vlqPack_more _ _ _ (by omega) (by omega), vlqPack_more _ _ _ (by omega) (by omega),
      vlqPack_stop _ _ _ (by omega),
      vlqEmit_more _ _ _ _ (by omega) (by omega), vlqEmit_more _ _ _ _ (by omega) (by omega)]
    have := vlqEmit_stop 2
      (writeBYTE (writeBYTE buf (x / 128 / 128 % 128 + 128)) (x / 128 % 128 + 128)) 0 (x % 128)
      (by omega)
    simp only [Nat.mul_zero, Nat.zero_add] at this
    rw [this, if_neg h1, if_neg h2, if_pos h3, d2]
    simp; omega
  · rw [vlqPack_more _ _ _ (by omega) (by omega), vlqPack_more _ _ _ (by omega) (by omega),
      vlqPack_more _ _ _ (by omega) (by omega), vlqPack_stop _ _ _ (by omega),
      vlqEmit_more _ _ _ _ (by omega) (by omega), vlqEmit_more _ _ _ _ (by omega) (by omega),
      vlqEmit_more _ _ _ _ (by omega) (by omega)]
    have := vlqEmit_stop 1
      (writeBYTE (writeBYTE (writeBYTE buf (x / 128 / 128 / 128 % 128 + 128))
        (x / 128 / 128 % 128 + 128)) (x / 128 % 128 + 128)) 0 (x % 128) (by omega)
    simp only [Nat.mul_zero, Nat.zero_add] at this
    rw [this, if_neg h1, if_neg h2, if_neg h3, d2, d3]
    simp; omega


/-! ## Fuel of the two `writeVLQ` loops -/

theorem vlqPack_fuel (fuel k value buffer : Nat) (hv : value < 128 ^ fuel) :
    vlqPack (fuel + k) value buffer = vlqPack fuel value buffer := by
  induction fuel generalizing value buffer with
  | zero =>
    have h0 : value = 0 := by simpa using hv
    subst h0
    cases k with
    | zero => rfl
    | succ k => simp [vlqPack]
  | succ n ih =>
    have e : n + 1 + k = (n + k) + 1 := by omega
    rw [e, vlqPack_succ, vlqPack_succ]
    have hlt : value / 128 < 128 ^ n := by
      rw [Nat.div_lt_iff_lt_mul (by norm_num)]
      simpa [Nat.pow_succ] using hv
    rw [ih _ _ hlt]

theorem vlqEmit_fuel (fuel k : Nat) (buf : BUF) (buffer : Nat) (hv : buffer < 128 * 256 ^ fuel) :
    vlqEmit (fuel + 1 + k) buf buffer = vlqEmit (fuel + 1) buf buffer := by
  induction fuel generalizing buf buffer with
  | zero =>
    have e : 0 + 1 + k = k + 1 := by omega
    rw [e, vlqEmit_succ, vlqEmit_succ, if_neg (by omega), if_neg (by omega)]
  | succ n ih =>
    have e : n + 1 + 1 + k = (n + 1 + k) + 1 := by omega
    rw [e, vlqEmit_succ, vlqEmit_succ]
    have hlt : buffer / 256 < 128 * 256 ^ n := by
      rw [Nat.div_lt_iff_lt_mul (by norm_num)]
      have : 128 * 256 ^ (n + 1) = 128 * 256 ^ n * 256 := by ring
      omega
    rw [ih _ _ hlt]

theorem vlqPack_lt (fuel value buffer : Nat) (hb : buffer < 4294967296) :
    vlqPack fuel value buffer < 4294967296 := by
  induction fuel generalizing value buffer with
  | zero => simpa [vlqPack] using hb
  | succ n ih =>
    rw [vlqPack_succ]
    split
    · apply ih; omega
    · exact hb

/-! ## Buffers: what each writer appends -/

theorem writeBYTES_mem (buf : BUF) (data : List Nat) :
    (writeBYTES buf data).mem = buf.mem ++ data.map (fun b => b % 256) := by
  unfold writeBYTES
  induction data generalizing buf with
  | nil => simp
  | cons b bs ih => simp [List.foldl_cons, ih]

theorem map_mod_of_lt (data : List Nat) (h : ∀ b ∈ data, b < 256) :
    data.map (fun b => b % 256) = data := by
  induction data with
  | nil => rfl
  | cons b bs ih =>
    simp only [List.map_cons, List.cons.injEq]
    exact ⟨Nat.mod_eq_of_lt (h b (by simp)), ih (fun c hc => h c (by simp [hc]))⟩

theorem memByte_lt (v i : Nat) : memByte v i < 256 := Nat.mod_lt _ (by norm_num)

theorem memByte_mod (v i : Nat) : memByte v i % 256 = memByte v i :=
  Nat.mod_eq_of_lt (memByte_lt v i)

theorem writeVAL_mem1 (buf : BUF) (v : Nat) :
    (writeVAL buf v 1).mem = buf.mem ++ [memByte v 3] := by
  simp [writeVAL, memByte_mod]

theorem writeVAL_mem2 (buf : BUF) (v : Nat) :
    (writeVAL buf v 2).mem = buf.mem ++ [memByte v 2, memByte v 3] := by
  simp [writeVAL, memByte_mod]

theorem writeVAL_mem3 (buf : BUF) (v : Nat) :
    (writeVAL buf v 3).mem = buf.mem ++ [memByte v 1, memByte v 2, memByte v 3] := by
  simp [writeVAL, memByte_mod]

theorem writeVAL_mem4 (buf : BUF) (v : Nat) :
    (writeVAL buf v 4).mem = buf.mem ++ [memByte v 0, memByte v 1, memByte v 2, memByte v 3] := by
  simp [writeVAL, memByte_mod]

theorem pow32 : (4294967296 : Nat) = 2 ^ 32 := by norm_num
theorem pow8 : (256 : Nat) = 2 ^ 8 := by norm_num
theorem mask16 : (0x00FF0000 : Nat) = (2 ^ 8 - 1) <<< 16 := by decide
theorem mask8 : (0x0000FF00 : Nat) = (2 ^ 8 - 1) <<< 8 := by decide

/-- Byte `k` of the memory image of `swap32 v` is byte `3 - k` of `v`. -/
theorem memByte_swap32 (v k : Nat) (hk : k ≤ 3) :
    memByte (swap32 v) k = (v >>> (8 * (3 - k))) % 256 := by
  apply Nat.eq_of_testBit_eq
  intro i
  unfold memByte swap32
  simp only [pow32, pow8, mask16, mask8, Nat.testBit_mod_two_pow, Nat.testBit_shiftRight,
    Nat.testBit_or, Nat.testBit_and, Nat.testBit_shiftLeft, Nat.testBit_two_pow_sub_one]
  by_cases hi : i < 8
  · have hk' : k = 0 ∨ k = 1 ∨ k = 2 ∨ k = 3 := by omega
    rcases hk' with rfl | rfl | rfl | rfl
    all_goals (interval_cases i <;> simp)
  · simp [hi]

theorem memByte_swap32_0 (v : Nat) : memByte (swap32 v) 0 = v / 16777216 % 256 := by
  rw [memByte_swap32 v 0 (by omega), Nat.shiftRight_eq_div_pow]

theorem memByte_swap32_1 (v : Nat) : memByte (swap32 v) 1 = v / 65536 % 256 := by
  rw [memByte_swap32 v 1 (by omega), Nat.shiftRight_eq_div_pow]

theorem memByte_swap32_2 (v : Nat) : memByte (swap32 v) 2 = v / 256 % 256 := by
  rw [memByte_swap32 v 2 (by omega), Nat.shiftRight_eq_div_pow]

theorem memByte_swap32_3 (v : Nat) : memByte (swap32 v) 3 = v % 256 := by
  rw [memByte_swap32 v 3 (by omega), Nat.shiftRight_eq_div_pow]; simp

/-- `writeVAL(buf, swap32(v), 2)`: the low two bytes of `v`, high byte first. -/
theorem writeVAL_swap32_2 (buf : BUF) (v : Nat) :
    (writeVAL buf (swap32 v) 2).mem = buf.mem ++ [v / 256 % 256, v % 256] := by
  rw [writeVAL_mem2, memByte_swap32_2, memByte_swap32_3]

/-- `writeVAL(buf, swap32(v), 3)`: the low three bytes of `v`, high byte first. -/
theorem writeVAL_swap32_3 (buf : BUF) (v : Nat) :
    (writeVAL buf (swap32 v) 3).mem = buf.mem ++ [v / 65536 % 256, v / 256 % 256, v % 256] := by
  rw [writeVAL_mem3, memByte_swap32_1, memByte_swap32_2, memByte_swap32_3]

/-- `writeVAL(buf, swap32(v), 4)`: the four bytes of `v`, high byte first. -/
theorem writeVAL_swap32_4 (buf : BUF) (v : Nat) :
    (writeVAL buf (swap32 v) 4).mem =
      buf.mem ++ [v / 16777216 % 256, v / 65536 % 256, v / 256 % 256, v % 256] := by
  rw [writeVAL_mem4, memByte_swap32_0, memByte_swap32_1, memByte_swap32_2, memByte_swap32_3]

theorem toDWORD_natCast (n : Nat) : toDWORD (n : Int) = n % 4294967296 := by
  unfold toDWORD
  have : ((n : Int) % 4294967296) = ((n % 4294967296 : Nat) : Int) := by omega
  rw [this, Int.toNat_ofNat]

theorem vlqEmit_mem (fuel : Nat) (buf : BUF) (buffer : Nat) :
    (vlqEmit fuel buf buffer).mem = buf.mem ++ (vlqEmit fuel emptyBUF buffer).mem := by
  induction fuel generalizing buf buffer with
  | zero => simp [vlqEmit, emptyBUF]
  | succ n ih =>
    rw [vlqEmit_succ, vlqEmit_succ]
    split
    · rw [ih, ih (writeBYTE emptyBUF _)]; simp [emptyBUF]
    · simp [emptyBUF]

/-- `writeVLQ` only appends, and what it appends depends on the value alone. -/
theorem writeVLQ_append (buf : BUF) (value : Nat) :
    (writeVLQ buf value).mem = buf.mem ++ vlqOut value := by
  unfold vlqOut writeVLQ
  exact vlqEmit_mem _ _ _

theorem vlqOut_zero : vlqOut 0 = [0] := by decide

/-- The fuel 5 of `writeVLQ` is never used up: more fuel changes nothing. -/
theorem writeVLQ_fuel (k : Nat) (buf : BUF) (value : Nat) :
    vlqEmit (5 + k) buf (vlqPack (5 + k) (value % 4294967296) ((value % 4294967296) &&& 0x7F)) =
      writeVLQ buf value := by
  have hv : value % 4294967296 < 128 ^ 5 := by
    have : value % 4294967296 < 4294967296 := Nat.mod_lt _ (by norm_num)
    norm_num; omega
  have hb : (value % 4294967296) &&& 0x7F < 4294967296 := by rw [and_7F]; omega
  have hp := vlqPack_lt 5 (value % 4294967296) _ hb
  rw [vlqPack_fuel 5 k _ _ hv]
  have hp' : vlqPack 5 (value % 4294967296) ((value % 4294967296) &&& 0x7F) < 128 * 256 ^ 4 := by
    norm_num; omega
  have := vlqEmit_fuel 4 k buf _ hp'
  simpa [writeVLQ] using this

/-! ## SMF assembler -/

theorem writeMTrk_mem (smf trk : BUF) (hb : ∀ b ∈ trk.mem, b < 256) :
    (writeMTrk smf trk).mem = smf.mem ++ mtrkChunk trk.mem := by
  unfold writeMTrk
  simp only []
  have hc : toDWORD ((trk.cnt : Int) + 4) = (trk.mem.length + 4) % 4294967296 := by
    have := toDWORD_natCast (trk.mem.length + 4)
    simpa [BUF.cnt] using this
  have hE : swap32 EVT_EOT = swap32 0xFF2F00 := rfl
  have hM : swap32 EVT_MTRK = swap32 0x4D54726B := rfl
  rw [writeVAL_swap32_3, writeVLQ_append, writeBYTES_mem, writeVAL_swap32_4, writeVAL_swap32_4,
    hc, vlqOut_zero, map_mod_of_lt _ hb]
  simp only [mtrkChunk, EVT_MTRK, EVT_EOT, List.append_assoc]
  have e1 : (trk.mem.length + 4) % 4294967296 / 16777216 % 256
      = (trk.mem.length + 4) / 16777216 % 256 := by omega
  have e2 : (trk.mem.length + 4) % 4294967296 / 65536 % 256
      = (trk.mem.length + 4) / 65536 % 256 := by omega
  have e3 : (trk.mem.length + 4) % 4294967296 / 256 % 256
      = (trk.mem.length + 4) / 256 % 256 := by omega
  have e4 : (trk.mem.length + 4) % 4294967296 % 256 = (trk.mem.length + 4) % 256 := by omega
  rw [e1, e2, e3, e4]
  simp

theorem foldl_writeMTrk_mem (head : List BUF) (smf : BUF)
    (hb : ∀ trk ∈ head, ∀ b ∈ trk.mem, b < 256) :
    (head.foldl writeMTrk smf).mem = smf.mem ++ (head.map (fun trk => mtrkChunk trk.mem)).flatten := by
  induction head generalizing smf with
  | nil => simp
  | cons t ts ih =>
    rw [List.foldl_cons, ih _ (fun trk h => hb trk (by simp [h])),
      writeMTrk_mem _ _ (hb t (by simp))]
    simp

/-- The 14 bytes of the `MThd` chunk written by `newSMF`. -/
theorem newSMF_mem (head : List BUF) (ppqn : Int) (hk : 1 ≤ head.length)
    (hb : ∀ trk ∈ head, ∀ b ∈ trk.mem, b < 256) :
    ∃ smf, newSMF head ppqn = some smf ∧
      smf.mem =
        [0x4D, 0x54, 0x68, 0x64, 0, 0, 0, 6, 0, (if head.length = 1 then 0 else 1),
          head.length / 256 % 256, head.length % 256,
          toDWORD ppqn / 256 % 256, toDWORD ppqn % 256] ++
        (head.map (fun trk => mtrkChunk trk.mem)).flatten := by
  have h1 : ¬ ((getNumTRK head : Int) < 1) := by
    simp only [getNumTRK]; omega
  refine ⟨_, by simp only [newSMF, h1, if_false]; rfl, ?_⟩
  rw [foldl_writeMTrk_mem _ _ hb, writeVAL_swap32_2, writeVAL_swap32_2, writeVAL_swap32_2,
    writeVAL_swap32_4, writeVAL_swap32_4, toDWORD_natCast]
  have hf : toDWORD (if (getNumTRK head : Int) > 1 then 1 else 0) =
      if head.length = 1 then 0 else 1 := by
    by_cases h : head.length = 1
    · simp [getNumTRK, h, toDWORD]
    · have : (head.length : Int) > 1 := by omega
      simp [getNumTRK, h, this, toDWORD]
  rw [hf]
  have e1 : getNumTRK head % 4294967296 / 256 % 256 = head.length / 256 % 256 := by
    simp only [getNumTRK]; omega
  have e2 : getNumTRK head % 4294967296 % 256 = head.length % 256 := by
    simp only [getNumTRK]; omega
  rw [e1, e2]
  by_cases h : head.length = 1 <;> simp [h, emptyBUF, EVT_MTHD]

theorem writeMTrk_prefix (smf trk : BUF) : ∃ r, (writeMTrk smf trk).mem = smf.mem ++ r := by
  unfold writeMTrk
  simp only []
  rw [writeVAL_mem3, writeVLQ_append, writeBYTES_mem, writeVAL_mem4, writeVAL_mem4]
  simp only [List.append_assoc]
  exact ⟨_, rfl⟩

theorem foldl_writeMTrk_prefix (head : List BUF) (smf : BUF) :
    ∃ r, (head.foldl writeMTrk smf).mem = smf.mem ++ r := by
  induction head generalizing smf with
  | nil => exact ⟨[], by simp⟩
  | cons t ts ih =>
    obtain ⟨r1, h1⟩ := writeMTrk_prefix smf t
    obtain ⟨r2, h2⟩ := ih (writeMTrk smf t)
    exact ⟨r1 ++ r2, by rw [List.foldl_cons, h2, h1, List.append_assoc]⟩

/-- The `MThd` chunk of `newSMF`, whatever the track bodies hold. -/
theorem newSMF_prefix (head : List BUF) (ppqn : Int) (hk : 1 ≤ head.length) :
    ∃ smf r, newSMF head ppqn = some smf ∧
      smf.mem =
        [0x4D, 0x54, 0x68, 0x64, 0, 0, 0, 6, 0, (if head.length = 1 then 0 else 1),
          head.length / 256 % 256, head.length % 256,
          toDWORD ppqn / 256 % 256, toDWORD ppqn % 256] ++ r := by
  have h1 : ¬ ((getNumTRK head : Int) < 1) := by
    simp only [getNumTRK]; omega
  obtain ⟨r, hr⟩ := foldl_writeMTrk_prefix head
    (writeVAL (writeVAL (writeVAL (writeVAL (writeVAL emptyBUF (swap32 EVT_MTHD) 4) (swap32 6) 4)
      (swap32 (toDWORD (if (getNumTRK head : Int) > 1 then 1 else 0))) 2)
      (swap32 (toDWORD (getNumTRK head : Int))) 2) (swap32 (toDWORD ppqn)) 2)
  refine ⟨_, r, by simp only [newSMF, h1, if_false]; rfl, ?_⟩
  rw [hr, writeVAL_swap32_2, writeVAL_swap32_2, writeVAL_swap32_2,
    writeVAL_swap32_4, writeVAL_swap32_4, toDWORD_natCast]
  have hf : toDWORD (if (getNumTRK head : Int) > 1 then 1 else 0) =
      if head.length = 1 then 0 else 1 := by
    by_cases h : head.length = 1
    · simp [getNumTRK, h, toDWORD]
    · have : (head.length : Int) > 1 := by omega
      simp [getNumTRK, h, this, toDWORD]
  rw [hf]
  have e1 : getNumTRK head % 4294967296 / 256 % 256 = head.length / 256 % 256 := by
    simp only [getNumTRK]; omega
  have e2 : getNumTRK head % 4294967296 % 256 = head.length % 256 := by
    simp only [getNumTRK]; omega
  rw [e1, e2]
  by_cases h : head.length = 1 <;> simp [h, emptyBUF, EVT_MTHD]

/-! ## Claims on the SMF assembler and the byte writers -/

/-- C1: for a track list of `k` tracks, `1 ≤ k ≤ 65535`, and a `ppqn` in
`0..65535`, `newSMF` returns a buffer whose first 14 bytes are `4D 54 68 64`,
`00 00 00 06`, the big-endian format (0 if `k = 1`, else 1), the big-endian
track count `k` and the big-endian `ppqn`. -/
theorem newSMF_header (head : List BUF) (ppqn : Nat)
    (hk : 1 ≤ head.length) (hk2 : head.length ≤ 65535) (hp : ppqn ≤ 65535) :
    ∃ smf, newSMF head (ppqn : Int) = some smf ∧
      smf.mem.take 14 =
        [0x4D, 0x54, 0x68, 0x64, 0x00, 0x00, 0x00, 0x06,
         0x00, (if head.length = 1 then 0 else 1),
         head.length / 256, head.length % 256, ppqn / 256, ppqn % 256] := by
  obtain ⟨smf, r, hs, hm⟩ := newSMF_prefix head (ppqn : Int) hk
  refine ⟨smf, hs, ?_⟩
  rw [hm, toDWORD_natCast]
  have e1 : head.length / 256 % 256 = head.length / 256 := by omega
  have e2 : ppqn % 4294967296 / 256 % 256 = ppqn / 256 := by omega
  have e3 : ppqn % 4294967296 % 256 = ppqn % 256 := by omega
  rw [e1, e2, e3]
  simp

/-- Witness of C1: one track and `ppqn` 96. -/
theorem newSMF_header_witness :
    1 ≤ [BUF.mk [0x00, 0xB0, 0x7B, 0x00] 16].length ∧
    [BUF.mk [0x00, 0xB0, 0x7B, 0x00] 16].length ≤ 65535 ∧ 96 ≤ 65535 ∧
    ∃ smf, newSMF [BUF.mk [0x00, 0xB0, 0x7B, 0x00] 16] ((96 : Nat) : Int) = some smf ∧
      smf.mem.take 14 =
        [0x4D, 0x54, 0x68, 0x64, 0x00, 0x00, 0x00, 0x06,
         0x00, (if [BUF.mk [0x00, 0xB0, 0x7B, 0x00] 16].length = 1 then 0 else 1),
         [BUF.mk [0x00, 0xB0, 0x7B, 0x00] 16].length / 256,
         [BUF.mk [0x00, 0xB0, 0x7B, 0x00] 16].length % 256, 96 / 256, 96 % 256] :=
  ⟨by decide, by decide, by decide,
    newSMF_header [BUF.mk [0x00, 0xB0, 0x7B, 0x00] 16] 96 (by decide) (by decide) (by decide)⟩

/-- C2: for a non-empty track list whose bodies hold bytes, `newSMF` returns
the 14-byte header followed by exactly one chunk per track, in list order from
`head`: `4D 54 72 6B`, the 4-byte big-endian value `n + 4`, the `n` body bytes
unchanged, then `00 FF 2F 00`; the length of the file is 14 plus the sum over
the tracks of `n + 12`. -/
theorem newSMF_chunks (head : List BUF) (ppqn : Int)
    (hb : ∀ trk ∈ head, ∀ b ∈ trk.mem, b < 256) (hk : 1 ≤ head.length) :
    ∃ smf, newSMF head ppqn = some smf ∧
      (smf.mem.take 14).length = 14 ∧
      smf.mem.drop 14 =
        (head.map (fun trk =>
          [0x4D, 0x54, 0x72, 0x6B] ++
          [(trk.mem.length + 4) / 16777216 % 256, (trk.mem.length + 4) / 65536 % 256,
           (trk.mem.length + 4) / 256 % 256, (trk.mem.length + 4) % 256] ++
          trk.mem ++ [0x00, 0xFF, 0x2F, 0x00])).flatten ∧
      smf.mem.length = 14 + (head.map (fun trk => trk.mem.length + 12)).sum := by
  obtain ⟨smf, hs, hm⟩ := newSMF_mem head ppqn hk hb
  refine ⟨smf, hs, ?_, ?_, ?_⟩
  · rw [hm]; simp
  · rw [hm]; simp [mtrkChunk]
  · rw [hm]
    have hl : ∀ l : List BUF, ((l.map (fun trk => mtrkChunk trk.mem)).flatten).length =
        (l.map (fun trk => trk.mem.length + 12)).sum := by
      intro l
      induction l with
      | nil => rfl
      | cons t ts ih =>
        simp only [List.map_cons, List.flatten_cons, List.length_append, List.sum_cons, ih]
        simp [mtrkChunk]
    rw [List.length_append, hl]; simp

/-- Witness of C2: two tracks of 4 and 1 bytes. -/
theorem newSMF_chunks_witness :
    (∀ trk ∈ [BUF.mk [0x00, 0x90, 0x3C, 0x7F] 16, BUF.mk [0x09] 16], ∀ b ∈ trk.mem, b < 256) ∧
    1 ≤ [BUF.mk [0x00, 0x90, 0x3C, 0x7F] 16, BUF.mk [0x09] 16].length ∧
    ∃ smf, newSMF [BUF.mk [0x00, 0x90, 0x3C, 0x7F] 16, BUF.mk [0x09] 16] 96 = some smf ∧
      (smf.mem.take 14).length = 14 ∧
      smf.mem.drop 14 =
        ([BUF.mk [0x00, 0x90, 0x3C, 0x7F] 16, BUF.mk [0x09] 16].map (fun trk =>
          [0x4D, 0x54, 0x72, 0x6B] ++
          [(trk.mem.length + 4) / 16777216 % 256, (trk.mem.length + 4) / 65536 % 256,
           (trk.mem.length + 4) / 256 % 256, (trk.mem.length + 4) % 256] ++
          trk.mem ++ [0x00, 0xFF, 0x2F, 0x00])).flatten ∧
      smf.mem.length = 14 +
        ([BUF.mk [0x00, 0x90, 0x3C, 0x7F] 16, BUF.mk [0x09] 16].map
          (fun trk => trk.mem.length + 12)).sum :=
  ⟨by decide, by decide,
    newSMF_chunks [BUF.mk [0x00, 0x90, 0x3C, 0x7F] 16, BUF.mk [0x09] 16] 96 (by decide)
      (by decide)⟩

/-- C3: `newTRK` puts every new track in front of the list and `newSMF` walks
the list from its front, so the chunks come out in the reverse of the order of
creation. Track t1 is created and receives the byte `11`, then track t2 is
created and receives the byte `22`: the file holds the chunk of t2 first and
the chunk of t1, the first track created, last. -/
theorem newSMF_emits_last_created_first :
    (((newTRK []).bind fun head =>
      (onMtrk head (fun t1 => some (writeBYTE t1 0x11))).bind fun head =>
      (newTRK head).bind fun head =>
      (onMtrk head (fun t2 => some (writeBYTE t2 0x22))).bind fun head =>
      newSMF head 96).map fun smf => smf.mem) =
    some ([0x4D, 0x54, 0x68, 0x64, 0, 0, 0, 6, 0, 1, 0, 2, 0, 96] ++
          [0x4D, 0x54, 0x72, 0x6B, 0, 0, 0, 5, 0x22, 0x00, 0xFF, 0x2F, 0x00] ++
          [0x4D, 0x54, 0x72, 0x6B, 0, 0, 0, 5, 0x11, 0x00, 0xFF, 0x2F, 0x00]) := by
  decide

/-- C4: for `x` in `0..0x0FFFFFFF`, `writeVLQ` appends between 1 and 4 bytes,
every byte but the last has its top bit set, the last has it clear, and the
standard decoder reads `x` back from them and stops exactly behind them. -/
theorem writeVLQ_roundtrip (buf : BUF) (x : Nat) (rest : List Nat) (hx : x ≤ 0x0FFFFFFF) :
    ∃ bytes : List Nat,
      (writeVLQ buf x).mem = buf.mem ++ bytes ∧
      1 ≤ bytes.length ∧ bytes.length ≤ 4 ∧
      (∀ b ∈ bytes.dropLast, 128 ≤ b ∧ b < 256) ∧
      (∀ b ∈ bytes.getLast?, b < 128) ∧
      readVLQ (bytes ++ rest) = some (x, rest) := by
  have hx' : x < 268435456 := by omega
  refine ⟨vlqBytes x, writeVLQ_mem buf x hx', ?_⟩
  unfold vlqBytes
  have hm : ¬ 128 ≤ x % 128 := by omega
  by_cases h1 : x < 128
  · have h0 : ¬ 128 ≤ x := by omega
    simp [h1, readVLQ, readVLQ.go, h0, Nat.mod_eq_of_lt h1]
  by_cases h2 : x < 16384
  · simp [h1, h2, readVLQ, readVLQ.go, hm]; omega
  by_cases h3 : x < 2097152
  · simp [h1, h2, h3, readVLQ, readVLQ.go, hm]; omega
  · simp [h1, h2, h3, readVLQ, readVLQ.go, hm]; omega

/-- Witness of C4: the two-byte quantity 192, followed by other bytes. -/
theorem writeVLQ_roundtrip_witness :
    192 ≤ 0x0FFFFFFF ∧
    ∃ bytes : List Nat,
      (writeVLQ emptyBUF 192).mem = emptyBUF.mem ++ bytes ∧
      1 ≤ bytes.length ∧ bytes.length ≤ 4 ∧
      (∀ b ∈ bytes.dropLast, 128 ≤ b ∧ b < 256) ∧
      (∀ b ∈ bytes.getLast?, b < 128) ∧
      readVLQ (bytes ++ [0x90, 0x3C]) = some (192, [0x90, 0x3C]) :=
  ⟨by decide, writeVLQ_roundtrip emptyBUF 192 [0x90, 0x3C] (by decide)⟩

/-- C5, as stated, fails: `writeVAL` copies the memory image of its argument,
so `writeVAL(buf, 0x01020304, 4)` appends `04 03 02 01`, not `01 02 03 04`. -/
theorem writeVAL_not_big_endian :
    (writeVAL emptyBUF 0x01020304 4).mem = [0x04, 0x03, 0x02, 0x01] ∧
    (writeVAL emptyBUF 0x01020304 4).mem ≠ [0x01, 0x02, 0x03, 0x04] := by
  decide

/-- C5, amended: for a 32-bit `v` and `n` in `1..4`, `writeVAL(buf, v, n)`
appends exactly `n` bytes, the bytes at offsets `4 - n .. 3` of the
little-endian memory image of `v` (byte `i` of the image is `v / 256 ^ i % 256`),
that is the high `n` bytes of `v`, least significant first. It is the
composition with `swap32`, the way the callers use it, that appends the low
`n` bytes of `v` most significant first. -/
theorem writeVAL_memory_order (buf : BUF) (v n : Nat) (hv : v < 4294967296)
    (h1 : 1 ≤ n) (h4 : n ≤ 4) :
    (writeVAL buf v (n : Int)).mem =
      buf.mem ++ (List.range' (4 - n) n).map (fun i => v / 256 ^ i % 256) ∧
    (writeVAL buf (swap32 v) (n : Int)).mem =
      buf.mem ++ (List.range n).reverse.map (fun i => v / 256 ^ i % 256) := by
  have hm : ∀ w i, w < 4294967296 → memByte w i = w / 256 ^ i % 256 := by
    intro w i hw
    unfold memByte
    rw [Nat.mod_eq_of_lt hw, Nat.shiftRight_eq_div_pow, pow8, ← Nat.pow_mul, Nat.mul_comm]
  have hn : n = 1 ∨ n = 2 ∨ n = 3 ∨ n = 4 := by omega
  rcases hn with rfl | rfl | rfl | rfl
  · refine ⟨?_, ?_⟩
    · rw [show ((1 : Nat) : Int) = 1 from rfl, writeVAL_mem1, hm v 3 hv]; rfl
    · rw [show ((1 : Nat) : Int) = 1 from rfl, writeVAL_mem1, memByte_swap32_3]
      simp [List.range_succ]
  · refine ⟨?_, ?_⟩
    · rw [show ((2 : Nat) : Int) = 2 from rfl, writeVAL_mem2, hm v 2 hv, hm v 3 hv]; rfl
    · rw [show ((2 : Nat) : Int) = 2 from rfl, writeVAL_swap32_2]
      simp [List.range_succ]
  · refine ⟨?_, ?_⟩
    · rw [show ((3 : Nat) : Int) = 3 from rfl, writeVAL_mem3, hm v 1 hv, hm v 2 hv, hm v 3 hv]
      rfl
    · rw [show ((3 : Nat) : Int) = 3 from rfl, writeVAL_swap32_3]
      simp [List.range_succ]
  · refine ⟨?_, ?_⟩
    · rw [show ((4 : Nat) : Int) = 4 from rfl, writeVAL_mem4, hm v 0 hv, hm v 1 hv, hm v 2 hv,
        hm v 3 hv]
      rfl
    · rw [show ((4 : Nat) : Int) = 4 from rfl, writeVAL_swap32_4]
      simp [List.range_succ]

/-- Witness of C5: three bytes of `0x01020304`. -/
theorem writeVAL_memory_order_witness :
    0x01020304 < 4294967296 ∧ 1 ≤ 3 ∧ 3 ≤ 4 ∧
    ((writeVAL emptyBUF 0x01020304 ((3 : Nat) : Int)).mem =
      emptyBUF.mem ++ (List.range' (4 - 3) 3).map (fun i => 0x01020304 / 256 ^ i % 256) ∧
    (writeVAL emptyBUF (swap32 0x01020304) ((3 : Nat) : Int)).mem =
      emptyBUF.mem ++ (List.range 3).reverse.map (fun i => 0x01020304 / 256 ^ i % 256)) :=
  ⟨by decide, by decide, by decide,
    writeVAL_memory_order emptyBUF 0x01020304 3 (by decide) (by decide) (by decide)⟩

/-- C7: for `microsec` in `0..0xFFFFFF`, `writeTMP` appends exactly the seven
bytes `00 FF 51 03` and the three bytes of `microsec`, most significant first. -/
theorem writeTMP_bytes (trk : BUF) (microsec : Nat) (h : microsec ≤ 0xFFFFFF) :
    (writeTMP trk (microsec : Int)).mem =
      trk.mem ++ [0x00, 0xFF, 0x51, 0x03,
        microsec / 65536, microsec / 256 % 256, microsec % 256] := by
  unfold writeTMP
  simp only []
  rw [writeVAL_swap32_3, writeVAL_swap32_3, writeVLQ_append, vlqOut_zero, toDWORD_natCast]
  have e1 : microsec % 4294967296 / 65536 % 256 = microsec / 65536 := by omega
  have e2 : microsec % 4294967296 / 256 % 256 = microsec / 256 % 256 := by omega
  have e3 : microsec % 4294967296 % 256 = microsec % 256 := by omega
  rw [e1, e2, e3]
  simp [EVT_TMP]

/-- Witness of C7: 500000 microseconds, the tempo of 120 bpm. -/
theorem writeTMP_bytes_witness :
    500000 ≤ 0xFFFFFF ∧
    (writeTMP emptyBUF ((500000 : Nat) : Int)).mem =
      emptyBUF.mem ++ [0x00, 0xFF, 0x51, 0x03,
        500000 / 65536, 500000 / 256 % 256, 500000 % 256] :=
  ⟨by decide, writeTMP_bytes emptyBUF 500000 (by decide)⟩

/-! ## Track writer: what each event appends -/

theorem writeMSG_mem (trk : BUF) (timediv : Int) (status data1 data2 : Nat) :
    (writeMSG trk timediv status data1 data2).mem =
      trk.mem ++ vlqOut (toDWORD timediv) ++ [status % 256, data1 % 256] ++
        (if (status % 256) &&& 0xF0 = 0xC0 ∨ (status % 256) &&& 0xF0 = 0xD0 then []
         else [data2 % 256]) := by
  unfold writeMSG
  by_cases hc : (status % 256) &&& 0xF0 = 0xC0
  · simp [hc, writeVLQ_append]
  · by_cases hd : (status % 256) &&& 0xF0 = 0xD0
    · simp [hc, hd, writeVLQ_append]
    · simp [hc, hd, writeVLQ_append]

theorem writeTMP_mem (trk : BUF) (microsec : Int) :
    (writeTMP trk microsec).mem =
      trk.mem ++ [0x00, 0xFF, 0x51, 0x03, toDWORD microsec / 65536 % 256,
        toDWORD microsec / 256 % 256, toDWORD microsec % 256] := by
  unfold writeTMP
  simp only []
  rw [writeVAL_swap32_3, writeVAL_swap32_3, writeVLQ_append, vlqOut_zero]
  simp [EVT_TMP]

theorem writeMTA_mem (trk : BUF) (type : Nat) (data : List Nat) (hd : data ≠ [])
    (hb : ∀ b ∈ data, b < 256) :
    (writeMTA trk (type : Int) data).mem =
      trk.mem ++ [0x00, type / 256 % 256, type % 256] ++ vlqOut data.length ++ data := by
  unfold writeMTA
  have hl : data.length ≠ 0 := by simpa using hd
  simp only [hl, ne_eq, not_false_eq_true, if_true]
  rw [writeBYTES_mem, writeVLQ_append, writeVAL_swap32_2, writeVLQ_append, vlqOut_zero,
    toDWORD_natCast, map_mod_of_lt _ hb]
  have e1 : type % 4294967296 / 256 % 256 = type / 256 % 256 := by omega
  have e2 : type % 4294967296 % 256 = type % 256 := by omega
  rw [e1, e2]
  simp

theorem writeMidiEvent_mem (evt : smsEvent) (songTime : Int) (mtrk : BUF) :
    (writeMidiEvent evt songTime mtrk).mem = mtrk.mem ++ eventBytes songTime evt := by
  unfold eventBytes writeMidiEvent
  by_cases h : evt.bpm > 0
  · simp only [h, if_true, writeTMP_mem]
    simp [emptyBUF]
  · simp only [h, if_false, writeMSG_mem]
    simp [emptyBUF]

theorem strcmp_self (a : List Nat) : strcmp a a = 0 := by
  induction a with
  | nil => rfl
  | cons x xs ih => simp [strcmp, ih]

theorem strcmp_eq_zero (a b : List Nat) : strcmp a b = 0 ↔ a = b := by
  constructor
  · intro h
    induction a generalizing b with
    | nil =>
      cases b with
      | nil => rfl
      | cons y ys => simp [strcmp] at h
    | cons x xs ih =>
      cases b with
      | nil => simp [strcmp] at h
      | cons y ys =>
        simp only [strcmp] at h
        by_cases h1 : x < y
        · simp [h1] at h
        · by_cases h2 : x > y
          · simp [h1, h2] at h
          · simp only [h1, h2, if_false] at h
            have : x = y := by omega
            rw [this, ih ys h]
  · intro h
    rw [h]
    exact strcmp_self b

/-! ## Tempo -/

/-- On the range of the `bpm` parameter, the tempo written is the quotient
`60000000 / bpm` rounded down, except at 151, where single precision rounds
`397350.9934` up to `397351`. -/
theorem floatMicros_range (bpm : Int) (h1 : 30 ≤ bpm) (h2 : bpm ≤ 240) :
    floatMicros bpm = if bpm = 151 then 397351 else 60000000 / bpm := by
  interval_cases bpm <;> decide

/-! ## The track loop of `parser_createMidi` -/

theorem toBYTE_mod (i : Int) : toBYTE i % 256 = toBYTE i := by
  unfold toBYTE
  have h : (i % 256).toNat < 256 := by omega
  exact Nat.mod_eq_of_lt h

theorem status_bank (chn : Int) (h0 : 0 ≤ chn) (h1 : chn ≤ 15) :
    ¬ (toBYTE (0xB0 + chn) &&& 0xF0 = 0xC0 ∨ toBYTE (0xB0 + chn) &&& 0xF0 = 0xD0) := by
  interval_cases chn <;> decide

theorem status_prg (chn : Int) (h0 : 0 ≤ chn) (h1 : chn ≤ 15) :
    toBYTE (0xC0 + chn) &&& 0xF0 = 0xC0 := by
  interval_cases chn <;> decide

theorem toDWORD_zero : toDWORD 0 = 0 := by decide

theorem cpr_bytes : ∀ b ∈ cstr "(c) ma.ke. 2024", b < 256 := by decide

theorem prg_bytes : ∀ b ∈ cstr "created with HIDCAM-SMS", b < 256 := by decide

theorem cpr_len : (cstr "(c) ma.ke. 2024").length = 15 := by decide

theorem prg_len : (cstr "created with HIDCAM-SMS").length = 23 := by decide

theorem vlqOut_15 : vlqOut 15 = [15] := by decide

theorem vlqOut_23 : vlqOut 23 = [23] := by decide

theorem trackOpen_mem (strk : smsTrack) (trkname : List Nat) (mtrk : BUF)
    (hn : trkname ≠ []) (hb : ∀ b ∈ trkname, b < 256) (hg : GoodTrack strk) :
    (writeMSG (writeMSG (writeMTA mtrk EVT_DEV trkname) 0 (toBYTE (0xB0 + strk.chn)) 0
      (toBYTE strk.bnk)) 0 (toBYTE (0xC0 + strk.chn)) (toBYTE strk.prg) 0).mem =
      mtrk.mem ++ trackMetas strk trkname := by
  obtain ⟨c0, c1, _, _, _, _⟩ := hg
  rw [writeMSG_mem, writeMSG_mem, writeMTA_mem _ _ _ hn hb, toDWORD_zero, vlqOut_zero]
  simp only [toBYTE_mod, status_bank strk.chn c0 c1, status_prg strk.chn c0 c1, if_false, if_true,
    true_or]
  simp [trackMetas, EVT_DEV]

theorem newMidiTrack_mem (sms : smsHeader) (strk : smsTrack) (i : Nat) (trkname : List Nat)
    (hn : trkname ≠ []) (hb : ∀ b ∈ trkname, b < 256) (hg : GoodTrack strk)
    (hbpm : sms.bpm ≠ 0) :
    ∃ t, newMidiTrack sms strk i trkname emptyBUF = some t ∧
      t.mem = (if i = 0 then globalMetas (toDWORD (floatMicros sms.bpm)) else []) ++
        trackMetas strk trkname := by
  unfold newMidiTrack
  by_cases hi : i = 0
  · simp only [hi, if_true, tempoMicros, hbpm, if_false, Option.map_some']
    refine ⟨_, rfl, ?_⟩
    rw [trackOpen_mem _ _ _ hn hb hg, writeMTA_mem _ _ _ (by decide) prg_bytes,
      writeMTA_mem _ _ _ (by decide) cpr_bytes, writeTMP_mem]
    rw [cpr_len, prg_len, vlqOut_15, vlqOut_23]
    simp [globalMetas, emptyBUF, EVT_CPR, EVT_PRG]
  · simp only [hi, if_false, Option.map_some']
    refine ⟨_, rfl, ?_⟩
    rw [trackOpen_mem _ _ _ hn hb hg]
    simp [emptyBUF]

theorem splitRuns_same (last : List Nat) (e : smsEvent) (es : List smsEvent)
    (h : e.trkname = last) :
    splitRuns last (e :: es) = (e :: (splitRuns e.trkname es).1, (splitRuns e.trkname es).2) := by
  simp [splitRuns, h]

theorem splitRuns_new (last : List Nat) (e : smsEvent) (es : List smsEvent)
    (h : e.trkname ≠ last) :
    splitRuns last (e :: es) = ([], runs (e :: es)) := by
  simp [splitRuns, runs, h]

theorem createMidiEvent_same (sms : smsHeader) (getObject : List Nat → Option smsTrack)
    (i : Nat) (e : smsEvent) (st : MidiState) (cur : BUF) (older : List BUF)
    (h : e.trkname = st.last) (hhead : st.head = cur :: older) :
    createMidiEvent sms getObject i e st =
      some { st with head := writeMidiEvent e st.songTime cur :: older,
                     songTime := e.time, last := e.trkname } := by
  have hc : strcmp st.last e.trkname = 0 := (strcmp_eq_zero _ _).2 h.symm
  simp [createMidiEvent, hc, hhead, onMtrk]

theorem createMidiEvent_new (sms : smsHeader) (getObject : List Nat → Option smsTrack)
    (i : Nat) (e : smsEvent) (st : MidiState) (strk : smsTrack)
    (h : e.trkname ≠ st.last) (hs : getObject e.trkname = some strk)
    (hlen : st.head.length < 65535)
    (hn : e.trkname ≠ []) (hb : ∀ b ∈ e.trkname, b < 256) (hg : GoodTrack strk)
    (hbpm : sms.bpm ≠ 0) :
    ∃ t : BUF,
      t.mem = (if i = 0 then globalMetas (toDWORD (floatMicros sms.bpm)) else []) ++
        trackMetas strk e.trkname ∧
      createMidiEvent sms getObject i e st =
        some { head := writeMidiEvent e 0 t :: st.head, last := e.trkname,
               songTime := e.time, cntTrk := st.cntTrk + 1 } := by
  have hc : strcmp st.last e.trkname ≠ 0 := fun hz => h ((strcmp_eq_zero _ _).1 hz).symm
  obtain ⟨t, ht, hm⟩ := newMidiTrack_mem sms strk i e.trkname hn hb hg hbpm
  refine ⟨t, hm, ?_⟩
  have hnew : newTRK st.head = some (emptyBUF :: st.head) := by
    simp only [newTRK, getNumTRK]
    rw [if_neg]; omega
  simp [createMidiEvent, hc, hs, hnew, onMtrk, ht]

/-- The track loop from an event index `i ≥ 1` on, with `cur` the track being
written: the events that continue it are appended to it, every later run opens
a track of its own in front of the list. -/
theorem createMidiLoop_runs (sms : smsHeader) (getObject : List Nat → Option smsTrack)
    (hbpm : sms.bpm ≠ 0) (es : List smsEvent) :
    ∀ (i : Nat) (st : MidiState) (cur : BUF) (older : List BUF),
      1 ≤ i → st.head = cur :: older →
      (∀ e ∈ es, GoodEvent getObject e) →
      older.length + 1 + (splitRuns st.last es).2.length ≤ 65535 →
      ∃ st', createMidiLoop sms getObject i es st = some st' ∧
        st'.head.map BUF.mem =
          ((splitRuns st.last es).2.map (trackBytes getObject)).reverse ++
            (cur.mem ++ runBytes st.songTime (splitRuns st.last es).1) :: older.map BUF.mem := by
  induction es with
  | nil =>
    intro i st cur older _ hhead _ _
    exact ⟨st, rfl, by simp [splitRuns, runBytes, hhead]⟩
  | cons e es ih =>
    intro i st cur older hi hhead hgood hcnt
    obtain ⟨hn, hb, strk, hs, hg⟩ := hgood e (List.mem_cons_self _ _)
    have hgood' : ∀ e' ∈ es, GoodEvent getObject e' :=
      fun e' h => hgood e' (List.mem_cons_of_mem _ h)
    by_cases hsame : e.trkname = st.last
    · rw [splitRuns_same _ _ _ hsame] at hcnt ⊢
      obtain ⟨st', hl, hm⟩ := ih (i + 1)
        { st with head := writeMidiEvent e st.songTime cur :: older,
                  songTime := e.time, last := e.trkname }
        (writeMidiEvent e st.songTime cur) older (by omega) rfl hgood' hcnt
      refine ⟨st', ?_, ?_⟩
      · simp only [createMidiLoop, createMidiEvent_same sms getObject i e st cur older hsame hhead,
          Option.some_bind]
        exact hl
      · rw [hm, writeMidiEvent_mem]
        simp [runBytes]
    · rw [splitRuns_new _ _ _ hsame] at hcnt ⊢
      have hlen : st.head.length < 65535 := by
        rw [hhead]; simp only [runs, List.length_cons] at hcnt ⊢; omega
      obtain ⟨t, htm, hev⟩ :=
        createMidiEvent_new sms getObject i e st strk hsame hs hlen hn hb hg hbpm
      have hi0 : i ≠ 0 := by omega
      simp only [hi0, if_false, List.nil_append] at htm
      obtain ⟨st', hl, hm⟩ := ih (i + 1)
        { head := writeMidiEvent e 0 t :: st.head, last := e.trkname,
          songTime := e.time, cntTrk := st.cntTrk + 1 }
        (writeMidiEvent e 0 t) st.head (by omega) rfl hgood'
        (by rw [hhead]; simp only [runs, List.length_cons] at hcnt ⊢; omega)
      refine ⟨st', ?_, ?_⟩
      · simp only [createMidiLoop, hev, Option.some_bind]
        exact hl
      · rw [hm, writeMidiEvent_mem, htm, hhead]
        simp [runs, trackBytes, hs, runBytes]

theorem mem_qsort (events : List smsEvent) (e : smsEvent) : e ∈ qsort events ↔ e ∈ events :=
  (List.perm_insertionSort _ events).mem_iff

/-- The tracks `parser_createMidi` builds, in the order of their creation: one
per run of the sorted event list, the first one with the three global metas. -/
theorem createTracks_runs (sms : smsHeader) (getObject : List Nat → Option smsTrack)
    (events : List smsEvent) (hbpm : sms.bpm ≠ 0)
    (hgood : ∀ e ∈ events, GoodEvent getObject e)
    (hfirst : ∀ e ∈ (qsort events).head?, e.trkname ≠ cstr "SMS")
    (hcnt : (runs (qsort events)).length ≤ 65535) :
    ∃ head, createTracks sms getObject events = some head ∧
      head.reverse.map BUF.mem =
        match runs (qsort events) with
        | [] => []
        | first :: rest =>
          (globalMetas (toDWORD (floatMicros sms.bpm)) ++ trackBytes getObject first) ::
            rest.map (trackBytes getObject) := by
  have hgood' : ∀ e ∈ qsort events, GoodEvent getObject e :=
    fun e h => hgood e ((mem_qsort events e).1 h)
  unfold createTracks
  generalize qsort events = L at hgood' hfirst hcnt ⊢
  cases L with
  | nil => exact ⟨[], rfl, rfl⟩
  | cons e es =>
    obtain ⟨hn, hb, strk, hs, hg⟩ := hgood' e (List.mem_cons_self _ _)
    have hne : e.trkname ≠ cstr "SMS" := hfirst e (by simp)
    obtain ⟨t, htm, hev⟩ := createMidiEvent_new sms getObject 0 e
      { head := [], last := cstr "SMS", songTime := 0, cntTrk := 0 } strk hne hs (by simp) hn hb
      hg hbpm
    obtain ⟨st', hl, hm⟩ := createMidiLoop_runs sms getObject hbpm es 1
      { head := [writeMidiEvent e 0 t], last := e.trkname, songTime := e.time, cntTrk := 0 + 1 }
      (writeMidiEvent e 0 t) [] (by omega) rfl
      (fun e' h => hgood' e' (List.mem_cons_of_mem _ h))
      (by simp only [runs, List.length_cons, List.length_nil] at hcnt ⊢; omega)
    refine ⟨st'.head, ?_, ?_⟩
    · simp only [createMidiLoop, hev, Option.some_bind]
      exact congrArg (Option.map fun st => st.head) hl
    · rw [List.map_reverse, hm, writeMidiEvent_mem, htm]
      simp [runs, trackBytes, hs, runBytes]

theorem splitRuns_mem (es : List smsEvent) :
    ∀ last : List Nat,
      (∀ x ∈ (splitRuns last es).1, x ∈ es) ∧
      (∀ r ∈ (splitRuns last es).2, (∃ e t, r = e :: t) ∧ ∀ x ∈ r, x ∈ es) := by
  induction es with
  | nil => intro last; simp [splitRuns]
  | cons e es ih =>
    intro last
    obtain ⟨h1, h2⟩ := ih e.trkname
    by_cases hs : e.trkname = last
    · rw [splitRuns_same _ _ _ hs]
      refine ⟨?_, ?_⟩
      · intro x hx
        rcases List.mem_cons.1 hx with rfl | hx
        · simp
        · exact List.mem_cons_of_mem _ (h1 x hx)
      · intro r hr
        obtain ⟨hne, hm⟩ := h2 r hr
        exact ⟨hne, fun x hx => List.mem_cons_of_mem _ (hm x hx)⟩
    · rw [splitRuns_new _ _ _ hs]
      refine ⟨by simp, ?_⟩
      intro r hr
      simp only [runs, List.mem_cons] at hr
      rcases hr with rfl | hr
      · refine ⟨⟨e, _, rfl⟩, ?_⟩
        intro x hx
        rcases List.mem_cons.1 hx with rfl | hx
        · simp
        · exact List.mem_cons_of_mem _ (h1 x hx)
      · obtain ⟨hne, hm⟩ := h2 r hr
        exact ⟨hne, fun x hx => List.mem_cons_of_mem _ (hm x hx)⟩

theorem runs_mem (es : List smsEvent) :
    ∀ r ∈ runs es, (∃ e t, r = e :: t) ∧ ∀ x ∈ r, x ∈ es := by
  cases es with
  | nil => simp [runs]
  | cons e es =>
    have h := (splitRuns_mem (e :: es) (e.trkname ++ [0])).2
    have hne : e.trkname ≠ e.trkname ++ [0] := by
      intro h
      have := congrArg List.length h
      simp at this
    rw [splitRuns_new _ _ _ hne] at h
    exact h

theorem toDWORD_floatMicros (bpm : Int) (h1 : 30 ≤ bpm) (h2 : bpm ≤ 240) :
    toDWORD (floatMicros bpm) = if bpm = 151 then 397351 else (60000000 / bpm).toNat := by
  rw [floatMicros_range bpm h1 h2]
  by_cases h : bpm = 151
  · simp [h, toDWORD]
  · simp only [h, if_false, toDWORD]
    have hq0 : 0 ≤ 60000000 / bpm := Int.ediv_nonneg (by norm_num) (by omega)
    have hq1 : 60000000 / bpm ≤ 60000000 := by
      apply Int.ediv_le_self; norm_num
    congr 1
    omega

/-! ## Claims on the event finalizer -/

/-- C9, as stated, fails at the header value `bpm=151`: the tempo meta of the
first track carries `06 10 27`, which is 397351 microseconds, while
`60000000 / 151` rounded down is 397350 (`06 10 26`). The events are those of
the source `H: song bpm=151` followed by a newline: one all-notes-off on INST. -/
theorem createTracks_tempo_not_floor :
    (createTracks { name := cstr "song", bpm := 151 }
        (getTrack [{ name := cstr "INST" }, { name := cstr "DRUM", chn := 9 }])
        [{ trkname := cstr "INST", evtId := 0, time := 0,
           status := 0xB0, data1 := 0x7B, data2 := 0 }]).map
      (fun head => head.map (fun trk => trk.mem.take 7)) =
      some [[0x00, 0xFF, 0x51, 0x03, 0x06, 0x10, 0x27]] ∧
    (60000000 : Int) / 151 = 397350 ∧
    [0x06, 0x10, 0x27] ≠ [397350 / 65536 % 256, 397350 / 256 % 256, 397350 % 256] := by
  decide

/-- C9, amended: when the header `bpm` is in `30..240`, the events carry names
of tracks of the symbol table, the first event in sorted order is not on a
track named `"SMS"`, and there are at most 65535 tracks, `parser_createMidi`
builds one track buffer per run of the sorted events, and the buffer of the
run with index `j` (in order of creation) is exactly: for `j = 0` only, the
tempo meta `00 FF 51 03` for `(int)(float)(60000000.0 / bpm)` microseconds, which
is `60000000 / bpm` rounded down except for `bpm = 151`, where it is 397351,
the copyright meta `00 FF 02` with `"(c) ma.ke. 2024"` and the program-name
meta `00 FF 08` with `"created with HIDCAM-SMS"`; then, on every track, the
device-name meta `00 FF 09` with the track name, the bank select
`00 Bn 00 bnk` and the program change `00 Cn prg`; then the bytes of its
events. -/
theorem createTracks_opening (sms : smsHeader) (getObject : List Nat → Option smsTrack)
    (events : List smsEvent)
    (hbpm : 30 ≤ sms.bpm ∧ sms.bpm ≤ 240)
    (hgood : ∀ e ∈ events, GoodEvent getObject e)
    (hfirst : ∀ e ∈ (qsort events).head?, e.trkname ≠ cstr "SMS")
    (hcnt : (runs (qsort events)).length ≤ 65535) :
    ∃ head, createTracks sms getObject events = some head ∧
      head.length = (runs (qsort events)).length ∧
      ∀ (j : Nat) (run : List smsEvent), (runs (qsort events))[j]? = some run →
        ∃ e es strk trk, run = e :: es ∧ getObject e.trkname = some strk ∧
          head.reverse[j]? = some trk ∧
          trk.mem =
            (if j = 0 then
              globalMetas (if sms.bpm = 151 then 397351 else (60000000 / sms.bpm).toNat)
             else []) ++
            trackMetas strk e.trkname ++ runBytes 0 run := by
  obtain ⟨head, hc, hm⟩ := createTracks_runs sms getObject events (by omega) hgood hfirst hcnt
  rw [toDWORD_floatMicros sms.bpm hbpm.1 hbpm.2] at hm
  have hruns := runs_mem (qsort events)
  have hlen : head.length = (runs (qsort events)).length := by
    have := congrArg List.length hm
    rw [List.length_map, List.length_reverse] at this
    rw [this]
    cases runs (qsort events) <;> simp
  refine ⟨head, hc, hlen, ?_⟩
  intro j run hj
  have hmem : run ∈ runs (qsort events) := List.getElem?_mem hj
  obtain ⟨⟨e, es, hr⟩, hin⟩ := hruns run hmem
  obtain ⟨_, _, strk, hs, _⟩ := hgood e ((mem_qsort events e).1 (hin e (by simp [hr])))
  have htb : trackBytes getObject run = trackMetas strk e.trkname ++ runBytes 0 run := by
    simp [hr, trackBytes, hs]
  have hj' : (head.reverse.map BUF.mem)[j]? =
      some ((if j = 0 then
              globalMetas (if sms.bpm = 151 then 397351 else (60000000 / sms.bpm).toNat)
             else []) ++ trackMetas strk e.trkname ++ runBytes 0 run) := by
    rw [hm]
    cases hR : runs (qsort events) with
    | nil => rw [hR] at hj; simp at hj
    | cons first rest =>
      rw [hR] at hj
      cases j with
      | zero =>
        simp only [List.getElem?_cons_zero, Option.some.injEq] at hj
        simp [hj, htb]
      | succ k =>
        simp only [List.getElem?_cons_succ] at hj
        simp [List.getElem?_map, hj, htb]
  rw [List.getElem?_map] at hj'
  cases ht : head.reverse[j]? with
  | none => rw [ht] at hj'; simp at hj'
  | some trk =>
    rw [ht] at hj'
    simp only [Option.map_some', Option.some.injEq] at hj'
    exact ⟨e, es, strk, trk, hr, hs, rfl, hj'⟩

/-- Witness of C9: the events of a drum beat, a DRUM track and an INST track. -/
theorem createTracks_opening_witness :
    ((30 : Int) ≤ ({ name := cstr "SMS" } : smsHeader).bpm ∧
      ({ name := cstr "SMS" } : smsHeader).bpm ≤ 240) ∧
    (∀ e ∈ eventsDrumBeat, GoodEvent (getTrack defaultTracks) e) ∧
    (∀ e ∈ (qsort eventsDrumBeat).head?, e.trkname ≠ cstr "SMS") ∧
    (runs (qsort eventsDrumBeat)).length ≤ 65535 ∧
    ∃ head, createTracks { name := cstr "SMS" } (getTrack defaultTracks) eventsDrumBeat =
        some head ∧
      head.length = (runs (qsort eventsDrumBeat)).length ∧
      ∀ (j : Nat) (run : List smsEvent), (runs (qsort eventsDrumBeat))[j]? = some run →
        ∃ e es strk trk, run = e :: es ∧ getTrack defaultTracks e.trkname = some strk ∧
          head.reverse[j]? = some trk ∧
          trk.mem =
            (if j = 0 then
              globalMetas (if ({ name := cstr "SMS" } : smsHeader).bpm = 151 then 397351
                else (60000000 / ({ name := cstr "SMS" } : smsHeader).bpm).toNat)
             else []) ++
            trackMetas strk e.trkname ++ runBytes 0 run :=
  have hgood : ∀ e ∈ eventsDrumBeat, GoodEvent (getTrack defaultTracks) e := by
    intro e he
    simp only [eventsDrumBeat, List.mem_cons, List.mem_singleton, List.not_mem_nil, or_false] at he
    rcases he with rfl | rfl | rfl
    · exact ⟨by decide, by decide, { name := cstr "DRUM", chn := 9 }, by decide, by
        unfold GoodTrack; decide⟩
    · exact ⟨by decide, by decide, { name := cstr "DRUM", chn := 9 }, by decide, by
        unfold GoodTrack; decide⟩
    · exact ⟨by decide, by decide, { name := cstr "INST" }, by decide, by
        unfold GoodTrack; decide⟩
  ⟨by decide, hgood, by decide, by decide,
    createTracks_opening { name := cstr "SMS" } (getTrack defaultTracks) eventsDrumBeat
      (by decide) hgood (by decide) (by decide)⟩

set_option maxRecDepth 100000 in
/-- C8: the source `H: s bar=1/8`, newline, `Cmaj`, newline compiles, and its
events are `eventsZeroBarChord`: the three note-offs have time -1. They sort
first, so the first delta of the track is `-1 - 0`, which `writeMSG` hands to
`writeVLQ` as the `DWORD` `0xFFFFFFFF`: the track holds the five bytes
`8F FF FF FF 00` in the place of a delta time. The deltas written add up to
`2 ^ 32`, the largest time of an event on the track is 0. -/
theorem createTracks_negative_delta :
    (qsort eventsZeroBarChord).map (fun e => (e.evtId, e.time)) =
      [(1, -1), (3, -1), (5, -1), (0, 0), (2, 0), (4, 0), (6, 0)] ∧
    (createTracks { name := cstr "s", bar := 0 } (getTrack defaultTracks) eventsZeroBarChord).map
      (fun head => head.map (fun trk => trk.mem.drop 68)) =
      some [[0x8F, 0xFF, 0xFF, 0xFF, 0x00, 0x80, 36, 127, 0x00, 0x80, 40, 127, 0x00, 0x80, 43, 127,
             0x01, 0x90, 36, 127, 0x00, 0x90, 40, 127, 0x00, 0x90, 43, 127,
             0x00, 0xB0, 0x7B, 0x00]] ∧
    deltasWritten 0 (qsort eventsZeroBarChord) = [4294967295, 0, 0, 1, 0, 0, 0] ∧
    (deltasWritten 0 (qsort eventsZeroBarChord)).sum = 4294967296 ∧
    (∀ e ∈ eventsZeroBarChord, e.time ≤ 0) ∧
    readVLQ [0x8F, 0xFF, 0xFF, 0xFF, 0x00] = some (4294967168, []) := by
  decide

/-- C10: the source `I: SMS`, newline, `SMS c` compiles, and all its events are
on the track of the user instrument `SMS` (`eventsOnSMS`). The loop compares
the name of the first event with the name of its sentinel event, which is
`"SMS"` too, so it allocates no track buffer and writes the event through the
uninitialised `mtrk`: no track is built, no SMF is returned. The same events
under any other name give one track. -/
theorem createTracks_sentinel_name :
    createTracks { name := cstr "SMS" }
      (getTrack (defaultTracks ++ [{ name := cstr "SMS" }])) eventsOnSMS = none ∧
    parser_createMidi { name := cstr "SMS" }
      (getTrack (defaultTracks ++ [{ name := cstr "SMS" }])) eventsOnSMS = none ∧
    ((createTracks { name := cstr "SMS" }
      (getTrack (defaultTracks ++ [{ name := cstr "SMT" }]))
      (eventsOnSMS.map fun e => { e with trkname := cstr "SMT" })).map List.length) = some 1 := by
  decide

/-! ## Delta times -/

/-- The bytes of an event start with the variable-length quantity of
`deltaWritten`. -/
theorem eventBytes_delta (songTime : Int) (evt : smsEvent) :
    ∃ payload, eventBytes songTime evt = vlqOut (deltaWritten songTime evt) ++ payload := by
  unfold eventBytes deltaWritten writeMidiEvent
  by_cases h : evt.bpm > 0
  · simp only [h, if_true, writeTMP_mem, vlqOut_zero, emptyBUF, List.nil_append]
    exact ⟨_, rfl⟩
  · simp only [h, if_false, writeMSG_mem, emptyBUF, List.nil_append, List.append_assoc]
    exact ⟨_, rfl⟩

/-- On a run whose times do not decrease and whose tempo changes sit at the
time of the event before them, the deltas written add up to the time of the
last event, counted from the start of the run. -/
theorem deltasWritten_sum (run : List smsEvent) :
    ∀ t : Int, Steady t run → (((deltasWritten t run).sum : Nat) : Int) = lastTime t run - t := by
  induction run with
  | nil => intro t _; simp [deltasWritten, lastTime]
  | cons e es ih =>
    intro t h
    obtain ⟨h1, h2, h3, h4⟩ := h
    simp only [deltasWritten, List.sum_cons, lastTime, Nat.cast_add, ih e.time h4]
    have hd : ((deltaWritten t e : Nat) : Int) = e.time - t := by
      unfold deltaWritten
      by_cases hb : e.bpm > 0
      · simp [hb, h3 hb]
      · simp only [hb, if_false, toDWORD]
        rw [Int.toNat_of_nonneg (Int.emod_nonneg _ (by norm_num))]
        omega
    rw [hd]; omega

/-- The sentinel: when the first event in sorted order is on a track named
`"SMS"`, the loop opens no track for it and writes through `mtrk` unset. -/
theorem createTracks_first_SMS (sms : smsHeader) (getObject : List Nat → Option smsTrack)
    (events : List smsEvent) (e : smsEvent) (h : (qsort events).head? = some e)
    (hn : e.trkname = cstr "SMS") :
    createTracks sms getObject events = none := by
  unfold createTracks
  cases hL : qsort events with
  | nil => rw [hL] at h; simp at h
  | cons x xs =>
    rw [hL] at h
    simp only [List.head?_cons, Option.some.injEq] at h
    subst h
    have hc : strcmp (cstr "SMS") x.trkname = 0 := (strcmp_eq_zero _ _).2 hn.symm
    simp [createMidiLoop, createMidiEvent, hc, onMtrk]

/-! ## The comparator of the event sort -/

theorem strcmp_neg (a b : List Nat) : strcmp a b < 0 ↔ nameLess a b := by
  unfold nameLess
  induction a generalizing b with
  | nil =>
    cases b with
    | nil => simp [strcmp]
    | cons y ys => simp [strcmp]; exact List.Lex.nil
  | cons x xs ih =>
    cases b with
    | nil => simp [strcmp]
    | cons y ys =>
      simp only [strcmp]
      by_cases h1 : x < y
      · simp only [h1, if_true]
        exact ⟨fun _ => List.Lex.rel h1, fun _ => by decide⟩
      · by_cases h2 : x > y
        · simp only [h1, h2, if_true, if_false]
          constructor
          · intro h; exact absurd h (by decide)
          · intro h
            cases h with
            | rel h => exact absurd h h1
            | cons _ => omega
        · simp only [h1, h2, if_false]
          rw [ih]
          have e : x = y := by omega
          subst e
          constructor
          · intro h; exact List.Lex.cons h
          · intro h
            cases h with
            | rel h => exact absurd h h1
            | cons h => exact h

theorem strcmp_pos (a b : List Nat) : 0 < strcmp a b ↔ nameLess b a := by
  unfold nameLess
  induction a generalizing b with
  | nil =>
    cases b with
    | nil => simp [strcmp]
    | cons y ys => simp [strcmp]
  | cons x xs ih =>
    cases b with
    | nil => simp [strcmp]; exact List.Lex.nil
    | cons y ys =>
      simp only [strcmp]
      by_cases h1 : x < y
      · simp only [h1, if_true]
        constructor
        · intro h; exact absurd h (by decide)
        · intro h
          cases h with
          | rel h => omega
          | cons _ => omega
      · by_cases h2 : x > y
        · simp only [h1, h2, if_true, if_false]
          exact ⟨fun _ => List.Lex.rel h2, fun _ => by decide⟩
        · simp only [h1, h2, if_false]
          rw [ih]
          have e : x = y := by omega
          subst e
          constructor
          · intro h; exact List.Lex.cons h
          · intro h
            cases h with
            | rel h => exact absurd h h2
            | cons h => exact h

theorem evt_compare_neg (a b : smsEvent) : evt_compare a b < 0 ↔ keyLess a b := by
  unfold evt_compare keyLess
  simp only []
  by_cases h : strcmp a.trkname b.trkname = 0
  · have he := (strcmp_eq_zero _ _).1 h
    have hn : ¬ nameLess a.trkname b.trkname := by
      rw [← strcmp_neg]; omega
    simp only [h, ne_eq, not_true_eq_false, if_false, hn, false_or]
    constructor
    · intro h0
      refine ⟨he, ?_⟩
      split_ifs at h0 <;> omega
    · intro h0
      split_ifs <;> omega
  · have he : a.trkname ≠ b.trkname := fun e => h ((strcmp_eq_zero _ _).2 e)
    simp only [ne_eq, h, not_false_eq_true, if_true, he, false_and, or_false]
    exact strcmp_neg _ _

theorem evt_compare_zero (a b : smsEvent) : evt_compare a b = 0 ↔ keyEq a b := by
  unfold evt_compare keyEq
  simp only []
  by_cases h : strcmp a.trkname b.trkname = 0
  · have he := (strcmp_eq_zero _ _).1 h
    simp only [h, ne_eq, not_true_eq_false, if_false]
    constructor
    · intro h0
      refine ⟨he, ?_⟩
      split_ifs at h0 <;> omega
    · intro h0
      split_ifs <;> omega
  · have he : a.trkname ≠ b.trkname := fun e => h ((strcmp_eq_zero _ _).2 e)
    simp only [ne_eq, h, not_false_eq_true, if_true, he, false_and]

theorem strcmp_swap (a b : List Nat) : strcmp b a = - strcmp a b := by
  induction a generalizing b with
  | nil => cases b <;> simp [strcmp]
  | cons x xs ih =>
    cases b with
    | nil => simp [strcmp]
    | cons y ys =>
      simp only [strcmp]
      by_cases h1 : x < y
      · have h2 : ¬ y < x := by omega
        have h3 : y > x := h1
        have h4 : ¬ x > y := by omega
        simp [h1, h2, h3, h4]
      · by_cases h2 : x > y
        · have h3 : y < x := h2
          simp [h1, h2, h3]
        · have h3 : ¬ y < x := by omega
          have h4 : ¬ y > x := by omega
          simp only [h1, h2, h3, h4, if_false]
          exact ih ys

theorem evt_compare_swap (a b : smsEvent) : evt_compare b a = - evt_compare a b := by
  unfold evt_compare
  simp only []
  rw [strcmp_swap a.trkname b.trkname]
  by_cases h : strcmp a.trkname b.trkname = 0
  · simp only [h, neg_zero, ne_eq, not_true_eq_false, if_false]
    split_ifs <;> first | rfl | omega
  · have h2 : - strcmp a.trkname b.trkname ≠ 0 := by omega
    simp only [ne_eq, h, not_false_eq_true, if_true, h2]

theorem evt_compare_pos (a b : smsEvent) : 0 < evt_compare a b ↔ keyLess b a := by
  rw [← evt_compare_neg, evt_compare_swap a b]; omega

theorem nameLess_irrefl (a : List Nat) : ¬ nameLess a a := by
  intro h
  have := (strcmp_neg a a).2 h
  rw [strcmp_self] at this
  exact absurd this (by decide)

theorem nameLess_asymm (a b : List Nat) (h : nameLess a b) : ¬ nameLess b a := by
  intro h2
  have h1 := (strcmp_neg a b).2 h
  have h3 := (strcmp_pos a b).2 h2
  omega

theorem nameLess_trans (a b c : List Nat) (h1 : nameLess a b) (h2 : nameLess b c) :
    nameLess a c := by
  unfold nameLess at *
  induction a generalizing b c with
  | nil =>
    cases h1
    cases h2 <;> exact List.Lex.nil
  | cons x xs ih =>
    cases h1 with
    | rel hxy =>
      cases h2 with
      | rel hyz => exact List.Lex.rel (Nat.lt_trans hxy hyz)
      | cons _ => exact List.Lex.rel hxy
    | cons hxs =>
      cases h2 with
      | rel hyz => exact List.Lex.rel hyz
      | cons hys => exact List.Lex.cons (ih _ _ hxs hys)

theorem keyLess_trans (a b c : smsEvent) (h1 : keyLess a b) (h2 : keyLess b c) : keyLess a c := by
  unfold keyLess at *
  rcases h1 with h1 | ⟨e1, h1⟩
  · rcases h2 with h2 | ⟨e2, _⟩
    · exact Or.inl (nameLess_trans _ _ _ h1 h2)
    · exact Or.inl (e2 ▸ h1)
  · rcases h2 with h2 | ⟨e2, h2⟩
    · exact Or.inl (e1 ▸ h2)
    · refine Or.inr ⟨e1.trans e2, ?_⟩
      omega

theorem keyLess_asymm (a b : smsEvent) (h1 : keyLess a b) : ¬ keyLess b a := by
  unfold keyLess at *
  intro h2
  rcases h1 with h1 | ⟨e1, h1⟩
  · rcases h2 with h2 | ⟨e2, _⟩
    · exact nameLess_asymm _ _ h1 h2
    · rw [e2] at h1; exact nameLess_irrefl _ h1
  · rcases h2 with h2 | ⟨_, h2⟩
    · rw [e1] at h2; exact nameLess_irrefl _ h2
    · omega

theorem evt_compare_le_iff (a b : smsEvent) : evt_compare a b ≤ 0 ↔ keyLess a b ∨ keyEq a b := by
  rw [← evt_compare_neg, ← evt_compare_zero]; omega

theorem keyEq_of_le_le (a b : smsEvent) (h1 : evt_compare a b ≤ 0) (h2 : evt_compare b a ≤ 0) :
    keyEq a b := by
  rcases (evt_compare_le_iff a b).1 h1 with l1 | e1
  · rcases (evt_compare_le_iff b a).1 h2 with l2 | e2
    · exact absurd l2 (keyLess_asymm _ _ l1)
    · exact ⟨e2.1.symm, e2.2.1.symm, e2.2.2.symm⟩
  · exact e1

theorem evt_compare_trans (a b c : smsEvent) (h1 : evt_compare a b ≤ 0)
    (h2 : evt_compare b c ≤ 0) : evt_compare a c ≤ 0 := by
  rw [evt_compare_le_iff] at *
  rcases h1 with l1 | e1
  · rcases h2 with l2 | e2
    · exact Or.inl (keyLess_trans _ _ _ l1 l2)
    · left
      unfold keyLess keyEq at *
      rw [← e2.1, ← e2.2.1, ← e2.2.2]; exact l1
  · rcases h2 with l2 | e2
    · left
      unfold keyLess keyEq at *
      rw [e1.1, e1.2.1, e1.2.2]; exact l2
    · right
      exact ⟨e1.1.trans e2.1, e1.2.1.trans e2.2.1, e1.2.2.trans e2.2.2⟩

/-- C11: `evt_compare` is the lexicographic order of (track name in byte order,
time, emission id): it is negative exactly when the left key is smaller,
positive exactly when it is larger, zero exactly when the three components are
equal; the relation `evt_compare a b <= 0` is antisymmetric on keys and
transitive. -/
theorem evt_compare_lexicographic (a b c : smsEvent) :
    (evt_compare a b < 0 ↔ keyLess a b) ∧
    (0 < evt_compare a b ↔ keyLess b a) ∧
    (evt_compare a b = 0 ↔ keyEq a b) ∧
    (evt_compare a b ≤ 0 → evt_compare b a ≤ 0 → keyEq a b) ∧
    (evt_compare a b ≤ 0 → evt_compare b c ≤ 0 → evt_compare a c ≤ 0) :=
  ⟨evt_compare_neg a b, evt_compare_pos a b, evt_compare_zero a b, keyEq_of_le_le a b,
    evt_compare_trans a b c⟩

/-! ## The symbol table -/

theorem getObject_go_none (objs : List smsObject) (name : List Nat) (i : Nat) :
    getObject.go objs name i = none ↔ ∀ o ∈ objs, o.name ≠ name := by
  induction objs generalizing i with
  | nil => simp [getObject.go]
  | cons o next ih =>
    simp only [getObject.go, List.mem_cons, forall_eq_or_imp]
    by_cases h : strcmp o.name name = 0
    · have := (strcmp_eq_zero _ _).1 h
      simp [h]
      intro hn
      exact absurd this hn
    · have hn : o.name ≠ name := fun e => h ((strcmp_eq_zero _ _).2 e)
      simp only [h, if_false, ih, ne_eq, hn, not_false_eq_true, true_and]

theorem getObject_none (objs : List smsObject) (name : List Nat) :
    getObject objs name = none ↔ ∀ o ∈ objs, o.name ≠ name :=
  getObject_go_none objs name 0

theorem getObject_some (objs : List smsObject) (name : List Nat) (h : ∃ o ∈ objs, o.name = name) :
    ∃ r, getObject objs name = some r := by
  cases hg : getObject objs name with
  | some r => exact ⟨r, rfl⟩
  | none =>
    obtain ⟨o, ho, hn⟩ := h
    exact absurd hn ((getObject_none objs name).1 hg o ho)

theorem getObject_go_append (objs : List smsObject) (obj : smsObject) (i : Nat)
    (h : ∀ o ∈ objs, o.name ≠ obj.name) :
    getObject.go (objs ++ [obj]) obj.name i = some (i + objs.length, obj) := by
  induction objs generalizing i with
  | nil => simp [getObject.go, strcmp_self]
  | cons o next ih =>
    have ho : strcmp o.name obj.name ≠ 0 := fun e =>
      h o (List.mem_cons_self _ _) ((strcmp_eq_zero _ _).1 e)
    have hnext : ∀ o ∈ next, o.name ≠ obj.name := fun o' ho' =>
      h o' (List.mem_cons_of_mem _ ho')
    have e : i + 1 + next.length = i + (next.length + 1) := by omega
    have hi := ih (i + 1) hnext
    rw [e] at hi
    simp only [List.cons_append, getObject.go, ho, if_false, List.length_cons]
    exact hi

theorem getObject_append (objs : List smsObject) (obj : smsObject)
    (h : ∀ o ∈ objs, o.name ≠ obj.name) :
    getObject (objs ++ [obj]) obj.name = some (objs.length, obj) := by
  have := getObject_go_append objs obj 0 h
  simpa [getObject] using this

/-- C13: `newSmsTrk`, `newSmsDrumKey`, `newSmsChord` and `newSmsMacro` return
`NULL` and leave the object list as it is when the name is in the list under
any kind; otherwise they link one new object of their kind behind the last one,
and `getObject` on the name returns this object. -/
theorem newSms_rejects_duplicates (objs : List smsObject) (name : List Nat) (mode : Int) :
    ((∃ o ∈ objs, o.name = name) →
      newSmsTrk objs name = (objs, none) ∧ newSmsDrumKey objs name = (objs, none) ∧
      newSmsChord objs name = (objs, none) ∧ newSmsMacro objs name mode = (objs, none)) ∧
    ((∀ o ∈ objs, o.name ≠ name) →
      (newSmsTrk objs name =
          (objs ++ [{ name := name, type := INST, obj := .track { name := name } }],
            some objs.length) ∧
        getObject (newSmsTrk objs name).1 name =
          some (objs.length, { name := name, type := INST, obj := .track { name := name } })) ∧
      (newSmsDrumKey objs name =
          (objs ++ [{ name := name, type := DRUM, obj := .drumkey { name := name } }],
            some objs.length) ∧
        getObject (newSmsDrumKey objs name).1 name =
          some (objs.length, { name := name, type := DRUM, obj := .drumkey { name := name } })) ∧
      (newSmsChord objs name =
          (objs ++ [{ name := name, type := CHORD, obj := .chord { name := name } }],
            some objs.length) ∧
        getObject (newSmsChord objs name).1 name =
          some (objs.length, { name := name, type := CHORD, obj := .chord { name := name } })) ∧
      (newSmsMacro objs name mode =
          (objs ++ [{ name := name, type := toBYTE mode,
                      obj := .mac { name := name, cmd := mode } }], some objs.length) ∧
        getObject (newSmsMacro objs name mode).1 name =
          some (objs.length, { name := name, type := toBYTE mode,
                               obj := .mac { name := name, cmd := mode } })) ∧
      toBYTE ARP = ARP ∧ toBYTE MACRO = MACRO) := by
  constructor
  · intro h
    obtain ⟨r, hr⟩ := getObject_some objs name h
    simp [newSmsTrk, newSmsDrumKey, newSmsChord, newSmsMacro, hr]
  · intro h
    have hg := (getObject_none objs name).2 h
    have e1 : ((toBYTE INST : Nat) : Int) = INST := by decide
    have e2 : ((toBYTE DRUM : Nat) : Int) = DRUM := by decide
    have e3 : ((toBYTE CHORD : Nat) : Int) = CHORD := by decide
    refine ⟨?_, ?_, ?_, ?_, by decide, by decide⟩
    · have hx : newSmsTrk objs name =
          (objs ++ [{ name := name, type := INST, obj := .track { name := name } }],
            some objs.length) := by
        simp [newSmsTrk, hg, newSmsObject, e1]
      rw [hx]
      exact ⟨rfl, getObject_append objs _ h⟩
    · have hx : newSmsDrumKey objs name =
          (objs ++ [{ name := name, type := DRUM, obj := .drumkey { name := name } }],
            some objs.length) := by
        simp [newSmsDrumKey, hg, newSmsObject, e2]
      rw [hx]
      exact ⟨rfl, getObject_append objs _ h⟩
    · have hx : newSmsChord objs name =
          (objs ++ [{ name := name, type := CHORD, obj := .chord { name := name } }],
            some objs.length) := by
        simp [newSmsChord, hg, newSmsObject, e3]
      rw [hx]
      exact ⟨rfl, getObject_append objs _ h⟩
    · have hx : newSmsMacro objs name mode =
          (objs ++ [{ name := name, type := toBYTE mode,
                      obj := .mac { name := name, cmd := mode } }], some objs.length) := by
        simp [newSmsMacro, hg, newSmsObject]
      rw [hx]
      exact ⟨rfl, getObject_append objs _ h⟩

/-! ## The event counter -/

theorem counted_append (n : Int) (l : List smsEvent) (e : smsEvent) (h : Counted n l)
    (he : e.evtId = n) : Counted (n + 1) (l ++ [e]) := by
  obtain ⟨h1, h2⟩ := h
  refine ⟨by simp [h1], ?_⟩
  intro k x hx
  by_cases hk : k < l.length
  · rw [List.getElem?_append_left hk] at hx
    exact h2 k x hx
  · have hk2 : l.length ≤ k := by omega
    rw [List.getElem?_append_right hk2] at hx
    have : k - l.length = 0 := by
      by_contra hne
      have : k - l.length = (k - l.length - 1) + 1 := by omega
      rw [this] at hx
      simp at hx
    rw [this] at hx
    simp at hx
    subst hx
    rw [he, h1]
    have : k = l.length := by omega
    rw [this]

theorem setBpm_length (l : List smsEvent) (v : Int) : (setBpm l v).length = l.length := by
  induction l with
  | nil => rfl
  | cons e es ih =>
    cases es with
    | nil => rfl
    | cons e2 es2 => simp only [setBpm, List.length_cons] at *; omega

theorem setBpm_get (l : List smsEvent) (v : Int) (k : Nat) (x : smsEvent)
    (h : (setBpm l v)[k]? = some x) : ∃ y, l[k]? = some y ∧ x.evtId = y.evtId := by
  induction l generalizing k with
  | nil => simp [setBpm] at h
  | cons e es ih =>
    cases es with
    | nil =>
      cases k with
      | zero =>
        simp only [setBpm, List.getElem?_cons_zero, Option.some.injEq] at h
        exact ⟨e, by simp, by rw [← h]⟩
      | succ k => simp [setBpm] at h
    | cons e2 es2 =>
      cases k with
      | zero =>
        simp only [setBpm, List.getElem?_cons_zero, Option.some.injEq] at h
        exact ⟨e, by simp, by rw [← h]⟩
      | succ k =>
        simp only [setBpm, List.getElem?_cons_succ] at h
        obtain ⟨y, hy, hxy⟩ := ih k h
        exact ⟨y, by simpa using hy, hxy⟩

theorem counted_setBpm (n : Int) (l : List smsEvent) (v : Int) (h : Counted n l) :
    Counted n (setBpm l v) := by
  obtain ⟨h1, h2⟩ := h
  refine ⟨by rw [setBpm_length]; exact h1, ?_⟩
  intro k x hx
  obtain ⟨y, hy, hxy⟩ := setBpm_get l v k x hx
  rw [hxy]
  exact h2 k y hy

theorem emit_counted (s : Compiler) (trk : smsTrack) (time status data1 data2 : Int)
    (h : s.Counted) : (s.emit trk time status data1 data2).Counted := by
  unfold Compiler.Counted Compiler.emit newSmsEvent
  exact counted_append _ _ _ h rfl

theorem counted_congr (s t : Compiler) (h : s.Counted) (h1 : t.sms.evts = s.sms.evts)
    (h2 : t.evtFirst = s.evtFirst) : t.Counted := by
  unfold Compiler.Counted at *
  rw [h1, h2]; exact h

@[simp] theorem setTrk_evtFirst (s : Compiler) (p : Nat) (trk : smsTrack) :
    (s.setTrk p trk).evtFirst = s.evtFirst := rfl

@[simp] theorem setTrk_sms (s : Compiler) (p : Nat) (trk : smsTrack) :
    (s.setTrk p trk).sms = s.sms := rfl

@[simp] theorem fillBar_evtFirst (s : Compiler) : s.fillBar.evtFirst = s.evtFirst := rfl

@[simp] theorem fillBar_sms (s : Compiler) : s.fillBar.sms = s.sms := rfl

@[simp] theorem markTimes_evtFirst (s : Compiler) : s.markTimes.evtFirst = s.evtFirst := by
  unfold Compiler.markTimes
  simp only []
  split_ifs <;> rfl

@[simp] theorem markTimes_sms (s : Compiler) : s.markTimes.sms = s.sms := by
  unfold Compiler.markTimes
  simp only []
  split_ifs <;> rfl

@[simp] theorem setTrk_counted (s : Compiler) (p : Nat) (trk : smsTrack) :
    (s.setTrk p trk).Counted ↔ s.Counted := Iff.rfl

@[simp] theorem fillBar_counted (s : Compiler) : s.fillBar.Counted ↔ s.Counted := Iff.rfl

@[simp] theorem markTimes_counted (s : Compiler) : s.markTimes.Counted ↔ s.Counted := by
  unfold Compiler.Counted
  rw [markTimes_evtFirst, markTimes_sms]

@[simp] theorem fail_counted (s : Compiler) (e : Int) : (s.fail e).Counted ↔ s.Counted := Iff.rfl

@[simp] theorem next_counted (s : Compiler) : (Flow.next s).Counted ↔ s.Counted := Iff.rfl

@[simp] theorem stop_counted (s : Compiler) : (Flow.stop s).Counted ↔ s.Counted := Iff.rfl

@[simp] theorem undefined_counted : Flow.undefined.Counted ↔ True := Iff.rfl

theorem header_evts (word : List Nat) (sms sms2 : smsHeader) (err : Int)
    (h : parser_isParameter.header word sms = some (err, sms2)) : sms2.evts = sms.evts := by
  unfold parser_isParameter.header at h
  simp only [] at h
  repeat' split at h
  all_goals simp only [Option.some.injEq, Prod.mk.injEq, reduceCtorEq] at h
  all_goals (try obtain ⟨_, h⟩ := h)
  all_goals (try subst h)
  all_goals rfl

theorem cmdHeader_counted (s : Compiler) (word : List Nat) (h : s.Counted) :
    (cmdHeader s word).Counted := by
  unfold cmdHeader
  split
  · split
    · simpa using h
    · exact counted_congr s _ h rfl rfl
  · split
    · trivial
    · rename_i err sms hp
      have := header_evts _ _ _ _ hp
      split
      · exact counted_congr s _ h this rfl
      · exact counted_congr s _ h this rfl

@[simp] theorem emit_sms_evts (s : Compiler) (trk : smsTrack) (time status data1 data2 : Int) :
    (s.emit trk time status data1 data2).sms.evts = s.sms.evts + 1 := rfl

@[simp] theorem emit_evtFirst (s : Compiler) (trk : smsTrack) (time status data1 data2 : Int) :
    (s.emit trk time status data1 data2).evtFirst =
      s.evtFirst ++ [{ trkname := trk.name, evtId := s.sms.evts, time := time,
                       status := toBYTE status, data1 := toBYTE data1, data2 := toBYTE data2,
                       bpm := 0 }] := rfl

theorem cmdInst_counted (s : Compiler) (word : List Nat) (h : s.Counted) :
    (cmdInst s word).Counted := by
  unfold cmdInst
  simp only []
  repeat' split
  all_goals first
    | trivial
    | exact h
    | exact counted_congr s _ h rfl rfl

theorem cmdDrum_counted (s : Compiler) (word : List Nat) (h : s.Counted) :
    (cmdDrum s word).Counted := by
  unfold cmdDrum
  simp only []
  repeat' split
  all_goals first
    | trivial
    | exact h
    | exact counted_congr s _ h rfl rfl

theorem cmdChord_counted (s : Compiler) (word : List Nat) (h : s.Counted) :
    (cmdChord s word).Counted := by
  unfold cmdChord
  simp only []
  repeat' split
  all_goals first
    | trivial
    | exact h
    | exact counted_congr s _ h rfl rfl

theorem appendWord_counted (s : Compiler) (p : Option Nat) (word : List Nat) (h : s.Counted) :
    (appendWord s p word).Counted := by
  unfold appendWord
  simp only []
  repeat' split
  all_goals first
    | trivial
    | exact h
    | exact counted_congr s _ h rfl rfl

theorem cmdArp_counted (s : Compiler) (word : List Nat) (token : Int) (h : s.Counted) :
    (cmdArp s word token).Counted := by
  unfold cmdArp
  simp only []
  repeat' split
  all_goals first
    | trivial
    | exact h
    | exact counted_congr s _ h rfl rfl
    | exact appendWord_counted s _ _ h

theorem cmdMacro_counted (s : Compiler) (word : List Nat) (token : Int) (h : s.Counted) :
    (cmdMacro s word token).Counted := by
  unfold cmdMacro
  simp only []
  repeat' split
  all_goals first
    | trivial
    | exact h
    | exact counted_congr s _ h rfl rfl
    | exact appendWord_counted s _ _ h

theorem useInst_counted (s : Compiler) (p : Nat) (h : s.Counted) : (useInst s p).Counted := by
  unfold useInst
  simp only []
  split
  · trivial
  · rw [next_counted, fillBar_counted]
    apply emit_counted
    apply emit_counted
    exact counted_congr s _ h rfl rfl

theorem useDrum_counted (s : Compiler) (p : Nat) (h : s.Counted) : (useDrum s p).Counted :=
  counted_congr s _ h rfl rfl

theorem useMacro_counted (s : Compiler) (p : Nat) (h : s.Counted) : (useMacro s p).Counted := by
  unfold useMacro
  simp only []
  repeat' split
  all_goals first
    | trivial
    | exact h
    | exact counted_congr s _ h rfl rfl

theorem timer_counted (s : Compiler) (token : Int) (f : Flow) (h : s.Counted)
    (hf : timer s token = some f) : f.Counted := by
  unfold timer at hf
  simp only [] at hf
  repeat' split at hf
  all_goals simp only [Option.some.injEq, reduceCtorEq] at hf
  all_goals subst hf
  all_goals first
    | trivial
    | exact h
    | exact counted_congr s _ h rfl rfl

theorem dynamic_counted (s : Compiler) (trk : smsTrack) (word : List Nat) (f : Flow)
    (h : s.Counted) (hf : dynamic s trk word = some f) : f.Counted := by
  unfold dynamic at hf
  simp only [] at hf
  repeat' split at hf
  all_goals simp only [Option.some.injEq, reduceCtorEq] at hf
  all_goals subst hf
  all_goals first
    | trivial
    | exact h
    | exact counted_congr s _ h rfl rfl
    | exact emit_counted _ _ _ _ _ _ h
    | skip
  · rw [next_counted]
    unfold Compiler.Counted
    simp only [emit_sms_evts, emit_evtFirst]
    apply counted_setBpm
    apply counted_append
    · apply counted_append
      · exact h
      · rfl
    · rfl

theorem playNote_counted (s : Compiler) (p : Nat) (trk : smsTrack) (holdKey : Int)
    (h : s.Counted) : (playNote s p trk holdKey).Counted := by
  unfold playNote
  simp only []
  repeat' split
  all_goals first
    | trivial
    | (simp only [next_counted, fail_counted]
       unfold Compiler.Counted at *
       simp only [emit_sms_evts, emit_evtFirst, markTimes_sms, markTimes_evtFirst, setTrk_sms,
         setTrk_evtFirst]
       repeat (first | exact h | apply counted_append | rfl))

theorem playKeys_counted (trk : smsTrack) (c : smsChordNote) (ckeys : List Nat) (s : Compiler)
    (h : s.Counted) : (playKeys trk c ckeys s).Counted := by
  induction ckeys generalizing s with
  | nil => exact h
  | cons key ckeys ih =>
    unfold playKeys
    simp only []
    split
    · exact ih s h
    · apply ih
      apply emit_counted
      apply emit_counted
      exact h

theorem playKeys_sms (trk : smsTrack) (c : smsChordNote) (ckeys : List Nat) (s : Compiler) :
    ∃ n : Int, (playKeys trk c ckeys s).sms = { s.sms with evts := n } := by
  induction ckeys generalizing s with
  | nil => exact ⟨s.sms.evts, rfl⟩
  | cons key ckeys ih =>
    unfold playKeys
    simp only []
    split
    · exact ih s
    · obtain ⟨n, hn⟩ := ih ((s.emit trk (s.sngTime + 0) (0x90 + trk.chn)
          (toBYTE (CHORD_OCTAVE * 12 + c.key + c.hft + key)) 127).emit trk
          ((s.emit trk (s.sngTime + 0) (0x90 + trk.chn)
            (toBYTE (CHORD_OCTAVE * 12 + c.key + c.hft + key)) 127).sngTime - MIDI_TIME_DIV +
            (s.emit trk (s.sngTime + 0) (0x90 + trk.chn)
            (toBYTE (CHORD_OCTAVE * 12 + c.key + c.hft + key)) 127).sms.bar)
          (0x80 + trk.chn) (toBYTE (CHORD_OCTAVE * 12 + c.key + c.hft + key)) 127)
      exact ⟨n, hn⟩

theorem playChord_counted (s : Compiler) (trk : smsTrack) (c : smsChordNote) (ckeys : List Nat)
    (h : s.Counted) : (playChord s trk c ckeys).Counted := by
  unfold playChord
  simp only [next_counted]
  have := playKeys_counted trk c (ckeys.take 7) s h
  unfold Compiler.Counted at *
  simp only [markTimes_sms, markTimes_evtFirst]
  exact this

theorem playArp_counted (p : Nat) (trk : smsTrack) (c : smsChordNote) (ckeys : List Nat)
    (fuel : Nat) (arplist : List Nat) (n : smsNote) (ARPWORD : List Nat) (s : Compiler)
    (h : s.Counted) : (playArp p trk c ckeys fuel arplist n ARPWORD s).Counted := by
  induction fuel generalizing arplist n ARPWORD s with
  | zero => unfold playArp; trivial
  | succ fuel ih =>
    cases arplist with
    | nil => unfold playArp; exact counted_congr s _ h rfl rfl
    | cons a arplist =>
      unfold playArp
      simp only []
      repeat' split
      all_goals first
        | trivial
        | (apply ih
           first
             | exact h
             | exact counted_congr s _ h rfl rfl
             | (unfold Compiler.Counted at *
                simp only [emit_sms_evts, emit_evtFirst, markTimes_sms, markTimes_evtFirst,
                  setTrk_sms, setTrk_evtFirst, fillBar_sms, fillBar_evtFirst]
                repeat (first | exact h | apply counted_append | rfl)))

theorem play_counted (s : Compiler) (p : Nat) (trk : smsTrack) (word : List Nat)
    (h : s.Counted) : (play s p trk word).Counted := by
  unfold play
  simp only []
  repeat' split
  all_goals first
    | trivial
    | exact playNote_counted _ _ _ _ (counted_congr s _ h rfl rfl)
    | exact playChord_counted _ _ _ _ (counted_congr s _ h rfl rfl)
    | exact playArp_counted _ _ _ _ _ _ _ _ _ (counted_congr s _ h rfl rfl)

theorem command_counted (s : Compiler) (word : List Nat) (token : Int) (h : s.Counted) :
    (command s word token).Counted := by
  unfold command
  split
  · rename_i f hf
    exact timer_counted s token f h hf
  · split
    · trivial
    · split
      · rename_i f hf
        exact dynamic_counted s _ word f h hf
      · exact play_counted s _ _ word h

theorem user_counted (s : Compiler) (word : List Nat) (token : Int) (h : s.Counted) :
    (user s word token).Counted := by
  unfold user
  repeat' split
  · exact useInst_counted s _ h
  · exact useDrum_counted s _ h
  · exact useMacro_counted s _ h
  · exact command_counted s word token h
  · exact command_counted s word token h

theorem system_counted (s : Compiler) (word : List Nat) (token : Int) (h : s.Counted) :
    (system s word token).Counted := by
  unfold system
  repeat' split
  · exact cmdHeader_counted s word h
  · exact cmdInst_counted s word h
  · exact cmdDrum_counted s word h
  · exact cmdChord_counted s word h
  · exact cmdArp_counted s word token h
  · exact cmdMacro_counted s word token h
  · exact user_counted s word token h

theorem counted_ite (c : Prop) [Decidable c] (a b : Compiler) (ha : a.Counted)
    (hb : b.Counted) : (if c then a else b).Counted := by
  split <;> assumption

theorem newline_counted (s : Compiler) (word : List Nat) (token : Int) (h : s.Counted) :
    (newline s word token).Counted := by
  unfold newline
  lift_lets
  intro s1 barTime s2 s3 src s4 s5
  have h1 : s1.Counted :=
    counted_ite _ _ _ (counted_congr s _ h rfl rfl) (counted_congr s _ h rfl rfl)
  clear_value s1
  have h2 : s2.Counted := counted_ite _ _ _ (counted_congr s1 _ h1 rfl rfl) h1
  clear_value s2
  have h3 : s3.Counted := counted_congr s2 _ h2 rfl rfl
  clear_value s3
  have hsrc : src.Counted := (markTimes_counted s3).2 h3
  clear_value src
  have h4 : s4.Counted := counted_ite _ _ _ (counted_congr src _ hsrc rfl rfl) h3
  clear_value s4
  have h5 : s5.Counted := counted_ite _ _ _ (counted_congr s4 _ h4 rfl rfl) h4
  clear_value s5
  split_ifs
  all_goals repeat' split
  all_goals first
    | exact system_counted _ _ _ h3
    | exact h4
    | exact counted_congr s5 _ h5 rfl rfl
    | trivial

set_option maxHeartbeats 2000000 in
theorem general_counted (s : Compiler) (word : List Nat) (token : Int) (h : s.Counted) :
    (general s word token).Counted := by
  unfold general
  lift_lets
  intro s1 s2 s3
  have h1 : s1.Counted := counted_ite _ _ _ (counted_congr s _ h rfl rfl) h
  clear_value s1
  have h2 : s2.Counted := counted_ite _ _ _ (counted_congr s1 _ h1 rfl rfl) h1
  clear_value s2
  have h3 : s3.Counted := counted_ite _ _ _ (counted_congr s2 _ h2 rfl rfl) h2
  clear_value s3
  split_ifs
  all_goals first
    | exact system_counted _ _ _ h3
    | exact h1
    | exact h2
    | exact h3
    | exact counted_congr s3 _ h3 rfl rfl

theorem ready_counted (s : Compiler) (token : Int) (h : s.Counted) :
    (ready s token).Counted := by
  unfold ready
  simp only []
  repeat' split
  all_goals first
    | trivial
    | (apply newline_counted; exact counted_congr s _ h rfl rfl)
    | (apply general_counted; exact counted_congr s _ h rfl rfl)

theorem readSource_counted (s : Compiler) (h : s.Counted) : (readSource s).Counted := by
  unfold readSource
  simp only []
  repeat' split
  all_goals first
    | trivial
    | (apply ready_counted; first | exact h | exact counted_congr s _ h rfl rfl)

theorem readWord_counted (s : Compiler) (h : s.Counted) : (readWord s).Counted := by
  unfold readWord
  simp only []
  repeat' split
  all_goals first
    | trivial
    | (apply ready_counted; first | exact h | exact counted_congr s _ h rfl rfl)
    | (apply readSource_counted; first | exact h | exact counted_congr s _ h rfl rfl)

theorem step_counted (s : Compiler) (h : s.Counted) : (step s).Counted := by
  unfold step
  repeat' split
  all_goals first
    | trivial
    | (apply ready_counted; first | exact h | exact counted_congr s _ h rfl rfl)
    | exact readWord_counted s h

theorem finalEvents_counted (s t : Compiler) (h : s.Counted) (ht : finalEvents s = some t) :
    t.Counted := by
  unfold finalEvents at ht
  cases hk : trackAt s.objFirst s.currentTrk with
  | none => simp [hk] at ht
  | some trk =>
    simp only [hk, Option.map_some', Option.some.injEq] at ht
    subst ht
    split
    · exact emit_counted _ _ _ _ _ _ (counted_congr s _ h rfl rfl)
    · exact emit_counted _ _ _ _ _ _ (counted_congr s _ h rfl rfl)

theorem initChord_foldl_none (l : List (List Nat × List Nat)) :
    l.foldl initChord none = none := by
  induction l with
  | nil => rfl
  | cons c l ih => simp [List.foldl, initChord, ih]

theorem initCompiler_counted (data : List Nat) (s : Compiler) (h : initCompiler data = some s) :
    s.Counted := by
  unfold initCompiler at h
  simp only [Option.bind_eq_some] at h
  obtain ⟨objs, _, h⟩ := h
  repeat' split at h
  all_goals simp only [Option.some.injEq, reduceCtorEq] at h
  subst h
  exact ⟨rfl, by intro k e he; simp at he⟩

theorem reaches_counted (data : List Nat) (s : Compiler) (h : Reaches data s) : s.Counted := by
  induction h with
  | init s h => exact initCompiler_counted data s h
  | next s t _ h ih =>
    have := step_counted s ih
    rw [h] at this
    exact this
  | stop s t _ h ih =>
    have := step_counted s ih
    rw [h] at this
    exact this
  | final s t u _ h _ hu ih =>
    have := step_counted s ih
    rw [h] at this
    exact finalEvents_counted t u this hu

theorem reaches_mainLoop (data : List Nat) (fuel : Nat) (s t : Compiler) (hs : Reaches data s)
    (h : mainLoop fuel s = .done t) : Reaches data t := by
  induction fuel generalizing s with
  | zero => simp [mainLoop] at h
  | succ fuel ih =>
    unfold mainLoop at h
    cases hstep : step s with
    | next u =>
      rw [hstep] at h
      exact ih u (Reaches.next s u hs hstep) h
    | stop u =>
      rw [hstep] at h
      simp only [Run.done.injEq] at h
      subst h
      exact Reaches.stop s u hs hstep
    | undefined =>
      rw [hstep] at h
      simp at h

theorem reaches_compile (data : List Nat) (fuel : Nat) (t : Compiler)
    (h : compile fuel data = .done t) : Reaches data t := by
  unfold compile at h
  cases hi : initCompiler data with
  | none => rw [hi] at h; simp at h
  | some s =>
    rw [hi] at h
    exact reaches_mainLoop data fuel s t (Reaches.init s hi) h

theorem evt_compare_total (a b : smsEvent) : evt_compare a b ≤ 0 ∨ evt_compare b a ≤ 0 := by
  rw [evt_compare_swap a b]; omega

theorem ordered_qsort (l : List smsEvent) : Ordered (qsort l) := by
  haveI : IsTotal smsEvent (fun a b => evt_compare a b ≤ 0) := ⟨evt_compare_total⟩
  haveI : IsTrans smsEvent (fun a b => evt_compare a b ≤ 0) := ⟨evt_compare_trans⟩
  exact List.sorted_insertionSort _ l

theorem perm_qsort (l : List smsEvent) : (qsort l).Perm l := List.perm_insertionSort _ l

theorem ordered_unique (l1 l2 : List smsEvent) (hp : l1.Perm l2) (h1 : Ordered l1)
    (h2 : Ordered l2)
    (hanti : ∀ a ∈ l1, ∀ b ∈ l1, evt_compare a b ≤ 0 → evt_compare b a ≤ 0 → a = b) :
    l1 = l2 := by
  induction l1 generalizing l2 with
  | nil => exact hp.nil_eq
  | cons a t ih =>
    cases l2 with
    | nil => exact absurd hp.symm.nil_eq (by simp)
    | cons b u =>
      unfold Ordered at h1 h2
      rw [List.pairwise_cons] at h1 h2
      have hab : a = b := by
        by_contra hne
        have ha : a ∈ u := by
          have := hp.subset (List.mem_cons_self a t)
          rcases List.mem_cons.1 this with e | m
          · exact absurd e hne
          · exact m
        have hb : b ∈ t := by
          have := hp.symm.subset (List.mem_cons_self b u)
          rcases List.mem_cons.1 this with e | m
          · exact absurd e.symm hne
          · exact m
        exact hne (hanti a (List.mem_cons_self a t) b (List.mem_cons_of_mem a hb)
          (h1.1 b hb) (h2.1 a ha))
      subst hab
      have hp2 : t.Perm u := (List.perm_cons a).1 hp
      rw [ih u hp2 h1.2 h2.2 (fun x hx y hy => hanti x (List.mem_cons_of_mem a hx) y
        (List.mem_cons_of_mem a hy))]

theorem counted_antisymm (n : Int) (l : List smsEvent) (h : Counted n l) (a b : smsEvent)
    (ha : a ∈ l) (hb : b ∈ l) (h1 : evt_compare a b ≤ 0) (h2 : evt_compare b a ≤ 0) : a = b := by
  have hk := keyEq_of_le_le a b h1 h2
  obtain ⟨i, hi⟩ := List.getElem?_of_mem ha
  obtain ⟨j, hj⟩ := List.getElem?_of_mem hb
  have e1 := h.2 i a hi
  have e2 := h.2 j b hj
  have : (i : Int) = j := by rw [← e1, ← e2]; exact hk.2.2
  have hij : i = j := by omega
  subst hij
  rw [hi] at hj
  exact Option.some.inj hj

/-- C12: in every state of a compilation the header counter `evts` is the
number of events of the event list and the event at position `k` has the
emission id `k`; so the ids increase strictly along the list, `evt_compare` is
not zero on events at two different positions, and every list that holds the
same events in the order of the comparator is the one `qsort` returns. -/
theorem evts_counts_events (data : List Nat) (s : Compiler) (h : Reaches data s) :
    s.sms.evts = s.evtFirst.length ∧
    (∀ (k : Nat) (e : smsEvent), s.evtFirst[k]? = some e → e.evtId = k) ∧
    (∀ (i j : Nat) (a b : smsEvent), i < j → s.evtFirst[i]? = some a →
      s.evtFirst[j]? = some b → a.evtId < b.evtId) ∧
    (∀ (i j : Nat) (a b : smsEvent), i ≠ j → s.evtFirst[i]? = some a →
      s.evtFirst[j]? = some b → evt_compare a b ≠ 0) ∧
    (∀ l : List smsEvent, l.Perm s.evtFirst → Ordered l → l = qsort s.evtFirst) := by
  have hc := reaches_counted data s h
  refine ⟨hc.1, hc.2, ?_, ?_, ?_⟩
  · intro i j a b hij ha hb
    rw [hc.2 i a ha, hc.2 j b hb]
    omega
  · intro i j a b hij ha hb h0
    have hk := (evt_compare_zero a b).1 h0
    have := hk.2.2
    rw [hc.2 i a ha, hc.2 j b hb] at this
    omega
  · intro l hp ho
    apply ordered_unique l (qsort s.evtFirst) (hp.trans (perm_qsort _).symm) ho (ordered_qsort _)
    intro a ha b hb
    exact counted_antisymm _ _ hc a b (hp.subset ha) (hp.subset hb)

set_option maxRecDepth 100000 in
theorem evts_counts_events_witness :
    ∃ s : Compiler, compile 10 (cstr "c5/4. o/4 c5/4\n") = .done s ∧
      s.evtFirst.length = 4 ∧
      (s.sms.evts = s.evtFirst.length ∧
      (∀ (k : Nat) (e : smsEvent), s.evtFirst[k]? = some e → e.evtId = k) ∧
      (∀ (i j : Nat) (a b : smsEvent), i < j → s.evtFirst[i]? = some a →
        s.evtFirst[j]? = some b → a.evtId < b.evtId) ∧
      (∀ (i j : Nat) (a b : smsEvent), i ≠ j → s.evtFirst[i]? = some a →
        s.evtFirst[j]? = some b → evt_compare a b ≠ 0) ∧
      (∀ l : List smsEvent, l.Perm s.evtFirst → Ordered l → l = qsort s.evtFirst)) := by
  have hl : ((compile 10 (cstr "c5/4. o/4 c5/4\n")).get?.map
      (fun s => s.evtFirst.length)) = some 4 := by decide
  cases hc : compile 10 (cstr "c5/4. o/4 c5/4\n") with
  | done s =>
    rw [hc] at hl
    exact ⟨s, rfl, by simpa [Run.get?] using hl,
      evts_counts_events (cstr "c5/4. o/4 c5/4\n") s (reaches_compile _ _ _ hc)⟩
  | undefined => rw [hc] at hl; simp [Run.get?] at hl
  | unfinished => rw [hc] at hl; simp [Run.get?] at hl

/-! ## The scenarios of the specification -/

set_option maxRecDepth 100000 in
/-- C14: the source `"H: song\n"` compiles without error; the only event is the
all-notes-off `B0 7B 00` at time 0 on the default instrument `INST`, and the
SMF has format 0, one track and ppqn 96: the chunk of `INST` with the metas of
the first track, its opening, the event at delta 0, and the end of track. -/
theorem header_only_song :
    errorOf (sms2midi 10 (cstr "H: song\n")) = some ERR_NOERROR ∧
    eventList 10 (cstr "H: song\n") = some [mkEvent "INST" 0 0 0xB0 0x7B 0] ∧
    smfBytes (sms2midi 10 (cstr "H: song\n")) = some
      ([0x4D, 0x54, 0x68, 0x64, 0, 0, 0, 6, 0, 0, 0, 1, 0, 96] ++
        mtrkChunk (globalMetas 500000 ++ trackMetas { name := cstr "INST" } (cstr "INST") ++
          [0x00, 0xB0, 0x7B, 0x00])) := by
  refine ⟨?_, ?_, ?_⟩ <;> decide

set_option maxRecDepth 100000 in
/-- C16: the source `"c5/4. o/4 c5/4\n"` at ppqn 96 gives a first note of 144
ticks (note-on at 0, note-off one tick before 144), a rest of 96 ticks without
events, and a second note of 96 ticks with its note-on at 240 (note-off one
tick before 336); the end of the line fills the bar, which ends at 384. -/
theorem dotted_note_rest_note :
    eventList 10 (cstr "c5/4. o/4 c5/4\n") = some
      [mkEvent "INST" 0 0 0x90 60 127, mkEvent "INST" 1 (144 - 1) 0x80 60 127,
       mkEvent "INST" 2 (144 + 96) 0x90 60 127, mkEvent "INST" 3 (144 + 96 + 96 - 1) 0x80 60 127,
       mkEvent "INST" 4 384 0xB0 0x7B 0] ∧
    (144 : Int) + 96 = 240 := by
  refine ⟨?_, ?_⟩ <;> decide

set_option maxRecDepth 100000 in
/-- C18: after `C: triad 0 2 4` and `A: up 0 1 2` the word `Ctriad~up` on the
default instrument emits three notes of pitch 36, 38, 40, each of ppqn = 96
ticks, one starting when the other ends, from time 0 on; they take 3 * 96
ticks, which is no more than the bar of 384 ticks. -/
theorem chord_with_arp :
    eventList 30 (cstr "C: triad 0 2 4\nA: up 0 1 2\nCtriad~up\n") = some
      [mkEvent "INST" 0 0 0x90 36 127, mkEvent "INST" 1 96 0x80 36 127,
       mkEvent "INST" 2 96 0x90 38 127, mkEvent "INST" 3 (2 * 96) 0x80 38 127,
       mkEvent "INST" 4 (2 * 96) 0x90 40 127, mkEvent "INST" 5 (3 * 96) 0x80 40 127,
       mkEvent "INST" 6 384 0xB0 0x7B 0] ∧
    (3 : Int) * 96 ≤ 384 := by
  refine ⟨?_, ?_⟩ <;> decide

set_option maxRecDepth 100000 in
/-- C15: the source `"I: piano &prg=0\nc5/4\n"` does not compile.
`parser_isParameter` scans a word with `"%15[^=]=%d/%d"` and compares the name
before `=` with `bnk`, `prg` and `chn`; the word `&prg=0` has the name `&prg`,
which is none of them, so `sms2midi` ends with `ERR_DEF_PARAMETER` and returns
`NULL`, although the comment above the function gives `&name=value` as the
syntax of a parameter and `&prg=0` as its example. The word `prg=0`, without
`&`, is accepted and sets the program, and the source written with it
compiles. -/
theorem ampersand_parameter_rejected :
    errorOf (sms2midi 10 (cstr "I: piano &prg=0\nc5/4\n")) = some ERR_DEF_PARAMETER ∧
    smfBytes (sms2midi 10 (cstr "I: piano &prg=0\nc5/4\n")) = none ∧
    eventList 10 (cstr "I: piano &prg=0\nc5/4\n") = none ∧
    parser_isParameter.inst (cstr "&prg=0") { name := cstr "piano", prg := 7 } =
      (ERR_DEF_PARAMETER, { name := cstr "piano", prg := 7 }) ∧
    parser_isParameter.inst (cstr "prg=0") { name := cstr "piano", prg := 7 } =
      (ERR_NOERROR, { name := cstr "piano", prg := 0 }) ∧
    errorOf (sms2midi 10 (cstr "I: piano prg=0\nc5/4\n")) = some ERR_NOERROR := by
  refine ⟨by decide, by decide, by decide, by decide, by decide, by decide⟩

set_option maxRecDepth 100000 in
/-- The source `"I: piano prg=0\nc5/4\n"`, with the parameter written without
`&`, compiles without error and, at ppqn 96, emits note-on `90 3C 7F` at time 0
and note-off `80 3C 7F` at time 95 on the default instrument, to which the end
of the first line returns; the note takes 96 ticks and the end of its line
fills the bar, so that the closing all-notes-off is at 384. The parameter word
sets the program that the word `piano` then sends. -/
theorem quarter_note_after_instrument :
    errorOf (sms2midi 10 (cstr "I: piano prg=0\nc5/4\n")) = some ERR_NOERROR ∧
    eventList 10 (cstr "I: piano prg=0\nc5/4\n") = some
      [mkEvent "INST" 0 0 0x90 60 127, mkEvent "INST" 1 (96 - 1) 0x80 60 127,
       mkEvent "INST" 2 384 0xB0 0x7B 0] ∧
    eventList 10 (cstr "I: piano prg=5\npiano c5/4\n") = some
      [mkEvent "piano" 0 0 0xB0 0 0, mkEvent "piano" 1 0 0xC0 5 0,
       mkEvent "piano" 2 0 0x90 60 127, mkEvent "piano" 3 (96 - 1) 0x80 60 127,
       mkEvent "INST" 4 384 0xB0 0x7B 0] := by
  refine ⟨?_, ?_, ?_⟩ <;> decide

set_option maxRecDepth 100000 in
/-- C17, as stated: the source `"c4 *3\n"` produces three C4 notes, not four:
the events are three pairs of note-on and note-off of pitch 48 and the closing
all-notes-off. -/
theorem repeater_three_not_four :
    eventList 10 (cstr "c4 *3\n") = some
      [mkEvent "INST" 0 0 0x90 48 127, mkEvent "INST" 1 95 0x80 48 127,
       mkEvent "INST" 2 96 0x90 48 127, mkEvent "INST" 3 191 0x80 48 127,
       mkEvent "INST" 4 192 0x90 48 127, mkEvent "INST" 5 287 0x80 48 127,
       mkEvent "INST" 6 384 0xB0 0x7B 0] ∧
    (eventList 10 (cstr "c4 *3\n")).map (fun l => (l.filter isNoteOn).length) ≠ some 4 := by
  refine ⟨?_, ?_⟩ <;> decide

theorem timer_barline (s : Compiler) :
    timer s BARLINE =
      if s.P_TIMEGROUP = PASSING then some (s.fail ERR_TIME_GROUP)
      else if s.barTime > s.sms.bar then some (s.fail ERR_BAR)
      else
        match trackAt s.objFirst s.currentTrk with
        | none => some .undefined
        | some trk =>
          some (.next (s.fillBar.setTrk s.currentTrk { trk with note := { trk.note with dot := 0 } })) := by
  unfold timer
  have h1 : BARLINE ≠ TIME_BLOCK_START := by decide
  have h2 : BARLINE ≠ TIME_BLOCK_END := by decide
  have h3 : BARLINE ≠ TIME_GROUP_START := by decide
  have h4 : BARLINE ≠ TIME_GROUP_END := by decide
  simp only [h1, h2, h3, h4, if_false, if_true]
  try rfl

theorem general_barline (s : Compiler) (hc : s.P_COMMENT = false)
    (hb : s.P_BLOCKCOMMENT = false) (hk : s.P_CMDTYPE = UNKNOWN)
    (ho : getObject s.objFirst (cstr "|") = none) :
    general s (cstr "|") BARLINE = (timer s BARLINE).getD .undefined := by
  have e1 : strcmp (cstr "|") (cstr "//") ≠ 0 := by decide
  have e2 : strcmp (cstr "|") (cstr "/*") ≠ 0 := by decide
  have e3 : strcmp (cstr "|") (cstr "*/") ≠ 0 := by decide
  have e4 : strcmp (cstr "|") (cstr "H:") ≠ 0 := by decide
  have e5 : strcmp (cstr "|") (cstr "I:") ≠ 0 := by decide
  have e6 : strcmp (cstr "|") (cstr "D:") ≠ 0 := by decide
  have e7 : strcmp (cstr "|") (cstr "C:") ≠ 0 := by decide
  have e8 : strcmp (cstr "|") (cstr "A:") ≠ 0 := by decide
  have e9 : strcmp (cstr "|") (cstr "M:") ≠ 0 := by decide
  have k1 : UNKNOWN ≠ HEADER := by decide
  have k2 : UNKNOWN ≠ INST := by decide
  have k3 : UNKNOWN ≠ DRUM := by decide
  have k4 : UNKNOWN ≠ CHORD := by decide
  have k5 : UNKNOWN ≠ ARP := by decide
  have k6 : UNKNOWN ≠ MACRO := by decide
  unfold general
  simp only [e1, e2, e3, e4, e5, e6, e7, e8, e9, if_false, false_and, and_false, hc, hb,
    Bool.false_eq_true, or_self]
  unfold system
  simp only [hk, k1, k2, k3, k4, k5, k6, if_false]
  unfold user
  simp only [ho]
  unfold command
  rw [timer_barline]
  split_ifs
  · rfl
  · rfl
  · cases trackAt s.objFirst s.currentTrk <;> rfl

set_option maxRecDepth 100000 in
/-- C19: a bar line read outside a comment, a definition line and a time group
with `barTime > sms->bar` ends the compilation with `ERR_BAR`, and `sms2midi`
then returns `NULL`; with `barTime <= sms->bar` the pass goes on with `barTime =
0`, the song time moved forward by `sms->bar - barTime` unless `barTime` is 0,
and no event. The source of five quarter notes and a bar line fails with
`ERR_BAR` and yields no SMF. -/
theorem bar_line_overrun (s : Compiler) (trk : smsTrack) (hc : s.P_COMMENT = false)
    (hb : s.P_BLOCKCOMMENT = false) (hk : s.P_CMDTYPE = UNKNOWN)
    (ho : getObject s.objFirst (cstr "|") = none) (hg : s.P_TIMEGROUP ≠ PASSING)
    (ht : trackAt s.objFirst s.currentTrk = some trk) :
    (s.barTime > s.sms.bar →
      general s (cstr "|") BARLINE = .stop { s with err := ERR_BAR } ∧
      finish { s with err := ERR_BAR } = .done { err := ERR_BAR, smf := none }) ∧
    (s.barTime ≤ s.sms.bar →
      ∃ t, general s (cstr "|") BARLINE = .next t ∧ t.barTime = 0 ∧
        t.sngTime = (if s.barTime = 0 then s.sngTime else s.sngTime + (s.sms.bar - s.barTime)) ∧
        t.evtFirst = s.evtFirst ∧ t.sms = s.sms) ∧
    errorOf (sms2midi 20 (cstr "c5/4 c5/4 c5/4 c5/4 c5/4 |\n")) = some ERR_BAR ∧
    smfBytes (sms2midi 20 (cstr "c5/4 c5/4 c5/4 c5/4 c5/4 |\n")) = none := by
  refine ⟨?_, ?_, by decide, by decide⟩
  · intro h
    rw [general_barline s hc hb hk ho, timer_barline]
    simp only [hg, h, if_false, if_true, Option.getD_some]
    refine ⟨rfl, ?_⟩
    unfold finish finalErr
    have : ERR_BAR ≠ 0 := by decide
    simp [hb, this]
  · intro h
    rw [general_barline s hc hb hk ho, timer_barline]
    have h2 : ¬ s.barTime > s.sms.bar := by omega
    simp only [hg, h2, if_false, ht, Option.getD_some]
    refine ⟨_, rfl, rfl, ?_, rfl, rfl⟩
    simp only [setTrk_evtFirst, Compiler.setTrk, Compiler.fillBar]
    split_ifs <;> first | rfl | omega | (exfalso; omega)

set_option maxRecDepth 100000 in
theorem bar_line_overrun_witness :
    ∃ s : Compiler, initCompiler (cstr "|") = some s ∧
      ((({ s with barTime := 480, sngTime := 480 } : Compiler).barTime >
          ({ s with barTime := 480, sngTime := 480 } : Compiler).sms.bar →
        general { s with barTime := 480, sngTime := 480 } (cstr "|") BARLINE =
          .stop { s with barTime := 480, sngTime := 480, err := ERR_BAR } ∧
        finish { s with barTime := 480, sngTime := 480, err := ERR_BAR } =
          .done { err := ERR_BAR, smf := none }) ∧
      (480 : Int) > s.sms.bar) := by
  cases hi : initCompiler (cstr "|") with
  | none => exact absurd hi (by decide)
  | some s =>
    have hs : some s = initCompiler (cstr "|") := hi.symm
    have hc : s.P_COMMENT = false := by
      have : (initCompiler (cstr "|")).map (fun s => s.P_COMMENT) = some false := by decide
      rw [hi] at this; simpa using this
    have hb : s.P_BLOCKCOMMENT = false := by
      have : (initCompiler (cstr "|")).map (fun s => s.P_BLOCKCOMMENT) = some false := by decide
      rw [hi] at this; simpa using this
    have hk : s.P_CMDTYPE = UNKNOWN := by
      have : (initCompiler (cstr "|")).map (fun s => s.P_CMDTYPE) = some UNKNOWN := by decide
      rw [hi] at this; simpa using this
    have ho : getObject s.objFirst (cstr "|") = none := by
      have : (initCompiler (cstr "|")).map (fun s => getObject s.objFirst (cstr "|")) =
          some none := by decide
      rw [hi] at this; simpa using this
    have hg : s.P_TIMEGROUP ≠ PASSING := by
      have : (initCompiler (cstr "|")).map (fun s => s.P_TIMEGROUP) = some IDLE := by decide
      rw [hi] at this
      simp only [Option.map_some', Option.some.injEq] at this
      rw [this]; decide
    have ht : trackAt s.objFirst s.currentTrk = some { name := cstr "INST" } := by
      have : (initCompiler (cstr "|")).map (fun s => trackAt s.objFirst s.currentTrk) =
          some (some { name := cstr "INST" }) := by decide
      rw [hi] at this; simpa using this
    have hbar : s.sms.bar = 384 := by
      have : (initCompiler (cstr "|")).map (fun s => s.sms.bar) = some 384 := by decide
      rw [hi] at this; simpa using this
    refine ⟨s, rfl, ?_, by rw [hbar]; decide⟩
    exact (bar_line_overrun { s with barTime := 480, sngTime := 480 } { name := cstr "INST" }
      hc hb hk ho hg ht).1

/-! ## The repeater -/

@[simp] theorem markTimes_P_REPEAT (s : Compiler) : s.markTimes.P_REPEAT = s.P_REPEAT := by
  unfold Compiler.markTimes
  simp only []
  split_ifs <;> rfl

@[simp] theorem markTimes_LASTWORD (s : Compiler) : s.markTimes.LASTWORD = s.LASTWORD := by
  unfold Compiler.markTimes
  simp only []
  split_ifs <;> rfl

theorem keeps_congr (s t : Compiler) (f : Flow) (h : f.Keeps s.P_REPEAT s.LASTWORD)
    (h1 : s.P_REPEAT = t.P_REPEAT) (h2 : s.LASTWORD = t.LASTWORD) :
    f.Keeps t.P_REPEAT t.LASTWORD := by
  rw [← h1, ← h2]; exact h

theorem cmdHeader_keeps (s : Compiler) (word : List Nat) :
    (cmdHeader s word).Keeps s.P_REPEAT s.LASTWORD := by
  unfold cmdHeader
  simp only []
  repeat' split
  all_goals first
    | exact ⟨rfl, rfl⟩
    | trivial

theorem cmdInst_keeps (s : Compiler) (word : List Nat) :
    (cmdInst s word).Keeps s.P_REPEAT s.LASTWORD := by
  unfold cmdInst
  simp only []
  repeat' split
  all_goals first
    | exact ⟨rfl, rfl⟩
    | trivial

theorem cmdDrum_keeps (s : Compiler) (word : List Nat) :
    (cmdDrum s word).Keeps s.P_REPEAT s.LASTWORD := by
  unfold cmdDrum
  simp only []
  repeat' split
  all_goals first
    | exact ⟨rfl, rfl⟩
    | trivial

theorem cmdChord_keeps (s : Compiler) (word : List Nat) :
    (cmdChord s word).Keeps s.P_REPEAT s.LASTWORD := by
  unfold cmdChord
  simp only []
  repeat' split
  all_goals first
    | exact ⟨rfl, rfl⟩
    | trivial

theorem appendWord_keeps (s : Compiler) (p : Option Nat) (word : List Nat) :
    (appendWord s p word).Keeps s.P_REPEAT s.LASTWORD := by
  unfold appendWord
  simp only []
  repeat' split
  all_goals first
    | exact ⟨rfl, rfl⟩
    | trivial

theorem cmdArp_keeps (s : Compiler) (word : List Nat) (token : Int) :
    (cmdArp s word token).Keeps s.P_REPEAT s.LASTWORD := by
  unfold cmdArp
  simp only []
  repeat' split
  all_goals first
    | exact appendWord_keeps s _ _
    | exact ⟨rfl, rfl⟩
    | trivial

theorem cmdMacro_keeps (s : Compiler) (word : List Nat) (token : Int) :
    (cmdMacro s word token).Keeps s.P_REPEAT s.LASTWORD := by
  unfold cmdMacro
  simp only []
  repeat' split
  all_goals first
    | exact appendWord_keeps s _ _
    | exact ⟨rfl, rfl⟩
    | trivial

theorem useInst_keeps (s : Compiler) (p : Nat) : (useInst s p).Keeps s.P_REPEAT s.LASTWORD := by
  unfold useInst
  simp only []
  split
  · trivial
  · exact ⟨rfl, rfl⟩

theorem useMacro_keeps (s : Compiler) (p : Nat) :
    (useMacro s p).Keeps s.P_REPEAT s.LASTWORD := by
  unfold useMacro
  simp only []
  repeat' split
  all_goals first
    | exact ⟨rfl, rfl⟩
    | trivial

theorem timer_keeps (s : Compiler) (token : Int) (f : Flow) (hf : timer s token = some f) :
    f.Keeps s.P_REPEAT s.LASTWORD := by
  unfold timer at hf
  simp only [] at hf
  repeat' split at hf
  all_goals simp only [Option.some.injEq, reduceCtorEq] at hf
  all_goals subst hf
  all_goals first
    | exact ⟨rfl, rfl⟩
    | trivial

theorem dynamic_keeps (s : Compiler) (trk : smsTrack) (word : List Nat) (f : Flow)
    (hf : dynamic s trk word = some f) : f.Keeps s.P_REPEAT s.LASTWORD := by
  unfold dynamic at hf
  simp only [] at hf
  repeat' split at hf
  all_goals simp only [Option.some.injEq, reduceCtorEq] at hf
  all_goals subst hf
  all_goals first
    | exact ⟨rfl, rfl⟩
    | trivial

theorem playNote_keeps (s : Compiler) (p : Nat) (trk : smsTrack) (holdKey : Int) :
    (playNote s p trk holdKey).Keeps s.P_REPEAT s.LASTWORD := by
  unfold playNote
  simp only []
  repeat' split
  all_goals first
    | exact ⟨rfl, rfl⟩
    | trivial
    | (unfold Flow.Keeps
       simp only [markTimes_P_REPEAT, markTimes_LASTWORD]
       first | done | exact ⟨rfl, rfl⟩ | exact ⟨trivial, trivial⟩)

theorem playKeys_keeps (trk : smsTrack) (c : smsChordNote) (ckeys : List Nat) (s : Compiler) :
    (playKeys trk c ckeys s).P_REPEAT = s.P_REPEAT ∧
      (playKeys trk c ckeys s).LASTWORD = s.LASTWORD := by
  induction ckeys generalizing s with
  | nil => exact ⟨rfl, rfl⟩
  | cons key ckeys ih =>
    unfold playKeys
    simp only []
    split
    · exact ih s
    · exact ih _

theorem playChord_keeps (s : Compiler) (trk : smsTrack) (c : smsChordNote) (ckeys : List Nat) :
    (playChord s trk c ckeys).Keeps s.P_REPEAT s.LASTWORD := by
  unfold playChord Flow.Keeps
  simp only [markTimes_P_REPEAT, markTimes_LASTWORD]
  exact playKeys_keeps trk c (ckeys.take 7) s

theorem playArp_keeps (p : Nat) (trk : smsTrack) (c : smsChordNote) (ckeys : List Nat)
    (fuel : Nat) (arplist : List Nat) (n : smsNote) (ARPWORD : List Nat) (s : Compiler) :
    (playArp p trk c ckeys fuel arplist n ARPWORD s).Keeps s.P_REPEAT s.LASTWORD := by
  induction fuel generalizing arplist n ARPWORD s with
  | zero => unfold playArp; trivial
  | succ fuel ih =>
    cases arplist with
    | nil => unfold playArp; exact ⟨rfl, rfl⟩
    | cons a arplist =>
      unfold playArp
      simp only []
      repeat' split
      all_goals first
        | exact ⟨rfl, rfl⟩
        | trivial
        | exact ih _ _ _ _
        | (refine keeps_congr _ s _ (ih _ _ _ _) ?_ ?_
           · simp only [markTimes_P_REPEAT]
             first | done | rfl
           · simp only [markTimes_LASTWORD]
             first | done | rfl)

theorem play_keeps (s : Compiler) (p : Nat) (trk : smsTrack) (word : List Nat) :
    (play s p trk word).Keeps s.P_REPEAT s.LASTWORD := by
  unfold play
  simp only []
  repeat' split
  all_goals first
    | exact ⟨rfl, rfl⟩
    | trivial
    | exact playNote_keeps _ _ _ _
    | exact playChord_keeps _ _ _ _
    | exact playArp_keeps _ _ _ _ _ _ _ _ _

theorem command_keeps (s : Compiler) (word : List Nat) (token : Int) :
    (command s word token).Keeps s.P_REPEAT s.LASTWORD := by
  unfold command
  split
  · rename_i f hf
    exact timer_keeps s token f hf
  · split
    · trivial
    · split
      · rename_i f hf
        exact dynamic_keeps s _ word f hf
      · exact play_keeps s _ _ word

theorem user_keeps (s : Compiler) (word : List Nat) (token : Int) :
    (user s word token).Keeps s.P_REPEAT s.LASTWORD := by
  unfold user
  repeat' split
  · exact useInst_keeps s _
  · exact ⟨rfl, rfl⟩
  · exact useMacro_keeps s _
  · exact command_keeps s word token
  · exact command_keeps s word token

theorem system_keeps (s : Compiler) (word : List Nat) (token : Int) :
    (system s word token).Keeps s.P_REPEAT s.LASTWORD := by
  unfold system
  repeat' split
  · exact cmdHeader_keeps s word
  · exact cmdInst_keeps s word
  · exact cmdDrum_keeps s word
  · exact cmdChord_keeps s word
  · exact cmdArp_keeps s word token
  · exact cmdMacro_keeps s word token
  · exact user_keeps s word token

set_option maxHeartbeats 2000000 in
theorem general_keeps (s : Compiler) (word : List Nat) (token : Int) :
    (general s word token).Keeps s.P_REPEAT s.LASTWORD := by
  unfold general
  lift_lets
  intro s1 s2 s3
  have h1 : s1.P_REPEAT = s.P_REPEAT ∧ s1.LASTWORD = s.LASTWORD := by
    simp only [s1]; split <;> exact ⟨rfl, rfl⟩
  clear_value s1
  have h2 : s2.P_REPEAT = s.P_REPEAT ∧ s2.LASTWORD = s.LASTWORD := by
    simp only [s2]; split <;> exact h1
  clear_value s2
  have h3 : s3.P_REPEAT = s.P_REPEAT ∧ s3.LASTWORD = s.LASTWORD := by
    simp only [s3]; split <;> exact h2
  clear_value s3
  split_ifs
  all_goals first
    | exact keeps_congr s3 s _ (system_keeps s3 word token) h3.1 h3.2
    | exact h1
    | exact h2
    | exact h3

theorem keeps_eq (f : Flow) (r r2 : Int) (w w2 : Option (List Nat)) (h : f.Keeps r w)
    (h1 : r = r2) (h2 : w = w2) : f.Keeps r2 w2 := by
  rw [← h1, ← h2]; exact h

set_option maxRecDepth 100000 in
/-- C17, amended: a repeater `*N` with `N >= 1`, read outside a comment and a
macro definition, sets the repeat count to `N - 1` and nothing else. A pass
that starts with a repeat count other than 0 after a note or a chord handles
the last word again, as a word of more than one character, and leaves the
count one less and the last word as it is; a pass that starts with the count 0
reads the next word. So the word is played `N` times in all: the sources
`"c4 *N\n"` give `N` note-ons of pitch 48, `"Cmaj *2\n"` gives the three keys
of the chord twice, and a macro of two notes with `*3` gives them three
times. -/
theorem repeater_replays (s t : Compiler) (word w : List Nat) (N token : Int)
    (hw : s.SMSWORD = some word) (hr : parser_isRepeater word = (ERR_NOERROR, some N))
    (hN : 1 ≤ N) (hm : s.P_MACRO = IDLE ∨ s.P_MACRO = PASSING) (hc : s.P_COMMENT = false)
    (hb : s.P_BLOCKCOMMENT = false) (ht : t.P_REPEAT ≠ 0)
    (hk : t.lastWordType = NOTE ∨ t.lastWordType = CHORD) (hl : t.LASTWORD = some w)
    (hnr : (parser_isRepeater w).1 ≠ ERR_NOERROR) :
    ready s token = .next { s with P_REPEAT := N - 1 } ∧
    step t = general { t with P_REPEAT := t.P_REPEAT - 1, SMSWORD := some w,
                              lastWordType := UNKNOWN } w UNKNOWN ∧
    (step t).Keeps (t.P_REPEAT - 1) (some w) ∧
    (∀ u : Compiler, u.P_REPEAT = 0 → step u = readWord u) ∧
    (∀ p ∈ [("c4 *1\n", 1), ("c4 *2\n", 2), ("c4 *3\n", 3), ("c4 *4\n", 4), ("c4 *5\n", 5),
            ("c4 *6\n", 6), ("c4 *7\n", 7), ("c4 *8\n", 8), ("c4 *9\n", 9), ("c4 *12\n", 12)],
      (eventList 20 (cstr p.1)).map (fun l => (l.filter isNoteOn).map (fun e => e.data1)) =
        some (List.replicate p.2 48)) ∧
    (eventList 20 (cstr "Cmaj *2\n")).map (fun l => (l.filter isNoteOn).map (fun e => e.data1)) =
      some [36, 40, 43, 36, 40, 43] ∧
    (eventList 30 (cstr "M: rep { c4 d4 }\nrep *3\n")).map
        (fun l => (l.filter isNoteOn).map (fun e => e.data1)) =
      some [48, 50, 48, 50, 48, 50] := by
  have hstep : step t = general { t with P_REPEAT := t.P_REPEAT - 1, SMSWORD := some w,
                                         lastWordType := UNKNOWN } w UNKNOWN := by
    have hnm : t.lastWordType ≠ MACRO := by
      rcases hk with h | h <;> rw [h] <;> decide
    have hu1 : UNKNOWN ≠ CARRIAGE_RETURN := by decide
    have hu2 : UNKNOWN ≠ NEWLINE := by decide
    unfold step
    simp only [ht, ne_eq, not_false_eq_true, if_true, hnm, if_false, hk]
    unfold ready
    simp only [hl, hnr, and_false, if_false, hu1, hu2, or_self]
  refine ⟨?_, hstep, ?_, ?_, by decide, by decide, by decide⟩
  · have hm2 : (s.P_MACRO = IDLE ∨ s.P_MACRO = PASSING) = True := eq_true hm
    have hN2 : ¬ N < 1 := by omega
    unfold ready
    simp only [hw, hr, hm2, hc, hb, Bool.not_false, and_self, if_true, hN2, if_false]
  · rw [hstep]
    exact keeps_eq _ _ _ _ _ (general_keeps _ w UNKNOWN) rfl hl
  · intro u hu
    unfold step
    simp only [hu, ne_eq, not_true_eq_false, if_false]

set_option maxRecDepth 100000 in
theorem repeater_replays_witness :
    ready { startState with SMSWORD := some (cstr "*3") } UNKNOWN =
      .next { startState with SMSWORD := some (cstr "*3"), P_REPEAT := 3 - 1 } ∧
    (step { startState with P_REPEAT := 2, lastWordType := NOTE,
                            LASTWORD := some (cstr "c4") }).Keeps (2 - 1) (some (cstr "c4")) :=
  have h := repeater_replays { startState with SMSWORD := some (cstr "*3") }
    { startState with P_REPEAT := 2, lastWordType := NOTE, LASTWORD := some (cstr "c4") }
    (cstr "*3") (cstr "c4") 3 UNKNOWN rfl (by decide) (by decide) (by decide) (by decide)
    (by decide) (by decide) (by decide) rfl (by decide)
  ⟨h.1, h.2.2.1⟩

/-! ## The tracks of the data model -/

set_option maxHeartbeats 4000000 in
theorem qualifier_dur (type : Int) (fuel : Nat) (data : List Nat) (n : smsNote) (flg : Bool)
    (h : GoodDur n) : GoodDur (parser_isNote.qualifier type fuel data n flg).2 := by
  induction fuel generalizing data n flg with
  | zero => unfold parser_isNote.qualifier; exact h
  | succ fuel ih =>
    cases data with
    | nil =>
      unfold parser_isNote.qualifier
      simp only []
      split <;> exact h
    | cons c data =>
      unfold parser_isNote.qualifier
      simp only [apply_ite Prod.snd, apply_ite GoodDur]
      repeat' split
      all_goals first
        | exact h
        | exact ih _ _ _ h
        | (apply ih
           unfold GoodDur at *
           simp only []
           omega)

theorem rest_dur (data : List Nat) (n : smsNote) (type : Int) (h : GoodDur n) :
    GoodDur (parser_isNote.rest data n type).2 := by
  unfold parser_isNote.rest
  simp only [apply_ite Prod.snd, apply_ite GoodDur]
  repeat' split
  all_goals first
    | exact h
    | exact qualifier_dur _ _ _ _ _ h

set_option maxHeartbeats 4000000 in
theorem parser_isNote_dur (data : List Nat) (n : smsNote) (type : Int) (h : GoodDur n) :
    GoodDur (parser_isNote data n type).2.1 := by
  unfold parser_isNote
  cases data with
  | nil =>
    simp only [apply_ite Prod.snd, apply_ite Prod.fst, apply_ite GoodDur]
    repeat' split
    all_goals first
      | exact h
      | exact rest_dur _ _ _ h
  | cons c d =>
    simp only [apply_ite Prod.snd, apply_ite Prod.fst, apply_ite GoodDur]
    repeat' split
    all_goals first
      | exact h
      | exact rest_dur _ _ _ h

theorem tg_storeAt (objs : List smsObject) (p : Nat) (payload : smsPayload)
    (h : TracksGood objs) (hp : ∀ trk : smsTrack, payload = .track trk → GoodTrk trk) :
    TracksGood (storeAt objs p payload) := by
  unfold storeAt
  split
  · rename_i o _
    intro x hx trk hxt
    rcases List.mem_or_eq_of_mem_set hx with hm | he
    · exact h x hm trk hxt
    · subst he
      exact hp trk hxt
  · exact h

theorem tg_storeAt_track (objs : List smsObject) (p : Nat) (trk : smsTrack)
    (h : TracksGood objs) (hp : GoodTrk trk) : TracksGood (storeAt objs p (.track trk)) := by
  apply tg_storeAt _ _ _ h
  intro t e
  cases e
  exact hp

theorem tg_storeAt_drumkey (objs : List smsObject) (p : Nat) (d : smsDrumKey)
    (h : TracksGood objs) : TracksGood (storeAt objs p (.drumkey d)) := by
  apply tg_storeAt _ _ _ h
  intro t e
  cases e

theorem tg_storeAt_chord (objs : List smsObject) (p : Nat) (c : smsChord)
    (h : TracksGood objs) : TracksGood (storeAt objs p (.chord c)) := by
  apply tg_storeAt _ _ _ h
  intro t e
  cases e

theorem tg_storeAt_mac (objs : List smsObject) (p : Nat) (m : smsMacro)
    (h : TracksGood objs) : TracksGood (storeAt objs p (.mac m)) := by
  apply tg_storeAt _ _ _ h
  intro t e
  cases e

theorem tg_newSmsObject (objs : List smsObject) (name : List Nat) (type : Int)
    (payload : smsPayload) (h : TracksGood objs)
    (hp : ∀ trk : smsTrack, payload = .track trk → GoodTrk trk) :
    TracksGood (newSmsObject objs name type payload) := by
  unfold newSmsObject
  intro x hx trk hxt
  rcases List.mem_append.1 hx with hm | he
  · exact h x hm trk hxt
  · simp only [List.mem_singleton] at he
    subst he
    exact hp trk hxt

theorem goodTrk_new (name : List Nat) : GoodTrk { name := name } := by
  unfold GoodTrk GoodDur
  simp only []
  omega

theorem tg_newSmsTrk (objs objs2 : List smsObject) (name : List Nat) (r : Option Nat)
    (h : TracksGood objs) (he : newSmsTrk objs name = (objs2, r)) : TracksGood objs2 := by
  unfold newSmsTrk at he
  split at he
  · simp only [Prod.mk.injEq] at he
    rw [← he.1]; exact h
  · simp only [Prod.mk.injEq] at he
    rw [← he.1]
    apply tg_newSmsObject _ _ _ _ h
    intro t e
    cases e
    exact goodTrk_new name

theorem tg_newSmsDrumKey (objs objs2 : List smsObject) (name : List Nat) (r : Option Nat)
    (h : TracksGood objs) (he : newSmsDrumKey objs name = (objs2, r)) : TracksGood objs2 := by
  unfold newSmsDrumKey at he
  split at he
  · simp only [Prod.mk.injEq] at he
    rw [← he.1]; exact h
  · simp only [Prod.mk.injEq] at he
    rw [← he.1]
    apply tg_newSmsObject _ _ _ _ h
    intro t e
    cases e

theorem tg_newSmsChord (objs objs2 : List smsObject) (name : List Nat) (r : Option Nat)
    (h : TracksGood objs) (he : newSmsChord objs name = (objs2, r)) : TracksGood objs2 := by
  unfold newSmsChord at he
  split at he
  · simp only [Prod.mk.injEq] at he
    rw [← he.1]; exact h
  · simp only [Prod.mk.injEq] at he
    rw [← he.1]
    apply tg_newSmsObject _ _ _ _ h
    intro t e
    cases e

theorem tg_newSmsMacro (objs objs2 : List smsObject) (name : List Nat) (mode : Int)
    (r : Option Nat) (h : TracksGood objs) (he : newSmsMacro objs name mode = (objs2, r)) :
    TracksGood objs2 := by
  unfold newSmsMacro at he
  split at he
  · simp only [Prod.mk.injEq] at he
    rw [← he.1]; exact h
  · simp only [Prod.mk.injEq] at he
    rw [← he.1]
    apply tg_newSmsObject _ _ _ _ h
    intro t e
    cases e

theorem mem_of_trackAt (objs : List smsObject) (p : Nat) (trk : smsTrack)
    (h : trackAt objs p = some trk) : ∃ o ∈ objs, o.obj = .track trk := by
  unfold trackAt at h
  split at h
  · rename_i name type t heq
    simp only [Option.some.injEq] at h
    subst h
    exact ⟨_, List.get?_mem heq, rfl⟩
  · simp at h

theorem tg_trackAt (objs : List smsObject) (p : Nat) (trk : smsTrack) (h : TracksGood objs)
    (ht : trackAt objs p = some trk) : GoodTrk trk := by
  obtain ⟨o, ho, he⟩ := mem_of_trackAt objs p trk ht
  exact h o ho trk he

theorem sound_setTrk (s : Compiler) (p : Nat) (trk : smsTrack) (h : s.Sound)
    (hp : GoodTrk trk) : (s.setTrk p trk).Sound :=
  ⟨tg_storeAt_track _ _ _ h.1 hp, h.2⟩

theorem sound_congr (s t : Compiler) (h : s.Sound) (h1 : t.objFirst = s.objFirst)
    (h2 : t.sms.ppqn = s.sms.ppqn) : t.Sound := by
  unfold Compiler.Sound at *
  rw [h1, h2]; exact h

@[simp] theorem markTimes_objFirst (s : Compiler) : s.markTimes.objFirst = s.objFirst := by
  unfold Compiler.markTimes
  simp only []
  split_ifs <;> rfl

theorem sound_markTimes (s : Compiler) (h : s.Sound) : s.markTimes.Sound := by
  unfold Compiler.Sound at *
  rw [markTimes_objFirst, markTimes_sms]; exact h

theorem header_ppqn (word : List Nat) (sms sms2 : smsHeader) (err : Int)
    (h : parser_isParameter.header word sms = some (err, sms2)) (hp : 16 ≤ sms.ppqn) :
    16 ≤ sms2.ppqn := by
  unfold parser_isParameter.header at h
  simp only [] at h
  repeat' split at h
  all_goals simp only [Option.some.injEq, Prod.mk.injEq, reduceCtorEq] at h
  all_goals (try obtain ⟨_, h⟩ := h)
  all_goals (try subst h)
  all_goals first
    | exact hp
    | (simp only []; omega)

theorem inst_good (word : List Nat) (trk : smsTrack) (h : GoodTrk trk) :
    GoodTrk (parser_isParameter.inst word trk).2 := by
  unfold parser_isParameter.inst
  simp only [apply_ite Prod.snd, apply_ite GoodTrk]
  repeat' split
  all_goals first
    | exact h
    | (unfold GoodTrk GoodDur at *
       simp only []
       omega)

theorem goodTrk_note (trk : smsTrack) (n : smsNote) (h : GoodTrk trk) (hn : GoodDur n) :
    GoodTrk { trk with note := n } := ⟨h.1, h.2.1, hn⟩

theorem goodTrk_defaultNote (trk : smsTrack) (h : GoodTrk trk) : GoodTrk (defaultNote trk) := by
  unfold GoodTrk GoodDur defaultNote DEFAULT_DURATION at *
  simp only []
  omega

theorem cmdHeader_sound (s : Compiler) (word : List Nat) (h : s.Sound) :
    (cmdHeader s word).Sound := by
  unfold cmdHeader
  simp only []
  repeat' split
  all_goals first
    | exact True.intro
    | exact h
    | exact ⟨h.1, header_ppqn _ _ _ _ (by assumption) h.2⟩

theorem cmdInst_sound (s : Compiler) (word : List Nat) (h : s.Sound) :
    (cmdInst s word).Sound := by
  unfold cmdInst
  simp only []
  repeat' split
  all_goals first
    | exact True.intro
    | exact h
    | exact ⟨tg_newSmsTrk _ _ _ _ h.1 (by assumption), h.2⟩
    | exact sound_setTrk s _ _ h (inst_good _ _ (tg_trackAt _ _ _ h.1 (by assumption)))

theorem goodTrk_prg (trk : smsTrack) (v : Int) (h : GoodTrk trk) :
    GoodTrk { trk with prg := v } := h

theorem cmdDrum_sound (s : Compiler) (word : List Nat) (h : s.Sound) :
    (cmdDrum s word).Sound := by
  unfold cmdDrum
  simp only []
  repeat' split
  all_goals first
    | exact True.intro
    | exact h
    | exact ⟨tg_newSmsDrumKey _ _ _ _ h.1 (by assumption), h.2⟩
    | exact ⟨tg_storeAt_drumkey _ _ _ (tg_storeAt_track _ _ _ h.1
        (goodTrk_prg _ _ (tg_trackAt _ _ _ h.1 (by assumption)))), h.2⟩

theorem cmdChord_sound (s : Compiler) (word : List Nat) (h : s.Sound) :
    (cmdChord s word).Sound := by
  unfold cmdChord
  simp only []
  repeat' split
  all_goals first
    | exact True.intro
    | exact h
    | exact ⟨tg_newSmsChord _ _ _ _ h.1 (by assumption), h.2⟩
    | exact ⟨tg_storeAt_chord _ _ _ h.1, h.2⟩

theorem appendWord_sound (s : Compiler) (p : Option Nat) (word : List Nat) (h : s.Sound) :
    (appendWord s p word).Sound := by
  unfold appendWord
  simp only []
  repeat' split
  all_goals first
    | exact True.intro
    | exact h
    | exact ⟨tg_storeAt_mac _ _ _ h.1, h.2⟩

theorem cmdArp_sound (s : Compiler) (word : List Nat) (token : Int) (h : s.Sound) :
    (cmdArp s word token).Sound := by
  unfold cmdArp
  simp only []
  repeat' split
  all_goals first
    | exact True.intro
    | exact h
    | exact appendWord_sound s _ _ h
    | exact ⟨tg_storeAt_mac _ _ _ (tg_newSmsMacro _ _ _ _ _ h.1 (by assumption)), h.2⟩

theorem cmdMacro_sound (s : Compiler) (word : List Nat) (token : Int) (h : s.Sound) :
    (cmdMacro s word token).Sound := by
  unfold cmdMacro
  simp only []
  repeat' split
  all_goals first
    | exact True.intro
    | exact h
    | exact appendWord_sound s _ _ h
    | exact ⟨tg_storeAt_mac _ _ _ (tg_newSmsMacro _ _ _ _ _ h.1 (by assumption)), h.2⟩
    | exact ⟨tg_storeAt_mac _ _ _ h.1, h.2⟩

theorem useInst_sound (s : Compiler) (p : Nat) (h : s.Sound) : (useInst s p).Sound := by
  unfold useInst
  simp only []
  split
  · exact True.intro
  · exact h

theorem useMacro_sound (s : Compiler) (p : Nat) (h : s.Sound) : (useMacro s p).Sound := by
  unfold useMacro
  simp only []
  repeat' split
  all_goals first
    | exact True.intro
    | exact h
    | exact sound_setTrk s _ _ h (goodTrk_defaultNote _ (tg_trackAt _ _ _ h.1 (by assumption)))

theorem goodTrk_dot (trk : smsTrack) (h : GoodTrk trk) :
    GoodTrk { trk with note := { trk.note with dot := 0 } } := h

theorem timer_sound (s : Compiler) (token : Int) (f : Flow) (h : s.Sound)
    (hf : timer s token = some f) : f.Sound := by
  unfold timer at hf
  simp only [] at hf
  repeat' split at hf
  all_goals simp only [Option.some.injEq, reduceCtorEq] at hf
  all_goals subst hf
  all_goals first
    | exact True.intro
    | exact h
    | exact sound_setTrk s.fillBar _ _ h (goodTrk_dot _ (tg_trackAt _ _ _ h.1 (by assumption)))

theorem dynamic_sound (s : Compiler) (trk : smsTrack) (word : List Nat) (f : Flow)
    (h : s.Sound) (hf : dynamic s trk word = some f) : f.Sound := by
  unfold dynamic at hf
  simp only [] at hf
  repeat' split at hf
  all_goals simp only [Option.some.injEq, reduceCtorEq] at hf
  all_goals subst hf
  all_goals first
    | exact True.intro
    | exact h

theorem playNote_sound (s : Compiler) (p : Nat) (trk : smsTrack) (holdKey : Int)
    (h : s.Sound) (ht : GoodTrk trk) : (playNote s p trk holdKey).Sound := by
  unfold playNote
  simp only []
  repeat' split
  all_goals first
    | exact True.intro
    | exact h
    | (apply sound_congr _ _ (sound_markTimes _ _) rfl rfl
       first
         | exact h
         | exact sound_setTrk _ _ _ h ht)

theorem playKeys_same (trk : smsTrack) (c : smsChordNote) (ckeys : List Nat) (s : Compiler) :
    (playKeys trk c ckeys s).objFirst = s.objFirst ∧
      (playKeys trk c ckeys s).sms.ppqn = s.sms.ppqn ∧
      (playKeys trk c ckeys s).sms.bar = s.sms.bar ∧
      (playKeys trk c ckeys s).sngTime = s.sngTime := by
  induction ckeys generalizing s with
  | nil => exact ⟨rfl, rfl, rfl, rfl⟩
  | cons key ckeys ih =>
    unfold playKeys
    simp only []
    split
    · exact ih s
    · exact ih _

theorem playChord_sound (s : Compiler) (trk : smsTrack) (c : smsChordNote) (ckeys : List Nat)
    (h : s.Sound) : (playChord s trk c ckeys).Sound := by
  unfold playChord
  simp only []
  apply sound_congr _ _ (sound_markTimes _ _) rfl rfl
  exact sound_congr s _ h (playKeys_same trk c _ s).1 (playKeys_same trk c _ s).2.1

theorem playArp_sound (p : Nat) (trk : smsTrack) (c : smsChordNote) (ckeys : List Nat)
    (fuel : Nat) (arplist : List Nat) (n : smsNote) (ARPWORD : List Nat) (s : Compiler)
    (h : s.Sound) : (playArp p trk c ckeys fuel arplist n ARPWORD s).Sound := by
  induction fuel generalizing arplist n ARPWORD s with
  | zero => unfold playArp; exact True.intro
  | succ fuel ih =>
    cases arplist with
    | nil => unfold playArp; exact h
    | cons a arplist =>
      unfold playArp
      simp only []
      repeat' split
      all_goals first
        | exact True.intro
        | exact h
        | exact ih _ _ _ _ h
        | exact ih _ _ _ _ (sound_setTrk s.fillBar _ _ h
            (goodTrk_dot _ (tg_trackAt _ _ _ h.1 (by assumption))))
        | exact ih _ _ _ _ (sound_markTimes _ h)

theorem goodTrk_cnote (trk : smsTrack) (c : smsChordNote) (h : GoodTrk trk) :
    GoodTrk { trk with cnote := c } := h

theorem play_sound (s : Compiler) (p : Nat) (trk : smsTrack) (word : List Nat)
    (h : s.Sound) (ht : GoodTrk trk) : (play s p trk word).Sound := by
  unfold play
  simp only []
  generalize (if s.currentBaseNote = EMPTY then (if trk.chn = 9 then DRUM else INST)
    else BASENOTE) = ty
  have hn := goodTrk_note trk _ ht (parser_isNote_dur word trk.note ty ht.2.2)
  have h1 := sound_setTrk s p _ h hn
  have h2 := sound_setTrk _ p _ h1 (goodTrk_cnote _
    (parser_isChord (s.setTrk p { trk with note := (parser_isNote word trk.note
      ty).2.1 }).objFirst word trk.cnote).2 hn)
  split
  · exact h
  split
  · exact h
  split
  · exact h1
  split
  · exact playNote_sound _ _ _ _ h1 hn
  split
  · exact h2
  split
  · exact True.intro
  split
  · exact playChord_sound _ _ _ _ h2
  split
  · exact True.intro
  · exact playArp_sound _ _ _ _ _ _ _ _ _ h2

theorem command_sound (s : Compiler) (word : List Nat) (token : Int) (h : s.Sound) :
    (command s word token).Sound := by
  unfold command
  split
  · rename_i f hf
    exact timer_sound s token f h hf
  · split
    · exact True.intro
    · split
      · rename_i f hf
        exact dynamic_sound s _ word f h hf
      · exact play_sound s _ _ word h (tg_trackAt _ _ _ h.1 (by assumption))

theorem useDrum_sound (s : Compiler) (p : Nat) (h : s.Sound) : (useDrum s p).Sound := h

theorem user_sound (s : Compiler) (word : List Nat) (token : Int) (h : s.Sound) :
    (user s word token).Sound := by
  unfold user
  repeat' split
  · exact useInst_sound s _ h
  · exact useDrum_sound s _ h
  · exact useMacro_sound s _ h
  · exact command_sound s word token h
  · exact command_sound s word token h

theorem system_sound (s : Compiler) (word : List Nat) (token : Int) (h : s.Sound) :
    (system s word token).Sound := by
  unfold system
  repeat' split
  · exact cmdHeader_sound s word h
  · exact cmdInst_sound s word h
  · exact cmdDrum_sound s word h
  · exact cmdChord_sound s word h
  · exact cmdArp_sound s word token h
  · exact cmdMacro_sound s word token h
  · exact user_sound s word token h

theorem sound_ite (c : Prop) [Decidable c] (a b : Compiler) (ha : a.Sound)
    (hb : b.Sound) : (if c then a else b).Sound := by
  split <;> assumption

theorem newline_sound (s : Compiler) (word : List Nat) (token : Int) (h : s.Sound) :
    (newline s word token).Sound := by
  unfold newline
  lift_lets
  intro s1 barTime s2 s3 src s4 s5
  have h1 : s1.Sound := sound_ite _ _ _ h h
  clear_value s1
  have h2 : s2.Sound := sound_ite _ _ _ h1 h1
  clear_value s2
  have h3 : s3.Sound := h2
  clear_value s3
  have hsrc : src.Sound := sound_markTimes s3 h3
  clear_value src
  have h4 : s4.Sound := sound_ite _ _ _ hsrc h3
  clear_value s4
  have h5 : s5.Sound := sound_ite _ _ _ h4 h4
  clear_value s5
  split_ifs
  all_goals repeat' split
  all_goals first
    | exact system_sound _ _ _ h3
    | exact h4
    | exact sound_setTrk s5 _ _ h5 (goodTrk_defaultNote _ (tg_trackAt _ _ _ h5.1 (by assumption)))
    | exact True.intro

set_option maxHeartbeats 2000000 in
theorem general_sound (s : Compiler) (word : List Nat) (token : Int) (h : s.Sound) :
    (general s word token).Sound := by
  unfold general
  lift_lets
  intro s1 s2 s3
  have h1 : s1.Sound := sound_ite _ _ _ h h
  clear_value s1
  have h2 : s2.Sound := sound_ite _ _ _ h1 h1
  clear_value s2
  have h3 : s3.Sound := sound_ite _ _ _ h2 h2
  clear_value s3
  split_ifs
  all_goals first
    | exact system_sound _ _ _ h3
    | exact h1
    | exact h2
    | exact h3

theorem ready_sound (s : Compiler) (token : Int) (h : s.Sound) : (ready s token).Sound := by
  unfold ready
  simp only []
  repeat' split
  all_goals first
    | exact True.intro
    | exact h
    | (apply newline_sound; exact h)
    | (apply general_sound; exact h)

theorem readSource_sound (s : Compiler) (h : s.Sound) : (readSource s).Sound := by
  unfold readSource
  simp only []
  repeat' split
  all_goals first
    | exact True.intro
    | exact h
    | (apply ready_sound; exact h)

theorem readWord_sound (s : Compiler) (h : s.Sound) : (readWord s).Sound := by
  unfold readWord
  simp only []
  repeat' split
  all_goals first
    | exact True.intro
    | exact h
    | (apply ready_sound; exact h)
    | (apply readSource_sound; exact h)

theorem step_sound (s : Compiler) (h : s.Sound) : (step s).Sound := by
  unfold step
  repeat' split
  all_goals first
    | exact True.intro
    | exact h
    | (apply ready_sound; exact h)
    | exact readWord_sound s h

theorem initCompiler_eq (data : List Nat) :
    initCompiler data = some { startState with data := cstring data } := by
  rfl

theorem startState_sound : startState.Sound := by
  have hall : startState.objFirst.all (fun o =>
      match o.obj with
      | .track trk => decide (0 ≤ trk.chn) && decide (trk.chn ≤ 15) &&
          decide (1 ≤ trk.note.dur) && decide (trk.note.dur ≤ 64)
      | _ => true) = true := by decide
  constructor
  · intro o ho trk ht
    have := List.all_eq_true.1 hall o ho
    rw [ht] at this
    simp only [Bool.and_eq_true, decide_eq_true_eq] at this
    exact ⟨this.1.1.1, this.1.1.2, this.1.2, this.2⟩
  · decide

theorem initCompiler_sound (data : List Nat) (s : Compiler) (h : initCompiler data = some s) :
    s.Sound := by
  rw [initCompiler_eq] at h
  simp only [Option.some.injEq] at h
  subst h
  exact startState_sound

theorem status_on (chn : Int) (h0 : 0 ≤ chn) (h1 : chn ≤ 15) : toBYTE (0x90 + chn) / 16 = 9 := by
  unfold toBYTE; omega

theorem status_off (chn : Int) (h0 : 0 ≤ chn) (h1 : chn ≤ 15) : toBYTE (0x80 + chn) / 16 = 8 := by
  unfold toBYTE; omega

theorem status_off_on (chn : Int) (h0 : 0 ≤ chn) (h1 : chn ≤ 15) :
    toBYTE (0x80 + chn) + 16 = toBYTE (0x90 + chn) := by
  unfold toBYTE; omega

theorem status_cc (chn : Int) (h0 : 0 ≤ chn) (h1 : chn ≤ 15) : toBYTE (0xB0 + chn) / 16 = 11 := by
  unfold toBYTE; omega

theorem status_pc (chn : Int) (h0 : 0 ≤ chn) (h1 : chn ≤ 15) : toBYTE (0xC0 + chn) / 16 = 12 := by
  unfold toBYTE; omega

theorem answers_not_on (a b : smsEvent) (h : answers a b) : isNoteOn b = false := by
  have h1 := h.1
  unfold isNoteOff at h1
  unfold isNoteOn
  simp only [decide_eq_true_eq] at h1
  simp only [decide_eq_false_iff_not]
  omega

theorem setBpm_append (l : List smsEvent) (e : smsEvent) (v : Int) :
    setBpm (l ++ [e]) v = l ++ [{ e with bpm := v }] := by
  induction l with
  | nil => rfl
  | cons a l ih =>
    cases l with
    | nil => rfl
    | cons b l =>
      simp only [List.cons_append] at ih
      have h1 : setBpm (a :: b :: (l ++ [e])) v = a :: setBpm (b :: (l ++ [e])) v := rfl
      simp only [List.cons_append, h1, ih]

theorem noteTicks_pos (sms : smsHeader) (n : smsNote) (d : Int) (hp : 16 ≤ sms.ppqn)
    (hn : GoodDur n) (h : noteTicks sms n = some d) : 1 ≤ d := by
  unfold noteTicks at h
  unfold GoodDur at hn
  have hq : 1 ≤ Int.tdiv (sms.ppqn * 4) n.dur := by
    rw [Int.tdiv_eq_ediv (by omega) (by omega)]
    exact Int.le_ediv_of_mul_le (by omega) (by omega)
  split at h
  · exact absurd h (by simp)
  · simp only [Option.some.injEq] at h
    subst h
    split
    · rw [Int.tdiv_eq_ediv (by omega) (by omega)]
      omega
    · exact hq

theorem trackAt_storeAt (objs : List smsObject) (p : Nat) (t0 trk : smsTrack)
    (h : trackAt objs p = some t0) : trackAt (storeAt objs p (.track trk)) p = some trk := by
  unfold trackAt at h
  unfold trackAt storeAt
  cases hg : objs.get? p with
  | none => rw [hg] at h; simp at h
  | some o =>
    have hlt : p < objs.length := by
      rw [List.get?_eq_getElem?] at hg
      exact (List.getElem?_eq_some_iff.1 hg).1
    simp only [List.get?_eq_getElem?, List.getElem?_set_self hlt]

theorem answers_mk (name : List Nat) (id1 id2 t1 t2 chn : Int) (x y z : Nat)
    (h0 : 0 ≤ chn) (h1 : chn ≤ 15) (ht : t1 ≤ t2) :
    answers
      { trkname := name, evtId := id1, time := t1, status := toBYTE (0x90 + chn), data1 := x,
        data2 := y, bpm := 0 }
      { trkname := name, evtId := id2, time := t2, status := toBYTE (0x80 + chn), data1 := x,
        data2 := z, bpm := 0 } := by
  refine ⟨?_, rfl, status_off_on chn h0 h1, rfl, ht⟩
  unfold isNoteOff
  simp only [decide_eq_true_eq]
  exact status_off chn h0 h1

theorem not_on_of (e : smsEvent) (k : Nat) (h : e.status / 16 = k) (hk : k ≠ 9) :
    isNoteOn e = false := by
  unfold isNoteOn
  simp only [decide_eq_false_iff_not]
  omega

theorem status_b0 : toBYTE 0xB0 / 16 = 11 := by decide

theorem status_zero : toBYTE 0 / 16 = 0 := by decide

/-! ## Decimal numerals and the scanners -/

theorem scanDigits_append (l rest : List Nat) (acc : Int) (k : Nat)
    (hl : ∀ c ∈ l, 48 ≤ c ∧ c ≤ 57) :
    scanDigits (l ++ rest) acc k =
      scanDigits rest (l.foldl (fun (a : Int) (c : Nat) => a * 10 + ((c : Int) - 48)) acc) (k + l.length) := by
  induction l generalizing acc k with
  | nil => rfl
  | cons c l ih =>
    have hc := hl c (List.mem_cons_self c l)
    have h1 : scanDigits (c :: l ++ rest) acc k =
        scanDigits (l ++ rest) (acc * 10 + ((c : Int) - 48)) (k + 1) := by
      simp only [List.cons_append, scanDigits, hc, and_self, if_true]
      rfl
    rw [h1, ih _ _ (fun x hx => hl x (List.mem_cons_of_mem c hx))]
    simp only [List.foldl_cons, List.length_cons]
    congr 1
    omega

theorem scanDigits_stop (rest : List Nat) (acc : Int) (k : Nat)
    (h : ∀ c, rest.head? = some c → ¬ (48 ≤ c ∧ c ≤ 57)) :
    scanDigits rest acc k = (acc, k, rest) := by
  cases rest with
  | nil => rfl
  | cons c cs =>
    have hc := h c rfl
    simp only [scanDigits, hc, if_false]

theorem decimalFuel_digit (fuel n : Nat) : ∀ c ∈ decimalFuel fuel n, 48 ≤ c ∧ c ≤ 57 := by
  induction fuel generalizing n with
  | zero => intro c hc; simp [decimalFuel] at hc
  | succ fuel ih =>
    intro c hc
    unfold decimalFuel at hc
    split at hc
    · simp only [List.mem_singleton] at hc
      omega
    · rw [List.mem_append] at hc
      rcases hc with hc | hc
      · exact ih _ c hc
      · simp only [List.mem_singleton] at hc
        omega

theorem decimalFuel_value (fuel n : Nat) (h : n < fuel) :
    (decimalFuel fuel n).foldl (fun (a : Int) (c : Nat) => a * 10 + ((c : Int) - 48)) 0 = n := by
  induction fuel generalizing n with
  | zero => omega
  | succ fuel ih =>
    unfold decimalFuel
    split
    · simp only [List.foldl_cons, List.foldl_nil]
      push_cast
      omega
    · rw [List.foldl_append, ih (n / 10) (by omega)]
      simp only [List.foldl_cons, List.foldl_nil]
      push_cast
      omega

theorem decimalFuel_head (fuel n : Nat) (h : n < fuel) :
    ∃ c l, decimalFuel fuel n = c :: l ∧ 48 ≤ c ∧ c ≤ 57 := by
  have hne : decimalFuel fuel n ≠ [] := by
    cases fuel with
    | zero => omega
    | succ fuel =>
      unfold decimalFuel
      split
      · simp
      · simp
  cases hd : decimalFuel fuel n with
  | nil => exact absurd hd hne
  | cons c l =>
    refine ⟨c, l, rfl, ?_⟩
    apply decimalFuel_digit fuel n
    rw [hd]
    exact List.mem_cons_self c l

theorem decimal_head (n : Nat) : ∃ c l, decimal n = c :: l ∧ 48 ≤ c ∧ c ≤ 57 :=
  decimalFuel_head (n + 1) n (by omega)

theorem scanDigits_decimal (n : Nat) (rest : List Nat)
    (h : ∀ c, rest.head? = some c → ¬ (48 ≤ c ∧ c ≤ 57)) :
    scanDigits (decimal n ++ rest) 0 0 = ((n : Int), (decimal n).length, rest) := by
  unfold decimal
  rw [scanDigits_append _ _ _ _ (decimalFuel_digit _ _), decimalFuel_value _ _ (by omega),
    scanDigits_stop _ _ _ h]
  simp

theorem toINT_of_int (v : Int) (h1 : -2147483648 ≤ v) (h2 : v ≤ 2147483647) : toINT v = v := by
  unfold toINT
  omega

theorem toINT_range (v : Int) : -2147483648 ≤ toINT v ∧ toINT v ≤ 2147483647 := by
  unfold toINT
  omega

theorem toINT_numeral (V : Nat) (h : V ≤ 2147483647) : toINT (V : Int) = (V : Int) :=
  toINT_of_int _ (by omega) (by omega)

theorem scanInt_digit (c : Nat) (t : List Nat) (h1 : 48 ≤ c) (h2 : c ≤ 57) :
    scanInt (c :: t) =
      (if (scanDigits (c :: t) 0 0).2.1 = 0 then none
       else some (toINT (scanDigits (c :: t) 0 0).1, (scanDigits (c :: t) 0 0).2.2)) := by
  interval_cases c <;> rfl

theorem scanInt_decimal (n : Nat) (rest : List Nat)
    (h : ∀ c, rest.head? = some c → ¬ (48 ≤ c ∧ c ≤ 57)) :
    scanInt (decimal n ++ rest) = some (toINT (n : Int), rest) := by
  obtain ⟨c, l, hd, hc1, hc2⟩ := decimal_head n
  have hs := scanDigits_decimal n rest h
  have hlen : (decimal n).length ≠ 0 := by rw [hd]; simp
  rw [hd] at hs hlen ⊢
  rw [List.cons_append] at hs ⊢
  rw [scanInt_digit c _ hc1 hc2, hs]
  simp only [hlen, if_false]

theorem sscanf_cases (word : List Nat) (two : Bool) :
    ((sscanfParameter word two).res ≤ 0 ∧ (sscanfParameter word two).par = [] ∧
        (sscanfParameter word two).v = -1) ∨
      ((sscanfParameter word two).res = 1 ∧ (sscanfParameter word two).par ≠ [] ∧
        (sscanfParameter word two).v = -1) ∨
      (2 ≤ (sscanfParameter word two).res ∧ (sscanfParameter word two).res ≤ 3 ∧
        (sscanfParameter word two).par ≠ []) := by
  generalize hsc : sscanfParameter word two = sc
  unfold sscanfParameter at hsc
  simp only [] at hsc
  repeat' split at hsc
  all_goals subst hsc
  all_goals simp only [le_refl, ne_eq, not_true_eq_false, and_false, and_true, true_and,
    false_or, or_false, false_and, Int.reduceNeg, Int.reduceLE, Int.reduceEq, OfNat.ofNat_ne_one,
    OfNat.one_ne_ofNat, not_false_eq_true, or_true, true_or]
  all_goals first
    | done
    | assumption
    | decide

theorem scan_par_res (word : List Nat) (two : Bool) :
    (sscanfParameter word two).par ≠ [] → 1 ≤ (sscanfParameter word two).res := by
  intro h
  rcases sscanf_cases word two with h1 | h1 | h1
  · exact absurd h1.2.1 h
  · omega
  · omega

theorem scan_one (word : List Nat) (two : Bool) :
    (sscanfParameter word two).res ≤ 1 → (sscanfParameter word two).v = -1 := by
  intro h
  rcases sscanf_cases word two with h1 | h1 | h1
  · exact h1.2.2
  · exact h1.2.2
  · omega

theorem scanSet_name (name rest : List Nat) (w : Nat) (hw : name.length ≤ w)
    (hn : ∀ c ∈ name, c ≠ 61) : scanSet 61 w (name ++ 61 :: rest) = (name, 61 :: rest) := by
  induction name generalizing w with
  | nil =>
    cases w with
    | zero => rfl
    | succ w => simp [scanSet]
  | cons c name ih =>
    cases w with
    | zero => simp at hw
    | succ w =>
      have hc := hn c (List.mem_cons_self c name)
      have h1 : scanSet 61 (w + 1) (c :: name ++ 61 :: rest) =
          (c :: (scanSet 61 w (name ++ 61 :: rest)).1, (scanSet 61 w (name ++ 61 :: rest)).2) := by
        simp only [List.cons_append, scanSet, hc, if_false]
        rfl
      rw [h1, ih w (by simpa using hw) (fun x hx => hn x (List.mem_cons_of_mem c hx))]

theorem sscanf_name_value (name rest : List Nat) (V : Nat) (hne : name ≠ [])
    (hw : name.length ≤ 15) (hn : ∀ c ∈ name, c ≠ 61)
    (h : ∀ c, rest.head? = some c → ¬ (48 ≤ c ∧ c ≤ 57)) :
    sscanfParameter (name ++ 61 :: (decimal V ++ rest)) false =
      { res := 2, par := name, v := toINT V } := by
  unfold sscanfParameter
  cases name with
  | nil => exact absurd rfl hne
  | cons c name =>
    simp only [List.cons_append]
    rw [← List.cons_append, scanSet_name (c :: name) _ 15 hw hn]
    simp only [reduceCtorEq, if_false, scanInt_decimal V rest h]

theorem parser_isBPM_scan (word : List Nat) :
    parser_isBPM word =
      if (sscanfParameter word false).par ≠ cstr "bpm" then (ERR_DEF_PARAMETER, none)
      else if (sscanfParameter word false).res < 2 ∨ (sscanfParameter word false).v < 30 ∨
          (sscanfParameter word false).v > 240 then (ERR_VALUE, none)
      else (ERR_NOERROR, some (sscanfParameter word false).v) := by
  unfold parser_isBPM
  simp only []
  by_cases hp : (sscanfParameter word false).par = cstr "bpm"
  · have h1 := scan_par_res word false (by rw [hp]; decide)
    have h0 : (sscanfParameter word false).res ≠ 0 := by omega
    have hs : strcmp (sscanfParameter word false).par (cstr "bpm") = 0 :=
      (strcmp_eq_zero _ _).2 hp
    simp only [h0, if_false, hs, if_true, hp, ne_eq, not_true_eq_false, strcmp_self]
    by_cases h2 : (sscanfParameter word false).res = 1
    · have hv := scan_one word false (by omega)
      simp only [h2, if_true, hv, strcmp_self]
      decide
    · have h3 : ¬ (sscanfParameter word false).res < 2 := by omega
      simp only [h2, if_false, h3, false_or, strcmp_self, if_true]
  · have hs : strcmp (sscanfParameter word false).par (cstr "bpm") ≠ 0 := by
      intro h
      exact hp ((strcmp_eq_zero _ _).1 h)
    simp only [hs, if_false, hp, ne_eq, not_false_eq_true, if_true]
    split <;> rfl

theorem sscanf_name_two (name rest : List Nat) (V V2 : Nat) (hne : name ≠ [])
    (hw : name.length ≤ 15) (hn : ∀ c ∈ name, c ≠ 61)
    (h : ∀ c, rest.head? = some c → ¬ (48 ≤ c ∧ c ≤ 57)) :
    sscanfParameter (name ++ 61 :: (decimal V ++ 47 :: (decimal V2 ++ rest))) true =
      { res := 3, par := name, v := toINT V, v2 := toINT V2 } := by
  unfold sscanfParameter
  cases name with
  | nil => exact absurd rfl hne
  | cons c name =>
    simp only [List.cons_append]
    rw [← List.cons_append, scanSet_name (c :: name) _ 15 hw hn]
    simp only [reduceCtorEq, if_false, scanInt_decimal V _ (by simp : ∀ c,
      (47 :: (decimal V2 ++ rest)).head? = some c → ¬ (48 ≤ c ∧ c ≤ 57)),
      scanInt_decimal V2 rest h, if_true]

theorem bar_word_scan (N D : Nat) :
    sscanfParameter (cstr "bar=" ++ (decimal N ++ 47 :: decimal D)) true =
      { res := 3, par := cstr "bar", v := toINT N, v2 := toINT D } := by
  have := sscanf_name_two (cstr "bar") [] N D (by decide) (by decide) (by decide) (by simp)
  simpa using this

theorem bar_word_bpm (N D : Nat) :
    parser_isBPM (cstr "bar=" ++ (decimal N ++ 47 :: decimal D)) = (ERR_DEF_PARAMETER, none) := by
  have hs : sscanfParameter (cstr "bar=" ++ (decimal N ++ 47 :: decimal D)) false =
      { res := 2, par := cstr "bar", v := toINT N } := by
    have := sscanf_name_value (cstr "bar") (47 :: decimal D) N (by decide) (by decide)
      (by decide) (by simp)
    simpa using this
  rw [parser_isBPM_scan, hs]
  simp only [ne_eq]
  rw [if_pos (by decide)]

theorem bar_word_value (N D : Nat) :
    parser_isBAR (cstr "bar=" ++ (decimal N ++ 47 :: decimal D)) =
      if 1 ≤ toINT N ∧ toINT N ≤ 8 ∧
          (toINT D = 2 ∨ toINT D = 4 ∨ toINT D = 8 ∨ toINT D = 16) then
        (ERR_NOERROR, some (Int.tdiv (4 * toINT N) (toINT D)))
      else (ERR_VALUE, none) := by
  unfold parser_isBAR
  rw [bar_word_scan]
  simp only [strcmp_self, if_true]
  rw [if_neg (by decide), if_neg (by decide)]
  by_cases h : 1 ≤ toINT N ∧ toINT N ≤ 8 ∧
      (toINT D = 2 ∨ toINT D = 4 ∨ toINT D = 8 ∨ toINT D = 16)
  · rw [if_pos h, if_neg (by omega), if_neg (by omega)]
  · rw [if_neg h]
    by_cases h1 : toINT N < 1 ∨ toINT N > 8
    · rw [if_pos h1]
    · rw [if_neg h1, if_pos (by omega)]

theorem bar_tdiv (N D : Nat) (h : 1 ≤ N ∧ N ≤ 8 ∧ (D = 2 ∨ D = 4 ∨ D = 8 ∨ D = 16)) :
    Int.tdiv (4 * (N : Int)) (D : Int) = ((4 * N / D : Nat) : Int) := by
  obtain ⟨h1, h2, h3⟩ := h
  interval_cases N <;> rcases h3 with rfl | rfl | rfl | rfl <;> rfl

theorem bar_word_numeral (N D : Nat) (hN : N ≤ 2147483647) (hD : D ≤ 2147483647) :
    parser_isBAR (cstr "bar=" ++ (decimal N ++ 47 :: decimal D)) =
      if 1 ≤ N ∧ N ≤ 8 ∧ (D = 2 ∨ D = 4 ∨ D = 8 ∨ D = 16) then
        (ERR_NOERROR, some ((4 * N / D : Nat) : Int))
      else (ERR_VALUE, none) := by
  rw [bar_word_value, toINT_numeral N hN, toINT_numeral D hD]
  by_cases h : 1 ≤ N ∧ N ≤ 8 ∧ (D = 2 ∨ D = 4 ∨ D = 8 ∨ D = 16)
  · rw [if_pos (by omega), if_pos h, bar_tdiv N D h]
  · rw [if_neg (by omega), if_neg h]

theorem bar_word_dynamic (s : Compiler) (trk : smsTrack) (N D : Nat) :
    dynamic s trk (cstr "bar=" ++ (decimal N ++ 47 :: decimal D)) =
      if 1 ≤ toINT N ∧ toINT N ≤ 8 ∧
          (toINT D = 2 ∨ toINT D = 4 ∨ toINT D = 8 ∨ toINT D = 16) then
        some (.next { s with sms := { s.sms with
                                      bar := s.sms.ppqn * Int.tdiv (4 * toINT N) (toINT D) },
                             err := ERR_NOERROR })
      else some (s.fail ERR_VALUE) := by
  unfold dynamic
  rw [bar_word_bpm, bar_word_value]
  by_cases h : 1 ≤ toINT N ∧ toINT N ≤ 8 ∧
      (toINT D = 2 ∨ toINT D = 4 ∨ toINT D = 8 ∨ toINT D = 16)
  · rw [if_pos h, if_pos h]
    simp only []
    rw [if_neg (by decide)]
  · rw [if_neg h, if_neg h]
    simp only []
    rw [if_neg (by decide)]
    simp only [if_true]

set_option maxRecDepth 100000 in
/-- C27: for the word `bar=N/D` with the decimal numerals of any `N` and `D`
up to 2147483647, `parser_isBAR` gives `ERR_VALUE` unless `N` is in 1..8 and
`D` is 2, 4, 8 or 16, and then the value `4 * N / D` in the integer division
of C; the dynamic parameter sets the bar to `ppqn` times this value. (For
numerals of any size the same holds of the values `toINT N` and `toINT D`
that `%d` stores in 32 bits.) The product is `ppqn * 4 * N / D` only where `D`
divides `4 * N`: of the 32 pairs the ten with `D = 8` and `N` odd or `D = 16`
and `N` no multiple of 4 give less, and `1/8`, `1/16`, `2/16`, `3/16` give the
bar 0. With `bar=3/8` at ppqn 96 the bar is 96, not 144, and the end of the
line after one quarter note is at tick 96; with `bar=1/8` the bar is 0 and the
end of a line after a note divides by it. -/
theorem parser_isBAR_truncates (s : Compiler) (trk : smsTrack) (N D : Nat) :
    (N ≤ 2147483647 ∧ D ≤ 2147483647 →
      parser_isBAR (cstr "bar=" ++ (decimal N ++ 47 :: decimal D)) =
        if 1 ≤ N ∧ N ≤ 8 ∧ (D = 2 ∨ D = 4 ∨ D = 8 ∨ D = 16) then
          (ERR_NOERROR, some ((4 * N / D : Nat) : Int))
        else (ERR_VALUE, none)) ∧
    (N ≤ 2147483647 ∧ D ≤ 2147483647 →
      dynamic s trk (cstr "bar=" ++ (decimal N ++ 47 :: decimal D)) =
        if 1 ≤ N ∧ N ≤ 8 ∧ (D = 2 ∨ D = 4 ∨ D = 8 ∨ D = 16) then
          some (.next { s with sms := { s.sms with
                                        bar := s.sms.ppqn * ((4 * N / D : Nat) : Int) },
                               err := ERR_NOERROR })
        else some (s.fail ERR_VALUE)) ∧
    (parser_isBAR (cstr "bar=" ++ (decimal N ++ 47 :: decimal D)) =
      if 1 ≤ toINT N ∧ toINT N ≤ 8 ∧
          (toINT D = 2 ∨ toINT D = 4 ∨ toINT D = 8 ∨ toINT D = 16) then
        (ERR_NOERROR, some (Int.tdiv (4 * toINT N) (toINT D)))
      else (ERR_VALUE, none)) ∧
    (dynamic s trk (cstr "bar=" ++ (decimal N ++ 47 :: decimal D)) =
      if 1 ≤ toINT N ∧ toINT N ≤ 8 ∧
          (toINT D = 2 ∨ toINT D = 4 ∨ toINT D = 8 ∨ toINT D = 16) then
        some (.next { s with sms := { s.sms with
                                      bar := s.sms.ppqn * Int.tdiv (4 * toINT N) (toINT D) },
                             err := ERR_NOERROR })
      else some (s.fail ERR_VALUE)) ∧
    ((List.product [1, 2, 3, 4, 5, 6, 7, 8] [2, 4, 8, 16]).filter
        (fun p => decide (96 * (4 * p.1 / p.2) ≠ 96 * 4 * p.1 / p.2)) =
      [(1, 8), (1, 16), (2, 16), (3, 8), (3, 16), (5, 8), (5, 16), (6, 16), (7, 8), (7, 16)]) ∧
    ((List.product [1, 2, 3, 4, 5, 6, 7, 8] [2, 4, 8, 16]).filter
        (fun p => decide (4 * p.1 / p.2 = 0)) = [(1, 8), (1, 16), (2, 16), (3, 16)]) ∧
    parser_isBAR (cstr "bar=3/8") = (ERR_NOERROR, some 1) ∧
    parser_isBAR (cstr "bar=1/8") = (ERR_NOERROR, some 0) ∧
    eventList 20 (cstr "H: s bar=3/8\nc5\n") = some
      [mkEvent "INST" 0 0 0x90 60 127, mkEvent "INST" 1 95 0x80 60 127,
       mkEvent "INST" 2 96 0xB0 0x7B 0] ∧
    sms2midi 20 (cstr "H: s bar=1/8\nc5\n") = .undefined := by
  refine ⟨fun h => bar_word_numeral N D h.1 h.2, ?_, bar_word_value N D,
    bar_word_dynamic s trk N D, by decide, by decide, by decide, by decide, by decide,
    by decide⟩
  intro hND
  rw [bar_word_dynamic, toINT_numeral N hND.1, toINT_numeral D hND.2]
  by_cases h : 1 ≤ N ∧ N ≤ 8 ∧ (D = 2 ∨ D = 4 ∨ D = 8 ∨ D = 16)
  · rw [if_pos (by omega), if_pos h, bar_tdiv N D h]
  · rw [if_neg (by omega), if_neg h]


theorem sscanf_name_plain (name : List Nat) (V : Nat) (hne : name ≠ [])
    (hw : name.length ≤ 15) (hn : ∀ c ∈ name, c ≠ 61) :
    sscanfParameter (name ++ 61 :: decimal V) true =
      { res := 2, par := name, v := toINT V } := by
  unfold sscanfParameter
  cases name with
  | nil => exact absurd rfl hne
  | cons c name =>
    simp only [List.cons_append]
    rw [← List.cons_append, scanSet_name (c :: name) _ 15 hw hn]
    have h2 := scanInt_decimal V [] (by simp)
    rw [List.append_nil] at h2
    simp only [reduceCtorEq, if_false, h2, if_true]

theorem midicc_word_scan (name : List Nat) (V : Nat) (hne : name ≠ [])
    (hw : name.length ≤ 15) (hn : ∀ c ∈ name, c ≠ 61) :
    sscanfMidiCC (64 :: (name ++ 61 :: decimal V)) =
      { res := 2, par := name, v := toINT V } := by
  have := sscanf_name_value name [] V hne hw hn (by simp)
  simpa [sscanfMidiCC] using this

theorem midicc_named (name : List Nat) (V : Nat) (hne : name ≠ [])
    (hw : name.length ≤ 15) (hn : ∀ c ∈ name, c ≠ 61) :
    parser_isMidiCC (64 :: (name ++ 61 :: decimal V)) =
      if toINT V < 0 ∨ 127 < toINT V then (ERR_VALUE, none, none)
      else if (parser_getNumber name).2 = 3 then
        if (parser_getNumber name).1 > 127 then (ERR_MCC_PARAMETER, none, some (toINT V))
        else (ERR_NOERROR, some (parser_getNumber name).1, some (toINT V))
      else if name = cstr "vol" then (ERR_NOERROR, some 7, some (toINT V))
      else if name = cstr "bal" then (ERR_NOERROR, some 8, some (toINT V))
      else if name = cstr "pan" then (ERR_NOERROR, some 10, some (toINT V))
      else if name = cstr "dly" then (ERR_NOERROR, some 91, some (toINT V))
      else (ERR_NOERROR, none, some (toINT V)) := by
  unfold parser_isMidiCC
  rw [midicc_word_scan name V hne hw hn]
  simp only [strcmp_eq_zero]
  rw [if_neg (by decide)]

theorem midicc_word (name : String) (V : Nat) (r : Int × Option Int × Option Int)
    (hne : cstr name ≠ []) (hw : (cstr name).length ≤ 15) (hn : ∀ c ∈ cstr name, c ≠ 61)
    (hr : ¬ (toINT V < 0 ∨ 127 < toINT V) →
      (if (parser_getNumber (cstr name)).2 = 3 then
        if (parser_getNumber (cstr name)).1 > 127 then (ERR_MCC_PARAMETER, none, some (toINT V))
        else (ERR_NOERROR, some (parser_getNumber (cstr name)).1, some (toINT V))
      else if cstr name = cstr "vol" then (ERR_NOERROR, some 7, some (toINT V))
      else if cstr name = cstr "bal" then (ERR_NOERROR, some 8, some (toINT V))
      else if cstr name = cstr "pan" then (ERR_NOERROR, some 10, some (toINT V))
      else if cstr name = cstr "dly" then (ERR_NOERROR, some 91, some (toINT V))
      else (ERR_NOERROR, none, some (toINT V))) = r) :
    parser_isMidiCC (64 :: (cstr name ++ 61 :: decimal V)) =
      if toINT V < 0 ∨ 127 < toINT V then (ERR_VALUE, none, none) else r := by
  rw [midicc_named (cstr name) V hne hw hn]
  by_cases hV : toINT V < 0 ∨ 127 < toINT V
  · rw [if_pos hV, if_pos hV]
  · rw [if_neg hV, if_neg hV]
    exact hr hV

theorem midicc_value (word : List Nat) (h : (parser_isMidiCC word).1 = ERR_NOERROR) :
    ∃ v : Int, (parser_isMidiCC word).2.2 = some v ∧ 0 ≤ v ∧ v ≤ 127 := by
  unfold parser_isMidiCC at h ⊢
  simp only [] at h ⊢
  split at h
  · exact absurd h (by decide)
  · rename_i h2
    rw [if_neg h2]
    split at h
    · exact absurd h (by decide)
    · rename_i hv
      rw [if_neg hv]
      refine ⟨(sscanfMidiCC word).v, ?_, by omega, by omega⟩
      repeat' split
      all_goals rfl

theorem midicc_undefined (s : Compiler) (trk : smsTrack) (word : List Nat) (v : Int)
    (h1 : parser_isBPM word = (ERR_DEF_PARAMETER, none))
    (h2 : parser_isBAR word = (ERR_DEF_PARAMETER, none))
    (h3 : parser_isMidiCC word = (ERR_NOERROR, none, some v)) :
    dynamic s trk word = some .undefined := by
  unfold dynamic
  rw [h1]
  simp only []
  rw [if_neg (by decide), h2]
  simp only []
  rw [if_neg (by decide), h3]
  simp only [if_true]

set_option maxRecDepth 100000 in
/-- C29: `parser_isMidiCC` returns `ERR_NOERROR` only with a value in 0..127
written to `*val`, and for the names `vol`, `bal`, `pan`, `dly` it writes 7, 8,
10, 91 to `*cc`, for a name of three digits its number if that is at most 127
(`ERR_MCC_PARAMETER` above). For every other name, such as `foo` or the one
digit `7` of the comment of the function, the last statement returns
`ERR_NOERROR` as well and `*cc` is not written: the compiler then makes a
controller event from the variable `cc` that nothing has set. The value of
the word `@name=V` is the `int` that `%d` stores for the numeral, `toINT V`,
which is `V` itself up to 2147483647. -/
theorem parser_isMidiCC_unset_cc (s : Compiler) (trk : smsTrack) (word : List Nat) (V : Nat) :
    ((parser_isMidiCC word).1 = ERR_NOERROR →
      ∃ v : Int, (parser_isMidiCC word).2.2 = some v ∧ 0 ≤ v ∧ v ≤ 127) ∧
    (V ≤ 2147483647 → toINT V = V) ∧
    (parser_isMidiCC (cstr "@vol=" ++ decimal V) =
      if toINT V < 0 ∨ 127 < toINT V then (ERR_VALUE, none, none)
      else (ERR_NOERROR, some 7, some (toINT V))) ∧
    (parser_isMidiCC (cstr "@bal=" ++ decimal V) =
      if toINT V < 0 ∨ 127 < toINT V then (ERR_VALUE, none, none)
      else (ERR_NOERROR, some 8, some (toINT V))) ∧
    (parser_isMidiCC (cstr "@pan=" ++ decimal V) =
      if toINT V < 0 ∨ 127 < toINT V then (ERR_VALUE, none, none)
      else (ERR_NOERROR, some 10, some (toINT V))) ∧
    (parser_isMidiCC (cstr "@dly=" ++ decimal V) =
      if toINT V < 0 ∨ 127 < toINT V then (ERR_VALUE, none, none)
      else (ERR_NOERROR, some 91, some (toINT V))) ∧
    (parser_isMidiCC (cstr "@007=" ++ decimal V) =
      if toINT V < 0 ∨ 127 < toINT V then (ERR_VALUE, none, none)
      else (ERR_NOERROR, some 7, some (toINT V))) ∧
    (parser_isMidiCC (cstr "@128=" ++ decimal V) =
      if toINT V < 0 ∨ 127 < toINT V then (ERR_VALUE, none, none)
      else (ERR_MCC_PARAMETER, none, some (toINT V))) ∧
    (parser_isMidiCC (cstr "@foo=" ++ decimal V) =
      if toINT V < 0 ∨ 127 < toINT V then (ERR_VALUE, none, none)
      else (ERR_NOERROR, none, some (toINT V))) ∧
    (parser_isMidiCC (cstr "@7=" ++ decimal V) =
      if toINT V < 0 ∨ 127 < toINT V then (ERR_VALUE, none, none)
      else (ERR_NOERROR, none, some (toINT V))) ∧
    (V ≤ 127 → dynamic s trk (cstr "@foo=" ++ decimal V) = some .undefined) ∧
    parser_isMidiCC (cstr "@foo=5") = (ERR_NOERROR, none, some 5) ∧
    parser_isMidiCC (cstr "@7=100") = (ERR_NOERROR, none, some 100) ∧
    sms2midi 10 (cstr "@foo=5\n") = .undefined ∧
    sms2midi 10 (cstr "@7=100\n") = .undefined ∧
    eventList 10 (cstr "@vol=100\n") = some
      [mkEvent "INST" 0 0 0xB0 7 100, mkEvent "INST" 1 0 0xB0 0x7B 0] := by
  have hfoo : parser_isMidiCC (cstr "@foo=" ++ decimal V) =
      if toINT V < 0 ∨ 127 < toINT V then (ERR_VALUE, none, none)
      else (ERR_NOERROR, none, some (toINT V)) :=
    midicc_word "foo" V _ (by decide) (by decide) (by decide) (fun _ => rfl)
  refine ⟨midicc_value word, toINT_numeral V,
    midicc_word "vol" V _ (by decide) (by decide) (by decide) (fun _ => rfl),
    midicc_word "bal" V _ (by decide) (by decide) (by decide) (fun _ => rfl),
    midicc_word "pan" V _ (by decide) (by decide) (by decide) (fun _ => rfl),
    midicc_word "dly" V _ (by decide) (by decide) (by decide) (fun _ => rfl),
    midicc_word "007" V _ (by decide) (by decide) (by decide) (fun _ => rfl),
    midicc_word "128" V _ (by decide) (by decide) (by decide) (fun _ => rfl),
    hfoo,
    midicc_word "7" V _ (by decide) (by decide) (by decide) (fun _ => rfl),
    ?_, by decide, by decide, by decide, by decide, by decide⟩
  intro hV
  have hv : toINT V = V := toINT_numeral V (by omega)
  apply midicc_undefined s trk _ (toINT V)
  · have hs : sscanfParameter (cstr "@foo=" ++ decimal V) false =
        { res := 2, par := cstr "@foo", v := toINT V } := by
      have := sscanf_name_value (cstr "@foo") [] V (by decide) (by decide) (by decide)
        (by simp)
      simpa using this
    rw [parser_isBPM_scan, hs]
    simp only [ne_eq]
    rw [if_pos (by decide)]
  · have hs : sscanfParameter (cstr "@foo=" ++ decimal V) true =
        { res := 2, par := cstr "@foo", v := toINT V } := by
      have := sscanf_name_plain (cstr "@foo") V (by decide) (by decide) (by decide)
      simpa using this
    unfold parser_isBAR
    rw [hs]
    simp only []
    rw [if_neg (by decide), if_neg (by decide)]
  · rw [hfoo, if_neg (by omega)]


/-! ## The parameters of the definition lines -/

theorem inst_scan (word : List Nat) (trk : smsTrack) :
    parser_isParameter.inst word trk =
      if (sscanfParameter word true).res ≠ 2 then (ERR_DEF_PARAMETER, trk)
      else if (sscanfParameter word true).par = cstr "bnk" then
        if (sscanfParameter word true).v < 0 ∨ (sscanfParameter word true).v > 127 then
          (ERR_VALUE, trk)
        else (ERR_NOERROR, { trk with bnk := if trk.chn = 9 then 0 else (sscanfParameter word true).v })
      else if (sscanfParameter word true).par = cstr "prg" then
        if (sscanfParameter word true).v < 0 ∨ (sscanfParameter word true).v > 127 then
          (ERR_VALUE, trk)
        else (ERR_NOERROR, { trk with prg := (sscanfParameter word true).v })
      else if (sscanfParameter word true).par = cstr "chn" then
        if (sscanfParameter word true).v < 0 ∨ (sscanfParameter word true).v > 15 ∨
            (sscanfParameter word true).v = 9 then (ERR_VALUE, trk)
        else (ERR_NOERROR, { trk with chn := (sscanfParameter word true).v })
      else (ERR_DEF_PARAMETER, trk) := by
  unfold parser_isParameter.inst
  simp only [strcmp_eq_zero]
  repeat' split
  all_goals first
    | rfl
    | (rename_i h h9; exfalso; exact h (Or.inr (Or.inr h9)))

theorem timer_unknown (s : Compiler) : timer s UNKNOWN = none := by
  unfold timer
  rw [if_neg (by decide), if_neg (by decide), if_neg (by decide), if_neg (by decide),
    if_neg (by decide)]

theorem dynamic_none (s : Compiler) (trk : smsTrack) (word : List Nat)
    (h1 : parser_isBPM word = (ERR_DEF_PARAMETER, none))
    (h2 : parser_isBAR word = (ERR_DEF_PARAMETER, none))
    (h3 : parser_isMidiCC word = (ERR_NO_COMMAND, none, none)) :
    dynamic s trk word = none := by
  unfold dynamic
  rw [h1]
  simp only []
  rw [if_neg (by decide), h2]
  simp only []
  rw [if_neg (by decide), h3]
  simp only []
  rw [if_neg (by decide), if_neg (by decide)]

theorem command_plain_word (s : Compiler) (word : List Nat)
    (h1 : parser_isBPM word = (ERR_DEF_PARAMETER, none))
    (h2 : parser_isBAR word = (ERR_DEF_PARAMETER, none))
    (h3 : parser_isMidiCC word = (ERR_NO_COMMAND, none, none)) :
    command s word UNKNOWN =
      match trackAt s.objFirst s.currentTrk with
      | none => .undefined
      | some trk => play s s.currentTrk trk word := by
  unfold command
  rw [timer_unknown]
  simp only []
  cases trackAt s.objFirst s.currentTrk with
  | none => rfl
  | some trk => simp only [dynamic_none s trk word h1 h2 h3]

set_option maxRecDepth 100000 in
theorem baseNoteWords_parse :
    ∀ l ∈ cstr "cdefgab", ∀ o ∈ [none, some 0, some 1, some 2, some 3, some 4, some 5, some 6,
        some 7, some 8, some 9, some 10], ∀ b ∈ [false, true],
      parser_isBaseNote (baseNoteWord l o b) = basePitch l o b ∧
      basePitch l o b ≠ EMPTY ∧
      parser_isBPM (baseNoteWord l o b) = (ERR_DEF_PARAMETER, none) ∧
      parser_isBAR (baseNoteWord l o b) = (ERR_DEF_PARAMETER, none) ∧
      parser_isMidiCC (baseNoteWord l o b) = (ERR_NO_COMMAND, none, none) := by
  decide

set_option maxRecDepth 100000 in
/-- C25: for every word `XY[#]:` of a letter `a`..`g`, no octave or an octave
0..10 and an optional `#`, `parser_isBaseNote` returns the pitch
`base + (1 with #) + 12 * octave`, and the word reaches the base-note command.
The compiler compares this return value with the error code `ERR_BASENOTE`,
which is 37 and so is the pitch of `c3#:`: for this one word of the 168 the
compilation ends with the error `ERR_BASENOTE`; for the others the current
base note becomes the pitch and no event is made. The source `"c3#: 0\n"`
ends with the error 37, while `"c3: 1\n"` plays the pitch 37. -/
theorem base_note_error_code_clash (s : Compiler) :
    (∀ l ∈ cstr "cdefgab", ∀ o ∈ [none, some 0, some 1, some 2, some 3, some 4, some 5, some 6,
        some 7, some 8, some 9, some 10], ∀ b ∈ [false, true],
      parser_isBaseNote (baseNoteWord l o b) = basePitch l o b ∧
      command s (baseNoteWord l o b) UNKNOWN =
        match trackAt s.objFirst s.currentTrk with
        | none => .undefined
        | some _ =>
          if basePitch l o b = 37 then s.fail ERR_BASENOTE
          else .next { s with currentBaseNote := basePitch l o b, err := ERR_NOERROR }) ∧
    ((List.product (cstr "cdefgab") (List.product [none, some 0, some 1, some 2, some 3, some 4,
        some 5, some 6, some 7, some 8, some 9, some 10] [false, true])).filter
        (fun w => decide (basePitch w.1 w.2.1 w.2.2 = 37)) = [(99, some 3, true)]) ∧
    baseNoteWord 99 (some 3) true = cstr "c3#:" ∧
    basePitch 99 (some 3) true = 37 ∧
    ERR_BASENOTE = 37 ∧
    parser_isBaseNote (cstr "c3#:") = 37 ∧
    errorOf (sms2midi 10 (cstr "c3#: 0\n")) = some ERR_BASENOTE ∧
    eventList 10 (cstr "c3#: 0\n") = none ∧
    eventList 10 (cstr "c3: 1\n") = some
      [mkEvent "INST" 0 0 0x90 37 127, mkEvent "INST" 1 95 0x80 37 127,
       mkEvent "INST" 2 384 0xB0 0x7B 0] ∧
    eventList 10 (cstr "d3: 0\n") = some
      [mkEvent "INST" 0 0 0x90 38 127, mkEvent "INST" 1 95 0x80 38 127,
       mkEvent "INST" 2 384 0xB0 0x7B 0] := by
  refine ⟨?_, by decide, by decide, by decide, by decide, by decide, by decide, by decide,
    by decide, by decide⟩
  intro l hl o ho b hb
  obtain ⟨h0, hne, h1, h2, h3⟩ := baseNoteWords_parse l hl o ho b hb
  refine ⟨h0, ?_⟩
  rw [command_plain_word s _ h1 h2 h3]
  cases trackAt s.objFirst s.currentTrk with
  | none => rfl
  | some trk =>
    simp only []
    unfold play
    simp only [h0]
    by_cases h37 : basePitch l o b = 37
    · rw [if_pos (by rw [h37]; rfl), if_pos h37, h37]
      rfl
    · rw [if_neg (by intro h; exact h37 (by rw [h]; rfl)), if_pos hne, if_neg h37]


/-! ## The octave of a note -/

theorem octave_down_step (type : Int) (fuel : Nat) (data : List Nat) (n : smsNote)
    (flgHold : Bool) :
    parser_isNote.qualifier type (fuel + 1) (60 :: data) n flgHold =
      if type = DRUM then (ERR_DRUM_SYMBOL, n)
      else if type = BASENOTE then (ERR_BASENOTE_SYMBOL, n)
      else if type = ARP then
        parser_isNote.qualifier type fuel data { n with oct := n.oct - 1 } flgHold
      else if n.oct - 1 < 1 then (ERR_OCTAVE, { n with oct := n.oct - 1 })
      else parser_isNote.qualifier type fuel data { n with oct := n.oct - 1 } flgHold := by
  rw [parser_isNote.qualifier]
  simp only [Nat.reduceEqDiff, or_self, if_false, if_true]

theorem octave_up_step (type : Int) (fuel : Nat) (data : List Nat) (n : smsNote)
    (flgHold : Bool) :
    parser_isNote.qualifier type (fuel + 1) (62 :: data) n flgHold =
      if type = DRUM then (ERR_DRUM_SYMBOL, n)
      else if type = BASENOTE then (ERR_BASENOTE_SYMBOL, n)
      else if type = ARP then
        parser_isNote.qualifier type fuel data { n with oct := n.oct + 1 } flgHold
      else if n.oct + 1 > 10 then (ERR_OCTAVE, { n with oct := n.oct + 1 })
      else parser_isNote.qualifier type fuel data { n with oct := n.oct + 1 } flgHold := by
  rw [parser_isNote.qualifier]
  simp only [Nat.reduceEqDiff, or_self, if_false, if_true]

theorem note_c_down (n : smsNote) :
    parser_isNote (cstr "c<") n INST =
      if n.oct - 1 < 1 then
        (ERR_OCTAVE, { n with key := 0, hft := 0, dot := 0, oct := n.oct - 1 }, cstr "c<")
      else
        (ERR_NOERROR, { n with key := 0, hft := 0, dot := 0, oct := n.oct - 1, hold := EMPTY },
          cstr "c<") := by
  have h : parser_isNote (cstr "c<") n INST =
      ((parser_isNote.qualifier INST 2 [60] { n with key := 0, hft := 0, dot := 0 } false).1,
       (parser_isNote.qualifier INST 2 [60] { n with key := 0, hft := 0, dot := 0 } false).2,
       cstr "c<") := rfl
  rw [h, octave_down_step]
  rw [if_neg (by decide), if_neg (by decide), if_neg (by decide)]
  split <;> rfl

theorem note_c_up (n : smsNote) :
    parser_isNote (cstr "c>") n INST =
      if n.oct + 1 > 10 then
        (ERR_OCTAVE, { n with key := 0, hft := 0, dot := 0, oct := n.oct + 1 }, cstr "c>")
      else
        (ERR_NOERROR, { n with key := 0, hft := 0, dot := 0, oct := n.oct + 1, hold := EMPTY },
          cstr "c>") := by
  have h : parser_isNote (cstr "c>") n INST =
      ((parser_isNote.qualifier INST 2 [62] { n with key := 0, hft := 0, dot := 0 } false).1,
       (parser_isNote.qualifier INST 2 [62] { n with key := 0, hft := 0, dot := 0 } false).2,
       cstr "c>") := rfl
  rw [h, octave_up_step]
  rw [if_neg (by decide), if_neg (by decide), if_neg (by decide)]
  split <;> rfl

set_option maxRecDepth 100000 in
/-- C24: the octave qualifiers of `parser_isNote`. In drum and base-note
context `>` and `<` give `ERR_DRUM_SYMBOL` and `ERR_BASENOTE_SYMBOL`, in arp
context the new octave is not checked. In instrument context `>` is accepted
exactly when the new octave is at most 10, but `<` is accepted exactly when the
new octave is at least 1: `<` from octave 1 gives `ERR_OCTAVE`, although the
octave 0 is in the range `[0 ... 10]` of the note and the absolute octave
digit 0 is accepted. -/
theorem octave_down_to_zero_rejected (n : smsNote) (type : Int) (fuel : Nat) (data : List Nat)
    (flgHold : Bool) :
    (parser_isNote.qualifier type (fuel + 1) (60 :: data) n flgHold =
      if type = DRUM then (ERR_DRUM_SYMBOL, n)
      else if type = BASENOTE then (ERR_BASENOTE_SYMBOL, n)
      else if type = ARP then
        parser_isNote.qualifier type fuel data { n with oct := n.oct - 1 } flgHold
      else if n.oct - 1 < 1 then (ERR_OCTAVE, { n with oct := n.oct - 1 })
      else parser_isNote.qualifier type fuel data { n with oct := n.oct - 1 } flgHold) ∧
    (parser_isNote.qualifier type (fuel + 1) (62 :: data) n flgHold =
      if type = DRUM then (ERR_DRUM_SYMBOL, n)
      else if type = BASENOTE then (ERR_BASENOTE_SYMBOL, n)
      else if type = ARP then
        parser_isNote.qualifier type fuel data { n with oct := n.oct + 1 } flgHold
      else if n.oct + 1 > 10 then (ERR_OCTAVE, { n with oct := n.oct + 1 })
      else parser_isNote.qualifier type fuel data { n with oct := n.oct + 1 } flgHold) ∧
    (parser_isNote (cstr "c<") n INST =
      if n.oct - 1 < 1 then
        (ERR_OCTAVE, { n with key := 0, hft := 0, dot := 0, oct := n.oct - 1 }, cstr "c<")
      else
        (ERR_NOERROR, { n with key := 0, hft := 0, dot := 0, oct := n.oct - 1, hold := EMPTY },
          cstr "c<")) ∧
    (parser_isNote (cstr "c>") n INST =
      if n.oct + 1 > 10 then
        (ERR_OCTAVE, { n with key := 0, hft := 0, dot := 0, oct := n.oct + 1 }, cstr "c>")
      else
        (ERR_NOERROR, { n with key := 0, hft := 0, dot := 0, oct := n.oct + 1, hold := EMPTY },
          cstr "c>")) ∧
    parser_isNote (cstr "c1<") n INST =
      (ERR_OCTAVE, { n with key := 0, hft := 0, dot := 0, oct := 0 }, cstr "c1<") ∧
    parser_isNote (cstr "c0") n INST =
      (ERR_NOERROR, { n with key := 0, hft := 0, dot := 0, oct := 0, hold := EMPTY },
        cstr "c0") ∧
    parser_isNote (cstr "c2<") n INST =
      (ERR_NOERROR, { n with key := 0, hft := 0, dot := 0, oct := 1, hold := EMPTY },
        cstr "c2<") ∧
    parser_isNote (cstr "c9>") n INST =
      (ERR_NOERROR, { n with key := 0, hft := 0, dot := 0, oct := 10, hold := EMPTY },
        cstr "c9>") ∧
    (parser_isNote (cstr "c10>") n INST).1 = ERR_OCTAVE ∧
    (parser_isNote (cstr "c11") n INST).1 = ERR_OCTAVE ∧
    (parser_isNote (cstr "x>") n DRUM).1 = ERR_DRUM_SYMBOL ∧
    (parser_isNote (cstr "x<") n DRUM).1 = ERR_DRUM_SYMBOL ∧
    (parser_isNote (cstr "0>") n BASENOTE).1 = ERR_BASENOTE_SYMBOL ∧
    (parser_isNote (cstr "0<") n BASENOTE).1 = ERR_BASENOTE_SYMBOL ∧
    parser_isNote (cstr "0>") n ARP =
      (ERR_NOERROR, { n with key := 0, hft := 0, dot := 0, oct := n.oct + 1, hold := EMPTY },
        cstr "0>") ∧
    parser_isNote (cstr "0<") n ARP =
      (ERR_NOERROR, { n with key := 0, hft := 0, dot := 0, oct := n.oct - 1, hold := EMPTY },
        cstr "0<") ∧
    errorOf (sms2midi 10 (cstr "c1<\n")) = some ERR_OCTAVE ∧
    eventList 10 (cstr "c0\n") = some
      [mkEvent "INST" 0 0 0x90 0 127, mkEvent "INST" 1 95 0x80 0 127,
       mkEvent "INST" 2 384 0xB0 0x7B 0] := by
  refine ⟨octave_down_step type fuel data n flgHold, octave_up_step type fuel data n flgHold,
    note_c_down n, note_c_up n, rfl, rfl, rfl, rfl, rfl, rfl, rfl, rfl, rfl, rfl, rfl, rfl,
    by decide, by decide⟩


/-! ## What a note does to the state -/

theorem rewind_eq (s : Compiler) :
    (if s.grpTimeStart ≠ TIME_OFF then { s with sngTime := s.grpTimeStart } else s) =
      { s with sngTime := s.noteStart } := by
  unfold Compiler.noteStart
  split <;> rfl

@[simp] theorem markTimes_sngTime (s : Compiler) : s.markTimes.sngTime = s.sngTime := by
  unfold Compiler.markTimes
  simp only []
  split_ifs <;> rfl

@[simp] theorem markTimes_barTime (s : Compiler) : s.markTimes.barTime = s.barTime := by
  unfold Compiler.markTimes
  simp only []
  split_ifs <;> rfl

@[simp] theorem markTimes_grpTimeStart (s : Compiler) :
    s.markTimes.grpTimeStart = s.grpTimeStart := by
  unfold Compiler.markTimes
  simp only []
  split_ifs <;> rfl

@[simp] theorem markTimes_grpTimeBar (s : Compiler) : s.markTimes.grpTimeBar = s.grpTimeBar := by
  unfold Compiler.markTimes
  simp only []
  split_ifs <;> rfl

@[simp] theorem markTimes_P_TIMEGROUP (s : Compiler) :
    s.markTimes.P_TIMEGROUP = s.P_TIMEGROUP := by
  unfold Compiler.markTimes
  simp only []
  split_ifs <;> rfl

theorem markTimes_grpTimeEnd (s : Compiler) :
    s.markTimes.grpTimeEnd =
      if s.P_TIMEGROUP = PASSING ∧ s.grpTimeEnd < s.sngTime then s.sngTime else s.grpTimeEnd := by
  unfold Compiler.markTimes
  simp only []
  split_ifs <;> first | rfl | (exfalso; simp_all)

theorem playNote_pause (s : Compiler) (p : Nat) (trk : smsTrack) (holdKey dur : Int)
    (hd : noteTicks s.sms trk.note = some dur) (hk : trk.note.key = PAUSE) :
    ∃ t, playNote s p trk holdKey = .next t ∧
      t.evtFirst = s.evtFirst ++
        (if holdKey ≠ EMPTY then
          [trackEvent trk s.sms.evts (s.noteStart + dur) (0x80 + trk.chn) holdKey 0]
         else []) ∧
      t.objFirst = s.objFirst ∧
      t.sngTime = s.noteStart + dur ∧ t.barTime = s.barTime + dur := by
  unfold playNote
  simp only [hd, hk, if_true, rewind_eq]
  refine ⟨_, rfl, ?_, ?_, ?_, ?_⟩
  · simp only [markTimes_evtFirst]
    split
    · rfl
    · simp
  · simp only [markTimes_objFirst]
    split <;> rfl
  · simp only [markTimes_sngTime]
    split <;> rfl
  · simp only [markTimes_barTime]
    split <;> rfl

theorem playNote_note (s : Compiler) (p : Nat) (trk : smsTrack) (holdKey dur : Int) (d : Nat)
    (hd : noteTicks s.sms trk.note = some dur) (hk : trk.note.key ≠ PAUSE)
    (hp : (if s.currentBaseNote = EMPTY then
          if trk.note.key = BEAT then
            (drumKeyAt s.objFirst s.currentDKey).map (fun k => toBYTE k.key)
          else some (toBYTE (trk.note.key + trk.note.hft + trk.note.oct * 12))
        else some (toBYTE (trk.note.key + s.currentBaseNote))) = some d) :
    (128 < d → playNote s p trk holdKey = .stop { s with sngTime := s.noteStart, err := ERR_NOTE }) ∧
    (d ≤ 128 → ∃ t, playNote s p trk holdKey = .next t ∧
      t.evtFirst = s.evtFirst ++
        [trackEvent trk s.sms.evts s.noteStart (0x90 + trk.chn) d (toBYTE trk.note.vol)] ++
        (if trk.note.hold = EMPTY then
          [trackEvent trk (s.sms.evts + 1) (s.noteStart + dur - 1) (0x80 + trk.chn) d
            (toBYTE trk.note.vol)]
         else []) ++
        (if holdKey ≠ EMPTY then
          [trackEvent trk (s.sms.evts + 1 + (if trk.note.hold = EMPTY then 1 else 0))
            (s.noteStart + dur - 1) (0x80 + trk.chn) holdKey 0]
         else []) ∧
      t.objFirst = (if trk.note.hold = EMPTY then s.objFirst
        else storeAt s.objFirst p (.track { trk with note := { trk.note with hold := d } })) ∧
      t.sngTime = s.noteStart + dur ∧ t.barTime = s.barTime + dur) := by
  unfold playNote
  simp only [hd, hk, if_false, rewind_eq, hp]
  constructor
  · intro h
    simp only [gt_iff_lt, h, if_true]
    rfl
  · intro h
    have h2 : ¬ d > 128 := by omega
    simp only [h2, if_false]
    refine ⟨_, rfl, ?_, ?_, ?_, ?_⟩
    · simp only [markTimes_evtFirst]
      by_cases h1 : trk.note.hold = EMPTY <;> by_cases h3 : holdKey = EMPTY <;>
        simp [h1, h3, Compiler.emit, newSmsEvent, Compiler.setTrk, trackEvent, MIDI_TIME_DIV]
    · simp only [markTimes_objFirst]
      by_cases h1 : trk.note.hold = EMPTY <;> by_cases h3 : holdKey = EMPTY <;>
        simp [h1, h3, Compiler.emit, Compiler.setTrk]
    · simp only [markTimes_sngTime]
      by_cases h1 : trk.note.hold = EMPTY <;> by_cases h3 : holdKey = EMPTY <;>
        simp [h1, h3, Compiler.emit, Compiler.setTrk]
    · simp only [markTimes_barTime]
      by_cases h1 : trk.note.hold = EMPTY <;> by_cases h3 : holdKey = EMPTY <;>
        simp [h1, h3, Compiler.emit, Compiler.setTrk]

theorem playNote_advance (s : Compiler) (p : Nat) (trk : smsTrack) (holdKey dur : Int)
    (t : Compiler) (hd : noteTicks s.sms trk.note = some dur)
    (ht : playNote s p trk holdKey = .next t) :
    t.sngTime = s.noteStart + dur ∧ t.barTime = s.barTime + dur := by
  by_cases hk : trk.note.key = PAUSE
  · obtain ⟨t2, h1, _, _, h2, h3⟩ := playNote_pause s p trk holdKey dur hd hk
    rw [h1] at ht
    simp only [Flow.next.injEq] at ht
    subst ht
    exact ⟨h2, h3⟩
  · cases hp : (if s.currentBaseNote = EMPTY then
          if trk.note.key = BEAT then
            (drumKeyAt s.objFirst s.currentDKey).map (fun k => toBYTE k.key)
          else some (toBYTE (trk.note.key + trk.note.hft + trk.note.oct * 12))
        else some (toBYTE (trk.note.key + s.currentBaseNote))) with
    | none =>
      unfold playNote at ht
      simp only [hd, hk, if_false, rewind_eq, hp] at ht
      exact absurd ht (by simp)
    | some d =>
      have h := playNote_note s p trk holdKey dur d hd hk hp
      by_cases h128 : 128 < d
      · rw [h.1 h128] at ht
        exact absurd ht (by simp)
      · obtain ⟨t2, h1, _, _, h2, h3⟩ := h.2 (by omega)
        rw [h1] at ht
        simp only [Flow.next.injEq] at ht
        subst ht
        exact ⟨h2, h3⟩

theorem playNote_group (s : Compiler) (p : Nat) (trk : smsTrack) (holdKey dur : Int)
    (t : Compiler) (hd : noteTicks s.sms trk.note = some dur)
    (ht : playNote s p trk holdKey = .next t) :
    t.grpTimeStart = s.grpTimeStart ∧ t.grpTimeBar = s.grpTimeBar ∧
      t.P_TIMEGROUP = s.P_TIMEGROUP ∧
      t.grpTimeEnd = (if s.P_TIMEGROUP = PASSING ∧ s.grpTimeEnd < s.noteStart + dur then
        s.noteStart + dur else s.grpTimeEnd) := by
  unfold playNote at ht
  simp only [hd, rewind_eq] at ht
  repeat' split at ht
  all_goals simp only [Flow.next.injEq, reduceCtorEq, Compiler.fail] at ht
  all_goals subst ht
  all_goals simp only [markTimes_grpTimeStart, markTimes_grpTimeBar, markTimes_P_TIMEGROUP,
    markTimes_grpTimeEnd, Compiler.emit, Compiler.setTrk, and_self, true_and]

theorem play_as_note (s : Compiler) (p : Nat) (trk : smsTrack) (word w2 : List Nat)
    (n : smsNote) (hb : parser_isBaseNote word = EMPTY)
    (hn : parser_isNote word trk.note
      (if s.currentBaseNote = EMPTY then (if trk.chn = 9 then DRUM else INST) else BASENOTE) =
      (ERR_NOERROR, n, w2)) :
    play s p trk word =
      playNote { s.setTrk p { trk with note := n } with SMSWORD := some w2 } p
        { trk with note := n } trk.note.hold := by
  unfold play
  simp only [hb, hn]
  rw [if_neg (by decide), if_neg (by decide), if_neg (by decide)]
  simp only [if_true]

theorem toBYTE_idem (i : Int) : toBYTE ((toBYTE i : Nat) : Int) = toBYTE i := by
  have h := toBYTE_mod i
  unfold toBYTE at *
  omega

theorem noteTicks_congr (sms : smsHeader) (n m : smsNote) (h1 : n.dur = m.dur)
    (h2 : n.dot = m.dot) : noteTicks sms n = noteTicks sms m := by
  unfold noteTicks
  rw [h1, h2]


/-! ## The length of a note -/

theorem floor_int_div (a b : Int) (hb : 0 < b) : ⌊(a : ℚ) / (b : ℚ)⌋ = a / b := by
  lift b to ℕ using hb.le
  exact_mod_cast Rat.floor_intCast_div_natCast a b

theorem truncTicks_eq (ppqn d : Int) (dotted : Bool) (hd : 0 < d) :
    truncTicks ppqn d dotted = if dotted then ppqn * 4 / d * 3 / 2 else ppqn * 4 / d := by
  unfold truncTicks
  have h1 : ⌊((ppqn : ℚ) * 4 / d)⌋ = ppqn * 4 / d := by
    have := floor_int_div (ppqn * 4) d hd
    push_cast at this
    exact this
  rw [h1]
  cases dotted with
  | false => simp
  | true =>
    simp only [if_true]
    have h2 : ((ppqn * 4 / d : Int) : ℚ) * (3 / 2) = ((ppqn * 4 / d * 3 : Int) : ℚ) / ((2 : Int) : ℚ) := by
      push_cast
      ring
    rw [h2, floor_int_div _ 2 (by decide)]

theorem noteTicks_trunc (sms : smsHeader) (n : smsNote) (hp : 0 ≤ sms.ppqn) (hd : 0 < n.dur) :
    noteTicks sms n = some (truncTicks sms.ppqn n.dur (decide (n.dot ≠ 0))) := by
  unfold noteTicks
  rw [if_neg (by omega), truncTicks_eq _ _ _ hd]
  simp only []
  have h1 : Int.tdiv (sms.ppqn * 4) n.dur = sms.ppqn * 4 / n.dur :=
    Int.tdiv_eq_ediv (by omega) (by omega)
  have h0 : 0 ≤ sms.ppqn * 4 / n.dur := Int.ediv_nonneg (by omega) (by omega)
  rw [h1, Int.tdiv_eq_ediv (by omega) (by decide)]
  by_cases hdot : n.dot = 0
  · simp [hdot]
  · simp [hdot]

theorem truncTicks_exact (ppqn d : Int) (dotted : Bool) (hd : 0 < d) (h1 : d ∣ ppqn * 4)
    (h2 : dotted = false ∨ 2 ∣ ppqn * 4 / d) :
    ((truncTicks ppqn d dotted : Int) : ℚ) = exactTicks ppqn d dotted := by
  rw [truncTicks_eq _ _ _ hd]
  unfold exactTicks
  have hdq : (d : ℚ) ≠ 0 := by exact_mod_cast hd.ne'
  have hq : ((ppqn * 4 / d : Int) : ℚ) = (ppqn : ℚ) * 4 / d := by
    rw [Int.cast_div h1 hdq]
    push_cast
    rfl
  cases dotted with
  | false => simp [hq]
  | true =>
    simp only [if_true]
    rcases h2 with h2 | h2
    · exact absurd h2 (by decide)
    · have h3 : (2 : Int) ∣ ppqn * 4 / d * 3 := Dvd.dvd.mul_right h2 3
      rw [Int.cast_div h3 (by norm_num)]
      push_cast
      rw [hq]
      ring

set_option maxRecDepth 100000 in
/-- C23, as stated, fails: at ppqn 24 a note of length 64 takes 1 tick, while
`24 * 4 / 64` is 3/2, which rounds to 2. In `"H: s ppqn=24\nc5/64 c5/64\n"` the
second note starts at tick 1. -/
theorem sixty_fourth_at_ppqn_24 :
    noteTicks { name := cstr "SMS", ppqn := 24 } { dur := 64 } = some 1 ∧
    exactTicks 24 64 false = 3 / 2 ∧
    round (exactTicks 24 64 false) = 2 ∧
    eventList 20 (cstr "H: s ppqn=24\nc5/64 c5/64\n") = some
      [mkEvent "INST" 0 0 0x90 60 127, mkEvent "INST" 1 0 0x80 60 127,
       mkEvent "INST" 2 1 0x90 60 127, mkEvent "INST" 3 1 0x80 60 127,
       mkEvent "INST" 4 96 0xB0 0x7B 0] := by
  refine ⟨by decide, ?_, ?_, by decide⟩
  · unfold exactTicks
    norm_num
  · unfold exactTicks
    rw [round_eq]
    norm_num

/-- C23, amended: for every ppqn that is not negative and every length `d`
above 0, so for the six values of ppqn and the seven lengths, the number of
ticks of a note or rest is the integer part of `ppqn * 4 / d`, times 1.5 when
dotted, cut to its integer part again; a rest advances `sngTime` (from the
start of the time group, if one is open) and `barTime` by this number, and so
does every note that is played. The number is the exact value
`ppqn * 4 / d * (1.5 if dotted else 1)` whenever `d` divides `ppqn * 4` and,
for a dotted note, the quotient is even: of the 84 combinations all but
(24, 32, dotted), (24, 64), (24, 64, dotted) and (48, 64, dotted), where the
code gives 4, 1, 1, 4 for 9/2, 3/2, 9/4, 9/2. -/
theorem note_ticks_truncated (s : Compiler) (p : Nat) (trk : smsTrack) (holdKey : Int)
    (hp : 0 ≤ s.sms.ppqn) (hd : 0 < trk.note.dur) :
    noteTicks s.sms trk.note =
      some (truncTicks s.sms.ppqn trk.note.dur (decide (trk.note.dot ≠ 0))) ∧
    (trk.note.key = PAUSE → ∃ t, playNote s p trk holdKey = .next t ∧
      t.sngTime = s.noteStart + truncTicks s.sms.ppqn trk.note.dur (decide (trk.note.dot ≠ 0)) ∧
      t.barTime = s.barTime + truncTicks s.sms.ppqn trk.note.dur (decide (trk.note.dot ≠ 0))) ∧
    (∀ t, playNote s p trk holdKey = .next t →
      t.sngTime = s.noteStart + truncTicks s.sms.ppqn trk.note.dur (decide (trk.note.dot ≠ 0)) ∧
      t.barTime = s.barTime + truncTicks s.sms.ppqn trk.note.dur (decide (trk.note.dot ≠ 0))) ∧
    (trk.note.dur ∣ s.sms.ppqn * 4 →
      (trk.note.dot = 0 ∨ 2 ∣ s.sms.ppqn * 4 / trk.note.dur) →
      ((truncTicks s.sms.ppqn trk.note.dur (decide (trk.note.dot ≠ 0)) : Int) : ℚ) =
        exactTicks s.sms.ppqn trk.note.dur (decide (trk.note.dot ≠ 0))) ∧
    ((List.product [24, 48, 96, 192, 384, 768]
        (List.product [1, 2, 4, 8, 16, 32, 64] [false, true])).filter
        (fun (x : Int × Int × Bool) =>
          !(decide (x.2.1 ∣ x.1 * 4) && (!x.2.2 || decide ((2 : Int) ∣ x.1 * 4 / x.2.1)))) =
      [(24, 32, true), (24, 64, false), (24, 64, true), (48, 64, true)]) ∧
    truncTicks 24 32 true = 4 ∧ exactTicks 24 32 true = 9 / 2 ∧
    truncTicks 24 64 false = 1 ∧ exactTicks 24 64 false = 3 / 2 ∧
    truncTicks 24 64 true = 1 ∧ exactTicks 24 64 true = 9 / 4 ∧
    truncTicks 48 64 true = 4 ∧ exactTicks 48 64 true = 9 / 2 := by
  have hn := noteTicks_trunc s.sms trk.note hp hd
  refine ⟨hn, ?_, ?_, ?_, by decide, ?_, ?_, ?_, ?_, ?_, ?_, ?_, ?_⟩
  · intro hk
    obtain ⟨t, h1, _, _, h2, h3⟩ := playNote_pause s p trk holdKey _ hn hk
    exact ⟨t, h1, h2, h3⟩
  · intro t ht
    exact playNote_advance s p trk holdKey _ t hn ht
  · intro h1 h2
    apply truncTicks_exact _ _ _ hd h1
    rcases h2 with h2 | h2
    · left
      simp [h2]
    · exact Or.inr h2
  · rw [truncTicks_eq _ _ _ (by decide)]; decide
  · unfold exactTicks; norm_num
  · rw [truncTicks_eq _ _ _ (by decide)]; decide
  · unfold exactTicks; norm_num
  · rw [truncTicks_eq _ _ _ (by decide)]; decide
  · unfold exactTicks; norm_num
  · rw [truncTicks_eq _ _ _ (by decide)]; decide
  · unfold exactTicks; norm_num

theorem note_ticks_truncated_witness :
    (0 ≤ startState.sms.ppqn ∧ 0 < ({ name := cstr "INST" } : smsTrack).note.dur) ∧
    noteTicks startState.sms ({ name := cstr "INST" } : smsTrack).note =
      some (truncTicks startState.sms.ppqn ({ name := cstr "INST" } : smsTrack).note.dur
        (decide (({ name := cstr "INST" } : smsTrack).note.dot ≠ 0))) :=
  ⟨⟨by decide, by decide⟩,
    (note_ticks_truncated startState 0 { name := cstr "INST" } EMPTY (by decide) (by decide)).1⟩


/-! ## Time groups -/

set_option maxRecDepth 100000 in
/-- C30: `(` outside a time group records the song time as the start and the
end of the group and the bar time; a note or rest then starts at the recorded
start only if that is not 252, the value `TIME_OFF` that marks "no group":
in a group opened at song time 252 the notes are not rewound and follow each
other. `)` sets the song time to the recorded end and the bar time to the
recorded bar time plus the length of the group. In
`"c5/4 c5/4 c5/8 c5/32 ( e5 g5 )\n"` the group opens at 96 + 96 + 48 + 12 = 252
and `g5` starts at 264, after `e5`; with `c5/16` in place of `c5/32` the group
opens at 264 and both notes start there. -/
theorem time_group_at_252 (s : Compiler) :
    (s.P_TIMEGROUP = IDLE → timer s TIME_GROUP_START =
      some (.next { s with P_TIMEGROUP := PASSING, grpTimeStart := s.sngTime,
                           grpTimeEnd := s.sngTime, grpTimeBar := s.barTime })) ∧
    (s.P_TIMEGROUP = PASSING → timer s TIME_GROUP_END =
      some (.next { s with P_TIMEGROUP := IDLE, sngTime := s.grpTimeEnd,
                           barTime := s.grpTimeBar + (s.grpTimeEnd - s.grpTimeStart),
                           grpTimeStart := TIME_OFF, grpTimeEnd := TIME_OFF,
                           grpTimeBar := TIME_OFF })) ∧
    s.noteStart = (if s.grpTimeStart = 252 then s.sngTime else s.grpTimeStart) ∧
    (∀ (p : Nat) (trk : smsTrack) (holdKey dur : Int) (t : Compiler),
      noteTicks s.sms trk.note = some dur → playNote s p trk holdKey = .next t →
      t.sngTime = (if s.grpTimeStart = 252 then s.sngTime else s.grpTimeStart) + dur ∧
      t.grpTimeStart = s.grpTimeStart ∧
      t.grpTimeEnd = (if s.P_TIMEGROUP = PASSING ∧ s.grpTimeEnd < t.sngTime then t.sngTime
        else s.grpTimeEnd)) ∧
    eventList 20 (cstr "c5/4 c5/4 c5/8 c5/32 ( e5 g5 )\n") = some
      [mkEvent "INST" 0 0 0x90 60 127, mkEvent "INST" 1 95 0x80 60 127,
       mkEvent "INST" 2 96 0x90 60 127, mkEvent "INST" 3 191 0x80 60 127,
       mkEvent "INST" 4 192 0x90 60 127, mkEvent "INST" 5 239 0x80 60 127,
       mkEvent "INST" 6 240 0x90 60 127, mkEvent "INST" 7 251 0x80 60 127,
       mkEvent "INST" 8 252 0x90 64 127, mkEvent "INST" 9 263 0x80 64 127,
       mkEvent "INST" 10 264 0x90 67 127, mkEvent "INST" 11 275 0x80 67 127,
       mkEvent "INST" 12 384 0xB0 0x7B 0] ∧
    eventList 20 (cstr "c5/4 c5/4 c5/8 c5/16 ( e5 g5 )\n") = some
      [mkEvent "INST" 0 0 0x90 60 127, mkEvent "INST" 1 95 0x80 60 127,
       mkEvent "INST" 2 96 0x90 60 127, mkEvent "INST" 3 191 0x80 60 127,
       mkEvent "INST" 4 192 0x90 60 127, mkEvent "INST" 5 239 0x80 60 127,
       mkEvent "INST" 6 240 0x90 60 127, mkEvent "INST" 7 263 0x80 60 127,
       mkEvent "INST" 8 264 0x90 64 127, mkEvent "INST" 9 287 0x80 64 127,
       mkEvent "INST" 10 264 0x90 67 127, mkEvent "INST" 11 287 0x80 67 127,
       mkEvent "INST" 12 384 0xB0 0x7B 0] := by
  have hstart : s.noteStart = (if s.grpTimeStart = 252 then s.sngTime else s.grpTimeStart) := by
    unfold Compiler.noteStart TIME_OFF
    by_cases h : s.grpTimeStart = 252
    · simp [h]
    · simp [h]
  refine ⟨?_, ?_, hstart, ?_, by decide, by decide⟩
  · intro h
    unfold timer
    rw [if_neg (by decide), if_neg (by decide), if_pos rfl, if_neg (by simp [h])]
  · intro h
    unfold timer
    rw [if_neg (by decide), if_neg (by decide), if_neg (by decide), if_pos rfl,
      if_neg (by simp [h])]
  · intro p trk holdKey dur t hd ht
    have h1 := playNote_advance s p trk holdKey dur t hd ht
    have h2 := playNote_group s p trk holdKey dur t hd ht
    rw [hstart] at h1 h2
    refine ⟨h1.1, h2.1, ?_⟩
    rw [h1.1]
    exact h2.2.2.2


/-! ## Note words -/

theorem qualifier_halftones (qs : List Nat) (hq : ∀ c ∈ qs, c = 35 ∨ c = 43 ∨ c = 45)
    (fuel : Nat) (hf : qs.length < fuel) (n : smsNote) :
    parser_isNote.qualifier INST fuel qs n false =
      (ERR_NOERROR, { n with hft := n.hft + netHalftones qs, hold := EMPTY }) := by
  induction qs generalizing fuel n with
  | nil =>
    cases fuel with
    | zero => simp at hf
    | succ fuel =>
      rw [parser_isNote.qualifier]
      simp [netHalftones]
  | cons c qs ih =>
    cases fuel with
    | zero => simp at hf
    | succ fuel =>
      have hc := hq c (List.mem_cons_self c qs)
      have hrest : ∀ x ∈ qs, x = 35 ∨ x = 43 ∨ x = 45 :=
        fun x hx => hq x (List.mem_cons_of_mem c hx)
      have hf2 : qs.length < fuel := by simpa using hf
      rw [parser_isNote.qualifier]
      rcases hc with h | h | h
      · subst h
        simp only [true_or, if_true]
        rw [if_neg (by decide), if_neg (by decide), if_neg (by decide), ih hrest fuel hf2]
        simp only [netHalftones]
        rw [if_neg (by decide)]
        congr 2
        omega
      · subst h
        simp only [Nat.reduceEqDiff, or_true, if_true]
        rw [if_neg (by decide), if_neg (by decide), if_neg (by decide), ih hrest fuel hf2]
        simp only [netHalftones]
        rw [if_neg (by decide)]
        congr 2
        omega
      · subst h
        simp only [Nat.reduceEqDiff, or_self, if_false, if_true]
        rw [if_neg (by decide), if_neg (by decide), if_neg (by decide), ih hrest fuel hf2]
        simp only [netHalftones, if_true]
        congr 2
        omega

theorem getNumber_qualifiers (qs : List Nat) (hq : ∀ c ∈ qs, c = 35 ∨ c = 43 ∨ c = 45) :
    parser_getNumber qs = (0, 0) := by
  unfold parser_getNumber
  have h1 : strcmp qs (cstr "EMPTY") ≠ 0 := by
    intro h
    have := (strcmp_eq_zero _ _).1 h
    subst this
    have := hq 69 (by decide)
    omega
  rw [if_neg h1, scanDigits_stop qs 0 0]
  intro c hc
  cases qs with
  | nil => simp at hc
  | cons x xs =>
    simp only [List.head?_cons, Option.some.injEq] at hc
    subst hc
    have := hq x (List.mem_cons_self x xs)
    omega

theorem getNumber_octave (x : Nat) (qs : List Nat) (hq : ∀ c ∈ qs, c = 35 ∨ c = 43 ∨ c = 45) :
    parser_getNumber (decimal x ++ qs) = ((x : Int), (decimal x).length) := by
  unfold parser_getNumber
  obtain ⟨c, l, hd, hc1, hc2⟩ := decimal_head x
  have h1 : strcmp (decimal x ++ qs) (cstr "EMPTY") ≠ 0 := by
    intro h
    have := (strcmp_eq_zero _ _).1 h
    rw [hd] at this
    have h69 : c = 69 := by
      have h2 := congrArg List.head? this
      simpa [cstr] using h2
    omega
  rw [if_neg h1, scanDigits_decimal x qs]
  intro c hc
  cases qs with
  | nil => simp at hc
  | cons y ys =>
    simp only [List.head?_cons, Option.some.injEq] at hc
    subst hc
    have := hq y (List.mem_cons_self y ys)
    omega

theorem noteWord_parse (L : Nat) (K : Int) (o : Option Nat) (qs : List Nat) (n : smsNote)
    (hL : noteKey L = some K) (ho : ∀ x, o = some x → x ≤ 10)
    (hq : ∀ c ∈ qs, c = 35 ∨ c = 43 ∨ c = 45) :
    parser_isNote (noteWord L o qs) n INST =
      (ERR_NOERROR,
        { n with key := K, hft := netHalftones qs, dot := 0,
                 oct := wordOctave o n, hold := EMPTY },
        noteWord L o qs) := by
  have hnp : ¬ (L = 45 ∨ L = 111 ∨ L = 112) := by
    intro h
    rcases h with h | h | h <;> subst h <;> simp [noteKey] at hL
  unfold parser_isNote noteWord wordOctave
  rw [if_pos rfl]
  simp only [hnp, if_false, hL]
  unfold parser_isNote.rest
  cases o with
  | none =>
    simp only [List.nil_append, getNumber_qualifiers qs hq, ne_eq, not_true_eq_false, and_false,
      if_false]
    rw [qualifier_halftones qs hq _ (by omega)]
    simp
  | some x =>
    have hx := ho x rfl
    have hlen : (decimal x).length ≠ 0 := by
      obtain ⟨c, l, hd, _, _⟩ := decimal_head x
      rw [hd]; simp
    simp only [getNumber_octave x qs hq, ne_eq, hlen, not_false_eq_true, and_true]
    rw [if_pos (by decide), if_neg (by omega), List.drop_left,
      qualifier_halftones qs hq _ (by simp; omega)]
    simp

theorem noteWord_no_baseNote (L : Nat) (o : Option Nat) (qs : List Nat)
    (ho : ∀ x, o = some x → x ≤ 10) (hq : ∀ c ∈ qs, c = 35 ∨ c = 43 ∨ c = 45) :
    parser_isBaseNote (noteWord L o qs) = EMPTY := by
  have hnum : ∃ (v : Int) (k : Nat) (ds : List Nat), v ≤ 10 ∧ ds.length = k ∧
      noteWord L o qs = L :: (ds ++ qs) ∧ parser_getNumber (ds ++ qs) = (v, k) := by
    cases o with
    | none => exact ⟨0, 0, [], by decide, rfl, rfl, getNumber_qualifiers qs hq⟩
    | some x =>
      exact ⟨x, (decimal x).length, decimal x, by have := ho x rfl; omega, rfl, rfl,
        getNumber_octave x qs hq⟩
  obtain ⟨v, k, ds, hv, hk, hw, hg⟩ := hnum
  rw [hw]
  unfold parser_isBaseNote
  simp only [hg, List.length_cons, List.length_append, hk, List.drop_left' hk]
  have h58 : ∀ l : List Nat, (∀ c ∈ l, c = 35 ∨ c = 43 ∨ c = 45) → l.head? ≠ some 58 := by
    intro l hl h
    cases l with
    | nil => simp at h
    | cons y ys =>
      simp only [List.head?_cons, Option.some.injEq] at h
      have := hl y (List.mem_cons_self y ys)
      omega
  have htail : ∀ c ∈ qs.tail, c = 35 ∨ c = 43 ∨ c = 45 :=
    fun c hc => hq c (List.mem_of_mem_tail hc)
  repeat' split
  all_goals first
    | rfl
    | exact absurd (h58 _ htail) (by assumption)
    | exact absurd (h58 _ hq) (by assumption)

theorem noteKey_range (L : Nat) (K : Int) (h : noteKey L = some K) : 0 ≤ K ∧ K ≤ 11 := by
  unfold noteKey at h
  repeat' split at h
  all_goals simp only [Option.some.injEq, reduceCtorEq] at h
  all_goals omega

theorem noteWord_play (s : Compiler) (p : Nat) (trk : smsTrack) (L : Nat) (K : Int)
    (o : Option Nat) (qs : List Nat) (dur : Int)
    (hL : noteKey L = some K) (ho : ∀ x, o = some x → x ≤ 10)
    (hq : ∀ c ∈ qs, c = 35 ∨ c = 43 ∨ c = 45)
    (hchn : trk.chn ≠ 9) (hbn : s.currentBaseNote = EMPTY)
    (hd : noteTicks s.sms { trk.note with dot := 0 } = some dur) :
    (128 < toBYTE (wordPitch K o qs trk.note) →
      play s p trk (noteWord L o qs) =
        .stop { s with
          objFirst := storeAt s.objFirst p (.track { trk with note :=
            { trk.note with key := K, hft := netHalftones qs, dot := 0,
                            oct := wordOctave o trk.note, hold := EMPTY } }),
          SMSWORD := some (noteWord L o qs), sngTime := s.noteStart, err := ERR_NOTE }) ∧
    (toBYTE (wordPitch K o qs trk.note) ≤ 128 →
      ∃ t, play s p trk (noteWord L o qs) = .next t ∧
        t.evtFirst = s.evtFirst ++
          [trackEvent trk s.sms.evts s.noteStart (0x90 + trk.chn)
              (wordPitch K o qs trk.note) trk.note.vol,
            trackEvent trk (s.sms.evts + 1) (s.noteStart + dur - 1) (0x80 + trk.chn)
              (wordPitch K o qs trk.note) trk.note.vol] ++
          (if trk.note.hold ≠ EMPTY then
            [trackEvent trk (s.sms.evts + 2) (s.noteStart + dur - 1) (0x80 + trk.chn)
              trk.note.hold 0]
           else []) ∧
        t.sngTime = s.noteStart + dur ∧ t.barTime = s.barTime + dur) := by
  have hparse := noteWord_parse L K o qs trk.note hL ho hq
  have hbase := noteWord_no_baseNote L o qs ho hq
  have hK := noteKey_range L K hL
  have hplay := play_as_note s p trk (noteWord L o qs) (noteWord L o qs) _ hbase
    (by rw [if_pos hbn, if_neg hchn]; exact hparse)
  have hnote := playNote_note
    { s.setTrk p { trk with note :=
        { trk.note with key := K, hft := netHalftones qs, dot := 0,
                        oct := wordOctave o trk.note, hold := EMPTY } } with
      SMSWORD := some (noteWord L o qs) } p
    { trk with note :=
        { trk.note with key := K, hft := netHalftones qs, dot := 0,
                        oct := wordOctave o trk.note, hold := EMPTY } }
    trk.note.hold dur (toBYTE (wordPitch K o qs trk.note))
    (by rw [← hd]; exact noteTicks_congr _ _ _ rfl rfl)
    (by simp only [PAUSE]; omega)
    (by
      simp only [Compiler.setTrk, hbn, if_true]
      rw [if_neg (by simp only [BEAT]; omega)]
      rfl)
  rw [hplay]
  constructor
  · intro h
    rw [hnote.1 h]
    rfl
  · intro h
    obtain ⟨t, h1, h2, _, h3, h4⟩ := hnote.2 h
    refine ⟨t, h1, ?_, h3, h4⟩
    rw [h2]
    simp only [if_true, trackEvent, toBYTE_idem, Compiler.setTrk, Compiler.noteStart]
    by_cases hh : trk.note.hold = EMPTY
    · simp [hh]
    · simp [hh]
      omega

set_option maxRecDepth 100000 in
/-- C22, as stated, fails: the word `a10` is the letter `a` with the octave 10,
its pitch is 9 + 120 = 129, and the compilation of `"a10\n"` ends with
`ERR_NOTE` and no event; so does `"c0-\n"`, whose pitch is -1. -/
theorem note_word_out_of_range :
    noteWord 97 (some 10) [] = cstr "a10" ∧
    wordPitch 9 (some 10) [] {} = 129 ∧
    errorOf (sms2midi 10 (cstr "a10\n")) = some ERR_NOTE ∧
    eventList 10 (cstr "a10\n") = none ∧
    noteWord 99 (some 0) [45] = cstr "c0-" ∧
    wordPitch 0 (some 0) [45] {} = -1 ∧
    errorOf (sms2midi 10 (cstr "c0-\n")) = some ERR_NOTE := by
  refine ⟨by decide, by decide, by decide, by decide, by decide, by decide, by decide⟩

set_option maxRecDepth 100000 in
/-- C22, amended: for an instrument track (channel other than 9, no base note
set) and a note word made of a letter with the offset `K`, an optional
absolute octave 0..10 and half-tone qualifiers, `parser_isNote` sets the key
to `K`, the half tones to their net number, the octave to the absolute octave
or leaves it, and clears dot and hold. With the pitch
`K + h + 12 * octave` in 0..127 the compiler makes the note-on
`0x90 + channel` with this pitch and the volume of the note as velocity at the
start of the note, and the note-off one tick before its end (then the
note-off of a key the track held); with the pitch in 129..255 or -127..-1 it
stops with `ERR_NOTE` and makes no event. `c5` gives the pitch 60 at the
velocity 127. -/
theorem note_word_pitch (s : Compiler) (p : Nat) (trk : smsTrack) (L : Nat) (K : Int)
    (o : Option Nat) (qs : List Nat) (dur : Int)
    (hL : noteKey L = some K) (ho : ∀ x, o = some x → x ≤ 10)
    (hq : ∀ c ∈ qs, c = 35 ∨ c = 43 ∨ c = 45)
    (hchn : trk.chn ≠ 9) (hbn : s.currentBaseNote = EMPTY)
    (hd : noteTicks s.sms { trk.note with dot := 0 } = some dur) :
    parser_isNote (noteWord L o qs) trk.note INST =
      (ERR_NOERROR,
        { trk.note with key := K, hft := netHalftones qs, dot := 0,
                        oct := wordOctave o trk.note, hold := EMPTY },
        noteWord L o qs) ∧
    (0 ≤ wordPitch K o qs trk.note ∧ wordPitch K o qs trk.note ≤ 127 →
      toBYTE (wordPitch K o qs trk.note) = (wordPitch K o qs trk.note).toNat ∧
      ∃ t, play s p trk (noteWord L o qs) = .next t ∧
        t.evtFirst = s.evtFirst ++
          [trackEvent trk s.sms.evts s.noteStart (0x90 + trk.chn)
              (wordPitch K o qs trk.note) trk.note.vol,
            trackEvent trk (s.sms.evts + 1) (s.noteStart + dur - 1) (0x80 + trk.chn)
              (wordPitch K o qs trk.note) trk.note.vol] ++
          (if trk.note.hold ≠ EMPTY then
            [trackEvent trk (s.sms.evts + 2) (s.noteStart + dur - 1) (0x80 + trk.chn)
              trk.note.hold 0]
           else []) ∧
        t.sngTime = s.noteStart + dur ∧ t.barTime = s.barTime + dur) ∧
    ((129 ≤ wordPitch K o qs trk.note ∧ wordPitch K o qs trk.note ≤ 255) ∨
        (-127 ≤ wordPitch K o qs trk.note ∧ wordPitch K o qs trk.note ≤ -1) →
      ∃ t, play s p trk (noteWord L o qs) = .stop t ∧ t.err = ERR_NOTE ∧
        t.evtFirst = s.evtFirst) ∧
    eventList 10 (cstr "c5\n") = some
      [mkEvent "INST" 0 0 0x90 60 127, mkEvent "INST" 1 95 0x80 60 127,
       mkEvent "INST" 2 384 0xB0 0x7B 0] ∧
    eventList 10 (cstr "g10\n") = some
      [mkEvent "INST" 0 0 0x90 127 127, mkEvent "INST" 1 95 0x80 127 127,
       mkEvent "INST" 2 384 0xB0 0x7B 0] ∧
    eventList 10 (cstr "d#+-#\n") = some
      [mkEvent "INST" 0 0 0x90 64 127, mkEvent "INST" 1 95 0x80 64 127,
       mkEvent "INST" 2 384 0xB0 0x7B 0] := by
  have h := noteWord_play s p trk L K o qs dur hL ho hq hchn hbn hd
  refine ⟨noteWord_parse L K o qs trk.note hL ho hq, ?_, ?_, by decide, by decide, by decide⟩
  · intro hr
    have hb : toBYTE (wordPitch K o qs trk.note) = (wordPitch K o qs trk.note).toNat := by
      unfold toBYTE
      omega
    exact ⟨hb, h.2 (by rw [hb]; omega)⟩
  · intro hr
    have hb : 128 < toBYTE (wordPitch K o qs trk.note) := by
      unfold toBYTE
      omega
    exact ⟨_, h.1 hb, rfl, rfl⟩

theorem note_word_pitch_witness :
    (noteKey 99 = some 0 ∧ ({ name := cstr "INST" } : smsTrack).chn ≠ 9 ∧
      startState.currentBaseNote = EMPTY ∧
      noteTicks startState.sms { ({ name := cstr "INST" } : smsTrack).note with dot := 0 } =
        some 96) ∧
    parser_isNote (noteWord 99 (some 5) []) ({ name := cstr "INST" } : smsTrack).note INST =
      (ERR_NOERROR,
        { ({ name := cstr "INST" } : smsTrack).note with
            key := 0, hft := netHalftones [], dot := 0,
            oct := wordOctave (some 5) ({ name := cstr "INST" } : smsTrack).note,
            hold := EMPTY },
        noteWord 99 (some 5) []) :=
  ⟨⟨by decide, by decide, by decide, by decide⟩,
    (note_word_pitch startState startState.currentTrk { name := cstr "INST" } 99 0 (some 5) [] 96
      (by decide) (by intro x hx; cases hx; decide) (by intro c hc; cases hc) (by decide)
      (by decide) (by decide)).1⟩


/-! ## Held notes -/

theorem drumKeyAt_storeAt_track (objs : List smsObject) (p q : Nat) (t0 x : smsTrack)
    (h : trackAt objs p = some t0) :
    drumKeyAt (storeAt objs p (.track x)) q = drumKeyAt objs q := by
  unfold trackAt at h
  unfold storeAt
  cases hg : objs.get? p with
  | none => rfl
  | some o =>
    rw [hg] at h
    simp only []
    unfold drumKeyAt
    by_cases hpq : p = q
    · subst hpq
      have hlt : p < objs.length := by
        rw [List.get?_eq_getElem?] at hg
        exact (List.getElem?_eq_some_iff.1 hg).1
      simp only [List.get?_eq_getElem?, List.getElem?_set_self hlt]
      rw [List.get?_eq_getElem?] at hg
      rw [hg]
      cases o with
      | mk name type obj =>
        cases obj with
        | track t => rfl
        | drumkey k => exact absurd h (by simp)
        | chord c => exact absurd h (by simp)
        | mac m => exact absurd h (by simp)
    · simp only [List.get?_eq_getElem?, List.getElem?_set_ne hpq]

theorem qualifier_hold (type : Int) (fuel : Nat) (n : smsNote) (flgHold : Bool) :
    parser_isNote.qualifier type (fuel + 2) [95] n flgHold =
      (ERR_NOERROR, { n with hold := n.key }) := by
  rw [parser_isNote.qualifier]
  simp only [Nat.reduceEqDiff, or_self, if_false, ne_eq, not_true_eq_false, if_true]
  rw [parser_isNote.qualifier]
  simp

set_option maxRecDepth 100000 in
/-- C21, as stated, fails: in `"c5_ d5\n"` the note `d5` starts at tick 96, and
the note-off of the held `c5` is at tick 191, one tick before the end of `d5`,
not at tick 95; in `"c5_ o\n"` the rest starts at 96 and the note-off is at
its end, 192. -/
theorem held_note_released_late :
    eventList 10 (cstr "c5_ d5\n") = some
      [mkEvent "INST" 0 0 0x90 60 127, mkEvent "INST" 1 96 0x90 62 127,
       mkEvent "INST" 2 191 0x80 62 127, mkEvent "INST" 3 191 0x80 60 0,
       mkEvent "INST" 4 384 0xB0 0x7B 0] ∧
    eventList 10 (cstr "c5_ o\n") = some
      [mkEvent "INST" 0 0 0x90 60 127, mkEvent "INST" 1 192 0x80 60 0,
       mkEvent "INST" 2 384 0xB0 0x7B 0] ∧
    (96 : Int) - 1 ≠ 191 := by
  refine ⟨by decide, by decide, by decide⟩

set_option maxRecDepth 100000 in
/-- C21, amended: the qualifier `_` at the end of a note word sets the hold of
the note to its key. A word that is a note, on the track at `p` with the note
`n` that `parser_isNote` leaves: a rest makes the note-off of the key the
track held, if any, with velocity 0 at its end; a note makes its note-on at
its start, its own note-off one tick before its end unless it is held itself,
and then the note-off of the key the track held, if any, with velocity 0, one
tick before the end of this note, not before its start; a held note stores
its pitch as the key the track holds. Without a later note or rest on the
track no note-off of the held key is made: `"c5_\n"` has none. -/
theorem held_note_released_by_next (s : Compiler) (p : Nat) (trk : smsTrack)
    (word w2 : List Nat) (n : smsNote) (dur : Int) (d : Nat)
    (hpos : trackAt s.objFirst p = some trk)
    (hb : parser_isBaseNote word = EMPTY)
    (hn : parser_isNote word trk.note
      (if s.currentBaseNote = EMPTY then (if trk.chn = 9 then DRUM else INST) else BASENOTE) =
      (ERR_NOERROR, n, w2))
    (hd : noteTicks s.sms n = some dur) :
    (∀ (type : Int) (fuel : Nat) (m : smsNote) (flgHold : Bool),
      parser_isNote.qualifier type (fuel + 2) [95] m flgHold =
        (ERR_NOERROR, { m with hold := m.key })) ∧
    (n.key = PAUSE → ∃ t, play s p trk word = .next t ∧
      t.evtFirst = s.evtFirst ++
        (if trk.note.hold ≠ EMPTY then
          [trackEvent trk s.sms.evts (s.noteStart + dur) (0x80 + trk.chn) trk.note.hold 0]
         else [])) ∧
    (n.key ≠ PAUSE →
      (if s.currentBaseNote = EMPTY then
          if n.key = BEAT then (drumKeyAt s.objFirst s.currentDKey).map (fun k => toBYTE k.key)
          else some (toBYTE (n.key + n.hft + n.oct * 12))
        else some (toBYTE (n.key + s.currentBaseNote))) = some d →
      d ≤ 128 →
      ∃ t, play s p trk word = .next t ∧
        t.evtFirst = s.evtFirst ++
          [trackEvent trk s.sms.evts s.noteStart (0x90 + trk.chn) d (toBYTE n.vol)] ++
          (if n.hold = EMPTY then
            [trackEvent trk (s.sms.evts + 1) (s.noteStart + dur - 1) (0x80 + trk.chn) d
              (toBYTE n.vol)]
           else []) ++
          (if trk.note.hold ≠ EMPTY then
            [trackEvent trk (s.sms.evts + 1 + (if n.hold = EMPTY then 1 else 0))
              (s.noteStart + dur - 1) (0x80 + trk.chn) trk.note.hold 0]
           else []) ∧
        trackAt t.objFirst p =
          some { trk with note := { n with hold := if n.hold = EMPTY then EMPTY else d } }) ∧
    parser_isNote (cstr "c5_") {} INST =
      (ERR_NOERROR, { key := 0, oct := 5, hold := 0 }, cstr "c5_") ∧
    eventList 10 (cstr "c5_\n") = some
      [mkEvent "INST" 0 0 0x90 60 127, mkEvent "INST" 1 384 0xB0 0x7B 0] ∧
    eventList 10 (cstr "c5_ d5\n") = some
      [mkEvent "INST" 0 0 0x90 60 127, mkEvent "INST" 1 96 0x90 62 127,
       mkEvent "INST" 2 191 0x80 62 127, mkEvent "INST" 3 191 0x80 60 0,
       mkEvent "INST" 4 384 0xB0 0x7B 0] ∧
    eventList 10 (cstr "c5_ d5_ e5\n") = some
      [mkEvent "INST" 0 0 0x90 60 127, mkEvent "INST" 1 96 0x90 62 127,
       mkEvent "INST" 2 191 0x80 60 0, mkEvent "INST" 3 192 0x90 64 127,
       mkEvent "INST" 4 287 0x80 64 127, mkEvent "INST" 5 287 0x80 62 0,
       mkEvent "INST" 6 384 0xB0 0x7B 0] ∧
    eventList 10 (cstr "c5_ o\n") = some
      [mkEvent "INST" 0 0 0x90 60 127, mkEvent "INST" 1 192 0x80 60 0,
       mkEvent "INST" 2 384 0xB0 0x7B 0] := by
  have hplay := play_as_note s p trk word w2 n hb hn
  refine ⟨qualifier_hold, ?_, ?_, by decide, by decide, by decide, by decide, by decide⟩
  · intro hk
    obtain ⟨t, h1, h2, _, _, _⟩ := playNote_pause
      { s.setTrk p { trk with note := n } with SMSWORD := some w2 } p { trk with note := n }
      trk.note.hold dur hd hk
    exact ⟨t, hplay.trans h1, h2⟩
  · intro hk hp hd128
    have hp2 : (if ({ s.setTrk p { trk with note := n } with SMSWORD := some w2 } :
          Compiler).currentBaseNote = EMPTY then
          if ({ trk with note := n } : smsTrack).note.key = BEAT then
            (drumKeyAt ({ s.setTrk p { trk with note := n } with SMSWORD := some w2 } :
              Compiler).objFirst
              ({ s.setTrk p { trk with note := n } with SMSWORD := some w2 } :
                Compiler).currentDKey).map (fun k => toBYTE k.key)
          else some (toBYTE (({ trk with note := n } : smsTrack).note.key +
            ({ trk with note := n } : smsTrack).note.hft +
            ({ trk with note := n } : smsTrack).note.oct * 12))
        else some (toBYTE (({ trk with note := n } : smsTrack).note.key +
          ({ s.setTrk p { trk with note := n } with SMSWORD := some w2 } :
            Compiler).currentBaseNote))) = some d := by
      rw [← hp]
      simp only [Compiler.setTrk, drumKeyAt_storeAt_track s.objFirst p _ trk _ hpos]
    obtain ⟨t, h1, h2, h3, _, _⟩ := (playNote_note
      { s.setTrk p { trk with note := n } with SMSWORD := some w2 } p { trk with note := n }
      trk.note.hold dur d hd hk hp2).2 hd128
    refine ⟨t, hplay.trans h1, h2, ?_⟩
    rw [h3]
    have hs1 : trackAt (storeAt s.objFirst p (.track { trk with note := n })) p =
        some { trk with note := n } := trackAt_storeAt _ _ _ _ hpos
    by_cases hh : n.hold = EMPTY
    · simp only [hh, if_true]
      rw [← hh]
      exact hs1
    · simp only [hh, if_false]
      exact trackAt_storeAt _ _ _ _ hs1

set_option maxRecDepth 100000 in
theorem held_note_released_by_next_witness :
    (trackAt startState.objFirst startState.currentTrk = some { name := cstr "INST" } ∧
      parser_isBaseNote (cstr "c5_") = EMPTY ∧
      noteTicks startState.sms { key := 0, oct := 5, hold := 0 } = some 96) ∧
    ∃ t, play startState startState.currentTrk { name := cstr "INST" } (cstr "c5_") = .next t ∧
      t.evtFirst = [trackEvent { name := cstr "INST" } 0 0 0x90 60 127] ∧
      trackAt t.objFirst startState.currentTrk =
        some { name := cstr "INST", note := { key := 0, oct := 5, hold := 60 } } := by
  have h := held_note_released_by_next startState startState.currentTrk { name := cstr "INST" }
    (cstr "c5_") (cstr "c5_") { key := 0, oct := 5, hold := 0 } 96 60
    (by decide) (by decide) (by decide) (by decide)
  obtain ⟨t, h1, h2, h3⟩ := h.2.2.1 (by decide) (by decide) (by decide)
  exact ⟨⟨by decide, by decide, by decide⟩, t, h1, h2, h3⟩


/-! ## Byte order of the values written -/

theorem swap32_lt (v : Nat) : swap32 v < 4294967296 := by
  unfold swap32
  exact Nat.mod_lt _ (by norm_num)

theorem memByte_of_lt (x k : Nat) (hx : x < 4294967296) :
    memByte x k = (x >>> (8 * k)) % 256 := by
  unfold memByte
  rw [Nat.mod_eq_of_lt hx]

theorem eq_of_memByte (x y : Nat) (hx : x < 4294967296) (hy : y < 4294967296)
    (h : ∀ k, k ≤ 3 → memByte x k = memByte y k) : x = y := by
  have h0 := h 0 (by omega)
  have h1 := h 1 (by omega)
  have h2 := h 2 (by omega)
  have h3 := h 3 (by omega)
  rw [memByte_of_lt x _ hx, memByte_of_lt y _ hy, Nat.shiftRight_eq_div_pow,
    Nat.shiftRight_eq_div_pow] at h0 h1 h2 h3
  norm_num at h0 h1 h2 h3
  omega

theorem swap32_swap32 (v : Nat) (hv : v < 4294967296) : swap32 (swap32 v) = v := by
  apply eq_of_memByte _ _ (swap32_lt _) hv
  intro k hk
  rw [memByte_swap32 _ k hk, ← memByte_of_lt (swap32 v) _ (swap32_lt v),
    memByte_swap32 v (3 - k) (by omega), memByte_of_lt v k hv]
  congr 3
  omega

theorem writeVAL_swap32_1 (buf : BUF) (v : Nat) :
    (writeVAL buf (swap32 v) 1).mem = buf.mem ++ [v % 256] := by
  rw [writeVAL_mem1, memByte_swap32_3]

/-- C40: for every 32-bit value `v` and every `n` in 1..4,
`writeVAL(buf, swap32(v), n)` appends to the buffer exactly the low `n` bytes
of `v`, the most significant of them first, and `swap32(swap32(v))` is `v`. -/
theorem writeVAL_swap32_low_bytes (buf : BUF) (v n : Nat) (hv : v < 4294967296)
    (hn : 1 ≤ n ∧ n ≤ 4) :
    (writeVAL buf (swap32 v) (n : Int)).mem = buf.mem ++ lowBytes v n ∧
    (lowBytes v n).length = n ∧
    (∀ i, i < n → (lowBytes v n)[i]? = some (v / 256 ^ (n - 1 - i) % 256)) ∧
    swap32 (swap32 v) = v := by
  obtain ⟨h1, h4⟩ := hn
  refine ⟨?_, ?_, ?_, swap32_swap32 v hv⟩
  · interval_cases n
    · exact (writeVAL_swap32_1 buf v).trans (by simp [lowBytes])
    · exact (writeVAL_swap32_2 buf v).trans (by simp [lowBytes])
    · exact (writeVAL_swap32_3 buf v).trans (by simp [lowBytes])
    · exact (writeVAL_swap32_4 buf v).trans (by simp [lowBytes])
  · interval_cases n <;> rfl
  · intro i hi
    interval_cases n <;> interval_cases i <;> simp [lowBytes]

theorem writeVAL_swap32_low_bytes_witness :
    ((0x4D546864 : Nat) < 4294967296 ∧ (1 : Nat) ≤ 2 ∧ (2 : Nat) ≤ 4) ∧
    (writeVAL emptyBUF (swap32 0x4D546864) ((2 : Nat) : Int)).mem = [] ++ lowBytes 0x4D546864 2 ∧
    lowBytes 0x4D546864 2 = [0x68, 0x64] ∧
    swap32 (swap32 0x4D546864) = 0x4D546864 :=
  ⟨⟨by decide, by decide, by decide⟩,
    (writeVAL_swap32_low_bytes emptyBUF 0x4D546864 2 (by decide) ⟨by decide, by decide⟩).1,
    by decide,
    (writeVAL_swap32_low_bytes emptyBUF 0x4D546864 2 (by decide) ⟨by decide, by decide⟩).2.2.2⟩


/-! ## The channel of the all-notes-off message -/

theorem dynamic_bpm (s : Compiler) (trk : smsTrack) (word : List Nat) (e value : Int)
    (h : parser_isBPM word = (e, some value)) :
    dynamic s trk word = some (.next
      { s with
        evtFirst := s.evtFirst ++
          [trackEvent trk s.sms.evts s.sngTime 0xB0 0x7B 0,
           { trackEvent trk (s.sms.evts + 1) s.sngTime 0 0 0 with bpm := value }]
        sms := { s.sms with evts := s.sms.evts + 1 + 1 }
        err := ERR_NOERROR }) := by
  unfold dynamic
  rw [h]
  simp only [Compiler.emit, newSmsEvent, setBpm_append]
  simp [trackEvent]

theorem dynamic_midicc (s : Compiler) (trk : smsTrack) (word : List Nat) (cc v : Int)
    (h1 : parser_isBPM word = (ERR_DEF_PARAMETER, none))
    (h2 : parser_isBAR word = (ERR_DEF_PARAMETER, none))
    (h3 : parser_isMidiCC word = (ERR_NOERROR, some cc, some v)) :
    dynamic s trk word = some (.next
      { s with
        evtFirst := s.evtFirst ++ [trackEvent trk s.sms.evts s.sngTime (0xB0 + trk.chn) cc v]
        sms := { s.sms with evts := s.sms.evts + 1 } }) := by
  unfold dynamic
  rw [h1]
  simp only [show ¬ (ERR_DEF_PARAMETER = ERR_VALUE) by decide, if_false, h2, h3, if_true]
  rfl

theorem finalEvents_eq (s : Compiler) (trk : smsTrack)
    (h : trackAt s.objFirst s.currentTrk = some trk) :
    ∃ t, finalEvents s = some t ∧
      t.evtFirst = s.evtFirst ++
        [trackEvent trk s.sms.evts
          (if s.barTime ≠ 0 then s.sngTime + (s.sms.bar - s.barTime) else s.sngTime)
          0xB0 0x7B 0] := by
  unfold finalEvents
  rw [h]
  refine ⟨_, rfl, ?_⟩
  by_cases hb : s.barTime = 0 <;>
    simp [hb, Compiler.emit, Compiler.setTrk, newSmsEvent, trackEvent]

set_option maxRecDepth 100000 in
/-- C39: the all-notes-off message that goes before a tempo change and the one
at the end of the data are made with the status `0xB0`, without the channel of
the track, so on a track with a channel other than 0 they carry channel 0:
with the drum track current (`"TICK: bpm=100\n"`, `"TICK: x"`) the event of
the track DRUM has status `0xB0`, not `0xB9`, and with an instrument on
channel 3 current the event has status `0xB0` next to the notes with `0x93`.
The controller message of a word `@name=V` has the status `0xB0 + chn`. -/
theorem all_notes_off_without_channel (s : Compiler) (trk : smsTrack) (word : List Nat) :
    (∀ e value, parser_isBPM word = (e, some value) →
      dynamic s trk word = some (.next
        { s with
          evtFirst := s.evtFirst ++
            [trackEvent trk s.sms.evts s.sngTime 0xB0 0x7B 0,
             { trackEvent trk (s.sms.evts + 1) s.sngTime 0 0 0 with bpm := value }]
          sms := { s.sms with evts := s.sms.evts + 1 + 1 }
          err := ERR_NOERROR })) ∧
    (∀ cc v, parser_isBPM word = (ERR_DEF_PARAMETER, none) →
      parser_isBAR word = (ERR_DEF_PARAMETER, none) →
      parser_isMidiCC word = (ERR_NOERROR, some cc, some v) →
      dynamic s trk word = some (.next
        { s with
          evtFirst := s.evtFirst ++
            [trackEvent trk s.sms.evts s.sngTime (0xB0 + trk.chn) cc v]
          sms := { s.sms with evts := s.sms.evts + 1 } })) ∧
    (trackAt s.objFirst s.currentTrk = some trk →
      ∃ t, finalEvents s = some t ∧
        t.evtFirst = s.evtFirst ++
          [trackEvent trk s.sms.evts
            (if s.barTime ≠ 0 then s.sngTime + (s.sms.bar - s.barTime) else s.sngTime)
            0xB0 0x7B 0]) ∧
    (∀ i t : Int, (trackEvent trk i t 0xB0 0x7B 0).status = 0xB0 ∧
      (trackEvent trk i t 0xB0 0x7B 0).status % 16 = 0 ∧
      (trackEvent trk i t 0xB0 0x7B 0).bpm = 0) ∧
    trackAt startState.objFirst startState.DrumTrk = some { name := cstr "DRUM", chn := 9 } ∧
    eventList 30 (cstr "TICK: bpm=100\n") = some
      [mkEvent "DRUM" 0 0 0xB0 0x7B 0, { mkEvent "DRUM" 1 0 0 0 0 with bpm := 100 },
       mkEvent "INST" 2 0 0xB0 0x7B 0] ∧
    eventList 30 (cstr "TICK: x") = some
      [mkEvent "DRUM" 0 0 0x99 31 127, mkEvent "DRUM" 1 95 0x89 31 127,
       mkEvent "DRUM" 2 384 0xB0 0x7B 0] ∧
    eventList 30 (cstr "I: p chn=3\np bpm=100\n") = some
      [mkEvent "p" 0 0 0xB3 0 0, mkEvent "p" 1 0 0xC3 0 0, mkEvent "p" 2 0 0xB0 0x7B 0,
       { mkEvent "p" 3 0 0 0 0 with bpm := 100 }, mkEvent "INST" 4 0 0xB0 0x7B 0] ∧
    eventList 30 (cstr "I: p chn=3\np c5") = some
      [mkEvent "p" 0 0 0xB3 0 0, mkEvent "p" 1 0 0xC3 0 0, mkEvent "p" 2 0 0x93 60 127,
       mkEvent "p" 3 95 0x83 60 127, mkEvent "p" 4 384 0xB0 0x7B 0] ∧
    eventList 30 (cstr "I: p chn=3\np @vol=100") = some
      [mkEvent "p" 0 0 0xB3 0 0, mkEvent "p" 1 0 0xC3 0 0, mkEvent "p" 2 0 0xB3 7 100,
       mkEvent "p" 3 0 0xB0 0x7B 0] := by
  refine ⟨fun e value h => dynamic_bpm s trk word e value h,
    fun cc v h1 h2 h3 => dynamic_midicc s trk word cc v h1 h2 h3,
    fun h => finalEvents_eq s trk h,
    fun i t => ⟨show toBYTE 0xB0 = 0xB0 by decide, show toBYTE 0xB0 % 16 = 0 by decide, rfl⟩,
    by decide, by decide, by decide, by decide, by decide, by decide⟩


/-! ## The pitch check -/

set_option maxRecDepth 1000000 in
/-- C38: the pitch check of a note is `data1 > 128` on the pitch cut to a byte,
so the pitch 128 passes it: `"g10#\n"` (7 + 1 + 120 = 128) compiles without
error and makes a note-on and a note-off with the data byte 128. A note with
the pitch byte `d` stops the compilation with `ERR_NOTE` when `d` is above 128
(`"a10\n"` with 129, `"c0-\n"` with -1, which is the byte 255) and is played
with the data byte `d` when `d` is at most 128; `"g10\n"` plays the pitch
127. The pitch is cut to a byte before the check, so `c0` with 129 qualifiers
`-`, the pitch -129, is played with the data byte 127. -/
theorem pitch_128_passes_check (s : Compiler) (p : Nat) (trk : smsTrack) (holdKey dur : Int)
    (d : Nat) :
    (noteTicks s.sms trk.note = some dur → trk.note.key ≠ PAUSE →
      (if s.currentBaseNote = EMPTY then
          if trk.note.key = BEAT then
            (drumKeyAt s.objFirst s.currentDKey).map (fun k => toBYTE k.key)
          else some (toBYTE (trk.note.key + trk.note.hft + trk.note.oct * 12))
        else some (toBYTE (trk.note.key + s.currentBaseNote))) = some d →
      (128 < d →
        playNote s p trk holdKey = .stop { s with sngTime := s.noteStart, err := ERR_NOTE }) ∧
      (d ≤ 128 → ∃ t, playNote s p trk holdKey = .next t ∧
        t.evtFirst = s.evtFirst ++
          [trackEvent trk s.sms.evts s.noteStart (0x90 + trk.chn) d (toBYTE trk.note.vol)] ++
          (if trk.note.hold = EMPTY then
            [trackEvent trk (s.sms.evts + 1) (s.noteStart + dur - 1) (0x80 + trk.chn) d
              (toBYTE trk.note.vol)]
           else []) ++
          (if holdKey ≠ EMPTY then
            [trackEvent trk (s.sms.evts + 1 + (if trk.note.hold = EMPTY then 1 else 0))
              (s.noteStart + dur - 1) (0x80 + trk.chn) holdKey 0]
           else []))) ∧
    (parser_isNote (cstr "g10#") {} INST).1 = ERR_NOERROR ∧
    (parser_isNote (cstr "g10#") {} INST).2.1.key + (parser_isNote (cstr "g10#") {} INST).2.1.hft +
      (parser_isNote (cstr "g10#") {} INST).2.1.oct * 12 = 128 ∧
    errorOf (sms2midi 30 (cstr "g10#\n")) = some ERR_NOERROR ∧
    eventList 30 (cstr "g10#\n") = some
      [mkEvent "INST" 0 0 0x90 128 127, mkEvent "INST" 1 95 0x80 128 127,
       mkEvent "INST" 2 384 0xB0 0x7B 0] ∧
    (smfBytes (sms2midi 30 (cstr "g10#\n"))).isSome = true ∧
    eventList 30 (cstr "g10\n") = some
      [mkEvent "INST" 0 0 0x90 127 127, mkEvent "INST" 1 95 0x80 127 127,
       mkEvent "INST" 2 384 0xB0 0x7B 0] ∧
    errorOf (sms2midi 30 (cstr "a10\n")) = some ERR_NOTE ∧
    errorOf (sms2midi 30 (cstr "c0-\n")) = some ERR_NOTE ∧
    errorOf (sms2midi 30 (cstr "b10#: 0\n")) = some ERR_NOTE ∧
    eventList 30 (cstr "g10#: 0\n") = some
      [mkEvent "INST" 0 0 0x90 128 127, mkEvent "INST" 1 95 0x80 128 127,
       mkEvent "INST" 2 384 0xB0 0x7B 0] ∧
    (eventList 30 (cstr "c0" ++ List.replicate 129 45 ++ [10])).map
        (fun l => l.map (fun e => e.data1)) = some [127, 127, 123] := by
  refine ⟨?_, by decide, by decide, by decide, by decide, by decide, by decide, by decide,
    by decide, by decide, by decide, by decide⟩
  intro hd hk hp
  obtain ⟨h1, h2⟩ := playNote_note s p trk holdKey dur d hd hk hp
  refine ⟨h1, fun h => ?_⟩
  obtain ⟨t, ht, he, _⟩ := h2 h
  exact ⟨t, ht, he⟩


/-! ## The half tone of a chord note -/

theorem parser_isChord_fields (objs : List smsObject) (word : List Nat) (c1 : smsChordNote) :
    (parser_isChord objs word c1).1 = (parser_isChord objs word {}).1 ∧
    ((parser_isChord objs word c1).1 = ERR_NOERROR →
      (parser_isChord objs word c1).2.key = (parser_isChord objs word {}).2.key ∧
      (parser_isChord objs word c1).2.chord = (parser_isChord objs word {}).2.chord ∧
      (parser_isChord objs word c1).2.arp = (parser_isChord objs word {}).2.arp ∧
      some (parser_isChord objs word c1).2.key = ((sscanfChord word).1.head?).bind chordKey ∧
      (parser_isChord objs word c1).2.hft =
        if (sscanfChord word).1.tail.head? = some 35 ∨ (sscanfChord word).1.tail.head? = some 43
        then 1 else c1.hft) := by
  have e1 : ¬ (ERR_NO_COMMAND = ERR_NOERROR) := by decide
  have e2 : ¬ (ERR_KEYCHORD = ERR_NOERROR) := by decide
  have e3 : ¬ (ERR_ARP = ERR_NOERROR) := by decide
  unfold parser_isChord
  simp only []
  cases hs : (sscanfChord word).1 with
  | nil => exact ⟨rfl, fun h => absurd h e1⟩
  | cons k c =>
    simp only [List.head?_cons, List.tail_cons, Option.some_bind]
    cases hk : chordKey k with
    | none => exact ⟨rfl, fun h => absurd h e1⟩
    | some key =>
      simp only []
      by_cases hsharp : c.head? = some 35 ∨ c.head? = some 43
      · simp only [hsharp, if_true]
        repeat' split
        all_goals first
          | exact ⟨rfl, fun h => absurd h e1⟩
          | exact ⟨rfl, fun h => absurd h e2⟩
          | exact ⟨rfl, fun h => absurd h e3⟩
          | exact ⟨rfl, fun _ => ⟨rfl, rfl, rfl, rfl, rfl⟩⟩
      · simp only [hsharp, if_false]
        repeat' split
        all_goals first
          | exact ⟨rfl, fun h => absurd h e1⟩
          | exact ⟨rfl, fun h => absurd h e2⟩
          | exact ⟨rfl, fun h => absurd h e3⟩
          | exact ⟨rfl, fun _ => ⟨rfl, rfl, rfl, rfl, rfl⟩⟩

set_option maxRecDepth 100000 in
/-- C37: `parser_isChord` sets the half tone of the chord note to 1 when the
root is followed by `#` or `+` and otherwise leaves it as it was, so the
result depends on the chord note the track had: after `C#maj` the word `Cmaj`
on the same track has the half tone 1 and is played with the pitches 37, 41,
44, not 36, 40, 43. The error returned, the key, the chord and the arp of a
word that is accepted do not depend on the chord note before. -/
theorem parser_isChord_keeps_halftone (objs : List smsObject) (word : List Nat)
    (c1 : smsChordNote) :
    (parser_isChord objs word c1).1 = (parser_isChord objs word {}).1 ∧
    ((parser_isChord objs word c1).1 = ERR_NOERROR →
      (parser_isChord objs word c1).2.key = (parser_isChord objs word {}).2.key ∧
      (parser_isChord objs word c1).2.chord = (parser_isChord objs word {}).2.chord ∧
      (parser_isChord objs word c1).2.arp = (parser_isChord objs word {}).2.arp ∧
      some (parser_isChord objs word c1).2.key = ((sscanfChord word).1.head?).bind chordKey ∧
      (parser_isChord objs word c1).2.hft =
        if (sscanfChord word).1.tail.head? = some 35 ∨ (sscanfChord word).1.tail.head? = some 43
        then 1 else c1.hft) ∧
    parser_isChord startState.objFirst (cstr "C#maj") {} =
      (ERR_NOERROR, { key := 0, hft := 1, chord := some 0, arp := none }) ∧
    parser_isChord startState.objFirst (cstr "Cmaj") {} =
      (ERR_NOERROR, { key := 0, hft := 0, chord := some 0, arp := none }) ∧
    parser_isChord startState.objFirst (cstr "Cmaj")
        { key := 0, hft := 1, chord := some 0, arp := none } =
      (ERR_NOERROR, { key := 0, hft := 1, chord := some 0, arp := none }) ∧
    eventList 30 (cstr "Cmaj\n") = some
      [mkEvent "INST" 0 0 0x90 36 127, mkEvent "INST" 1 383 0x80 36 127,
       mkEvent "INST" 2 0 0x90 40 127, mkEvent "INST" 3 383 0x80 40 127,
       mkEvent "INST" 4 0 0x90 43 127, mkEvent "INST" 5 383 0x80 43 127,
       mkEvent "INST" 6 384 0xB0 0x7B 0] ∧
    eventList 30 (cstr "C#maj\nCmaj\n") = some
      [mkEvent "INST" 0 0 0x90 37 127, mkEvent "INST" 1 383 0x80 37 127,
       mkEvent "INST" 2 0 0x90 41 127, mkEvent "INST" 3 383 0x80 41 127,
       mkEvent "INST" 4 0 0x90 44 127, mkEvent "INST" 5 383 0x80 44 127,
       mkEvent "INST" 6 384 0x90 37 127, mkEvent "INST" 7 767 0x80 37 127,
       mkEvent "INST" 8 384 0x90 41 127, mkEvent "INST" 9 767 0x80 41 127,
       mkEvent "INST" 10 384 0x90 44 127, mkEvent "INST" 11 767 0x80 44 127,
       mkEvent "INST" 12 768 0xB0 0x7B 0] := by
  obtain ⟨h1, h2⟩ := parser_isChord_fields objs word c1
  exact ⟨h1, h2, by decide, by decide, by decide, by decide, by decide⟩


/-! ## The steps of an arp -/

set_option maxRecDepth 1000000 in
/-- C36: in arp context `parser_isNote` accepts every step 0..24 (25 is
`ERR_NOTE_OFFSET`), while a chord has 7 offsets. A step from 7 on reads behind
the offsets of the chord, which is undefined: so for `"A: up N\nCmaj~up\n"`
and `"A: up N\nC13~up\n"` with every `N` in 7..24. A step whose offset is
absent uses the marker 255 as the offset: the steps 3..6 over `Cmaj` make a
note-on with the pitch 35, which is 36 + 255 cut to a byte. The steps 0, 1, 2
over `Cmaj` give the pitches 36, 40, 43. -/
theorem arp_step_outside_chord :
    (∀ N ∈ List.range 25,
      (parser_isNote (decimal N) { oct := 0 } ARP).1 = ERR_NOERROR ∧
      (parser_isNote (decimal N) { oct := 0 } ARP).2.1.key = (N : Int)) ∧
    (parser_isNote (decimal 25) { oct := 0 } ARP).1 = ERR_NOTE_OFFSET ∧
    (∀ c ∈ builtinChords, c.2.length = 7) ∧
    ({ name := cstr "x" } : smsChord).keys.length = 7 ∧
    (∀ N ∈ [7, 8, 9, 10, 11, 12, 13, 14, 15, 16, 17, 18, 19, 20, 21, 22, 23, 24],
      sms2midi 30 (cstr "A: up " ++ decimal N ++ cstr "\nCmaj~up\n") = .undefined ∧
      sms2midi 30 (cstr "A: up " ++ decimal N ++ cstr "\nC13~up\n") = .undefined) ∧
    (∀ N ∈ [3, 4, 5, 6],
      eventList 30 (cstr "A: up " ++ decimal N ++ cstr "\nCmaj~up\n") = some
        [mkEvent "INST" 0 0 0x90 35 127, mkEvent "INST" 1 96 0x80 35 127,
         mkEvent "INST" 2 384 0xB0 0x7B 0]) ∧
    toBYTE (CHORD_OCTAVE * 12 + 0 + 0 + 255) = 35 ∧
    eventList 30 (cstr "A: up 0 1 2\nCmaj~up\n") = some
      [mkEvent "INST" 0 0 0x90 36 127, mkEvent "INST" 1 96 0x80 36 127,
       mkEvent "INST" 2 96 0x90 40 127, mkEvent "INST" 3 192 0x80 40 127,
       mkEvent "INST" 4 192 0x90 43 127, mkEvent "INST" 5 288 0x80 43 127,
       mkEvent "INST" 6 384 0xB0 0x7B 0] ∧
    eventList 30 (cstr "A: up 1> 2<\nCmaj~up\n") = some
      [mkEvent "INST" 0 0 0x90 52 127, mkEvent "INST" 1 96 0x80 52 127,
       mkEvent "INST" 2 96 0x90 43 127, mkEvent "INST" 3 192 0x80 43 127,
       mkEvent "INST" 4 384 0xB0 0x7B 0] := by
  refine ⟨by decide, by decide, by decide, by decide, by decide, by decide, by decide,
    by decide, by decide⟩


/-! ## Padding to the bar -/

theorem fillBar_eq (s : Compiler) :
    s.fillBar.barTime = 0 ∧
    s.fillBar.sngTime = s.sngTime + (if s.barTime ≠ 0 then s.sms.bar - s.barTime else 0) := by
  unfold Compiler.fillBar
  by_cases h : s.barTime = 0 <;> simp [h]

theorem useInst_pad (s : Compiler) (p : Nat) (trk : smsTrack)
    (h : trackAt s.objFirst p = some trk) :
    ∃ t, useInst s p = .next t ∧ t.sngTime = s.fillBar.sngTime ∧ t.barTime = 0 := by
  unfold useInst
  rw [h]
  exact ⟨_, rfl, rfl, rfl⟩

theorem barline_pad (s : Compiler) (trk : smsTrack) (hg : s.P_TIMEGROUP ≠ PASSING)
    (hb : s.barTime ≤ s.sms.bar) (h : trackAt s.objFirst s.currentTrk = some trk) :
    ∃ t, timer s BARLINE = some (.next t) ∧ t.sngTime = s.fillBar.sngTime ∧ t.barTime = 0 := by
  unfold timer
  rw [if_neg (by decide), if_neg (by decide), if_neg (by decide), if_neg (by decide),
    if_pos rfl, if_neg hg, if_neg (by omega)]
  rw [h]
  exact ⟨_, rfl, rfl, rfl⟩

theorem barline_over (s : Compiler) (hg : s.P_TIMEGROUP ≠ PASSING)
    (hb : s.sms.bar < s.barTime) : timer s BARLINE = some (s.fail ERR_BAR) := by
  unfold timer
  rw [if_neg (by decide), if_neg (by decide), if_neg (by decide), if_neg (by decide),
    if_pos rfl, if_neg hg, if_pos (by omega)]

theorem finalEvents_pad (s t : Compiler) (h : finalEvents s = some t) :
    t.sngTime = s.fillBar.sngTime ∧ t.barTime = s.barTime := by
  unfold finalEvents at h
  cases ht : trackAt s.objFirst s.currentTrk with
  | none => rw [ht] at h; exact absurd h (by simp)
  | some trk =>
    rw [ht] at h
    simp only [Option.map_some', Option.some.injEq] at h
    subst h
    by_cases hb : s.barTime = 0 <;>
      simp [hb, Compiler.emit, Compiler.setTrk, Compiler.fillBar]

theorem newline_pad (s : Compiler) (word : List Nat) (token : Int) (trk : smsTrack)
    (hm : s.P_MACRO ≠ DEFINING) (hb : s.P_TIMEBLOCK ≠ PASSING) (hg : s.P_TIMEGROUP ≠ PASSING)
    (hz : s.sms.bar < s.barTime → s.sms.bar ≠ 0)
    (h : trackAt s.objFirst (if s.P_MACRO ≠ PASSING then s.defaultInstTrk else s.currentTrk) =
      some trk) :
    ∃ t, newline s word token = .next t ∧ t.sngTime = s.sngTime + linePad s ∧ t.barTime = 0 := by
  unfold newline linePad
  by_cases hp : s.P_MACRO = PASSING
  · simp only [hp, if_true, ne_eq, not_true_eq_false, if_false] at h ⊢
    by_cases h0 : s.barTime = 0
    · simp [h0, hb, hg, h, Compiler.setTrk, show ¬ (PASSING = DEFINING) by decide]
    · by_cases h1 : s.sms.bar < s.barTime
      · simp [h0, h1, hz h1, hb, hg, h, Compiler.setTrk, show ¬ (PASSING = DEFINING) by decide]
      · simp [h0, h1, hb, hg, h, Compiler.setTrk, show ¬ (PASSING = DEFINING) by decide]
  · simp only [hp, if_false, ne_eq, not_false_eq_true, if_true] at h ⊢
    by_cases h0 : s.barTime = 0
    · simp [h0, hb, hg, h, hm, hp, Compiler.setTrk]
    · by_cases h1 : s.sms.bar < s.barTime
      · simp [h0, h1, hz h1, hb, hg, h, hm, hp, Compiler.setTrk]
      · simp [h0, h1, hb, hg, h, hm, hp, Compiler.setTrk]

theorem linePad_within (s : Compiler) (h0 : 0 < s.barTime) (h1 : s.barTime ≤ s.sms.bar) :
    linePad s = s.sms.bar - s.barTime := by
  unfold linePad
  rw [if_pos (by omega), if_neg (by omega)]

theorem linePad_over (s : Compiler) (h0 : 0 < s.sms.bar) (h1 : s.sms.bar < s.barTime) :
    linePad s = s.sms.bar - s.barTime % s.sms.bar := by
  unfold linePad
  rw [if_pos (by omega), if_pos (by omega), Int.tmod_eq_emod (by omega) (by omega)]

set_option maxRecDepth 100000 in
/-- C35: the padding to the bar. A switch to an instrument or a drum key, a bar
line and the end of the data add `bar - barTime` to the song time when
`barTime` is not 0; the end of a line adds `bar - barTime` after it has taken
`barTime` modulo the bar when it is above the bar. With `0 < barTime <= bar`
the padding is in `0 .. bar - 1` and fills the bar. With `barTime` above the
bar the padding of a switch and of the end of the data is negative and the
song time goes back (`"c5/1 c5/4 TICK: x\n"`: the drum starts at 384, where
the quarter note started; `"c5/1 c5/4"`: the closing message is at 384, the
note ends at 479), a bar line is `ERR_BAR`, and the end of a line adds a
padding in `1 .. bar`, a whole bar when `barTime` is a multiple of the bar
(`"c5/1 c5/1\n"` ends at 1152, not 768). -/
theorem bar_padding_above_the_bar (s : Compiler) (word : List Nat) (token : Int) (p : Nat) :
    (s.fillBar.barTime = 0 ∧
      s.fillBar.sngTime = s.sngTime + (if s.barTime ≠ 0 then s.sms.bar - s.barTime else 0)) ∧
    useDrum s p = .next ({ s with currentDKey := p, currentTrk := s.DrumTrk }.fillBar) ∧
    (∀ trk, trackAt s.objFirst p = some trk →
      ∃ t, useInst s p = .next t ∧ t.sngTime = s.fillBar.sngTime ∧ t.barTime = 0) ∧
    (∀ trk, s.P_TIMEGROUP ≠ PASSING → s.barTime ≤ s.sms.bar →
      trackAt s.objFirst s.currentTrk = some trk →
      ∃ t, timer s BARLINE = some (.next t) ∧ t.sngTime = s.fillBar.sngTime ∧ t.barTime = 0) ∧
    (s.P_TIMEGROUP ≠ PASSING → s.sms.bar < s.barTime →
      timer s BARLINE = some (s.fail ERR_BAR)) ∧
    (∀ t, finalEvents s = some t → t.sngTime = s.fillBar.sngTime ∧ t.barTime = s.barTime) ∧
    (∀ trk, s.P_MACRO ≠ DEFINING → s.P_TIMEBLOCK ≠ PASSING → s.P_TIMEGROUP ≠ PASSING →
      (s.sms.bar < s.barTime → s.sms.bar ≠ 0) →
      trackAt s.objFirst (if s.P_MACRO ≠ PASSING then s.defaultInstTrk else s.currentTrk) =
        some trk →
      ∃ t, newline s word token = .next t ∧ t.sngTime = s.sngTime + linePad s ∧
        t.barTime = 0) ∧
    (0 < s.barTime → s.barTime ≤ s.sms.bar →
      linePad s = s.sms.bar - s.barTime ∧
      s.fillBar.sngTime = s.sngTime + (s.sms.bar - s.barTime) ∧
      0 ≤ s.sms.bar - s.barTime ∧ s.sms.bar - s.barTime < s.sms.bar ∧
      s.barTime + (s.sms.bar - s.barTime) = s.sms.bar) ∧
    (0 < s.sms.bar → s.sms.bar < s.barTime →
      s.fillBar.sngTime < s.sngTime ∧
      linePad s = s.sms.bar - s.barTime % s.sms.bar ∧
      0 < linePad s ∧ linePad s ≤ s.sms.bar ∧ (s.barTime + linePad s) % s.sms.bar = 0 ∧
      (s.sms.bar ∣ s.barTime → linePad s = s.sms.bar)) ∧
    eventList 30 (cstr "c5/1\n") = some
      [mkEvent "INST" 0 0 0x90 60 127, mkEvent "INST" 1 383 0x80 60 127,
       mkEvent "INST" 2 384 0xB0 0x7B 0] ∧
    eventList 30 (cstr "c5/1 c5/1\n") = some
      [mkEvent "INST" 0 0 0x90 60 127, mkEvent "INST" 1 383 0x80 60 127,
       mkEvent "INST" 2 384 0x90 60 127, mkEvent "INST" 3 767 0x80 60 127,
       mkEvent "INST" 4 1152 0xB0 0x7B 0] ∧
    eventList 30 (cstr "c5/1 c5/4 TICK: x\n") = some
      [mkEvent "INST" 0 0 0x90 60 127, mkEvent "INST" 1 383 0x80 60 127,
       mkEvent "INST" 2 384 0x90 60 127, mkEvent "INST" 3 479 0x80 60 127,
       mkEvent "DRUM" 4 384 0x99 31 127, mkEvent "DRUM" 5 479 0x89 31 127,
       mkEvent "INST" 6 768 0xB0 0x7B 0] ∧
    eventList 30 (cstr "c5/1 c5/4") = some
      [mkEvent "INST" 0 0 0x90 60 127, mkEvent "INST" 1 383 0x80 60 127,
       mkEvent "INST" 2 384 0x90 60 127, mkEvent "INST" 3 479 0x80 60 127,
       mkEvent "INST" 4 384 0xB0 0x7B 0] ∧
    eventList 30 (cstr "c5/1 c5/1") = some
      [mkEvent "INST" 0 0 0x90 60 127, mkEvent "INST" 1 383 0x80 60 127,
       mkEvent "INST" 2 384 0x90 60 127, mkEvent "INST" 3 767 0x80 60 127,
       mkEvent "INST" 4 384 0xB0 0x7B 0] ∧
    errorOf (sms2midi 30 (cstr "c5/1 c5/4 |\n")) = some ERR_BAR := by
  have hf := fillBar_eq s
  refine ⟨hf, rfl, fun trk h => useInst_pad s p trk h,
    fun trk hg hb h => barline_pad s trk hg hb h, fun hg hb => barline_over s hg hb,
    fun t h => finalEvents_pad s t h,
    fun trk hm hb hg hz h => newline_pad s word token trk hm hb hg hz h, ?_, ?_,
    by decide, by decide, by decide, by decide, by decide, by decide⟩
  · intro h0 h1
    refine ⟨linePad_within s h0 h1, ?_, by omega, by omega, by omega⟩
    rw [hf.2, if_pos (by omega)]
  · intro h0 h1
    have hl := linePad_over s h0 h1
    have hm0 := Int.emod_nonneg s.barTime (show s.sms.bar ≠ 0 by omega)
    have hm1 := Int.emod_lt_of_pos s.barTime h0
    refine ⟨?_, hl, by omega, by omega, ?_, ?_⟩
    · rw [hf.2, if_pos (by omega)]
      omega
    · rw [hl]
      have h3 : s.barTime + (s.sms.bar - s.barTime % s.sms.bar) =
          s.sms.bar * (s.barTime / s.sms.bar + 1) := by
        have := Int.emod_add_ediv s.barTime s.sms.bar
        linarith
      rw [h3]
      exact Int.mul_emod_right _ _
    · intro hdvd
      rw [hl, Int.emod_eq_zero_of_dvd hdvd]
      omega


/-! ## Words in a line comment -/

theorem general_in_comment (s : Compiler) (word : List Nat) (token : Int)
    (hc : s.P_COMMENT = true) (hb : s.P_BLOCKCOMMENT = false) :
    general s word token =
      if word = cstr "/*" then .next { s with P_BLOCKCOMMENT := true }
      else if word = cstr "*/" then s.fail ERR_BLOCKCOMMENT
      else .next s := by
  cases s
  simp only at hc hb
  subst hc hb
  unfold general
  by_cases h1 : word = cstr "/*"
  · subst h1
    have e1 : strcmp (cstr "/*") (cstr "//") ≠ 0 := by decide
    have e3 : strcmp (cstr "/*") (cstr "*/") ≠ 0 := by decide
    simp [e1, e3, strcmp_self]
  · by_cases h2 : word = cstr "*/"
    · subst h2
      have e1 : strcmp (cstr "*/") (cstr "//") ≠ 0 := by decide
      have e3 : strcmp (cstr "*/") (cstr "/*") ≠ 0 := by decide
      simp [e1, e3, strcmp_self, h1]
    · have e2 : strcmp word (cstr "/*") ≠ 0 := fun h => h1 ((strcmp_eq_zero _ _).1 h)
      have e3 : strcmp word (cstr "*/") ≠ 0 := fun h => h2 ((strcmp_eq_zero _ _).1 h)
      by_cases h0 : strcmp word (cstr "//") = 0
      · simp [h0, e2, e3, h1, h2]
      · simp [h0, e2, e3, h1, h2]

theorem ready_in_comment (s : Compiler) (word : List Nat) (token : Int)
    (hw : s.SMSWORD = some word) (hc : s.P_COMMENT = true) (hb : s.P_BLOCKCOMMENT = false)
    (ht : token ≠ CARRIAGE_RETURN ∧ token ≠ NEWLINE) :
    ready s token =
      if word = cstr "/*" then .next { s with lastWordType := UNKNOWN, P_BLOCKCOMMENT := true }
      else if word = cstr "*/" then .stop { s with lastWordType := UNKNOWN, err := ERR_BLOCKCOMMENT }
      else .next { s with lastWordType := UNKNOWN } := by
  cases s
  simp only at hw hc hb
  subst hw hc hb
  unfold ready
  simp only [Bool.not_true, Bool.false_eq_true, false_and, and_false, if_false,
    ht.1, ht.2, or_self]
  rw [general_in_comment _ word token rfl rfl]
  rfl

theorem step_in_comment (s : Compiler) (word : List Nat) (token : Int) (pos : Nat)
    (hr : s.P_REPEAT = 0) (hm : s.P_MACRO ≠ PASSING)
    (hc : s.P_COMMENT = true) (hb : s.P_BLOCKCOMMENT = false)
    (hn : parser_next s.data s.parserPos = (token, some word, pos))
    (ht : token ≠ EOD ∧ token ≠ CARRIAGE_RETURN ∧ token ≠ NEWLINE) :
    step s =
      if word = cstr "/*" then
        .next { s with LASTWORD := if s.SMSWORD.isSome then s.SMSWORD else s.LASTWORD,
                       SMSWORD := some word, parserPos := pos,
                       cntLINE_WORD := s.cntLINE_WORD + 1, lastWordType := UNKNOWN,
                       P_BLOCKCOMMENT := true }
      else if word = cstr "*/" then
        .stop { s with LASTWORD := if s.SMSWORD.isSome then s.SMSWORD else s.LASTWORD,
                       SMSWORD := some word, parserPos := pos,
                       cntLINE_WORD := s.cntLINE_WORD + 1, lastWordType := UNKNOWN,
                       err := ERR_BLOCKCOMMENT }
      else
        .next { s with LASTWORD := if s.SMSWORD.isSome then s.SMSWORD else s.LASTWORD,
                       SMSWORD := some word, parserPos := pos,
                       cntLINE_WORD := s.cntLINE_WORD + 1, lastWordType := UNKNOWN } := by
  unfold step
  rw [if_neg (by simp [hr])]
  unfold readWord
  simp only []
  have hm2 : (if s.SMSWORD.isSome = true then { s with LASTWORD := s.SMSWORD } else s).P_MACRO ≠
      PASSING := by
    split <;> exact hm
  rw [if_neg hm2]
  unfold readSource
  have hd : (if s.SMSWORD.isSome = true then { s with LASTWORD := s.SMSWORD } else s).data =
      s.data := by
    split <;> rfl
  have hp : (if s.SMSWORD.isSome = true then { s with LASTWORD := s.SMSWORD } else s).parserPos =
      s.parserPos := by
    split <;> rfl
  simp only [hd, hp, hn, Option.isSome_some, if_true, ht.1, if_false]
  rw [ready_in_comment _ word token rfl (by split <;> exact hc) (by split <;> exact hb) ht.2]
  by_cases hs : s.SMSWORD.isSome = true <;> simp [hs]

set_option maxHeartbeats 1000000 in
set_option maxRecDepth 1000000 in
/-- C34: a word in a `//` comment that is `/*` or `*/` is not skipped, as the
block comment markers are looked at before the comment flag. `/*` after `//`
opens a block comment that lasts beyond the end of the line
(`"c5 // /*\nd5\n"` ends with `ERR_BLOCKCOMMENT`; in
`"c5 // /*\nd5\n*/\ne5\n"` the note `d5` is not played), and `*/` after `//`
stops the compilation with `ERR_BLOCKCOMMENT`, while `"c5 // x\nd5\n"`
compiles. Every other word read from the source in a line comment changes
only the last word, the word, the position, the count of words in the line
and the type of the last word; with `*3 [ ( | {` in place of `x` the SMF is
the same. -/
theorem line_comment_block_markers (s : Compiler) (word : List Nat) (token : Int) (pos : Nat) :
    (s.P_REPEAT = 0 → s.P_MACRO ≠ PASSING → s.P_COMMENT = true → s.P_BLOCKCOMMENT = false →
      parser_next s.data s.parserPos = (token, some word, pos) →
      token ≠ EOD ∧ token ≠ CARRIAGE_RETURN ∧ token ≠ NEWLINE →
      step s =
        if word = cstr "/*" then
          .next { s with LASTWORD := if s.SMSWORD.isSome then s.SMSWORD else s.LASTWORD,
                         SMSWORD := some word, parserPos := pos,
                         cntLINE_WORD := s.cntLINE_WORD + 1, lastWordType := UNKNOWN,
                         P_BLOCKCOMMENT := true }
        else if word = cstr "*/" then
          .stop { s with LASTWORD := if s.SMSWORD.isSome then s.SMSWORD else s.LASTWORD,
                         SMSWORD := some word, parserPos := pos,
                         cntLINE_WORD := s.cntLINE_WORD + 1, lastWordType := UNKNOWN,
                         err := ERR_BLOCKCOMMENT }
        else
          .next { s with LASTWORD := if s.SMSWORD.isSome then s.SMSWORD else s.LASTWORD,
                         SMSWORD := some word, parserPos := pos,
                         cntLINE_WORD := s.cntLINE_WORD + 1, lastWordType := UNKNOWN }) ∧
    errorOf (sms2midi 30 (cstr "c5 // x\nd5\n")) = some ERR_NOERROR ∧
    errorOf (sms2midi 30 (cstr "c5 // /*\nd5\n")) = some ERR_BLOCKCOMMENT ∧
    errorOf (sms2midi 30 (cstr "c5 // */\nd5\n")) = some ERR_BLOCKCOMMENT ∧
    eventList 30 (cstr "c5 // x\nd5\n*/\ne5\n") = none ∧
    errorOf (sms2midi 30 (cstr "c5 // x\nd5\n*/\ne5\n")) = some ERR_BLOCKCOMMENT ∧
    eventList 30 (cstr "c5 // /*\nd5\n*/\ne5\n") = some
      [mkEvent "INST" 0 0 0x90 60 127, mkEvent "INST" 1 95 0x80 60 127,
       mkEvent "INST" 2 384 0x90 64 127, mkEvent "INST" 3 479 0x80 64 127,
       mkEvent "INST" 4 768 0xB0 0x7B 0] ∧
    eventList 30 (cstr "c5 // x\nd5\n") = some
      [mkEvent "INST" 0 0 0x90 60 127, mkEvent "INST" 1 95 0x80 60 127,
       mkEvent "INST" 2 384 0x90 62 127, mkEvent "INST" 3 479 0x80 62 127,
       mkEvent "INST" 4 768 0xB0 0x7B 0] ∧
    eventList 30 (cstr "c5 // *3 [ ( | \x7b\nd5\n") = some
      [mkEvent "INST" 0 0 0x90 60 127, mkEvent "INST" 1 95 0x80 60 127,
       mkEvent "INST" 2 384 0x90 62 127, mkEvent "INST" 3 479 0x80 62 127,
       mkEvent "INST" 4 768 0xB0 0x7B 0] ∧
    smfBytes (sms2midi 30 (cstr "c5 // x\nd5\n")) = some smfTwoNotes ∧
    smfBytes (sms2midi 30 (cstr "c5 // *3 [ ( | \x7b\nd5\n")) = some smfTwoNotes := by
  refine ⟨fun hr hm hc hb hn ht => step_in_comment s word token pos hr hm hc hb hn ht,
    by decide, by decide, by decide, by decide, by decide, by decide, by decide, by decide,
    by decide, by decide⟩


/-! ## Blanks at the end of the source -/

theorem read_empty (l : List Nat) (pos : Nat) (buf : List Nat) :
    (parser_next.read l pos buf).1 = [] ↔ buf = [] ∧ ∀ c ∈ l, c = 9 ∨ c = 32 := by
  induction l generalizing pos buf with
  | nil => simp [parser_next.read]
  | cons c rest ih =>
    unfold parser_next.read
    by_cases h1 : buf.length > 253
    · have hb : buf ≠ [] := by
        intro h
        rw [h] at h1
        simp at h1
      simp [h1, hb]
    · simp only [h1, if_false]
      by_cases h2 : c = 13 ∨ c = 10
      · simp only [h2, if_true]
        by_cases hb : buf = []
        · have hc : ¬ (c = 9 ∨ c = 32) := by omega
          simp [hb, hc]
        · simp [hb]
      · simp only [h2, if_false]
        by_cases h3 : c = 9 ∨ c = 32
        · simp only [h3, if_true]
          by_cases hb : buf = []
          · simp only [hb, ne_eq, not_true_eq_false, if_false, true_and, List.mem_cons,
              forall_eq_or_imp, h3]
            rw [ih]
            simp
          · simp [hb]
        · simp only [h3, if_false]
          rw [ih]
          simp [h3]

theorem parser_next_word (data : List Nat) (pos : Nat) (h : pos < data.length) :
    ∃ tok w p, parser_next data pos = (tok, some w, p) ∧
      (w = [] ↔ ∀ c ∈ data.drop pos, c = 9 ∨ c = 32) ∧
      (w = [] → tok = UNKNOWN) := by
  unfold parser_next
  rw [if_neg (by omega)]
  refine ⟨_, _, _, rfl, (read_empty _ _ _).trans (by simp), ?_⟩
  intro hw
  simp only [hw, List.length_nil]
  rfl

set_option maxRecDepth 1000000 in
/-- C33: `parser_next` returns the end-of-data marker exactly when the
position is at or behind the end of the source; before the end it returns a
word, and the word is empty, with the token `UNKNOWN`, exactly when only
spaces and tabs are left. The blank that ends a word is read with it, so one
blank after the last word reaches the end of the data (`"c5 "` compiles like
`"c5"`), but blanks after that, or after the last new line, are read as an
empty word, which is no command: `"c5\n "`, `"c5  "`, `"c5 \t"` and `" "` end
with `ERR_NO_COMMAND`, while `"c5\n"`, `"c5"` and `""` compile. -/
theorem parser_next_empty_word (data : List Nat) (pos : Nat) :
    (data.length ≤ pos → parser_next data pos = (EOD, none, pos)) ∧
    (pos < data.length → ∃ tok w p, parser_next data pos = (tok, some w, p) ∧
      (w = [] ↔ ∀ c ∈ data.drop pos, c = 9 ∨ c = 32) ∧ (w = [] → tok = UNKNOWN)) ∧
    parser_next (cstr "c5\n ") 0 = (UNKNOWN, some (cstr "c5"), 2) ∧
    parser_next (cstr "c5\n ") 2 = (NEWLINE, some [10], 3) ∧
    parser_next (cstr "c5\n ") 3 = (UNKNOWN, some [], 4) ∧
    parser_next (cstr "c5\n ") 4 = (EOD, none, 4) ∧
    parser_next (cstr "c5 ") 0 = (UNKNOWN, some (cstr "c5"), 3) ∧
    parser_next (cstr "c5 ") 3 = (EOD, none, 3) ∧
    parser_next (cstr "c5  ") 3 = (UNKNOWN, some [], 4) ∧
    errorOf (sms2midi 30 (cstr "c5\n")) = some ERR_NOERROR ∧
    errorOf (sms2midi 30 (cstr "c5\n ")) = some ERR_NO_COMMAND ∧
    errorOf (sms2midi 30 (cstr "c5\n\t")) = some ERR_NO_COMMAND ∧
    errorOf (sms2midi 30 (cstr "c5")) = some ERR_NOERROR ∧
    errorOf (sms2midi 30 (cstr "c5 ")) = some ERR_NOERROR ∧
    errorOf (sms2midi 30 (cstr "c5  ")) = some ERR_NO_COMMAND ∧
    errorOf (sms2midi 30 (cstr "c5 \t")) = some ERR_NO_COMMAND ∧
    errorOf (sms2midi 30 (cstr "")) = some ERR_NOERROR ∧
    errorOf (sms2midi 30 (cstr " ")) = some ERR_NO_COMMAND ∧
    smfBytes (sms2midi 30 (cstr "c5\n ")) = none ∧
    (smfBytes (sms2midi 30 (cstr "c5\n"))).isSome = true := by
  refine ⟨?_, fun h => parser_next_word data pos h, ?_⟩
  · intro h
    unfold parser_next
    rw [if_pos (by omega)]
  · repeat' apply And.intro
    all_goals decide


/-! ## Chords without arp -/

theorem getObject_go_set (objs : List smsObject) (name : List Nat) (i p : Nat) (o2 : smsObject)
    (h : ∀ o, objs[p]? = some o → o2.name = o.name ∧ o2.type = o.type) :
    (getObject.go (objs.set p o2) name i).map (fun r => (r.1, r.2.type)) =
      (getObject.go objs name i).map (fun r => (r.1, r.2.type)) := by
  induction objs generalizing i p with
  | nil => rfl
  | cons a rest ih =>
    cases p with
    | zero =>
      have h0 := h a (by simp)
      simp only [List.set_cons_zero, getObject.go, h0.1]
      split
      · simp [h0.2]
      · rfl
    | succ p =>
      simp only [List.set_cons_succ, getObject.go]
      split
      · rfl
      · exact ih (i + 1) p (fun o ho => h o (by simpa using ho))

theorem getObject_storeAt (objs : List smsObject) (p : Nat) (pl : smsPayload) (name : List Nat) :
    (getObject (storeAt objs p pl) name).map (fun r => (r.1, r.2.type)) =
      (getObject objs name).map (fun r => (r.1, r.2.type)) := by
  unfold storeAt getObject
  cases hg : objs.get? p with
  | none => rfl
  | some o =>
    simp only []
    apply getObject_go_set
    intro o1 ho1
    rw [List.get?_eq_getElem?] at hg
    rw [hg] at ho1
    cases ho1
    exact ⟨rfl, rfl⟩

theorem getObject_storeAt_cases (objs : List smsObject) (p : Nat) (pl : smsPayload)
    (name : List Nat) :
    (getObject (storeAt objs p pl) name = none ∧ getObject objs name = none) ∨
    ∃ i o o2, getObject (storeAt objs p pl) name = some (i, o2) ∧
      getObject objs name = some (i, o) ∧ o2.type = o.type := by
  have h := getObject_storeAt objs p pl name
  cases h1 : getObject (storeAt objs p pl) name with
  | none =>
    cases h2 : getObject objs name with
    | none => exact Or.inl ⟨rfl, rfl⟩
    | some r => rw [h1, h2] at h; simp at h
  | some r1 =>
    cases h2 : getObject objs name with
    | none => rw [h1, h2] at h; simp at h
    | some r2 =>
      rw [h1, h2] at h
      simp only [Option.map_some', Option.some.injEq, Prod.mk.injEq] at h
      refine Or.inr ⟨r1.1, r2.2, r1.2, rfl, ?_, h.2⟩
      rw [h.1]

theorem parser_isChord_storeAt (objs : List smsObject) (p : Nat) (pl : smsPayload)
    (word : List Nat) (c : smsChordNote) :
    parser_isChord (storeAt objs p pl) word c = parser_isChord objs word c := by
  unfold parser_isChord
  simp only []
  cases hs : (sscanfChord word).1 with
  | nil => rfl
  | cons k r =>
    simp only []
    cases hk : chordKey k with
    | none => rfl
    | some key =>
      simp only []
      generalize (if r.head? = some 35 ∨ r.head? = some 43 then r.tail else r) = nm
      by_cases hnm : nm = []
      · simp only [hnm, if_true]
      · simp only [hnm, if_false]
        rcases getObject_storeAt_cases objs p pl nm with ⟨h1, h2⟩ | ⟨i, o, o2, h1, h2, h3⟩
        · rw [h1, h2]
        · rw [h1, h2]
          simp only [h3]
          by_cases ht : o.type ≠ CHORD
          · rw [if_pos ht, if_pos ht]
          · rw [if_neg ht, if_neg ht]
            by_cases ha : (sscanfChord word).2 ≠ []
            · rw [if_pos ha, if_pos ha]
              rcases getObject_storeAt_cases objs p pl (sscanfChord word).2 with ⟨g1, g2⟩ |
                ⟨j, q, q2, g1, g2, g3⟩
              · rw [g1, g2]
              · rw [g1, g2]
                simp only [g3]
            · rw [if_neg ha, if_neg ha]

theorem chordAt_storeAt_track (objs : List smsObject) (p q : Nat) (t0 x : smsTrack)
    (h : trackAt objs p = some t0) :
    chordAt (storeAt objs p (.track x)) q = chordAt objs q := by
  unfold trackAt at h
  unfold storeAt
  cases hg : objs.get? p with
  | none => rfl
  | some o =>
    rw [hg] at h
    simp only []
    unfold chordAt
    by_cases hpq : p = q
    · subst hpq
      have hlt : p < objs.length := by
        rw [List.get?_eq_getElem?] at hg
        exact (List.getElem?_eq_some_iff.1 hg).1
      simp only [List.get?_eq_getElem?, List.getElem?_set_self hlt]
      rw [List.get?_eq_getElem?] at hg
      rw [hg]
      cases o with
      | mk name type obj =>
        cases obj with
        | track t => rfl
        | drumkey k => exact absurd h (by simp)
        | chord c => exact absurd h (by simp)
        | mac m => exact absurd h (by simp)
    · simp only [List.get?_eq_getElem?, List.getElem?_set_ne hpq]

theorem emit_chord_pair (trk : smsTrack) (c : smsChordNote) (key : Nat) (s : Compiler) :
    ((s.emit trk (s.sngTime + 0) (0x90 + trk.chn)
        (toBYTE (CHORD_OCTAVE * 12 + c.key + c.hft + key)) 127).emit trk
        ((s.emit trk (s.sngTime + 0) (0x90 + trk.chn)
          (toBYTE (CHORD_OCTAVE * 12 + c.key + c.hft + key)) 127).sngTime - MIDI_TIME_DIV +
          (s.emit trk (s.sngTime + 0) (0x90 + trk.chn)
          (toBYTE (CHORD_OCTAVE * 12 + c.key + c.hft + key)) 127).sms.bar)
        (0x80 + trk.chn) (toBYTE (CHORD_OCTAVE * 12 + c.key + c.hft + key)) 127) =
      { s with
        evtFirst := s.evtFirst ++
          [trackEvent trk s.sms.evts s.sngTime (0x90 + trk.chn) (36 + c.key + c.hft + key) 127,
           trackEvent trk (s.sms.evts + 1) (s.sngTime + s.sms.bar - 1) (0x80 + trk.chn)
             (36 + c.key + c.hft + key) 127]
        sms := { s.sms with evts := s.sms.evts + 2 } } := by
  have e1 : CHORD_OCTAVE * 12 + c.key + c.hft + (key : Int) = 36 + c.key + c.hft + key := by
    unfold CHORD_OCTAVE
    ring
  have e2 : s.sngTime - MIDI_TIME_DIV + s.sms.bar = s.sngTime + s.sms.bar - 1 := by
    unfold MIDI_TIME_DIV
    ring
  have e3 : s.sms.evts + 1 + 1 = s.sms.evts + 2 := by ring
  simp only [Compiler.emit, newSmsEvent, List.append_assoc, List.singleton_append,
    trackEvent, toBYTE_idem, add_zero, e1, e2, e3]

theorem playKeys_events (trk : smsTrack) (c : smsChordNote) (ckeys : List Nat) (s : Compiler) :
    (playKeys trk c ckeys s).evtFirst =
        s.evtFirst ++ chordEvents trk c s.sngTime s.sms.bar s.sms.evts ckeys ∧
      (playKeys trk c ckeys s).sngTime = s.sngTime ∧
      (playKeys trk c ckeys s).barTime = s.barTime ∧
      (playKeys trk c ckeys s).sms.bar = s.sms.bar := by
  induction ckeys generalizing s with
  | nil => simp [playKeys, chordEvents]
  | cons key ckeys ih =>
    unfold playKeys chordEvents
    simp only []
    by_cases hk : key = 255
    · simp only [hk, if_true]
      exact ih s
    · simp only [hk, if_false]
      rw [emit_chord_pair]
      obtain ⟨h1, h2, h3, h4⟩ := ih { s with
        evtFirst := s.evtFirst ++
          [trackEvent trk s.sms.evts s.sngTime (0x90 + trk.chn) (36 + c.key + c.hft + key) 127,
           trackEvent trk (s.sms.evts + 1) (s.sngTime + s.sms.bar - 1) (0x80 + trk.chn)
             (36 + c.key + c.hft + key) 127]
        sms := { s.sms with evts := s.sms.evts + 2 } }
      refine ⟨?_, h2, h3, h4⟩
      rw [h1]
      simp only [List.append_assoc, List.cons_append, List.nil_append]

theorem chordEvents_congr (trk trk2 : smsTrack) (c : smsChordNote) (t bar : Int) (i : Int)
    (ckeys : List Nat) (hn : trk2.name = trk.name) (hc : trk2.chn = trk.chn) :
    chordEvents trk2 c t bar i ckeys = chordEvents trk c t bar i ckeys := by
  induction ckeys generalizing i with
  | nil => rfl
  | cons key ckeys ih =>
    unfold chordEvents
    simp only [ih, trackEvent, hn, hc]

theorem playChord_events (s : Compiler) (trk : smsTrack) (c : smsChordNote) (ckeys : List Nat) :
    ∃ t, playChord s trk c ckeys = .next t ∧
      t.evtFirst = s.evtFirst ++ chordEvents trk c s.sngTime s.sms.bar s.sms.evts (ckeys.take 7) ∧
      t.sngTime = s.sngTime + s.sms.bar ∧ t.barTime = s.barTime + s.sms.bar := by
  obtain ⟨h1, h2, h3, h4⟩ := playKeys_events trk c (ckeys.take 7) s
  unfold playChord
  refine ⟨_, rfl, ?_, ?_, ?_⟩
  · simp only [markTimes_evtFirst]
    exact h1
  · simp only [markTimes_sngTime, h2, h4]
  · simp only [markTimes_barTime, h3, h4]

theorem chordKey_cases (k : Nat) (key : Int) (h : chordKey k = some key) :
    k = 65 ∨ k = 66 ∨ k = 67 ∨ k = 68 ∨ k = 69 ∨ k = 70 ∨ k = 71 := by
  unfold chordKey at h
  repeat' split at h
  all_goals first
    | omega
    | exact absurd h (by simp)

theorem sscanfChord_head (word : List Nat) (k : Nat) (c : List Nat)
    (h : (sscanfChord word).1 = k :: c) : ∃ rest, word = k :: rest := by
  unfold sscanfChord at h
  cases word with
  | nil => simp [scanSet] at h
  | cons a rest =>
    by_cases ha : a = 126
    · simp [scanSet, ha] at h
    · simp only [scanSet, ha, if_false] at h
      simp only [reduceCtorEq, if_false] at h
      split at h
      · simp only [List.cons.injEq] at h
        exact ⟨rest, by rw [h.1]⟩
      · simp only [List.cons.injEq] at h
        exact ⟨rest, by rw [h.1]⟩

theorem parser_isChord_root (objs : List smsObject) (word : List Nat) (c : smsChordNote)
    (h : (parser_isChord objs word c).1 = ERR_NOERROR) :
    ∃ k rest key, word = k :: rest ∧ chordKey k = some key := by
  have e1 : ¬ (ERR_NO_COMMAND = ERR_NOERROR) := by decide
  unfold parser_isChord at h
  simp only [] at h
  cases hs : (sscanfChord word).1 with
  | nil => rw [hs] at h; exact absurd h e1
  | cons k r =>
    obtain ⟨rest, hw⟩ := sscanfChord_head word k r hs
    cases hk : chordKey k with
    | none =>
      rw [hs] at h
      simp only [hk] at h
      exact absurd h e1
    | some key => exact ⟨k, rest, key, hw, hk⟩

theorem chord_root_no_note (k : Nat) (rest : List Nat) (key : Int) (n : smsNote)
    (h : chordKey k = some key) :
    parser_isBaseNote (k :: rest) = EMPTY ∧
    parser_isNote (k :: rest) n INST = (ERR_NO_COMMAND, n, k :: rest) ∧
    parser_isNote (k :: rest) n DRUM = (ERR_NO_COMMAND, n, k :: rest) ∧
    (k :: rest ≠ cstr "EMPTY" →
      parser_isNote (k :: rest) n BASENOTE = (ERR_NO_COMMAND, n, k :: rest)) := by
  have hk := chordKey_cases k key h
  have hnk : noteKey k = none := by
    rcases hk with h | h | h | h | h | h | h <;> subst h <;> rfl
  refine ⟨?_, ?_, ?_, ?_⟩
  · unfold parser_isBaseNote
    simp only [hnk]
    split <;> rfl
  · rcases hk with h | h | h | h | h | h | h <;> subst h <;> rfl
  · rcases hk with h | h | h | h | h | h | h <;> subst h <;> rfl
  · intro hne
    have hs : strcmp (k :: rest) (cstr "EMPTY") ≠ 0 := fun h0 => hne ((strcmp_eq_zero _ _).1 h0)
    have hg : parser_getNumber (k :: rest) = (0, 0) := by
      unfold parser_getNumber
      rw [if_neg hs]
      simp only [scanDigits]
      rw [if_neg (by omega)]
    unfold parser_isNote
    rw [if_neg (by decide), if_pos (Or.inl rfl)]
    simp only [hg, ne_eq, not_true_eq_false, if_false]
    rw [if_pos (by omega)]

theorem play_as_chord (s : Compiler) (p : Nat) (trk : smsTrack) (word : List Nat)
    (c : smsChordNote) (chord : smsChord)
    (hpos : trackAt s.objFirst p = some trk)
    (hc : parser_isChord s.objFirst word trk.cnote = (ERR_NOERROR, c))
    (ha : c.arp = none)
    (hk : c.chord.bind (chordAt s.objFirst) = some chord)
    (he : s.currentBaseNote ≠ EMPTY → word ≠ cstr "EMPTY") :
    play s p trk word =
      playChord ({ s.setTrk p trk with SMSWORD := some word }.setTrk p { trk with cnote := c })
        { trk with cnote := c } c chord.keys := by
  obtain ⟨k, rest, key, hw, hkey⟩ := parser_isChord_root s.objFirst word trk.cnote
    (by rw [hc])
  obtain ⟨hb, hi, hd, hbn⟩ := chord_root_no_note k rest key trk.note hkey
  rw [← hw] at hb hi hd hbn
  have hn : parser_isNote word trk.note
      (if s.currentBaseNote = EMPTY then (if trk.chn = 9 then DRUM else INST) else BASENOTE) =
      (ERR_NO_COMMAND, trk.note, word) := by
    by_cases h1 : s.currentBaseNote = EMPTY
    · rw [if_pos h1]
      by_cases h2 : trk.chn = 9
      · rw [if_pos h2]
        exact hd
      · rw [if_neg h2]
        exact hi
    · rw [if_neg h1]
      exact hbn (he h1)
  have hs1 : trackAt (storeAt s.objFirst p (.track trk)) p = some trk :=
    trackAt_storeAt _ _ _ _ hpos
  unfold play
  simp only [hb, hn]
  rw [if_neg (by decide), if_neg (by decide), if_neg (by decide), if_neg (by decide)]
  simp only [Compiler.setTrk, parser_isChord_storeAt, hc, ne_eq, not_true_eq_false, if_false,
    chordAt_storeAt_track _ p _ trk _ hs1, chordAt_storeAt_track _ p _ trk _ hpos, hk, ha]
  rw [if_neg (by decide)]

set_option maxRecDepth 100000 in
/-- C32: a word that `parser_isChord` accepts as a chord without arp, on the
track at `p`, with the chord note `c` and the installed chord `chord`: the
compiler makes, for each of the 7 offsets of the chord that is present, a
note-on at the song time `t` with the pitch `36 + c.key + c.hft + offset` and
the velocity 127 and a note-off of the same pitch at `t + bar - 1`, nothing
for an absent offset, and then adds one bar to `sngTime` and to `barTime`.
`c.key` is the root of the word, but `c.hft` is not its half tone: it is 1
for a root followed by `#` or `+`, and otherwise the half tone that the chord
note of the track had before the word, which line 1209 sets and nothing
resets. So the pitch is `36 + root + halftone + offset` for the first chord of
a track (`Cmaj` gives 36, 40, 43) and for every chord with `#` or `+`, while a
chord without them that follows one with them on the same track sounds a
half tone too high: in `F+5 F5` the second chord has the pitches 42 and 49 of
the first, not 41 and 48. -/
theorem chord_without_arp (s : Compiler) (p : Nat) (trk : smsTrack) (word : List Nat)
    (c : smsChordNote) (chord : smsChord)
    (hpos : trackAt s.objFirst p = some trk)
    (hc : parser_isChord s.objFirst word trk.cnote = (ERR_NOERROR, c))
    (ha : c.arp = none)
    (hk : c.chord.bind (chordAt s.objFirst) = some chord)
    (he : s.currentBaseNote ≠ EMPTY → word ≠ cstr "EMPTY") :
    (∃ t, play s p trk word = .next t ∧
      t.evtFirst = s.evtFirst ++
        chordEvents trk c s.sngTime s.sms.bar s.sms.evts (chord.keys.take 7) ∧
      t.sngTime = s.sngTime + s.sms.bar ∧ t.barTime = s.barTime + s.sms.bar) ∧
    some c.key = ((sscanfChord word).1.head?).bind chordKey ∧
    (c.hft =
      if (sscanfChord word).1.tail.head? = some 35 ∨ (sscanfChord word).1.tail.head? = some 43
      then 1 else trk.cnote.hft) ∧
    chordEvents { name := cstr "INST" } { key := 0, hft := 0 } 0 384 0
        [0, 4, 7, 255, 255, 255, 255] =
      [mkEvent "INST" 0 0 0x90 36 127, mkEvent "INST" 1 383 0x80 36 127,
       mkEvent "INST" 2 0 0x90 40 127, mkEvent "INST" 3 383 0x80 40 127,
       mkEvent "INST" 4 0 0x90 43 127, mkEvent "INST" 5 383 0x80 43 127] ∧
    eventList 30 (cstr "Cmaj\n") = some
      [mkEvent "INST" 0 0 0x90 36 127, mkEvent "INST" 1 383 0x80 36 127,
       mkEvent "INST" 2 0 0x90 40 127, mkEvent "INST" 3 383 0x80 40 127,
       mkEvent "INST" 4 0 0x90 43 127, mkEvent "INST" 5 383 0x80 43 127,
       mkEvent "INST" 6 384 0xB0 0x7B 0] ∧
    eventList 30 (cstr "F5 F+5\n") = some
      [mkEvent "INST" 0 0 0x90 41 127, mkEvent "INST" 1 383 0x80 41 127,
       mkEvent "INST" 2 0 0x90 48 127, mkEvent "INST" 3 383 0x80 48 127,
       mkEvent "INST" 4 384 0x90 42 127, mkEvent "INST" 5 767 0x80 42 127,
       mkEvent "INST" 6 384 0x90 49 127, mkEvent "INST" 7 767 0x80 49 127,
       mkEvent "INST" 8 1152 0xB0 0x7B 0] ∧
    eventList 30 (cstr "F+5 F5\n") = some
      [mkEvent "INST" 0 0 0x90 42 127, mkEvent "INST" 1 383 0x80 42 127,
       mkEvent "INST" 2 0 0x90 49 127, mkEvent "INST" 3 383 0x80 49 127,
       mkEvent "INST" 4 384 0x90 42 127, mkEvent "INST" 5 767 0x80 42 127,
       mkEvent "INST" 6 384 0x90 49 127, mkEvent "INST" 7 767 0x80 49 127,
       mkEvent "INST" 8 1152 0xB0 0x7B 0] ∧
    eventList 30 (cstr "H: s bar=3/4\nTICK: A#13\n") = some
      [mkEvent "DRUM" 0 0 0x99 46 127, mkEvent "DRUM" 1 287 0x89 46 127,
       mkEvent "DRUM" 2 0 0x99 50 127, mkEvent "DRUM" 3 287 0x89 50 127,
       mkEvent "DRUM" 4 0 0x99 53 127, mkEvent "DRUM" 5 287 0x89 53 127,
       mkEvent "DRUM" 6 0 0x99 56 127, mkEvent "DRUM" 7 287 0x89 56 127,
       mkEvent "DRUM" 8 0 0x99 60 127, mkEvent "DRUM" 9 287 0x89 60 127,
       mkEvent "DRUM" 10 0 0x99 63 127, mkEvent "DRUM" 11 287 0x89 63 127,
       mkEvent "DRUM" 12 0 0x99 67 127, mkEvent "DRUM" 13 287 0x89 67 127,
       mkEvent "INST" 14 288 0xB0 0x7B 0] := by
  have hf := (parser_isChord_fields s.objFirst word trk.cnote).2 (by rw [hc])
  rw [hc] at hf
  refine ⟨?_, hf.2.2.2.1, hf.2.2.2.2, by decide, by decide, by decide, by decide, by decide⟩
  rw [play_as_chord s p trk word c chord hpos hc ha hk he]
  obtain ⟨t, h1, h2, h3, h4⟩ := playChord_events
    ({ s.setTrk p trk with SMSWORD := some word }.setTrk p { trk with cnote := c })
    { trk with cnote := c } c chord.keys
  refine ⟨t, h1, ?_, h3, h4⟩
  rw [h2]
  exact congrArg _ (chordEvents_congr trk _ c _ _ _ _ rfl rfl)

set_option maxRecDepth 100000 in
theorem chord_without_arp_witness :
    (trackAt (startState.setTrk startState.currentTrk
        { name := cstr "INST", cnote := { key := 0, hft := 1, chord := some 0 } }).objFirst
        startState.currentTrk =
        some { name := cstr "INST", cnote := { key := 0, hft := 1, chord := some 0 } } ∧
      parser_isChord startState.objFirst (cstr "Cmaj")
          { key := 0, hft := 1, chord := some 0 } =
        (ERR_NOERROR, { key := 0, hft := 1, chord := some 0, arp := none }) ∧
      (some 0).bind (chordAt startState.objFirst) =
        some { name := cstr "maj", keys := [0, 4, 7, 255, 255, 255, 255] }) ∧
    (∃ t, play (startState.setTrk startState.currentTrk
          { name := cstr "INST", cnote := { key := 0, hft := 1, chord := some 0 } })
        startState.currentTrk
        { name := cstr "INST", cnote := { key := 0, hft := 1, chord := some 0 } }
        (cstr "Cmaj") = .next t ∧
      t.evtFirst = startState.evtFirst ++
        chordEvents { name := cstr "INST", cnote := { key := 0, hft := 1, chord := some 0 } }
          { key := 0, hft := 1, chord := some 0, arp := none }
          startState.sngTime startState.sms.bar startState.sms.evts
          (([0, 4, 7, 255, 255, 255, 255] : List Nat).take 7) ∧
      t.sngTime = startState.sngTime + startState.sms.bar ∧
      t.barTime = startState.barTime + startState.sms.bar) ∧
    chordEvents { name := cstr "INST", cnote := { key := 0, hft := 1, chord := some 0 } }
        { key := 0, hft := 1, chord := some 0, arp := none }
        startState.sngTime startState.sms.bar startState.sms.evts
        (([0, 4, 7, 255, 255, 255, 255] : List Nat).take 7) =
      [mkEvent "INST" 0 0 0x90 37 127, mkEvent "INST" 1 383 0x80 37 127,
       mkEvent "INST" 2 0 0x90 41 127, mkEvent "INST" 3 383 0x80 41 127,
       mkEvent "INST" 4 0 0x90 44 127, mkEvent "INST" 5 383 0x80 44 127] :=
  ⟨⟨by decide, by decide, by decide⟩,
    (chord_without_arp
      (startState.setTrk startState.currentTrk
        { name := cstr "INST", cnote := { key := 0, hft := 1, chord := some 0 } })
      startState.currentTrk
      { name := cstr "INST", cnote := { key := 0, hft := 1, chord := some 0 } } (cstr "Cmaj")
      { key := 0, hft := 1, chord := some 0, arp := none }
      { name := cstr "maj", keys := [0, 4, 7, 255, 255, 255, 255] }
      (by decide) (by decide) rfl (by decide) (fun h => absurd rfl h)).1,
    by decide⟩


/-! ## Time blocks -/

theorem mo_nil (P : smsEvent → Prop) : MatchedOr P [] := by
  intro i a hi
  simp at hi

theorem mo_mono (P Q : smsEvent → Prop) (l : List smsEvent) (h : ∀ a, P a → Q a)
    (hm : MatchedOr P l) : MatchedOr Q l := by
  intro i a hi ha
  rcases hm i a hi ha with h1 | h1
  · exact Or.inl h1
  · exact Or.inr (h a h1)

theorem mo_release (P Q : smsEvent → Prop) (l : List smsEvent) (b : smsEvent)
    (hm : MatchedOr P l) (hb : isNoteOn b = false)
    (hq : ∀ a, P a → answers a b ∨ Q a) : MatchedOr Q (l ++ [b]) := by
  intro i a hi ha
  by_cases hlt : i < l.length
  · rw [List.getElem?_append_left hlt] at hi
    rcases hm i a hi ha with ⟨j, c, hij, hj, hac⟩ | hp
    · have hjl : j < l.length := by
        by_contra hc
        rw [List.getElem?_eq_none (by omega)] at hj
        exact absurd hj (by simp)
      exact Or.inl ⟨j, c, hij, by rw [List.getElem?_append_left hjl]; exact hj, hac⟩
    · rcases hq a hp with h1 | h1
      · refine Or.inl ⟨l.length, b, hlt, ?_, h1⟩
        rw [List.getElem?_append_right (le_refl _)]
        simp
      · exact Or.inr h1
  · rw [List.getElem?_append_right (by omega)] at hi
    by_cases h0 : i - l.length = 0
    · rw [h0] at hi
      simp only [List.getElem?_cons_zero, Option.some.injEq] at hi
      subst hi
      rw [hb] at ha
      exact absurd ha (by simp)
    · obtain ⟨k, hk⟩ := Nat.exists_eq_succ_of_ne_zero h0
      rw [hk] at hi
      simp at hi

theorem mo_append (P : smsEvent → Prop) (l : List smsEvent) (e : smsEvent)
    (hm : MatchedOr P l) (he : isNoteOn e = false) : MatchedOr P (l ++ [e]) :=
  mo_release P P l e hm he (fun _ h => Or.inr h)

theorem mo_held (P : smsEvent → Prop) (l : List smsEvent) (a : smsEvent)
    (hm : MatchedOr P l) (ha : P a) : MatchedOr P (l ++ [a]) := by
  intro i x hi hx
  by_cases hlt : i < l.length
  · rw [List.getElem?_append_left hlt] at hi
    rcases hm i x hi hx with ⟨j, c, hij, hj, hac⟩ | hp
    · have hjl : j < l.length := by
        by_contra hc
        rw [List.getElem?_eq_none (by omega)] at hj
        exact absurd hj (by simp)
      exact Or.inl ⟨j, c, hij, by rw [List.getElem?_append_left hjl]; exact hj, hac⟩
    · exact Or.inr hp
  · rw [List.getElem?_append_right (by omega)] at hi
    by_cases h0 : i - l.length = 0
    · rw [h0] at hi
      simp only [List.getElem?_cons_zero, Option.some.injEq] at hi
      subst hi
      exact Or.inr ha
    · obtain ⟨k, hk⟩ := Nat.exists_eq_succ_of_ne_zero h0
      rw [hk] at hi
      simp at hi

theorem mo_pair (P : smsEvent → Prop) (l : List smsEvent) (a b : smsEvent)
    (hm : MatchedOr P l) (hab : answers a b) : MatchedOr P (l ++ [a] ++ [b]) :=
  mo_release (fun x => P x ∨ x = a) P (l ++ [a]) b
    (mo_held _ l a (mo_mono P _ l (fun _ h => Or.inl h) hm) (Or.inr rfl))
    (answers_not_on a b hab)
    (fun x hx => hx.elim Or.inr (fun e => Or.inl (e ▸ hab)))

theorem matched_of_mo (l : List smsEvent) (hm : MatchedOr (fun _ => False) l) : Matched l := by
  intro i a hi ha
  rcases hm i a hi ha with h | h
  · exact h
  · exact absurd h id

/-! ### The tracks in their places -/

theorem frame_refl (objs : List smsObject) : Frame objs objs :=
  fun _ trk h => ⟨trk, h, rfl, rfl⟩

theorem frame_trans (a b c : List smsObject) (h1 : Frame a b) (h2 : Frame b c) : Frame a c := by
  intro p trk0 h
  obtain ⟨trk1, g1, n1, k1⟩ := h1 p trk0 h
  obtain ⟨trk2, g2, n2, k2⟩ := h2 p trk1 g1
  exact ⟨trk2, g2, n2.trans n1, k2.trans k1⟩

theorem trackAt_storeAt_ne (objs : List smsObject) (p q : Nat) (payload : smsPayload)
    (h : q ≠ p) : trackAt (storeAt objs p payload) q = trackAt objs q := by
  unfold storeAt
  split
  · unfold trackAt
    rw [List.get?_eq_getElem?, List.get?_eq_getElem?, List.getElem?_set_ne (Ne.symm h)]
  · rfl

theorem frame_storeAt_track (objs : List smsObject) (p : Nat) (trk : smsTrack)
    (h : ∀ t0, trackAt objs p = some t0 → trk.name = t0.name ∧ trk.note.hold = t0.note.hold) :
    Frame objs (storeAt objs p (.track trk)) := by
  intro q trk0 hq
  by_cases hqp : q = p
  · subst hqp
    exact ⟨trk, trackAt_storeAt objs q trk0 trk hq, (h trk0 hq).1, (h trk0 hq).2⟩
  · exact ⟨trk0, by rw [trackAt_storeAt_ne objs p q _ hqp]; exact hq, rfl, rfl⟩

theorem frame_storeAt_other (objs : List smsObject) (p : Nat) (payload : smsPayload)
    (h : trackAt objs p = none) : Frame objs (storeAt objs p payload) := by
  intro q trk0 hq
  by_cases hqp : q = p
  · subst hqp
    rw [h] at hq
    exact absurd hq (by simp)
  · exact ⟨trk0, by rw [trackAt_storeAt_ne objs p q _ hqp]; exact hq, rfl, rfl⟩

theorem trackAt_of_chordAt (objs : List smsObject) (p : Nat) (c : smsChord)
    (h : chordAt objs p = some c) : trackAt objs p = none := by
  unfold chordAt at h
  unfold trackAt
  split at h
  · rename_i heq
    rw [heq]
  · exact absurd h (by simp)

theorem trackAt_of_macroAt (objs : List smsObject) (p : Nat) (m : smsMacro)
    (h : macroAt objs p = some m) : trackAt objs p = none := by
  unfold macroAt at h
  unfold trackAt
  split at h
  · rename_i heq
    rw [heq]
  · exact absurd h (by simp)

theorem trackAt_of_drumKeyAt (objs : List smsObject) (p : Nat) (d : smsDrumKey)
    (h : drumKeyAt objs p = some d) : trackAt objs p = none := by
  unfold drumKeyAt at h
  unfold trackAt
  split at h
  · rename_i heq
    rw [heq]
  · exact absurd h (by simp)

theorem frame_newSmsObject (objs : List smsObject) (name : List Nat) (type : Int)
    (payload : smsPayload) : Frame objs (newSmsObject objs name type payload) := by
  intro q trk0 hq
  refine ⟨trk0, ?_, rfl, rfl⟩
  unfold trackAt at hq ⊢
  unfold newSmsObject
  have hlt : q < objs.length := by
    by_contra hc
    rw [List.get?_eq_getElem?, List.getElem?_eq_none (by omega)] at hq
    exact absurd hq (by simp)
  rw [List.get?_eq_getElem?, List.getElem?_append_left hlt, ← List.get?_eq_getElem?]
  exact hq

theorem frame_newSmsTrk (objs objs2 : List smsObject) (name : List Nat) (r : Option Nat)
    (he : newSmsTrk objs name = (objs2, r)) : Frame objs objs2 := by
  unfold newSmsTrk at he
  split at he
  · simp only [Prod.mk.injEq] at he
    rw [← he.1]; exact frame_refl objs
  · simp only [Prod.mk.injEq] at he
    rw [← he.1]; exact frame_newSmsObject _ _ _ _

theorem frame_newSmsDrumKey (objs objs2 : List smsObject) (name : List Nat) (r : Option Nat)
    (he : newSmsDrumKey objs name = (objs2, r)) : Frame objs objs2 := by
  unfold newSmsDrumKey at he
  split at he
  · simp only [Prod.mk.injEq] at he
    rw [← he.1]; exact frame_refl objs
  · simp only [Prod.mk.injEq] at he
    rw [← he.1]; exact frame_newSmsObject _ _ _ _

theorem frame_newSmsChord (objs objs2 : List smsObject) (name : List Nat) (r : Option Nat)
    (he : newSmsChord objs name = (objs2, r)) : Frame objs objs2 := by
  unfold newSmsChord at he
  split at he
  · simp only [Prod.mk.injEq] at he
    rw [← he.1]; exact frame_refl objs
  · simp only [Prod.mk.injEq] at he
    rw [← he.1]; exact frame_newSmsObject _ _ _ _

theorem frame_newSmsMacro (objs objs2 : List smsObject) (name : List Nat) (mode : Int)
    (r : Option Nat) (he : newSmsMacro objs name mode = (objs2, r)) : Frame objs objs2 := by
  unfold newSmsMacro at he
  split at he
  · simp only [Prod.mk.injEq] at he
    rw [← he.1]; exact frame_refl objs
  · simp only [Prod.mk.injEq] at he
    rw [← he.1]; exact frame_newSmsObject _ _ _ _

theorem frame_setTrk (s : Compiler) (p : Nat) (trk0 trk : smsTrack)
    (hp : trackAt s.objFirst p = some trk0) (hn : trk.name = trk0.name)
    (hh : trk.note.hold = trk0.note.hold) : Frame s.objFirst (s.setTrk p trk).objFirst := by
  apply frame_storeAt_track
  intro t0 ht
  rw [hp] at ht
  cases ht
  exact ⟨hn, hh⟩

/-! ### Parts of a pass that release no key -/

theorem quiet_next (P : smsEvent → Prop) (objs : List smsObject) (t : Compiler)
    (hm : MatchedOr P t.evtFirst) (hf : Frame objs t.objFirst) : (Flow.next t).Quiet P objs :=
  ⟨hm, hf⟩

theorem quiet_stop (P : smsEvent → Prop) (objs : List smsObject) (t : Compiler)
    (hm : MatchedOr P t.evtFirst) (hf : Frame objs t.objFirst) : (Flow.stop t).Quiet P objs :=
  ⟨hm, hf⟩

theorem quiet_fail (P : smsEvent → Prop) (objs : List smsObject) (t : Compiler) (e : Int)
    (hm : MatchedOr P t.evtFirst) (hf : Frame objs t.objFirst) : (t.fail e).Quiet P objs :=
  ⟨hm, hf⟩

theorem quiet_frame (P : smsEvent → Prop) (a b : List smsObject) (f : Flow) (h : Frame a b)
    (hq : f.Quiet P b) : f.Quiet P a := by
  cases f with
  | next t => exact ⟨hq.1, frame_trans _ _ _ h hq.2⟩
  | stop t => exact ⟨hq.1, frame_trans _ _ _ h hq.2⟩
  | undefined => exact True.intro

theorem quiet_next_of (P : smsEvent → Prop) (objs : List smsObject) (t : Compiler)
    (l : List smsEvent) (he : t.evtFirst = l) (hl : MatchedOr P l)
    (hf : Frame objs t.objFirst) : (Flow.next t).Quiet P objs :=
  ⟨he ▸ hl, hf⟩

theorem inst_frame (word : List Nat) (trk : smsTrack) :
    (parser_isParameter.inst word trk).2.name = trk.name ∧
      (parser_isParameter.inst word trk).2.note.hold = trk.note.hold := by
  rw [inst_scan]
  repeat' split
  all_goals exact ⟨rfl, rfl⟩

theorem trackAt_storeAt_none (objs : List smsObject) (p q : Nat) (trk t0 : smsTrack)
    (hp : trackAt objs p = some t0) (hq : trackAt objs q = none) :
    trackAt (storeAt objs p (.track trk)) q = none := by
  by_cases h : q = p
  · subst h
    rw [hp] at hq
    exact absurd hq (by simp)
  · rw [trackAt_storeAt_ne _ _ _ _ h]
    exact hq

theorem cmdHeader_quiet (s : Compiler) (word : List Nat) (P : smsEvent → Prop)
    (hm : MatchedOr P s.evtFirst) : (cmdHeader s word).Quiet P s.objFirst := by
  unfold cmdHeader
  simp only []
  repeat' split
  all_goals first
    | exact True.intro
    | exact ⟨hm, frame_refl _⟩

theorem cmdInst_quiet (s : Compiler) (word : List Nat) (P : smsEvent → Prop)
    (hm : MatchedOr P s.evtFirst) : (cmdInst s word).Quiet P s.objFirst := by
  unfold cmdInst
  simp only []
  repeat' split
  all_goals first
    | exact True.intro
    | exact ⟨hm, frame_refl _⟩
    | exact ⟨hm, frame_newSmsTrk _ _ _ _ (by assumption)⟩
    | exact ⟨hm, frame_setTrk s _ _ _ (by assumption) (inst_frame _ _).1 (inst_frame _ _).2⟩

theorem cmdDrum_quiet (s : Compiler) (word : List Nat) (P : smsEvent → Prop)
    (hm : MatchedOr P s.evtFirst) : (cmdDrum s word).Quiet P s.objFirst := by
  unfold cmdDrum
  simp only []
  repeat' split
  all_goals first
    | exact True.intro
    | exact ⟨hm, frame_refl _⟩
    | exact ⟨hm, frame_newSmsDrumKey _ _ _ _ (by assumption)⟩
    | exact ⟨hm, frame_trans _ _ _ (frame_setTrk s _ _ _ (by assumption) (by rfl) (by rfl))
        (frame_storeAt_other _ _ _ (trackAt_storeAt_none _ _ _ _ _ (by assumption)
          (trackAt_of_drumKeyAt _ _ _ (by assumption))))⟩

theorem cmdChord_quiet (s : Compiler) (word : List Nat) (P : smsEvent → Prop)
    (hm : MatchedOr P s.evtFirst) : (cmdChord s word).Quiet P s.objFirst := by
  unfold cmdChord
  simp only []
  repeat' split
  all_goals first
    | exact True.intro
    | exact ⟨hm, frame_refl _⟩
    | exact ⟨hm, frame_newSmsChord _ _ _ _ (by assumption)⟩
    | exact ⟨hm, frame_storeAt_other _ _ _ (trackAt_of_chordAt _ _ _ (by assumption))⟩

theorem appendWord_quiet (s : Compiler) (p : Option Nat) (word : List Nat)
    (P : smsEvent → Prop) (hm : MatchedOr P s.evtFirst) :
    (appendWord s p word).Quiet P s.objFirst := by
  unfold appendWord
  simp only []
  repeat' split
  all_goals first
    | exact True.intro
    | exact ⟨hm, frame_refl _⟩
    | exact ⟨hm, frame_storeAt_other _ _ _ (trackAt_of_macroAt _ _ _ (by assumption))⟩

theorem cmdArp_quiet (s : Compiler) (word : List Nat) (token : Int) (P : smsEvent → Prop)
    (hm : MatchedOr P s.evtFirst) : (cmdArp s word token).Quiet P s.objFirst := by
  unfold cmdArp
  simp only []
  repeat' split
  all_goals first
    | exact True.intro
    | exact ⟨hm, frame_refl _⟩
    | exact appendWord_quiet s _ _ P hm
    | exact ⟨hm, frame_trans _ _ _ (frame_newSmsMacro _ _ _ _ _ (by assumption))
        (frame_storeAt_other _ _ _ (trackAt_of_macroAt _ _ _ (by assumption)))⟩

theorem cmdMacro_quiet (s : Compiler) (word : List Nat) (token : Int) (P : smsEvent → Prop)
    (hm : MatchedOr P s.evtFirst) : (cmdMacro s word token).Quiet P s.objFirst := by
  unfold cmdMacro
  simp only []
  repeat' split
  all_goals first
    | exact True.intro
    | exact ⟨hm, frame_refl _⟩
    | exact appendWord_quiet s _ _ P hm
    | exact ⟨hm, frame_trans _ _ _ (frame_newSmsMacro _ _ _ _ _ (by assumption))
        (frame_storeAt_other _ _ _ (trackAt_of_macroAt _ _ _ (by assumption)))⟩
    | exact ⟨hm, frame_storeAt_other _ _ _ (trackAt_of_macroAt _ _ _ (by assumption))⟩

theorem useInst_quiet (s : Compiler) (p : Nat) (P : smsEvent → Prop) (hs : s.Sound)
    (hm : MatchedOr P s.evtFirst) : (useInst s p).Quiet P s.objFirst := by
  unfold useInst
  simp only []
  split
  · exact True.intro
  · rename_i trk heq
    have ht := tg_trackAt _ _ _ hs.1 heq
    exact quiet_next_of _ _ _ _ (fillBar_evtFirst _)
      (mo_append _ _ _ (mo_append _ _ _ hm
        (not_on_of _ 11 (status_cc _ ht.1 ht.2.1) (by decide)))
        (not_on_of _ 12 (status_pc _ ht.1 ht.2.1) (by decide)))
      (frame_refl _)

theorem useDrum_quiet (s : Compiler) (p : Nat) (P : smsEvent → Prop)
    (hm : MatchedOr P s.evtFirst) : (useDrum s p).Quiet P s.objFirst :=
  ⟨hm, frame_refl _⟩

theorem useMacro_quiet (s : Compiler) (p : Nat) (P : smsEvent → Prop)
    (hm : MatchedOr P s.evtFirst) : (useMacro s p).Quiet P s.objFirst := by
  unfold useMacro
  simp only []
  repeat' split
  all_goals first
    | exact True.intro
    | exact ⟨hm, frame_refl _⟩
    | exact ⟨hm, frame_setTrk s _ _ _ (by assumption) (by rfl) (by rfl)⟩

theorem timer_quiet (s : Compiler) (token : Int) (f : Flow) (P : smsEvent → Prop)
    (hm : MatchedOr P s.evtFirst) (hf : timer s token = some f) : f.Quiet P s.objFirst := by
  unfold timer at hf
  simp only [] at hf
  repeat' split at hf
  all_goals simp only [Option.some.injEq, reduceCtorEq] at hf
  all_goals subst hf
  all_goals first
    | exact True.intro
    | exact ⟨hm, frame_refl _⟩
    | exact ⟨hm, frame_setTrk s.fillBar _ _ _ (by assumption) (by rfl) (by rfl)⟩

theorem dynamic_quiet (s : Compiler) (trk : smsTrack) (word : List Nat) (f : Flow)
    (P : smsEvent → Prop) (ht : GoodTrk trk) (hm : MatchedOr P s.evtFirst)
    (hf : dynamic s trk word = some f) : f.Quiet P s.objFirst := by
  unfold dynamic at hf
  simp only [] at hf
  repeat' split at hf
  all_goals simp only [Option.some.injEq, reduceCtorEq] at hf
  all_goals subst hf
  all_goals first
    | exact True.intro
    | exact ⟨hm, frame_refl _⟩
    | exact quiet_next_of _ _ _ _ rfl
        (mo_append _ _ _ hm (not_on_of _ 11 (status_cc _ ht.1 ht.2.1) (by decide)))
        (frame_refl _)
    | exact quiet_next_of _ _ _ _ (setBpm_append _ _ _)
        (mo_append _ _ _ (mo_append _ _ _ hm (not_on_of _ 11 status_b0 (by decide)))
          (not_on_of _ 0 status_zero (by decide)))
        (frame_refl _)

theorem playKeys_mo (trk : smsTrack) (c : smsChordNote) (ckeys : List Nat) (s : Compiler)
    (P : smsEvent → Prop) (ht : GoodTrk trk) (hb : 1 ≤ s.sms.bar)
    (hm : MatchedOr P s.evtFirst) : MatchedOr P (playKeys trk c ckeys s).evtFirst := by
  induction ckeys generalizing s with
  | nil => exact hm
  | cons key ckeys ih =>
    unfold playKeys
    simp only []
    split
    · exact ih s hb hm
    · exact ih _ hb (mo_pair _ _ _ _ hm
        (answers_mk _ _ _ _ _ _ _ _ _ ht.1 ht.2.1
          (by simp only [MIDI_TIME_DIV, Compiler.emit]; omega)))

theorem playKeys_objFirst (trk : smsTrack) (c : smsChordNote) (ckeys : List Nat)
    (s : Compiler) : (playKeys trk c ckeys s).objFirst = s.objFirst := by
  induction ckeys generalizing s with
  | nil => rfl
  | cons key ckeys ih =>
    unfold playKeys
    simp only []
    split
    · exact ih s
    · rw [ih]
      rfl

theorem playChord_quiet (s : Compiler) (trk : smsTrack) (c : smsChordNote) (ckeys : List Nat)
    (P : smsEvent → Prop) (ht : GoodTrk trk) (hb : 1 ≤ s.sms.bar)
    (hm : MatchedOr P s.evtFirst) : (playChord s trk c ckeys).Quiet P s.objFirst := by
  unfold playChord
  simp only []
  refine quiet_next_of _ _ _ _ (markTimes_evtFirst _) (playKeys_mo trk c _ s P ht hb hm) ?_
  have h : (playKeys trk c (List.take 7 ckeys) s).objFirst = s.objFirst :=
    playKeys_objFirst trk c _ s
  have e : ∀ t : Compiler, t.markTimes.objFirst = t.objFirst := markTimes_objFirst
  show Frame s.objFirst (Compiler.markTimes _).objFirst
  rw [e]
  show Frame s.objFirst (playKeys trk c (List.take 7 ckeys) s).objFirst
  rw [h]
  exact frame_refl _

theorem playArp_quiet (p : Nat) (trk : smsTrack) (c : smsChordNote) (ckeys : List Nat)
    (fuel : Nat) (arplist : List Nat) (n : smsNote) (ARPWORD : List Nat) (s : Compiler)
    (P : smsEvent → Prop) (ht : GoodTrk trk) (hn : GoodDur n) (hp16 : 16 ≤ s.sms.ppqn)
    (hm : MatchedOr P s.evtFirst) :
    (playArp p trk c ckeys fuel arplist n ARPWORD s).Quiet P s.objFirst := by
  induction fuel generalizing arplist n ARPWORD s with
  | zero => unfold playArp; exact True.intro
  | succ fuel ih =>
    cases arplist with
    | nil => unfold playArp; exact ⟨hm, frame_refl _⟩
    | cons a arplist =>
      unfold playArp
      simp only []
      repeat' split
      all_goals first
        | exact True.intro
        | exact ⟨hm, frame_refl _⟩
        | exact ih _ _ _ _ hn hp16 hm
        | exact quiet_frame _ _ _ _ (frame_setTrk s.fillBar _ _ _ (by assumption) (by rfl) (by rfl))
            (ih _ _ _ _ hn hp16 hm)
        | exact quiet_frame _ _ _ _ (by rw [markTimes_objFirst]; exact frame_refl _)
            (ih _ _ _ _ (parser_isNote_dur _ n ARP hn) (by rw [markTimes_sms]; exact hp16)
              (by rw [markTimes_evtFirst]; exact hm))
        | exact quiet_frame _ _ _ _ (by rw [markTimes_objFirst]; exact frame_refl _)
            (ih _ _ _ _ (parser_isNote_dur _ n ARP hn) (by rw [markTimes_sms]; exact hp16)
              (by
                rw [markTimes_evtFirst]
                exact mo_pair _ _ _ _ hm (answers_mk _ _ _ _ _ _ _ _ _ ht.1 ht.2.1
                  (by
                    have := noteTicks_pos _ _ _ hp16 (parser_isNote_dur _ n ARP hn)
                      (by assumption)
                    simp only [Compiler.emit]
                    omega))))
/-! ### Passes that hold and release keys -/

theorem heldOver_of_heldAt (objs objs2 : List smsObject) (cur : Nat) (B : Int) (a : smsEvent)
    (h : HeldAt objs cur B a) (hf : Frame objs objs2) : HeldOver objs objs2 a := by
  obtain ⟨p, trk, h0, hn, hh, hb, hs, _⟩ := h
  obtain ⟨trk2, g, gn, gh⟩ := hf p trk h0
  exact ⟨p, trk, trk2, h0, g, gn.trans hn, by rw [gh]; exact hh, by rw [gh]; exact hb, hs⟩

theorem kept_of_quiet (f : Flow) (objs : List smsObject) (cur : Nat) (B bar : Int)
    (h : f.Quiet (HeldAt objs cur B) objs) : f.Kept objs cur B bar := by
  cases f with
  | next t =>
    exact fun _ _ => mo_mono _ _ _ (fun a ha => heldOver_of_heldAt _ _ _ _ a ha h.2) h.1
  | stop t =>
    exact fun _ _ _ => mo_mono _ _ _ (fun a ha => heldOver_of_heldAt _ _ _ _ a ha h.2) h.1
  | undefined => exact True.intro

theorem kept_fail (objs : List smsObject) (cur : Nat) (B bar : Int) (t : Compiler) (e : Int)
    (he : e ≠ 0) : (t.fail e).Kept objs cur B bar :=
  fun h => absurd h he

/-- A pass that ends with a chord. -/
theorem kept_chord (t : Compiler) (objs : List smsObject) (cur : Nat) (B bar : Int)
    (hc : t.lastWordType = CHORD)
    (h : 1 ≤ bar → (Flow.next t).Quiet (HeldAt objs cur B) objs) :
    (Flow.next t).Kept objs cur B bar :=
  fun h1 h2 => kept_of_quiet _ _ _ _ _ (h (h2 hc)) h1 h2

theorem releaseTime_eq (t : Compiler) (p : Nat) (trk : smsTrack)
    (h : trackAt t.objFirst p = some trk) :
    t.releaseTime p = if trk.note.key = PAUSE then t.sngTime else t.sngTime - MIDI_TIME_DIV := by
  unfold Compiler.releaseTime
  rw [h]

/-- A pass that ends with a rest on the track at `p`. -/
theorem kept_rest (objs X : List smsObject) (p : Nat) (B bar T : Int) (t : Compiler)
    (l : List smsEvent) (trk : smsTrack) (he : t.evtFirst = l) (ho : t.objFirst = X)
    (hx : trackAt X p = some trk) (hN : t.lastWordType = NOTE) (hk : trk.note.key = PAUSE)
    (hT : t.sngTime = T) (hl : B ≤ T → MatchedOr (HeldOver objs X) l) :
    (Flow.next t).Kept objs p B bar := by
  intro hB _
  show MatchedOr (HeldOver objs t.objFirst) t.evtFirst
  rw [he, ho]
  apply hl
  have := hB hN
  rw [releaseTime_eq t p trk (by rw [ho]; exact hx), if_pos hk, hT] at this
  exact this

/-- A pass that ends with a note on the track at `p`. -/
theorem kept_note (objs X : List smsObject) (p : Nat) (B bar T : Int) (t : Compiler)
    (l : List smsEvent) (trk : smsTrack) (he : t.evtFirst = l) (ho : t.objFirst = X)
    (hx : trackAt X p = some trk) (hN : t.lastWordType = NOTE) (hk : ¬ trk.note.key = PAUSE)
    (hT : t.sngTime = T) (hl : B ≤ T - MIDI_TIME_DIV → MatchedOr (HeldOver objs X) l) :
    (Flow.next t).Kept objs p B bar := by
  intro hB _
  show MatchedOr (HeldOver objs t.objFirst) t.evtFirst
  rw [he, ho]
  apply hl
  have := hB hN
  rw [releaseTime_eq t p trk (by rw [ho]; exact hx), if_neg hk, hT] at this
  exact this

/-- A note-on whose key is held before the pass is held by the track at `p`
or by a track at another place, which a store at `p` leaves as it is. -/
theorem heldAt_store (objs X : List smsObject) (p cur : Nat) (trk0 : smsTrack) (B : Int)
    (a : smsEvent) (hpos : trackAt objs p = some trk0)
    (hX : ∀ q, q ≠ p → trackAt X q = trackAt objs q)
    (h : HeldAt objs cur B a) :
    (trk0.note.hold ≠ EMPTY ∧ trk0.name = a.trkname ∧ toBYTE trk0.note.hold = a.data1 ∧
        a.status = toBYTE (0x90 + trk0.chn) ∧ (p = cur → a.time ≤ B)) ∨
      HeldOver objs X a := by
  obtain ⟨q, t0, h0, hn, hh, hb, hs, ht⟩ := h
  by_cases hq : q = p
  · subst hq
    rw [hpos] at h0
    cases h0
    exact Or.inl ⟨hh, hn, hb, hs, ht⟩
  · exact Or.inr ⟨q, t0, t0, h0, by rw [hX q hq]; exact h0, hn, hh, hb, hs⟩

theorem release_answers (a : smsEvent) (trk0 trk : smsTrack) (evtId t start : Int)
    (ht : GoodTrk trk) (hname : trk.name = trk0.name) (hchn : trk.chn = trk0.chn)
    (h : trk0.name = a.trkname ∧ toBYTE trk0.note.hold = a.data1 ∧
      a.status = toBYTE (0x90 + trk0.chn) ∧ a.time ≤ start) (hst : start ≤ t) :
    answers a
      { trkname := trk.name, evtId := evtId, time := t, status := toBYTE (0x80 + trk.chn),
        data1 := toBYTE trk0.note.hold, data2 := toBYTE 0, bpm := 0 } := by
  obtain ⟨h1, h2, h3, h4⟩ := h
  refine ⟨?_, ?_, ?_, h2, by simp only []; omega⟩
  · unfold isNoteOff
    simp only [decide_eq_true_eq]
    exact status_off trk.chn ht.1 ht.2.1
  · simp only []
    rw [hname, h1]
  · simp only []
    rw [h3, ← hchn]
    exact status_off_on trk.chn ht.1 ht.2.1

theorem err_codes :
    ERR_QUALIFIER_SYMBOL ≠ ERR_NO_COMMAND ∧ ERR_NOERROR ≠ ERR_NO_COMMAND ∧
    ERR_ARP_SYMBOL ≠ ERR_NO_COMMAND ∧ ERR_DRUM_SYMBOL ≠ ERR_NO_COMMAND ∧
    ERR_BASENOTE_SYMBOL ≠ ERR_NO_COMMAND ∧ ERR_OCTAVE ≠ ERR_NO_COMMAND ∧
    ERR_DURATION_DOT ≠ ERR_NO_COMMAND ∧ ERR_DURATION ≠ ERR_NO_COMMAND ∧
    ERR_VOLUME ≠ ERR_NO_COMMAND ∧ ERR_HOLD_NOT_LAST ≠ ERR_NO_COMMAND ∧
    ERR_NOTE_OFFSET ≠ ERR_NO_COMMAND := by decide

set_option maxHeartbeats 4000000 in
theorem qualifier_command (type : Int) (fuel : Nat) (data : List Nat) (n : smsNote)
    (flg : Bool) : (parser_isNote.qualifier type fuel data n flg).1 ≠ ERR_NO_COMMAND := by
  obtain ⟨e1, e2, e3, e4, e5, e6, e7, e8, e9, e10, _⟩ := err_codes
  induction fuel generalizing data n flg with
  | zero => unfold parser_isNote.qualifier; exact e1
  | succ fuel ih =>
    cases data with
    | nil =>
      unfold parser_isNote.qualifier
      exact e2
    | cons c data =>
      unfold parser_isNote.qualifier
      simp only [apply_ite Prod.fst]
      repeat' split
      all_goals first
        | exact ih _ _ _
        | exact e1
        | exact e3
        | exact e4
        | exact e5
        | exact e6
        | exact e7
        | exact e8
        | exact e9
        | exact e10

theorem rest_command (data : List Nat) (n : smsNote) (type : Int) :
    (parser_isNote.rest data n type).1 ≠ ERR_NO_COMMAND := by
  unfold parser_isNote.rest
  simp only [apply_ite Prod.fst]
  repeat' split
  all_goals first
    | exact qualifier_command _ _ _ _ _
    | exact err_codes.2.2.2.2.2.1

theorem parser_isNote_command (data : List Nat) (n : smsNote) (type : Int)
    (h : (parser_isNote data n type).1 = ERR_NO_COMMAND) : (parser_isNote data n type).2.1 = n := by
  generalize hr : parser_isNote data n type = r at h ⊢
  unfold parser_isNote at hr
  simp only [] at hr
  repeat' split at hr
  all_goals subst hr
  all_goals first
    | rfl
    | exact absurd h (rest_command _ _ _)
    | exact absurd h err_codes.2.2.2.2.2.2.2.2.2.2
theorem mo_rel (objs X : List smsObject) (p : Nat) (trk0 trk : smsTrack) (B : Int)
    (R : smsEvent → Prop) (l : List smsEvent) (evtId tr : Int)
    (ht : GoodTrk trk) (hname : trk.name = trk0.name) (hchn : trk.chn = trk0.chn)
    (hpos : trackAt objs p = some trk0)
    (hX : ∀ q, q ≠ p → trackAt X q = trackAt objs q)
    (hm : MatchedOr R l)
    (hR : ∀ a, R a → HeldAt objs p B a ∨ HeldOver objs X a)
    (htr : B ≤ tr) :
    MatchedOr (HeldOver objs X)
      (l ++ [{ trkname := trk.name, evtId := evtId, time := tr,
               status := toBYTE (0x80 + trk.chn), data1 := toBYTE trk0.note.hold,
               data2 := toBYTE 0, bpm := 0 }]) := by
  apply mo_release R _ l _ hm
  · exact not_on_of _ 8 (status_off _ ht.1 ht.2.1) (by decide)
  · intro a ha
    rcases hR a ha with h | h
    · rcases heldAt_store objs X p p trk0 B a hpos hX h with h1 | h1
      · exact Or.inl (release_answers a trk0 trk evtId tr B ht hname hchn
          ⟨h1.2.1, h1.2.2.1, h1.2.2.2.1, h1.2.2.2.2 rfl⟩ htr)
      · exact Or.inr h1
    · exact Or.inr h

theorem mo_norel (objs X : List smsObject) (p : Nat) (trk0 : smsTrack) (B : Int)
    (R : smsEvent → Prop) (l : List smsEvent)
    (hpos : trackAt objs p = some trk0)
    (hX : ∀ q, q ≠ p → trackAt X q = trackAt objs q)
    (hm : MatchedOr R l)
    (hR : ∀ a, R a → HeldAt objs p B a ∨ HeldOver objs X a)
    (hh : trk0.note.hold = EMPTY) :
    MatchedOr (HeldOver objs X) l := by
  apply mo_mono R _ l _ hm
  intro a ha
  rcases hR a ha with h | h
  · rcases heldAt_store objs X p p trk0 B a hpos hX h with h1 | h1
    · exact absurd hh h1.1
    · exact h1
  · exact h

theorem storeAt_twice_ne (objs : List smsObject) (p : Nat) (x y : smsPayload) :
    ∀ q, q ≠ p → trackAt (storeAt (storeAt objs p x) p y) q = trackAt objs q := by
  intro q hq
  rw [trackAt_storeAt_ne _ _ _ _ hq, trackAt_storeAt_ne _ _ _ _ hq]

theorem storeAt_once_ne (objs : List smsObject) (p : Nat) (x : smsPayload) :
    ∀ q, q ≠ p → trackAt (storeAt objs p x) q = trackAt objs q :=
  fun q hq => trackAt_storeAt_ne _ _ _ _ hq

set_option maxHeartbeats 4000000 in
theorem playNote_kept (s : Compiler) (objs : List smsObject) (p : Nat) (trk0 trk : smsTrack)
    (B bar : Int) (hp16 : 16 ≤ s.sms.ppqn) (ht : GoodTrk trk)
    (ho : s.objFirst = storeAt objs p (.track trk)) (hpos : trackAt objs p = some trk0)
    (hname : trk.name = trk0.name) (hchn : trk.chn = trk0.chn)
    (hm : MatchedOr (HeldAt objs p B) s.evtFirst) :
    (playNote s p trk trk0.note.hold).Kept objs p B bar := by
  unfold playNote
  simp only []
  cases hd : noteTicks s.sms trk.note with
  | none => exact True.intro
  | some dur =>
    have hdur := noteTicks_pos _ _ _ hp16 ht.2.2 hd
    simp only []
    generalize hs1 :
      (if s.grpTimeStart ≠ TIME_OFF then { s with sngTime := s.grpTimeStart } else s) = s1
    have f1 : s1.objFirst = storeAt objs p (.track trk) := by
      rw [← hs1, ← ho]; split <;> rfl
    have f2 : s1.evtFirst = s.evtFirst := by
      rw [← hs1]; split <;> rfl
    clear hs1
    have hx1 : trackAt (storeAt objs p (.track trk)) p = some trk :=
      trackAt_storeAt objs p trk0 trk hpos
    have hP : ∀ a, HeldAt objs p B a →
        HeldAt objs p B a ∨ HeldOver objs (storeAt objs p (.track trk)) a :=
      fun a h => Or.inl h
    by_cases hk : trk.note.key = PAUSE
    · rw [if_pos hk]
      by_cases hh : trk0.note.hold = EMPTY
      · rw [if_neg (by simpa using hh)]
        refine kept_rest objs (storeAt objs p (.track trk)) p B bar (s1.sngTime + dur) _ s.evtFirst
          trk ?_ ?_ hx1 rfl hk (markTimes_sngTime _)
          (fun _ => mo_norel objs _ p trk0 B _ _ hpos (storeAt_once_ne _ _ _) hm hP hh)
        · rw [← f2]
          exact markTimes_evtFirst _
        · rw [← f1]
          exact markTimes_objFirst _
      · rw [if_pos hh]
        refine kept_rest objs (storeAt objs p (.track trk)) p B bar (s1.sngTime + dur) _ _
          trk ?_ ?_ hx1 rfl hk (markTimes_sngTime _)
          (fun hB => mo_rel objs _ p trk0 trk B _ s.evtFirst s1.sms.evts (s1.sngTime + dur)
            ht hname hchn hpos (storeAt_once_ne _ _ _) hm hP hB)
        · rw [← f2]
          exact markTimes_evtFirst _
        · rw [← f1]
          exact markTimes_objFirst _
    · rw [if_neg hk]
      split
      · exact True.intro
      · rename_i data1 hpitch
        split
        · exact kept_fail _ _ _ _ _ _ (by decide)
        · rename_i h128
          have hb : ((data1 : Nat) : Int) ≠ EMPTY := by
            simp only [EMPTY]
            omega
          by_cases hn : trk.note.hold = EMPTY
          · have hon := mo_pair (HeldAt objs p B) s.evtFirst _ _ hm
              (answers_mk trk.name s1.sms.evts (s1.sms.evts + 1) s1.sngTime
                (s1.sngTime + dur - MIDI_TIME_DIV) trk.chn (toBYTE (data1 : Int))
                (toBYTE (toBYTE trk.note.vol : Int)) (toBYTE (toBYTE trk.note.vol : Int))
                ht.1 ht.2.1 (by simp only [MIDI_TIME_DIV]; omega))
            by_cases hh : trk0.note.hold = EMPTY
            · rw [if_neg (by simpa using hh), if_pos hn]
              refine kept_note objs (storeAt objs p (.track trk)) p B bar (s1.sngTime + dur) _ _
                trk ?_ ?_ hx1 rfl hk (markTimes_sngTime _)
                (fun _ => mo_norel objs _ p trk0 B _ _ hpos (storeAt_once_ne _ _ _) hon hP hh)
              · rw [← f2]
                exact markTimes_evtFirst _
              · rw [← f1]
                exact markTimes_objFirst _
            · rw [if_pos hh, if_pos hn]
              refine kept_note objs (storeAt objs p (.track trk)) p B bar (s1.sngTime + dur) _ _
                trk ?_ ?_ hx1 rfl hk (markTimes_sngTime _)
                (fun hB => mo_rel objs _ p trk0 trk B _ _ (s1.sms.evts + 1 + 1)
                  (s1.sngTime + dur - MIDI_TIME_DIV) ht hname hchn hpos (storeAt_once_ne _ _ _)
                  hon hP hB)
              · rw [← f2]
                exact markTimes_evtFirst _
              · rw [← f1]
                exact markTimes_objFirst _
          · have hx2 : trackAt
                (storeAt (storeAt objs p (.track trk)) p
                  (.track { trk with note := { trk.note with hold := (data1 : Int) } })) p =
                some { trk with note := { trk.note with hold := (data1 : Int) } } :=
              trackAt_storeAt _ p trk _ hx1
            have hR : ∀ a : smsEvent,
                (HeldAt objs p B a ∨
                  a = { trkname := trk.name, evtId := s1.sms.evts, time := s1.sngTime,
                        status := toBYTE (0x90 + trk.chn), data1 := toBYTE (data1 : Int),
                        data2 := toBYTE (toBYTE trk.note.vol : Int), bpm := 0 }) →
                HeldAt objs p B a ∨
                  HeldOver objs
                    (storeAt (storeAt objs p (.track trk)) p
                      (.track { trk with note := { trk.note with hold := (data1 : Int) } }))
                    a := by
              intro a ha
              rcases ha with ha | ha
              · exact Or.inl ha
              · subst ha
                exact Or.inr ⟨p, trk0, _, hpos, hx2, rfl, hb, rfl, by rw [← hchn]⟩
            have hon := mo_held
              (fun a : smsEvent => HeldAt objs p B a ∨
                a = { trkname := trk.name, evtId := s1.sms.evts, time := s1.sngTime,
                      status := toBYTE (0x90 + trk.chn), data1 := toBYTE (data1 : Int),
                      data2 := toBYTE (toBYTE trk.note.vol : Int), bpm := 0 })
              s.evtFirst
              { trkname := trk.name, evtId := s1.sms.evts, time := s1.sngTime,
                status := toBYTE (0x90 + trk.chn), data1 := toBYTE (data1 : Int),
                data2 := toBYTE (toBYTE trk.note.vol : Int), bpm := 0 }
              (mo_mono (HeldAt objs p B) _ s.evtFirst (fun _ h => Or.inl h) hm)
              (Or.inr rfl)
            by_cases hh : trk0.note.hold = EMPTY
            · rw [if_neg (by simpa using hh), if_neg hn]
              refine kept_note objs _ p B bar (s1.sngTime + dur) _ _ _ ?_ ?_ hx2 rfl hk
                (markTimes_sngTime _)
                (fun _ => mo_norel objs _ p trk0 B _ _ hpos (storeAt_twice_ne _ _ _ _) hon hR hh)
              · rw [← f2]
                exact markTimes_evtFirst _
              · rw [← f1]
                exact markTimes_objFirst _
            · rw [if_pos hh, if_neg hn]
              refine kept_note objs _ p B bar (s1.sngTime + dur) _ _ _ ?_ ?_ hx2 rfl hk
                (markTimes_sngTime _)
                (fun hB => mo_rel objs _ p trk0 trk B _ _ (s1.sms.evts + 1)
                  (s1.sngTime + dur - MIDI_TIME_DIV) ht hname hchn hpos
                  (storeAt_twice_ne _ _ _ _) hon hR hB)
              · rw [← f2]
                exact markTimes_evtFirst _
              · rw [← f1]
                exact markTimes_objFirst _
theorem heldFrom_congr (s t : Compiler) (objs : List smsObject) (cur : Nat) (B bar : Int)
    (h : s.HeldFrom objs cur B bar) (ho : t.objFirst = s.objFirst) (he : t.evtFirst = s.evtFirst)
    (hsms : t.sms = s.sms) (hc : t.currentTrk = s.currentTrk) : t.HeldFrom objs cur B bar := by
  obtain ⟨hs, hb, hobj, hcur, hm⟩ := h
  exact ⟨sound_congr s t hs ho (by rw [hsms]), by rw [hsms]; exact hb, by rw [ho]; exact hobj,
    by rw [hc]; exact hcur, by rw [he]; exact hm⟩

theorem heldFrom_ite (c : Prop) [Decidable c] (a b : Compiler) (objs : List smsObject)
    (cur : Nat) (B bar : Int) (ha : a.HeldFrom objs cur B bar) (hb : b.HeldFrom objs cur B bar) :
    (if c then a else b).HeldFrom objs cur B bar := by
  split <;> assumption

theorem heldFrom_next (s t : Compiler) (objs : List smsObject) (cur : Nat) (B bar : Int)
    (h : s.HeldFrom objs cur B bar) (ho : t.objFirst = s.objFirst) (he : t.evtFirst = s.evtFirst) :
    (Flow.next t).Kept objs cur B bar := by
  apply kept_of_quiet
  refine ⟨by rw [he]; exact h.2.2.2.2, ?_⟩
  rw [ho, h.2.2.1]
  exact frame_refl _

theorem heldFrom_stop (s t : Compiler) (objs : List smsObject) (cur : Nat) (B bar : Int)
    (h : s.HeldFrom objs cur B bar) (ho : t.objFirst = s.objFirst) (he : t.evtFirst = s.evtFirst) :
    (Flow.stop t).Kept objs cur B bar := by
  apply kept_of_quiet
  refine ⟨by rw [he]; exact h.2.2.2.2, ?_⟩
  rw [ho, h.2.2.1]
  exact frame_refl _

theorem heldFrom_quiet (s : Compiler) (objs : List smsObject) (cur : Nat) (B bar : Int) (f : Flow)
    (h : s.HeldFrom objs cur B bar)
    (hq : MatchedOr (HeldAt objs cur B) s.evtFirst → f.Quiet (HeldAt objs cur B) s.objFirst) :
    f.Kept objs cur B bar := by
  have := hq h.2.2.2.2
  rw [h.2.2.1] at this
  exact kept_of_quiet f objs cur B bar this

theorem heldFrom_setTrk (s t : Compiler) (objs : List smsObject) (cur : Nat) (B bar : Int) (p : Nat)
    (trk0 trk : smsTrack)
    (hto : t.objFirst = storeAt s.objFirst p (.track trk)) (hte : t.evtFirst = s.evtFirst)
    (ho : s.objFirst = objs)
    (hm : MatchedOr (HeldAt objs cur B) s.evtFirst)
    (hp : trackAt s.objFirst p = some trk0) (hn : trk.name = trk0.name)
    (hh : trk.note.hold = trk0.note.hold) :
    (Flow.next t).Kept objs cur B bar := by
  subst ho
  apply kept_of_quiet
  refine ⟨by rw [hte]; exact hm, ?_⟩
  rw [hto]
  exact frame_setTrk s p trk0 trk hp hn hh

theorem play_kept (s : Compiler) (p : Nat) (trk : smsTrack) (word : List Nat)
    (objs : List smsObject) (B bar : Int) (h : s.HeldFrom objs p B bar)
    (hpos : trackAt objs p = some trk) : (play s p trk word).Kept objs p B bar := by
  obtain ⟨hs, hb, ho, _, hm⟩ := h
  subst ho
  have ht := tg_trackAt _ _ _ hs.1 hpos
  unfold play
  simp only []
  generalize (if s.currentBaseNote = EMPTY then (if trk.chn = 9 then DRUM else INST)
    else BASENOTE) = ty
  have hn := goodTrk_note trk _ ht (parser_isNote_dur word trk.note ty ht.2.2)
  split
  · rename_i hbs
    rw [hbs]
    exact kept_fail _ _ _ _ _ _ (by decide)
  split
  · exact kept_of_quiet _ _ _ _ _ (quiet_next _ _ _ hm (frame_refl _))
  split
  · rename_i h3
    exact kept_fail _ _ _ _ _ _ h3.1
  split
  · exact playNote_kept _ s.objFirst p trk _ B bar hs.2 hn rfl hpos rfl rfl hm
  rename_i h3 h4
  have hnc : (parser_isNote word trk.note ty).1 = ERR_NO_COMMAND := by
    by_contra hc
    exact h3 ⟨h4, hc⟩
  have hnote := parser_isNote_command word trk.note ty hnc
  have hfr : ∀ c : smsChordNote, Frame s.objFirst
      (storeAt (storeAt s.objFirst p
        (.track { trk with note := (parser_isNote word trk.note ty).2.1 })) p
        (.track { trk with note := (parser_isNote word trk.note ty).2.1, cnote := c })) := by
    intro c
    apply frame_trans _ _ _ (frame_storeAt_track s.objFirst p _ ?_) (frame_storeAt_track _ p _ ?_)
    · intro t0 ht0
      rw [hpos] at ht0
      cases ht0
      exact ⟨rfl, by rw [hnote]⟩
    · intro t0 ht0
      rw [trackAt_storeAt _ _ _ _ hpos] at ht0
      cases ht0
      exact ⟨rfl, rfl⟩
  split
  · exact kept_fail _ _ _ _ _ _ (by decide)
  split
  · exact True.intro
  split
  · exact kept_chord _ _ _ _ _ rfl (fun hb1 => quiet_frame _ _ _ _ (hfr _)
      (playChord_quiet _ _ _ _ _ (goodTrk_cnote _ _ hn) (hb ▸ hb1) hm))
  split
  · exact True.intro
  · exact kept_of_quiet _ _ _ _ _ (quiet_frame _ _ _ _ (hfr _)
      (playArp_quiet _ _ _ _ _ _ _ _ _ _ (goodTrk_cnote _ _ hn) ⟨by decide, by decide⟩
        hs.2 hm))

theorem command_kept (s : Compiler) (word : List Nat) (token : Int) (objs : List smsObject)
    (cur : Nat) (B bar : Int) (h : s.HeldFrom objs cur B bar) :
    (command s word token).Kept objs cur B bar := by
  unfold command
  split
  · rename_i f hf
    exact heldFrom_quiet s objs cur B bar f h (fun hm => timer_quiet s token f _ hm hf)
  · split
    · exact True.intro
    · rename_i trk hpos
      split
      · rename_i f hf
        exact heldFrom_quiet s objs cur B bar f h
          (fun hm => dynamic_quiet s _ word f _ (tg_trackAt _ _ _ h.1.1 hpos) hm hf)
      · have hc := h.2.2.2.1
        subst hc
        exact play_kept s _ _ word objs B bar h (by rw [← h.2.2.1]; exact hpos)

theorem user_kept (s : Compiler) (word : List Nat) (token : Int) (objs : List smsObject)
    (cur : Nat) (B bar : Int) (h : s.HeldFrom objs cur B bar) : (user s word token).Kept objs cur B bar := by
  unfold user
  repeat' split
  · exact heldFrom_quiet s objs cur B bar _ h (fun hm => useInst_quiet s _ _ h.1 hm)
  · exact heldFrom_quiet s objs cur B bar _ h (fun hm => useDrum_quiet s _ _ hm)
  · exact heldFrom_quiet s objs cur B bar _ h (fun hm => useMacro_quiet s _ _ hm)
  · exact command_kept s word token objs cur B bar h
  · exact command_kept s word token objs cur B bar h

theorem system_kept (s : Compiler) (word : List Nat) (token : Int) (objs : List smsObject)
    (cur : Nat) (B bar : Int) (h : s.HeldFrom objs cur B bar) :
    (system s word token).Kept objs cur B bar := by
  unfold system
  repeat' split
  · exact heldFrom_quiet s objs cur B bar _ h (fun hm => cmdHeader_quiet s word _ hm)
  · exact heldFrom_quiet s objs cur B bar _ h (fun hm => cmdInst_quiet s word _ hm)
  · exact heldFrom_quiet s objs cur B bar _ h (fun hm => cmdDrum_quiet s word _ hm)
  · exact heldFrom_quiet s objs cur B bar _ h (fun hm => cmdChord_quiet s word _ hm)
  · exact heldFrom_quiet s objs cur B bar _ h (fun hm => cmdArp_quiet s word token _ hm)
  · exact heldFrom_quiet s objs cur B bar _ h (fun hm => cmdMacro_quiet s word token _ hm)
  · exact user_kept s word token objs cur B bar h

theorem same_ite (c : Prop) [Decidable c] (s a b : Compiler)
    (ha : a.objFirst = s.objFirst ∧ a.evtFirst = s.evtFirst)
    (hb : b.objFirst = s.objFirst ∧ b.evtFirst = s.evtFirst) :
    (if c then a else b).objFirst = s.objFirst ∧ (if c then a else b).evtFirst = s.evtFirst := by
  split <;> assumption

theorem newline_kept (s : Compiler) (word : List Nat) (token : Int) (objs : List smsObject)
    (cur : Nat) (B bar : Int) (h : s.HeldFrom objs cur B bar) :
    (newline s word token).Kept objs cur B bar := by
  unfold newline
  lift_lets
  intro s1 barTime s2 s3 src s4 s5
  have h1 : s1.HeldFrom objs cur B bar :=
    heldFrom_ite _ _ _ _ _ _ _ (heldFrom_congr s _ _ _ _ _ h rfl rfl rfl rfl)
      (heldFrom_congr s _ _ _ _ _ h rfl rfl rfl rfl)
  clear_value s1
  have h2 : s2.HeldFrom objs cur B bar :=
    heldFrom_ite _ _ _ _ _ _ _ (heldFrom_congr s1 _ _ _ _ _ h1 rfl rfl rfl rfl) h1
  clear_value barTime s2
  have h3 : s3.HeldFrom objs cur B bar := heldFrom_congr s2 _ _ _ _ _ h2 rfl rfl rfl rfl
  clear_value s3
  have hsrc : src.objFirst = s3.objFirst ∧ src.evtFirst = s3.evtFirst :=
    ⟨markTimes_objFirst s3, markTimes_evtFirst s3⟩
  clear_value src
  have h4 : s4.objFirst = s3.objFirst ∧ s4.evtFirst = s3.evtFirst :=
    same_ite _ s3 _ _ hsrc ⟨rfl, rfl⟩
  clear_value s4
  have h5 : s5.objFirst = s3.objFirst ∧ s5.evtFirst = s3.evtFirst :=
    same_ite _ s3 _ _ h4 h4
  clear_value s5
  split_ifs
  all_goals repeat' split
  all_goals first
    | exact system_kept _ _ _ _ _ _ _ h3
    | exact kept_fail _ _ _ _ _ _ (by decide)
    | exact True.intro
    | exact heldFrom_setTrk s5 _ objs cur B bar _ _ _ (by rfl) (by rfl)
        (by rw [h5.1]; exact h3.2.2.1) (by rw [h5.2]; exact h3.2.2.2.2) (by assumption)
        (by rfl) (by rfl)

set_option maxHeartbeats 2000000 in
theorem general_kept (s : Compiler) (word : List Nat) (token : Int) (objs : List smsObject)
    (cur : Nat) (B bar : Int) (h : s.HeldFrom objs cur B bar) :
    (general s word token).Kept objs cur B bar := by
  unfold general
  lift_lets
  intro s1 s2 s3
  have h1 : s1.HeldFrom objs cur B bar :=
    heldFrom_ite _ _ _ _ _ _ _ (heldFrom_congr s _ _ _ _ _ h rfl rfl rfl rfl) h
  clear_value s1
  have h2 : s2.HeldFrom objs cur B bar :=
    heldFrom_ite _ _ _ _ _ _ _ (heldFrom_congr s1 _ _ _ _ _ h1 rfl rfl rfl rfl) h1
  clear_value s2
  have h3 : s3.HeldFrom objs cur B bar :=
    heldFrom_ite _ _ _ _ _ _ _ (heldFrom_congr s2 _ _ _ _ _ h2 rfl rfl rfl rfl) h2
  clear_value s3
  split_ifs
  all_goals first
    | exact system_kept _ _ _ _ _ _ _ h3
    | exact kept_fail _ _ _ _ _ _ (by decide)
    | exact heldFrom_next s3 _ objs cur B bar h3 rfl rfl

theorem ready_kept (s : Compiler) (token : Int) (objs : List smsObject) (cur : Nat) (B bar : Int)
    (h : s.HeldFrom objs cur B bar) : (ready s token).Kept objs cur B bar := by
  unfold ready
  simp only []
  repeat' split
  all_goals first
    | exact True.intro
    | exact kept_fail _ _ _ _ _ _ (by decide)
    | exact heldFrom_next s _ objs cur B bar h rfl rfl
    | (apply newline_kept; exact heldFrom_congr s _ _ _ _ _ h rfl rfl rfl rfl)
    | (apply general_kept; exact heldFrom_congr s _ _ _ _ _ h rfl rfl rfl rfl)

theorem readSource_kept (s : Compiler) (objs : List smsObject) (cur : Nat) (B bar : Int)
    (h : s.HeldFrom objs cur B bar) : (readSource s).Kept objs cur B bar := by
  unfold readSource
  simp only []
  repeat' split
  all_goals first
    | exact True.intro
    | exact heldFrom_stop s _ objs cur B bar h rfl rfl
    | (apply ready_kept; exact heldFrom_congr s _ _ _ _ _ h rfl rfl rfl rfl)

theorem readWord_kept (s : Compiler) (objs : List smsObject) (cur : Nat) (B bar : Int)
    (h : s.HeldFrom objs cur B bar) : (readWord s).Kept objs cur B bar := by
  unfold readWord
  simp only []
  repeat' split
  all_goals first
    | exact True.intro
    | exact heldFrom_next s _ objs cur B bar h rfl rfl
    | (apply ready_kept; exact heldFrom_congr s _ _ _ _ _ h rfl rfl rfl rfl)
    | (apply readSource_kept; first | exact h | exact heldFrom_congr s _ _ _ _ _ h rfl rfl rfl rfl)

theorem step_kept (s : Compiler) (objs : List smsObject) (cur : Nat) (B bar : Int)
    (h : s.HeldFrom objs cur B bar) : (step s).Kept objs cur B bar := by
  unfold step
  repeat' split
  all_goals first
    | exact True.intro
    | exact kept_fail _ _ _ _ _ _ (by decide)
    | (apply ready_kept; exact heldFrom_congr s _ _ _ _ _ h rfl rfl rfl rfl)
    | exact readWord_kept s objs cur B bar h
/-! ### The tested loop -/

theorem isAnswer_iff (a b : smsEvent) : isAnswer a b = true ↔ answers a b := by
  unfold isAnswer answers
  simp only [Bool.and_eq_true, decide_eq_true_eq, and_assoc]

theorem heldBefore_spec (l : List smsEvent) (trk : smsTrack) (T : Int)
    (h : heldBefore l trk T = true) (i : Nat) (a : smsEvent) (hi : l[i]? = some a)
    (ha : isNoteOn a = true) (hn : a.trkname = trk.name) (hkey : a.data1 = toBYTE trk.note.hold)
    (hst : a.status = toBYTE (0x90 + trk.chn)) :
    a.time ≤ T ∨ ∃ (j : Nat) (b : smsEvent), i < j ∧ l[j]? = some b ∧ answers a b := by
  unfold heldBefore at h
  rw [List.all_eq_true] at h
  have hil : i < l.length := (List.getElem?_eq_some_iff.1 hi).1
  have := h i (List.mem_range.2 hil)
  rw [hi] at this
  simp only [ha, hn, hkey, hst, decide_True, Bool.and_self, Bool.not_true, Bool.false_or,
    Bool.or_eq_true, decide_eq_true_eq, List.any_eq_true, List.mem_range, Bool.and_eq_true] at this
  rcases this with h1 | ⟨j, hj, hij, hb⟩
  · exact Or.inl h1
  · right
    cases hlj : l[j]? with
    | none => rw [hlj] at hb; simp at hb
    | some b =>
      rw [hlj] at hb
      exact ⟨j, b, hij, hlj, (isAnswer_iff a b).1 hb⟩

theorem times_bounded (l : List smsEvent) : ∃ B : Int, ∀ a ∈ l, a.time ≤ B := by
  induction l with
  | nil => exact ⟨0, by simp⟩
  | cons x xs ih =>
    obtain ⟨B, hB⟩ := ih
    refine ⟨max x.time B, ?_⟩
    intro a ha
    rcases List.mem_cons.1 ha with h | h
    · subst h
      exact le_max_left _ _
    · exact le_trans (hB a h) (le_max_right _ _)

theorem trackAt_lt (objs : List smsObject) (p : Nat) (trk : smsTrack)
    (h : trackAt objs p = some trk) : p < objs.length := by
  by_contra hc
  unfold trackAt at h
  rw [List.get?_eq_none.2 (by omega)] at h
  simp at h

theorem keeps_chord (s t : Compiler) (hk : s.keeps t = true) (hC : t.lastWordType = CHORD) :
    1 ≤ s.sms.bar := by
  unfold Compiler.keeps at hk
  simp only [Bool.and_eq_true, Bool.or_eq_true, decide_eq_true_eq] at hk
  rcases hk.1.1 with h | h
  · exact absurd hC h
  · omega

theorem keeps_chn (s t : Compiler) (hk : s.keeps t = true) (p : Nat) (trk0 trk1 : smsTrack)
    (h0 : trackAt s.objFirst p = some trk0) (h1 : trackAt t.objFirst p = some trk1)
    (hh : trk1.note.hold ≠ EMPTY) : trk1.chn = trk0.chn := by
  unfold Compiler.keeps at hk
  simp only [Bool.and_eq_true, List.all_eq_true, List.mem_range] at hk
  have := hk.1.2 p (trackAt_lt _ _ _ h1)
  rw [h1, h0] at this
  simp only [Bool.or_eq_true, decide_eq_true_eq] at this
  rcases this with h | h
  · exact absurd h hh
  · exact h

theorem keeps_time (s t : Compiler) (hk : s.keeps t = true) (hN : t.lastWordType = NOTE)
    (trk0 : smsTrack) (h0 : trackAt s.objFirst s.currentTrk = some trk0)
    (hh : trk0.note.hold ≠ EMPTY) :
    heldBefore s.evtFirst trk0 (t.releaseTime s.currentTrk) = true := by
  unfold Compiler.keeps at hk
  simp only [Bool.and_eq_true, Bool.or_eq_true, decide_eq_true_eq] at hk
  have := hk.2
  rw [h0] at this
  simp only [Bool.or_eq_true, decide_eq_true_eq] at this
  rcases this with h | h | h
  · exact absurd hN h
  · exact absurd h hh
  · exact h

theorem holding_heldFrom (s t : Compiler) (h : s.Holding) (hk : s.keeps t = true) :
    ∃ B : Int, s.HeldFrom s.objFirst s.currentTrk B s.sms.bar ∧
      (t.lastWordType = NOTE → B ≤ t.releaseTime s.currentTrk) := by
  obtain ⟨hs, hm⟩ := h
  by_cases hN : t.lastWordType = NOTE
  · refine ⟨t.releaseTime s.currentTrk, ⟨hs, rfl, rfl, rfl, ?_⟩, fun _ => le_refl _⟩
    intro i a hi ha
    by_cases hans : ∃ (j : Nat) (b : smsEvent), i < j ∧ s.evtFirst[j]? = some b ∧ answers a b
    · exact Or.inl hans
    · rcases hm i a hi ha with h1 | ⟨p, trk, hp, hn, hh, hkey, hst⟩
      · exact absurd h1 hans
      · refine Or.inr ⟨p, trk, hp, hn, hh, hkey, hst, fun hpc => ?_⟩
        subst hpc
        have hb2 := keeps_time s t hk hN trk hp hh
        rcases heldBefore_spec _ _ _ hb2 i a hi ha hn.symm hkey.symm hst with h2 | h2
        · exact h2
        · exact absurd h2 hans
  · obtain ⟨B, hB⟩ := times_bounded s.evtFirst
    refine ⟨B, ⟨hs, rfl, rfl, rfl, ?_⟩, fun h => absurd h hN⟩
    intro i a hi ha
    rcases hm i a hi ha with h1 | ⟨p, trk, hp, hn, hh, hkey, hst⟩
    · exact Or.inl h1
    · exact Or.inr ⟨p, trk, hp, hn, hh, hkey, hst, fun _ => hB a (List.getElem?_mem hi)⟩

theorem held_of_heldOver (s t : Compiler) (a : smsEvent) (hk : s.keeps t = true)
    (h : HeldOver s.objFirst t.objFirst a) : Held t.objFirst a := by
  obtain ⟨p, trk0, trk1, h0, h1, hn, hh, hb, hs⟩ := h
  exact ⟨p, trk1, h1, hn, hh, hb, by rw [keeps_chn s t hk p trk0 trk1 h0 h1 hh]; exact hs⟩

theorem holding_next (s t : Compiler) (h : s.Holding) (hstep : step s = .next t)
    (hk : s.keeps t = true) : t.Holding := by
  obtain ⟨B, hf, hB⟩ := holding_heldFrom s t h hk
  have h1 := step_sound s h.1
  have h2 := step_kept s _ _ B _ hf
  rw [hstep] at h1 h2
  exact ⟨h1, mo_mono _ _ _ (fun a ha => held_of_heldOver s t a hk ha)
    (h2 hB (keeps_chord s t hk))⟩

theorem holding_stop (s t : Compiler) (h : s.Holding) (hstep : step s = .stop t)
    (hk : s.keeps t = true) (he : t.err = 0) : t.Holding := by
  obtain ⟨B, hf, hB⟩ := holding_heldFrom s t h hk
  have h1 := step_sound s h.1
  have h2 := step_kept s _ _ B _ hf
  rw [hstep] at h1 h2
  exact ⟨h1, mo_mono _ _ _ (fun a ha => held_of_heldOver s t a hk ha)
    (h2 he hB (keeps_chord s t hk))⟩

theorem heldLoop_spec (fuel : Nat) (s t : Compiler) (h : s.Holding)
    (hl : heldLoop fuel s = some t) : mainLoop fuel s = .done t ∧ (t.err = 0 → t.Holding) := by
  induction fuel generalizing s with
  | zero => simp [heldLoop] at hl
  | succ fuel ih =>
    unfold heldLoop at hl
    unfold mainLoop
    cases hstep : step s with
    | next u =>
      rw [hstep] at hl
      simp only [] at hl ⊢
      by_cases hp : s.keeps u = true
      · rw [if_pos hp] at hl
        exact ih u (holding_next s u h hstep hp) hl
      · rw [if_neg hp] at hl
        exact absurd hl (by simp)
    | stop u =>
      rw [hstep] at hl
      simp only [] at hl ⊢
      by_cases hp : s.keeps u = true
      · rw [if_pos hp] at hl
        simp only [Option.some.injEq] at hl
        subst hl
        exact ⟨rfl, fun he => holding_stop s u h hstep hp he⟩
      · rw [if_neg hp] at hl
        exact absurd hl (by simp)
    | undefined =>
      rw [hstep] at hl
      exact absurd hl (by simp)

theorem finalErr_zero (t : Compiler) (h : finalErr t = 0) : t.err = 0 := by
  unfold finalErr at h
  simp only [] at h
  repeat' split at h
  all_goals first
    | exact h
    | exact absurd h (by decide)
    | (rename_i h1 _; exact h1.1)
    | (rename_i h1; exact h1.1)

theorem held_final (t u : Compiler) (hm : MatchedOr (Held t.objFirst) t.evtFirst)
    (hf : finalEvents t = some u) : MatchedOr (Held u.objFirst) u.evtFirst := by
  unfold finalEvents at hf
  cases hk : trackAt t.objFirst t.currentTrk with
  | none => simp [hk] at hf
  | some trk =>
    simp only [hk, Option.map_some', Option.some.injEq] at hf
    have hu : u.evtFirst = t.evtFirst ++
          [trackEvent trk t.sms.evts
            (if t.barTime ≠ 0 then t.sngTime + (t.sms.bar - t.barTime) else t.sngTime)
            0xB0 0x7B 0] ∧
        u.objFirst = storeAt t.objFirst t.currentTrk
          (.track { trk with note := { trk.note with dot := 0 } }) := by
      subst hf
      split <;> exact ⟨rfl, rfl⟩
    rw [hu.1, hu.2]
    apply mo_append _ _ _ (mo_mono _ _ _ ?_ hm) (not_on_of _ 11 status_b0 (by decide))
    intro a ⟨p, trk2, hp, hn, hh, hb, hs⟩
    by_cases hpc : p = t.currentTrk
    · subst hpc
      rw [hk] at hp
      cases hp
      exact ⟨_, _, trackAt_storeAt _ _ _ _ hk, hn, hh, hb, hs⟩
    · exact ⟨p, trk2, by rw [trackAt_storeAt_ne _ _ _ _ hpc]; exact hp, hn, hh, hb, hs⟩

theorem matchedOr_qsort (n : Int) (l : List smsEvent) (P : smsEvent → Prop)
    (hc : Counted n l) (hm : MatchedOr P l) : MatchedOr P (qsort l) := by
  intro i a hi ha
  have hp := perm_qsort l
  have hal : a ∈ l := hp.subset (List.getElem?_mem hi)
  obtain ⟨i0, hi0⟩ := List.getElem?_of_mem hal
  rcases hm i0 a hi0 ha with ⟨j0, b, hij, hj0, hab⟩ | hP
  · left
    have ea := hc.2 i0 a hi0
    have eb := hc.2 j0 b hj0
    have hlt : evt_compare a b < 0 := by
      rw [evt_compare_neg]
      right
      refine ⟨hab.2.1.symm, ?_⟩
      rcases lt_or_eq_of_le hab.2.2.2.2 with h1 | h1
      · exact Or.inl h1
      · exact Or.inr ⟨h1, by rw [ea, eb]; omega⟩
    have hbq : b ∈ qsort l := hp.symm.subset (List.getElem?_mem hj0)
    obtain ⟨j, hj⟩ := List.getElem?_of_mem hbq
    refine ⟨j, b, ?_, hj, hab⟩
    by_contra hnot
    have hi2 := List.getElem?_eq_some_iff.1 hi
    have hj2 := List.getElem?_eq_some_iff.1 hj
    obtain ⟨hil, hie⟩ := hi2
    obtain ⟨hjl, hje⟩ := hj2
    rcases Nat.lt_or_ge j i with h1 | h1
    · have ho := List.pairwise_iff_getElem.1 (ordered_qsort l) j i hjl hil h1
      rw [hje, hie, evt_compare_swap a b] at ho
      omega
    · have hji : j = i := by omega
      subst hji
      have hab2 : a = b := by rw [← hie, ← hje]
      rw [hab2] at ea
      rw [ea] at eb
      omega
  · exact Or.inr hP

theorem startState_events : startState.evtFirst = [] := by decide

theorem heldCompile_spec (fuel : Nat) (data : List Nat) (u : Compiler)
    (h : heldCompile fuel data = some u) :
    ∃ t, compile fuel data = .done t ∧ finalErr t = 0 ∧ finalEvents t = some u ∧
      MatchedOr (Held u.objFirst) u.evtFirst ∧ u.Counted := by
  unfold heldCompile at h
  rw [initCompiler_eq] at h
  simp only [Option.some_bind, Option.bind_eq_some] at h
  obtain ⟨t, hl, hu⟩ := h
  split at hu
  · rename_i he
    have hst : ({ startState with data := cstring data } : Compiler).Holding :=
      ⟨startState_sound, by
        show MatchedOr _ startState.evtFirst
        rw [startState_events]
        exact mo_nil _⟩
    obtain ⟨h1, h2⟩ := heldLoop_spec fuel _ t hst hl
    have hc : compile fuel data = .done t := by
      unfold compile
      rw [initCompiler_eq]
      exact h1
    exact ⟨t, hc, he, hu, held_final t u (h2 (finalErr_zero t he)).2 hu,
      finalEvents_counted t u (reaches_counted data t (reaches_compile data fuel t hc)) hu⟩
  · exact absurd hu (by simp)

theorem matched_of_held (objs : List smsObject) (l : List smsEvent)
    (hm : MatchedOr (Held objs) l)
    (hn : ∀ (p : Nat) (trk : smsTrack), trackAt objs p = some trk → trk.note.hold = EMPTY) :
    Matched l := by
  apply matched_of_mo
  apply mo_mono _ _ _ _ hm
  intro a ⟨p, trk, hp, _, hh, _, _⟩
  exact hh (hn p trk hp)
theorem not_matched_of (l : List smsEvent) (i : Nat) (a : smsEvent) (hi : l[i]? = some a)
    (ha : isNoteOn a = true)
    (hno : (List.range l.length).all (fun j =>
      !(decide (i < j)) ||
        match l[j]? with
        | some b => !(isAnswer a b)
        | none => true) = true) : ¬ Matched l := by
  intro hm
  obtain ⟨j, b, hij, hj, hab⟩ := hm i a hi ha
  rw [List.all_eq_true] at hno
  have := hno j (List.mem_range.2 (List.getElem?_eq_some_iff.1 hj).1)
  rw [hj] at this
  simp only [hij, decide_True, Bool.not_true, Bool.false_or, Bool.not_eq_true'] at this
  rw [(isAnswer_iff a b).2 hab] at this
  exact absurd this (by decide)

/-- C20, amended: for every source whose compilation succeeds with every pass
of the main loop passing the test `keeps` (a chord is played in a bar with a
length above 0; no pass changes the channel of a track that holds a key; a
note or rest that releases a held key sets its note-off not earlier than the
held note-on), the
events of the final state are those `parser_createMidi` receives, and every
note-on (status `0x9n`, of any velocity) is answered by a note-off (status
`0x8n`) on the same track, on the same channel, for the same pitch and not
earlier in time, at a later position, or its key is still held by its track at
the end of the data (a note with the hold qualifier `_` that no later note or
rest of its track has released); this holds both in the order of emission and
in the sorted order. When no track holds a key at the end, every note-on is
answered. -/
theorem held_notes_answered (fuel : Nat) (data : List Nat) (u : Compiler)
    (h : heldCompile fuel data = some u) :
    eventList fuel data = some u.evtFirst ∧
    MatchedOr (Held u.objFirst) u.evtFirst ∧
    MatchedOr (Held u.objFirst) (qsort u.evtFirst) ∧
    ((∀ (p : Nat) (trk : smsTrack), trackAt u.objFirst p = some trk → trk.note.hold = EMPTY) →
      Matched (qsort u.evtFirst)) := by
  obtain ⟨t, hc, he, hu, hm, hcnt⟩ := heldCompile_spec fuel data u h
  have hq := matchedOr_qsort _ _ _ hcnt hm
  refine ⟨?_, hm, hq, fun hn => matched_of_held _ _ hq hn⟩
  unfold eventList
  rw [hc]
  simp only [he, if_true, hu, Option.map_some']

set_option maxRecDepth 100000 in
set_option maxHeartbeats 4000000 in
theorem held_notes_answered_witness :
    ∃ u : Compiler,
      heldCompile 40 (cstr "I: piano chn=2\npiano c5_ d5/4. o/4 Cmaj ( e4_ g4 ) a4_\n") =
        some u ∧
      (u.evtFirst.filter isNoteOn).length = 8 ∧
      (u.evtFirst.filter isNoteOff).length = 7 ∧
      (eventList 40 (cstr "I: piano chn=2\npiano c5_ d5/4. o/4 Cmaj ( e4_ g4 ) a4_\n") =
          some u.evtFirst ∧
        MatchedOr (Held u.objFirst) u.evtFirst ∧
        MatchedOr (Held u.objFirst) (qsort u.evtFirst) ∧
        ((∀ (p : Nat) (trk : smsTrack), trackAt u.objFirst p = some trk →
            trk.note.hold = EMPTY) →
          Matched (qsort u.evtFirst))) := by
  have hl : ((heldCompile 40
      (cstr "I: piano chn=2\npiano c5_ d5/4. o/4 Cmaj ( e4_ g4 ) a4_\n")).map
      (fun u => ((u.evtFirst.filter isNoteOn).length, (u.evtFirst.filter isNoteOff).length))) =
      some (8, 7) := by decide
  cases hc : heldCompile 40 (cstr "I: piano chn=2\npiano c5_ d5/4. o/4 Cmaj ( e4_ g4 ) a4_\n") with
  | some u =>
    rw [hc] at hl
    simp only [Option.map_some', Option.some.injEq, Prod.mk.injEq] at hl
    exact ⟨u, rfl, hl.1, hl.2, held_notes_answered 40 _ u hc⟩
  | none => rw [hc] at hl; simp at hl
theorem not_matched_at (l : List smsEvent) (i : Nat)
    (h : (match l[i]? with
      | some a =>
        isNoteOn a && (List.range l.length).all (fun j =>
          !(decide (i < j)) ||
            match l[j]? with
            | some b => !(isAnswer a b)
            | none => true)
      | none => false) = true) : ¬ Matched l := by
  cases hi : l[i]? with
  | none => rw [hi] at h; simp at h
  | some a =>
    rw [hi] at h
    simp only [Bool.and_eq_true] at h
    exact not_matched_of l i a hi h.1 h.2

set_option maxRecDepth 100000 in
/-- C20, as stated, fails. The source `"c5_\n"` compiles without error, its
events are the note-on `90 3C 7F` at time 0 and the all-notes-off at time 384
on `INST`, in this order also after the sort; the note-on has the velocity
127 and no event is a note-off. It also fails where the held key is released:
in `"M: m1 { I: chn=3 }\nc5_\nm1\nd5\n"` the macro sets the channel of the
track to 3 while the track holds `c5`, so the note-on `90 3C` is released by
`83 3C`, a note-off of another channel; in `"[\no d5_\ne5\n]\n"` the second
line of the time block starts at the start of the block, so the key `d5`,
held since time 96, is released at time 95, before its note-on in the sorted
order. And it fails for a chord in a bar without length: `"bar=1/8 F5\n"` sets
the note-offs of the chord to the time -1, before the note-ons at time 0. -/
theorem held_note_never_released :
    errorOf (sms2midi 10 (cstr "c5_\n")) = some 0 ∧
    (smfBytes (sms2midi 10 (cstr "c5_\n"))).isSome = true ∧
    eventList 10 (cstr "c5_\n") =
      some [mkEvent "INST" 0 0 0x90 60 127, mkEvent "INST" 1 384 0xB0 0x7B 0] ∧
    qsort [mkEvent "INST" 0 0 0x90 60 127, mkEvent "INST" 1 384 0xB0 0x7B 0] =
      [mkEvent "INST" 0 0 0x90 60 127, mkEvent "INST" 1 384 0xB0 0x7B 0] ∧
    isNoteOn (mkEvent "INST" 0 0 0x90 60 127) = true ∧
    0 < (mkEvent "INST" 0 0 0x90 60 127).data2 ∧
    [mkEvent "INST" 0 0 0x90 60 127, mkEvent "INST" 1 384 0xB0 0x7B 0].filter isNoteOff = [] ∧
    ¬ Matched (qsort [mkEvent "INST" 0 0 0x90 60 127, mkEvent "INST" 1 384 0xB0 0x7B 0]) ∧
    eventList 40 (cstr "M: m1 \x7b I: chn=3 \x7d\nc5_\nm1\nd5\n") =
      some [mkEvent "INST" 0 0 0x90 60 127, mkEvent "INST" 1 384 0x93 62 127,
        mkEvent "INST" 2 479 0x83 62 127, mkEvent "INST" 3 479 0x83 60 0,
        mkEvent "INST" 4 768 0xB0 0x7B 0] ∧
    ¬ Matched (qsort [mkEvent "INST" 0 0 0x90 60 127, mkEvent "INST" 1 384 0x93 62 127,
        mkEvent "INST" 2 479 0x83 62 127, mkEvent "INST" 3 479 0x83 60 0,
        mkEvent "INST" 4 768 0xB0 0x7B 0]) ∧
    eventList 30 (cstr "[\no d5_\ne5\n]\n") =
      some [mkEvent "INST" 0 96 0x90 62 127, mkEvent "INST" 1 0 0x90 64 127,
        mkEvent "INST" 2 95 0x80 64 127, mkEvent "INST" 3 95 0x80 62 0,
        mkEvent "INST" 4 384 0xB0 0x7B 0] ∧
    qsort [mkEvent "INST" 0 96 0x90 62 127, mkEvent "INST" 1 0 0x90 64 127,
        mkEvent "INST" 2 95 0x80 64 127, mkEvent "INST" 3 95 0x80 62 0,
        mkEvent "INST" 4 384 0xB0 0x7B 0] =
      [mkEvent "INST" 1 0 0x90 64 127, mkEvent "INST" 2 95 0x80 64 127,
        mkEvent "INST" 3 95 0x80 62 0, mkEvent "INST" 0 96 0x90 62 127,
        mkEvent "INST" 4 384 0xB0 0x7B 0] ∧
    ¬ Matched (qsort [mkEvent "INST" 0 96 0x90 62 127, mkEvent "INST" 1 0 0x90 64 127,
        mkEvent "INST" 2 95 0x80 64 127, mkEvent "INST" 3 95 0x80 62 0,
        mkEvent "INST" 4 384 0xB0 0x7B 0]) ∧
    eventList 30 (cstr "bar=1/8 F5\n") =
      some [mkEvent "INST" 0 0 0x90 41 127, mkEvent "INST" 1 (-1) 0x80 41 127,
        mkEvent "INST" 2 0 0x90 48 127, mkEvent "INST" 3 (-1) 0x80 48 127,
        mkEvent "INST" 4 0 0xB0 0x7B 0] ∧
    ¬ Matched (qsort [mkEvent "INST" 0 0 0x90 41 127, mkEvent "INST" 1 (-1) 0x80 41 127,
        mkEvent "INST" 2 0 0x90 48 127, mkEvent "INST" 3 (-1) 0x80 48 127,
        mkEvent "INST" 4 0 0xB0 0x7B 0]) := by
  repeat' apply And.intro
  all_goals first
    | decide
    | exact not_matched_at _ 0 (by decide)
    | exact not_matched_at _ 3 (by decide)

end Sms2Mid
